import Mathlib

/-!
# Edgio/icmpengine: a verification development

A shallow embedding of the ICMP echo engine (Go package `icmpengine`) and
theorems about it.

Conventions of the embedding.

* `time.Time` is a count of nanoseconds on the monotonic clock and
  `time.Duration` (an `int64` of nanoseconds) is an integer; both are `Int`.
  Fields and arguments of these types are named as in the source.
  The running sum `results.Sum` is reduced modulo `2^64` (`wrapInt64`) at each
  addition, as the `int64` is; clock readings and the other durations are not.
* `Sequence` is Go's `uint16`; it is a `Nat`, the increment of the loop
  variable is reduced modulo `2^16` explicitly, and theorems about a whole run
  assume `packets < 65536`.
* `netaddr.IP` is a comparable key; it is a `Nat`.
* A byte is a `Fin 256`.
* Go maps are total functions into `Option`.
* `*list.Element` is a node identity (`id`) together with the stored `Value`;
  `container/list` is a `List` of such nodes, head first.
* Logging is omitted, except where the guard of a log line can fault.
* A finite `float64` is a rational, and a `float64` operation or conversion
  rounds its exact result to the nearest `float64`, ties to even
  (`roundFloat64`): so in `FakeDrop`, in the read deadline (`readDeadline`)
  and in the quotient of the running mean (`float64Quotient`). The running
  mean of `onSuccess` uses the quotient truncated toward zero
  (`floatQuotient`), which is the machine quotient below `2^53` nanoseconds
  (104 days).
* Randomness, the clock, the network and the scheduler are inputs: a step of
  the transition system carries the draw, the clock reading or the datagram it
  observes, and a schedule lists the steps in the order they take effect.
* `results.Variance` and `results.PingerDuration` are computed from
  floating-point seconds and wall-clock readings and are not part of the
  embedding.
* The transition system `Sys` has one `PingerConfig` call, the Expirer and one
  Receiver on a fresh engine; `TwoReceivers` adds a second Receiver that runs
  the same code. `Engine` has any number of calls, at the same time or one
  after another, and any number of Receivers: a step of `Engine` is a step of
  `Sys` taken by one of the calls, by one of the Receivers or by the Expirer.
  What a step does to map and list is its `IndexOp`; sequences of such
  operations (`runOps`) cover any number of destinations.
* The effective uid and the outcome of every `icmp.ListenPacket` call are
  inputs of `OpenSockets` and `StartSplay`; `log.Fatal` is an error result,
  and the listen attempts made are returned next to it.
-/

namespace Icmpengine

/-! ## Part I: definitions -/

/-! ### Basic types (ICMPEngine.go) -/

/-- One byte of a `[]byte`. -/
abbrev Byte := Fin 256

/-- Go `type Pings struct` (ICMPEngine.go:112): `NetaddrIP` a `netaddr.IP`,
`Seq` a `Sequence`, `Send` and `Expiry` a `time.Time`. -/
structure Pings where
  NetaddrIP : Nat
  Seq : Nat
  Send : Int
  Expiry : Int
  FakeDrop : Bool
deriving DecidableEq, Repr

/-- Go `type PingSuccess struct` (ICMPEngine.go:121). -/
structure PingSuccess where
  Seq : Nat
  Send : Int
  Received : Int
  RTT : Int
deriving DecidableEq, Repr

/-- Go `type PingExpired struct` (ICMPEngine.go:130). -/
structure PingExpired where
  Seq : Nat
  Send : Int
deriving DecidableEq, Repr

/-! ### Wire codec (ParseICMPEchoReply.go) -/

/-- Go `type ICMPEchoReply struct` (ParseICMPEchoReply.go:15). -/
structure ICMPEchoReply where
  -- the field `Type` of the source; `Type` is reserved in Lean
  Type_ : Nat
  Code : Nat
  Checksum : Nat
  Identifier : Nat
  Seq : Nat
deriving DecidableEq, Repr

/-- The errors `ParseICMPEchoReply` can return: its own `errMessageTooShort`
and the two errors of `io.ReadFull` that `binary.Read` passes on. -/
inductive ParseError where
  | errMessageTooShort
  | EOF
  | ErrUnexpectedEOF
deriving DecidableEq, Repr

/-- Big-endian `uint16` of two bytes (`binary.BigEndian.Uint16`). -/
def bigEndianUint16 (hi lo : Byte) : Nat := 256 * hi.val + lo.val

/-- The call `binary.Read(br, binary.BigEndian, er)` on a reader over `b`:
`io.ReadFull` of the 8 bytes of the struct (`EOF` when nothing can be read,
`ErrUnexpectedEOF` when fewer than 8 can), then the fields in declaration
order. -/
def binaryRead : List Byte → Except ParseError ICMPEchoReply
  | b0 :: b1 :: b2 :: b3 :: b4 :: b5 :: b6 :: b7 :: _ =>
    .ok { Type_ := b0.val, Code := b1.val, Checksum := bigEndianUint16 b2 b3,
          Identifier := bigEndianUint16 b4 b5, Seq := bigEndianUint16 b6 b7 }
  | [] => .error .EOF
  | _ => .error .ErrUnexpectedEOF

/-- Go `ParseICMPEchoReply` (ParseICMPEchoReply.go:28). -/
def ParseICMPEchoReply (b : List Byte) : Except ParseError ICMPEchoReply :=
  if b.length < 8 then .error .errMessageTooShort
  else
    match binaryRead b with
    | .error err => .error err
    | .ok er => .ok er

/-! ### Receiver back-off table (Receiver.go) -/

/-- Go `tiarCalculator` (Receiver.go:50). The multipliers are `float64` in the
source; the function only selects one of them or the constant `1`, so it is
stated for any type of multipliers with a `1`. -/
def tiarCalculator {α : Type} [One α] (tiar low medium high : Int)
    (mLow mMedium mHigh : α) : α :=
  if tiar ≥ high then mHigh
  else if tiar ≥ medium then mMedium
  else if tiar ≥ low then mLow
  else 1

/-- Constants of Receiver.go:20. -/
def tiarLow : Int := 5
/-- Constants of Receiver.go:21. -/
def tiarMedium : Int := 10
/-- Constants of Receiver.go:22. -/
def tiarHigh : Int := 20
/-- Constants of Receiver.go:24. -/
def multiLow : ℚ := 2
/-- Constants of Receiver.go:25. -/
def multiMedium : ℚ := 10
/-- Constants of Receiver.go:26. -/
def multiHigh : ℚ := 20

/-- Go `timeoutsInARowCalculator` (Receiver.go:42). -/
def timeoutsInARowCalculator (timeoutsInARow : Int) : ℚ :=
  tiarCalculator timeoutsInARow tiarLow tiarMedium tiarHigh multiLow multiMedium multiHigh

/-! ### Machine arithmetic

A finite `float64` is a rational number. A `float64` operation returns the
exact result rounded to the nearest `float64`, ties to the even significand
(IEEE 754 binary64, which Go follows). The overflow to infinity is not
modelled: no value computed from `int64`s and the constants of the package
comes near `2^1024`. -/

/-- The value an `int64` holds after an arithmetic operation whose exact result
is `x`: the representative of `x` modulo `2^64` in `[-2^63, 2^63)`. -/
def wrapInt64 (x : Int) : Int :=
  (x + 9223372036854775808) % 18446744073709551616 - 9223372036854775808

/-- The nearest integer, ties to the even one. -/
def roundHalfEven (q : ℚ) : Int :=
  if q - ⌊q⌋ < 1 / 2 then ⌊q⌋
  else if 1 / 2 < q - ⌊q⌋ then ⌊q⌋ + 1
  else if ⌊q⌋ % 2 = 0 then ⌊q⌋ else ⌊q⌋ + 1

/-- The binary exponent of the `float64` binade of `x`: `⌊log₂ |x|⌋`, and
`-1022` in the subnormal range. -/
def float64Exponent (x : ℚ) : Int := max (Int.log 2 |x|) (-1022)

/-- The spacing of the `float64` values in the binade of `x`: 53 significant
bits. -/
def float64Ulp (x : ℚ) : ℚ := (2 : ℚ) ^ (float64Exponent x - 52)

/-- The `float64` nearest to `x`, ties to even: the result of a `float64`
operation whose exact result is `x`, and of the conversion `float64(x)` of an
integer. -/
def roundFloat64 (x : ℚ) : ℚ := roundHalfEven (x / float64Ulp x) * float64Ulp x

/-- The integer part of `x`: the fraction is dropped, toward zero. -/
def truncateFloat (x : ℚ) : Int := if 0 ≤ x then ⌊x⌋ else ⌈x⌉

/-- The conversion `time.Duration(x)` of a `float64` to `int64`: the fraction
is dropped, toward zero. When the result does not fit in an `int64` the Go
specification leaves the value to the implementation, and the conversion is
`none`. -/
def durationOfFloat (x : ℚ) : Option Int :=
  let t : Int := truncateFloat x
  if -9223372036854775808 ≤ t ∧ t < 9223372036854775808 then some t else none

/-- The expression `time.Duration(float64(a) / float64(n))` of Pinger.go:242
as the machine computes it: two conversions to `float64`, a `float64` division
and the conversion of the quotient to `int64`. A division by zero gives an
infinity or a NaN, whose conversion is left to the implementation. -/
def float64Quotient (a : Int) (n : Nat) : Option Int :=
  if n = 0 then none
  else durationOfFloat (roundFloat64 (roundFloat64 (a : ℚ) / roundFloat64 (n : ℚ)))

/-! ### Prober statistics (Pinger.go) -/

/-- Go `type PingerResults struct` (Pinger.go:29), without the two fields
`Variance` and `PingerDuration`. -/
structure PingerResults where
  IP : Nat
  Successes : Nat
  Failures : Nat
  OutOfOrder : Nat
  RTTs : List Int
  Count : Nat
  Min : Int
  Max : Int
  Mean : Int
  Sum : Int
deriving DecidableEq, Repr

/-- Constant of Pinger.go:24. -/
def PingerFractionModulo : Nat := 10

/-- Ways in which the Prober loop can stop without returning: the two runtime
panics its success case can raise, and the exhaustion of the fuel of
`pingerLoop`. -/
inductive Fault where
  | indexOutOfRange
  | divideByZero
  | outOfFuel
deriving DecidableEq, Repr

/-- The case taken by the blocking `select` of Pinger.go:215. -/
inductive SelectEvent where
  | success (ps : PingSuccess)
  | expired (pe : PingExpired)
  | done
  | allDone
deriving DecidableEq, Repr

/-- The case taken by the interval `select` of Pinger.go:302. -/
inductive SleepEvent where
  | wake
  | done
  | allDone
deriving DecidableEq, Repr

/-- What one loop iteration receives: the case of its first `select` and, when
the loop is still to continue, the case of its sleep `select`. -/
structure Iteration where
  sel : SelectEvent
  sleep : SleepEvent
deriving DecidableEq, Repr

/-- The variables of the `for` loop of Pinger.go:131. -/
structure LoopState where
  i : Nat
  keepLooping : Bool
  results : PingerResults
deriving DecidableEq, Repr

/-- The expression `time.Duration(float64(a) / float64(n))` of Pinger.go:242
with the quotient taken exactly and truncated toward zero. It is the value of
`float64Quotient`, the expression as the machine computes it, whenever
`|a| < 2^53` and `1 ≤ n ≤ 2^53` (`float64Quotient_eq`); the running mean of
`onSuccess` is computed with it, and `welfordStep64` is the same update with
the machine quotient. -/
def floatQuotient (a : Int) (n : Nat) : Int := Int.tdiv a (n : Int)

/-- The `case ps := <-successCh` branch (Pinger.go:216-262) at loop index `i`.
`results.RTTs[i] = val` panics when `i` is out of range, and the progress log
line, evaluated when the debug level exceeds 100, computes
`i % (packets / PingerFractionModulo)`, which panics when the divisor is 0. -/
def onSuccess (DebugLevel : Int) (packets i : Nat) (ps : PingSuccess)
    (results : PingerResults) : Except Fault PingerResults :=
  let val := ps.RTT
  if i < results.RTTs.length then
    let results :=
      { results with RTTs := results.RTTs.set i val, Sum := wrapInt64 (results.Sum + val) }
    let results :=
      if results.Successes = 0 then { results with Min := val, Max := val }
      else
        let results := if val < results.Min then { results with Min := val } else results
        if val > results.Max then { results with Max := val } else results
    let results := { results with Successes := results.Successes + 1 }
    let oldMean := results.Mean
    let results :=
      { results with Mean := results.Mean + floatQuotient (val - oldMean) results.Successes }
    if DebugLevel > 100 ∧ packets / PingerFractionModulo = 0 then .error .divideByZero
    else if ps.Seq ≠ i then .ok { results with OutOfOrder := results.OutOfOrder + 1 }
    else .ok results
  else .error .indexOutOfRange

/-- The blocking `select` of Pinger.go:215-283. -/
def onSelect (DebugLevel : Int) (packets : Nat) (ev : SelectEvent) (st : LoopState) :
    Except Fault LoopState :=
  match ev with
  | .success ps =>
    match onSuccess DebugLevel packets st.i ps st.results with
    | .error e => .error e
    | .ok r => .ok { st with results := r }
  | .expired _ => .ok { st with results := { st.results with Failures := st.results.Failures + 1 } }
  | .done => .ok { st with keepLooping := false }
  | .allDone => .ok { st with keepLooping := false }

/-- The interval `select` of Pinger.go:302-319. -/
def onSleep (ev : SleepEvent) (st : LoopState) : LoopState :=
  match ev with
  | .wake => st
  | .done => { st with keepLooping := false }
  | .allDone => { st with keepLooping := false }

/-- The `i >= packets` test of Pinger.go:284. -/
def checkPackets (packets : Nat) (st : LoopState) : LoopState :=
  if st.i ≥ packets then { st with keepLooping := false } else st

/-- The post statement `i++` of the loop, on a `uint16`. -/
def increment (st : LoopState) : LoopState :=
  { st with i := (st.i + 1) % 65536 }

/-- The part of the loop body after the first `select` (Pinger.go:284-321):
the `i >= packets` test, the cancellable sleep, and the post statement `i++`. -/
def afterSelect (packets : Nat) (sleep : SleepEvent) (st : LoopState) : LoopState :=
  let st := checkPackets packets st
  let st := if st.keepLooping then onSleep sleep st else st
  increment st

/-- One iteration of the loop of Pinger.go:131-321, as far as the loop
variables are concerned (the insertion of the probe is `proberInsert`). -/
def loopBody (DebugLevel : Int) (packets : Nat) (it : Iteration) (st : LoopState) :
    Except Fault LoopState :=
  match onSelect DebugLevel packets it.sel st with
  | .error e => .error e
  | .ok st => .ok (afterSelect packets it.sleep st)

/-- The `for` loop of Pinger.go:131: `env i` is what iteration `i` receives.
The first argument is fuel. -/
def pingerLoop (DebugLevel : Int) (packets : Nat) (env : Nat → Iteration) :
    Nat → LoopState → Except Fault LoopState
  | 0, _ => .error .outOfFuel
  | fuel + 1, st =>
    if st.i < packets ∧ st.keepLooping = true then
      match loopBody DebugLevel packets (env st.i) st with
      | .error e => .error e
      | .ok st => pingerLoop DebugLevel packets env fuel st
    else .ok st

/-- The library call `sort.Slice(results.RTTs, less)` with `less` the order `<`
of the durations (Pinger.go:345): the ascending rearrangement of the slice. -/
def sortSlice (rtts : List Int) : List Int :=
  rtts.insertionSort (fun a b => a ≤ b)

/-- The statements between the loop and the teardown (Pinger.go:330-346). -/
def finish (sortRTTs : Bool) (results : PingerResults) : PingerResults :=
  let results := { results with Count := results.Successes + results.Failures }
  if sortRTTs then { results with RTTs := sortSlice results.RTTs } else results

/-- The loop variables on entry to the loop (Pinger.go:122-131). -/
def loopInit (IP : Nat) (packets : Nat) : LoopState :=
  { i := 0, keepLooping := true,
    results := { IP := IP, Successes := 0, Failures := 0, OutOfOrder := 0,
                 RTTs := List.replicate packets 0, Count := 0, Min := 0, Max := 0,
                 Mean := 0, Sum := 0 } }

/-- The loop of `PingerConfig` run to its exit; `packets + 1` units of fuel
always suffice (`pingerRun_returns`). -/
def pingerRun (DebugLevel : Int) (IP : Nat) (packets : Nat) (env : Nat → Iteration) :
    Except Fault LoopState :=
  pingerLoop DebugLevel packets env (packets + 1) (loopInit IP packets)

/-- Go `PingerConfig` (Pinger.go:86) as a function of what its loop receives:
the returned `results`. Its effects on the engine are `proberSetup`,
`proberInsert` and `proberTeardown`. -/
def PingerConfig (DebugLevel : Int) (IP : Nat) (packets : Nat) (sortRTTs : Bool)
    (env : Nat → Iteration) : Except Fault PingerResults :=
  match pingerRun DebugLevel IP packets env with
  | .error e => .error e
  | .ok st => .ok (finish sortRTTs st.results)

/-- The RTT delivered by a `select` case: that of the success, `0` for the
other cases. -/
def SelectEvent.rtt : SelectEvent → Int
  | .success ps => ps.RTT
  | _ => 0

/-- The `select` case is a success. -/
def SelectEvent.isSuccess : SelectEvent → Bool
  | .success _ => true
  | _ => false

/-- The `select` case is an expiry. -/
def SelectEvent.isExpired : SelectEvent → Bool
  | .expired _ => true
  | _ => false

/-- The `select` case is a success whose `Seq` differs from the loop index. -/
def SelectEvent.isOutOfOrder (i : Nat) : SelectEvent → Bool
  | .success ps => decide (ps.Seq ≠ i)
  | _ => false

/-- The `select` cases consumed by the first `n` iterations. -/
def consumed (env : Nat → Iteration) (n : Nat) : List SelectEvent :=
  (List.range n).map (fun j => (env j).sel)

/-- The RTTs of the successes among a list of `select` cases. -/
def successRTTs (evs : List SelectEvent) : List Int :=
  (evs.filter SelectEvent.isSuccess).map SelectEvent.rtt

/-- The running pair (count, mean) of Welford's update with the quotient
truncated toward zero, as Pinger.go:240-242 computes it. -/
def welfordStep (acc : Nat × Int) (val : Int) : Nat × Int :=
  (acc.1 + 1, acc.2 + floatQuotient (val - acc.2) (acc.1 + 1))

/-- The value of Welford's truncated running mean after a list of RTTs. -/
def welfordMean (rtts : List Int) : Int :=
  (rtts.foldl welfordStep (0, 0)).2

/-- One Welford update of Pinger.go:240-242 as the machine computes it: the
difference and the sum are `int64` operations, the quotient is `float64`. The
value is `none` once the conversion of a quotient to `int64` is out of
range. -/
def welfordStep64 (acc : Option (Nat × Int)) (val : Int) : Option (Nat × Int) :=
  acc.bind fun a =>
    (float64Quotient (wrapInt64 (val - a.2)) (a.1 + 1)).map fun q =>
      (a.1 + 1, wrapInt64 (a.2 + q))

/-- The running mean after a list of RTTs, computed with `welfordStep64`. -/
def welfordMean64 (rtts : List Int) : Option Int :=
  (rtts.foldl welfordStep64 (some (0, 0))).map Prod.snd

/-- An iteration that ends the loop early: a cancel or shutdown taken in either
`select`. -/
def Iteration.stops (it : Iteration) : Bool :=
  match it.sel with
  | .done => true
  | .allDone => true
  | _ => decide (it.sleep ≠ .wake)

/-- The `RTTs` slice after `n` iterations of a run with `packets` probes, before
sorting: the RTT of the success consumed at iteration `j` for `j < n`, and `0`
elsewhere. -/
def rttVector (packets : Nat) (env : Nat → Iteration) (n : Nat) : List Int :=
  (List.range packets).map (fun j => if j < n then (env j).sel.rtt else 0)

/-- Loop invariant of the statistics of `PingerConfig`: the loop variables
after the first `st.i` iterations, in terms of what those iterations
consumed. -/
structure StatsInv (packets : Nat) (env : Nat → Iteration) (st : LoopState) : Prop where
  i_le : st.i ≤ packets
  succ : st.results.Successes = (consumed env st.i).countP SelectEvent.isSuccess
  fail : st.results.Failures = (consumed env st.i).countP SelectEvent.isExpired
  succ_len : st.results.Successes = (successRTTs (consumed env st.i)).length
  sum : st.results.Sum = wrapInt64 (successRTTs (consumed env st.i)).sum
  min_mem : 1 ≤ st.results.Successes → st.results.Min ∈ successRTTs (consumed env st.i)
  min_le : 1 ≤ st.results.Successes →
    ∀ x ∈ successRTTs (consumed env st.i), st.results.Min ≤ x
  max_mem : 1 ≤ st.results.Successes → st.results.Max ∈ successRTTs (consumed env st.i)
  max_le : 1 ≤ st.results.Successes →
    ∀ x ∈ successRTTs (consumed env st.i), x ≤ st.results.Max
  ooo : st.results.OutOfOrder =
    ((List.range st.i).filter (fun j => (env j).sel.isOutOfOrder j)).length
  ooo_le : st.results.OutOfOrder ≤ st.results.Successes
  rtts : st.results.RTTs = rttVector packets env st.i
  mean : (st.results.Successes, st.results.Mean) =
    (successRTTs (consumed env st.i)).foldl welfordStep (0, 0)
  running : st.keepLooping = true → ∀ j, j < st.i → (env j).stops = false
  stopped : st.keepLooping = false →
    1 ≤ st.i ∧ (env (st.i - 1)).stops = true ∧ ∀ j, j + 1 < st.i → (env j).stops = false

/-- A sample run of ten iterations: successes with RTTs 4 and 1, an expiry, a
late success carrying the sequence number 9, then expiries. -/
def sampleEnv : Nat → Iteration := fun j =>
  if j = 0 then ⟨.success ⟨0, 100, 104, 4⟩, .wake⟩
  else if j = 1 then ⟨.success ⟨1, 200, 201, 1⟩, .wake⟩
  else if j = 3 then ⟨.success ⟨9, 300, 307, 7⟩, .wake⟩
  else ⟨.expired ⟨j, 0⟩, .wake⟩

/-- A run whose successes have an RTT of `2^62` ns each. -/
def overflowEnv : Nat → Iteration := fun j =>
  ⟨.success ⟨j, 0, 4611686018427387904, 4611686018427387904⟩, .wake⟩

/-! ### The engine and its workers as a transition system

Each step below is one lock-delimited critical section, one channel operation
or one wake-up of one goroutine. A step is `none` when the goroutine cannot take
it in the given state (it is elsewhere in its code, it is blocked, or the
process terminates abnormally). -/

/-- A buffered Go channel: its capacity and the queued values, oldest first. -/
structure Chan (α : Type) where
  cap : Nat
  queue : List α

/-- The send `c <- x` when it can proceed; `none` when the buffer is full and
the sender blocks. -/
def Chan.send {α : Type} (c : Chan α) (x : α) : Option (Chan α) :=
  if c.queue.length < c.cap then some { c with queue := c.queue ++ [x] } else none

/-- The receive `<-c` when it can proceed; `none` when the buffer is empty. -/
def Chan.recv {α : Type} (c : Chan α) : Option (α × Chan α) :=
  match c.queue with
  | [] => none
  | x :: q => some (x, { c with queue := q })

/-- A `*list.Element` of `container/list`: the identity of the node and its
`Value`. -/
structure Element where
  id : Nat
  Value : Pings
deriving DecidableEq, Repr

/-- The shared state of Go `type ICMPEngine struct` (ICMPEngine.go:53) that the
Prober, the Expirer and the Receivers read and write under the engine lock.
`Pings`, `SuccessChs`, `ExpiredChs` and `DonesChs` are the maps of `PingersT`;
a channel is named by its address in `successQ` and `expiredQ`;
`nextElement` and `nextChan` are the next fresh list node and channel. -/
structure ICMPEngine where
  Timeout : Int
  FakeSuccess : Bool
  Running : Bool
  DebugLevel : Int
  Pings : Nat → Option (Nat → Option Element)
  ExpiresDLL : List Element
  SuccessChs : Nat → Option Nat
  ExpiredChs : Nat → Option Nat
  DonesChs : Nat → Bool
  nextElement : Nat
  nextChan : Nat

/-- The map read `ie.Pingers.Pings[ip][s]`; a missing inner map reads as
absent. -/
def ICMPEngine.lookup (ie : ICMPEngine) (ip s : Nat) : Option Element :=
  match ie.Pings ip with
  | none => none
  | some inner => inner s

/-- The statement `delete(ie.Pingers.Pings[ip], s)`; a no-op on a missing inner
map. -/
def ICMPEngine.deleteSeq (ie : ICMPEngine) (ip s : Nat) : ICMPEngine :=
  match ie.Pings ip with
  | none => ie
  | some inner =>
    { ie with Pings := Function.update ie.Pings ip (some (Function.update inner s none)) }

/-- The call `ie.Pingers.ExpiresDLL.Remove(el)`: unlinks the node if it is
linked in this list, and does nothing otherwise. -/
def ICMPEngine.remove (ie : ICMPEngine) (el : Element) : ICMPEngine :=
  { ie with ExpiresDLL := ie.ExpiresDLL.filter (fun e => decide (e.id ≠ el.id)) }

/-- Go `FakeDrop` (Pinger.go:365); `r` is the value of `rand.Float64()`. The
difference `1 - dropProb` is a `float64` operation and is rounded. -/
def FakeDrop (dropProb r : ℚ) : Bool :=
  if dropProb > 0 then
    if r ≥ roundFloat64 (1 - dropProb) then true else false
  else false

/-- Where the Prober is in `PingerConfig`. -/
inductive ProberPC where
  | start
  | loop
  | select
  | sleep
  | finish
  | returned
deriving DecidableEq, Repr

/-- The arguments and local variables of one call of `PingerConfig`. -/
structure Prober where
  pc : ProberPC
  IP : Nat
  packets : Nat
  sortRTTs : Bool
  dropProb : ℚ
  fakeSuccess : Bool
  successCh : Nat
  expiredCh : Nat
  st : LoopState

/-- Where the Expirer is in `ExpirerConfig`, with its local variables:
the head snapshot `SoonestPing`, the channel it read, the element `el` found by
the recheck, and `keepLooping`. -/
inductive ExpirerPC where
  | stopped
  | top
  | sendSuccess (SoonestPing : Pings) (successCh : Option Nat)
  | sleeping (SoonestPing : Pings)
  | recheck (SoonestPing : Pings) (keepLooping : Bool)
  | commit (SoonestPing : Pings) (el : Element) (keepLooping : Bool)
  | sendExpired (SoonestPing : Pings) (expiredCh : Option Nat) (keepLooping : Bool)
  | exiting
deriving DecidableEq, Repr

/-- Where a Receiver is in its loop body, with its local variables: between
reads, between its read-locked lookup and its write-locked section, or inside
that section, blocked in the channel send while it holds the lock. -/
inductive ReceiverPC where
  | idle
  | commit (ip s : Nat) (el : Element) (ps : PingSuccess)
  | blocked (ip s : Nat) (el : Element) (ps : PingSuccess)
deriving DecidableEq, Repr

/-- The engine with one `PingerConfig` call, the Expirer and one Receiver.
`lockHeld` is set while the Receiver sits blocked inside its write-locked
section; every other critical section runs to completion within one step.
`overlap` records an Expirer spawned while another was still alive. `wire` lists
the echo requests written to the socket as (destination, sequence). -/
structure Sys where
  ie : ICMPEngine
  successQ : Nat → Chan PingSuccess
  expiredQ : Nat → Chan PingExpired
  lockHeld : Bool
  prober : Prober
  expirer : ExpirerPC
  overlap : Bool
  receiver : ReceiverPC
  wire : List (Nat × Nat)

/-- Go `NewFullConfig` (ICMPEngine.go:174) without `start`: empty maps, an empty
list, no Expirer. -/
def NewFullConfig (timeout : Int) (debugLevel : Int) (fakeSuccess : Bool) : ICMPEngine :=
  { Timeout := timeout, FakeSuccess := fakeSuccess, Running := false, DebugLevel := debugLevel,
    Pings := fun _ => none, ExpiresDLL := [], SuccessChs := fun _ => none,
    ExpiredChs := fun _ => none, DonesChs := fun _ => false, nextElement := 0, nextChan := 0 }

/-- A fresh engine about to serve the call
`PingerConfig(IP, packets, interval, sortRTTs, DoneCh, dropProb)`. -/
def Sys.init (timeout : Int) (debugLevel : Int) (fakeSuccess : Bool) (IP packets : Nat)
    (sortRTTs : Bool) (dropProb : ℚ) : Sys :=
  { ie := NewFullConfig timeout debugLevel fakeSuccess,
    successQ := fun _ => { cap := 0, queue := [] },
    expiredQ := fun _ => { cap := 0, queue := [] },
    lockHeld := false,
    prober := { pc := .start, IP := IP, packets := packets, sortRTTs := sortRTTs,
                dropProb := dropProb, fakeSuccess := false, successCh := 0, expiredCh := 0,
                st := loopInit IP packets },
    expirer := .stopped, overlap := false, receiver := .idle, wire := [] }

/-- Go `CheckExpirerIsRunning` (Expirer.go:28), called with the lock held:
spawns the Expirer and sets `Running` when `Running` was false; returns whether
it spawned. -/
def CheckExpirerIsRunning (s : Sys) : Sys × Bool :=
  if s.ie.Running then (s, false)
  else
    ({ s with ie := { s.ie with Running := true }, expirer := .top,
              overlap := s.overlap || decide (s.expirer ≠ .stopped) }, true)

/-- The start of `PingerConfig` (Pinger.go:105-123): the two channels of
capacity `packets` are made and, under the lock, registered for `IP` together
with the caller's cancel channel. -/
def proberSetup (s : Sys) : Option Sys :=
  if s.prober.pc = .start ∧ s.lockHeld = false then
    let c := s.ie.nextChan
    some { s with
      ie := { s.ie with
        SuccessChs := Function.update s.ie.SuccessChs s.prober.IP (some c),
        ExpiredChs := Function.update s.ie.ExpiredChs s.prober.IP (some c),
        DonesChs := Function.update s.ie.DonesChs s.prober.IP true,
        nextChan := c + 1 },
      successQ := Function.update s.successQ c { cap := s.prober.packets, queue := [] },
      expiredQ := Function.update s.expiredQ c { cap := s.prober.packets, queue := [] },
      prober := { s.prober with pc := .loop, fakeSuccess := s.ie.FakeSuccess, successCh := c,
                                expiredCh := c, st := loopInit s.prober.IP s.prober.packets } }
  else none

/-- The index insertion of Pinger.go:169-175 for the probe `ps` at loop index
`i`: at `i == 0` a missing inner map of `IP` is created; the probe is pushed at
the back of the list and its node recorded under `Pings[IP][i]`. The map
assignment panics when `Pings[IP]` is missing. -/
def ICMPEngine.insert (ie : ICMPEngine) (IP i : Nat) (ps : Icmpengine.Pings) :
    Option ICMPEngine :=
  let pings :=
    if i = 0 then
      match ie.Pings IP with
      | none => Function.update ie.Pings IP (some (fun _ => none))
      | some _ => ie.Pings
    else ie.Pings
  let el : Element := { id := ie.nextElement, Value := ps }
  match pings IP with
  | none => none
  | some inner =>
    some { ie with
      Pings := Function.update pings IP (some (Function.update inner i (some el))),
      ExpiresDLL := ie.ExpiresDLL ++ [el],
      nextElement := ie.nextElement + 1 }

/-- The head of one loop iteration of `PingerConfig` (Pinger.go:131-210): the
loop test; then the `FakeDrop` draw `r`, the critical section that reads the
clock (`now`), inserts the probe in the index and calls
`CheckExpirerIsRunning`, and the socket write unless fake success or the drop
draw suppress it. -/
def proberInsert (now : Int) (r : ℚ) (s : Sys) : Option Sys :=
  if s.prober.pc = .loop then
    if s.prober.st.i < s.prober.packets ∧ s.prober.st.keepLooping = true then
      if 0 ≤ r ∧ r < 1 ∧ s.lockHeld = false then
        let fakeDrop := FakeDrop s.prober.dropProb r
        let ps : Pings :=
          { NetaddrIP := s.prober.IP, Seq := s.prober.st.i, Send := now,
            Expiry := now + s.ie.Timeout, FakeDrop := fakeDrop }
        match s.ie.insert s.prober.IP s.prober.st.i ps with
        | none => none
        | some ie =>
          let s2 := (CheckExpirerIsRunning { s with ie := ie }).1
          some { s2 with
            prober := { s2.prober with pc := .select },
            wire := if s.prober.fakeSuccess ∨ fakeDrop then s2.wire
                    else s2.wire ++ [(s.prober.IP, s.prober.st.i)] }
      else none
    else some { s with prober := { s.prober with pc := .finish } }
  else none

/-- The case that fires in the blocking `select` of Pinger.go:215. -/
inductive SelectCase where
  | success
  | expired
  | done
  | allDone
deriving DecidableEq, Repr

/-- The blocking `select` of Pinger.go:215-293 taking the case `c`: a channel
case needs a queued value, the cancel and shutdown cases fire when the caller
or the engine signals. The loop then goes to its sleep, or straight to `i++`
when it is not to continue. -/
def proberSelect (c : SelectCase) (s : Sys) : Option Sys :=
  if s.prober.pc = .select then
    let received : Option (SelectEvent × Sys) :=
      match c with
      | .success =>
        match (s.successQ s.prober.successCh).recv with
        | none => none
        | some (ps, q) =>
          some (.success ps, { s with successQ := Function.update s.successQ s.prober.successCh q })
      | .expired =>
        match (s.expiredQ s.prober.expiredCh).recv with
        | none => none
        | some (pe, q) =>
          some (.expired pe, { s with expiredQ := Function.update s.expiredQ s.prober.expiredCh q })
      | .done => some (.done, s)
      | .allDone => some (.allDone, s)
    match received with
    | none => none
    | some (ev, s1) =>
      match onSelect s.ie.DebugLevel s.prober.packets ev s.prober.st with
      | .error _ => none
      | .ok st =>
        let st := checkPackets s.prober.packets st
        if st.keepLooping = true then
          some { s1 with prober := { s1.prober with pc := .sleep, st := st } }
        else
          some { s1 with prober := { s1.prober with pc := .loop, st := increment st } }
  else none

/-- The interval `select` of Pinger.go:302-319 taking the case `ev`, followed by
`i++`. -/
def proberSleep (ev : SleepEvent) (s : Sys) : Option Sys :=
  if s.prober.pc = .sleep then
    some { s with prober := { s.prober with pc := .loop, st := increment (onSleep ev s.prober.st) } }
  else none

/-- The end of `PingerConfig` (Pinger.go:327-359): `Count`, the optional sort,
and under the lock the deletion of the four map entries of `IP`. -/
def proberTeardown (s : Sys) : Option Sys :=
  if s.prober.pc = .finish ∧ s.lockHeld = false then
    some { s with
      ie := { s.ie with
        Pings := Function.update s.ie.Pings s.prober.IP none,
        SuccessChs := Function.update s.ie.SuccessChs s.prober.IP none,
        ExpiredChs := Function.update s.ie.ExpiredChs s.prober.IP none,
        DonesChs := Function.update s.ie.DonesChs s.prober.IP false },
      prober := { s.prober with
        pc := .returned,
        st := { s.prober.st with results := finish s.prober.sortRTTs s.prober.st.results } } }
  else none

/-- The head of one Expirer iteration (Expirer.go:66-130). With `done` the
shutdown signal is taken and the loop ends. Otherwise, under the lock: an empty
list clears `Running` and the Expirer returns; else the head is copied, and
either (fake success, head not marked `FakeDrop`) the head is removed from list
and map with the success channel read for the send that follows, or the
Expirer goes to sleep until the head's expiry. -/
def expirerTop (done : Bool) (s : Sys) : Option Sys :=
  if s.expirer = .top then
    if done then some { s with expirer := .exiting }
    else if s.lockHeld = false then
      match s.ie.ExpiresDLL with
      | [] => some { s with ie := { s.ie with Running := false }, expirer := .stopped }
      | el :: _ =>
        let SoonestPing := el.Value
        if s.ie.FakeSuccess ∧ ¬ SoonestPing.FakeDrop then
          let successCh := s.ie.SuccessChs SoonestPing.NetaddrIP
          some { s with
            ie := (s.ie.remove el).deleteSeq SoonestPing.NetaddrIP SoonestPing.Seq,
            expirer := .sendSuccess SoonestPing successCh }
        else some { s with expirer := .sleeping SoonestPing }
    else none
  else none

/-- The send of the synthesized success (Expirer.go:117-128) at clock reading
`now`; a send on a nil channel blocks forever, one on a full channel blocks. -/
def expirerSendSuccess (now : Int) (s : Sys) : Option Sys :=
  match s.expirer with
  | .sendSuccess SoonestPing (some ch) =>
    match (s.successQ ch).send
        { Seq := SoonestPing.Seq, Send := SoonestPing.Send, Received := now,
          RTT := now - SoonestPing.Send } with
    | none => none
    | some q => some { s with successQ := Function.update s.successQ ch q, expirer := .top }
  | _ => none

/-- The sleep `select` of Expirer.go:138-150: the timer fires, or (`done`) the
shutdown signal arrives and `keepLooping` is cleared; both go on to the
recheck. -/
def expirerWake (done : Bool) (s : Sys) : Option Sys :=
  match s.expirer with
  | .sleeping SoonestPing => some { s with expirer := .recheck SoonestPing (!done) }
  | _ => none

/-- The read-locked recheck of Expirer.go:155-163. -/
def expirerRecheck (s : Sys) : Option Sys :=
  match s.expirer with
  | .recheck SoonestPing keepLooping =>
    if s.lockHeld = false then
      match s.ie.lookup SoonestPing.NetaddrIP SoonestPing.Seq with
      | some el => some { s with expirer := .commit SoonestPing el keepLooping }
      | none => some { s with expirer := if keepLooping then .top else .exiting }
    else none
  | _ => none

/-- The write-locked removal of Expirer.go:172-176. -/
def expirerCommit (s : Sys) : Option Sys :=
  match s.expirer with
  | .commit SoonestPing el keepLooping =>
    if s.lockHeld = false then
      let ie := (s.ie.deleteSeq SoonestPing.NetaddrIP SoonestPing.Seq).remove el
      some { s with ie := ie,
                    expirer := .sendExpired SoonestPing (ie.ExpiredChs SoonestPing.NetaddrIP)
                      keepLooping }
    else none
  | _ => none

/-- The send of `PingExpired` (Expirer.go:182-185). -/
def expirerSendExpired (s : Sys) : Option Sys :=
  match s.expirer with
  | .sendExpired SoonestPing (some ch) keepLooping =>
    match (s.expiredQ ch).send { Seq := SoonestPing.Seq, Send := SoonestPing.Send } with
    | none => none
    | some q =>
      some { s with expiredQ := Function.update s.expiredQ ch q,
                    expirer := if keepLooping then .top else .exiting }
  | _ => none

/-- The end of `ExpirerConfig` after the loop (Expirer.go:199-207). -/
def expirerExit (s : Sys) : Option Sys :=
  if s.expirer = .exiting ∧ s.lockHeld = false then
    some { s with ie := { s.ie with Running := false }, expirer := .stopped }
  else none

/-- A Receiver has read and decoded an echo reply with sequence `s` from peer
`ip` at `receiveTime` and makes its read-locked lookup (Receiver.go:151-173).
A Receiver started in fake-success mode terminates the process
(Receiver.go:89). -/
def receiverRead (ip s : Nat) (receiveTime : Int) (sys : Sys) : Option Sys :=
  if sys.receiver = .idle ∧ sys.ie.FakeSuccess = false ∧ sys.lockHeld = false then
    match sys.ie.lookup ip s with
    | none => some sys
    | some el =>
      let ps : PingSuccess :=
        { Seq := s, Send := el.Value.Send, Received := receiveTime,
          RTT := receiveTime - el.Value.Send }
      some { sys with receiver := .commit ip s el ps }
  else none

/-- The write-locked section of the Receiver (Receiver.go:174-178) once the
send `ie.Pingers.SuccessChs[ip] <- *ps` can proceed. -/
def receiverFinish (ip s : Nat) (el : Element) (ps : PingSuccess) (sys : Sys) : Option Sys :=
  match sys.ie.SuccessChs ip with
  | none => none
  | some ch =>
    match (sys.successQ ch).send ps with
    | none => none
    | some q =>
      some { sys with successQ := Function.update sys.successQ ch q,
                      ie := (sys.ie.deleteSeq ip s).remove el,
                      lockHeld := false, receiver := .idle }

/-- The Receiver takes the lock and sends (Receiver.go:174-178). When the send
cannot proceed the Receiver stays blocked in it with the lock held, and
finishes the section when the channel has room. -/
def receiverCommit (sys : Sys) : Option Sys :=
  match sys.receiver with
  | .commit ip s el ps =>
    if sys.lockHeld = false then
      match receiverFinish ip s el ps sys with
      | some sys2 => some sys2
      | none => some { sys with lockHeld := true, receiver := .blocked ip s el ps }
    else none
  | .blocked ip s el ps => receiverFinish ip s el ps sys
  | .idle => none

/-- One step of one goroutine. -/
inductive Action where
  | proberSetup
  | proberInsert (now : Int) (r : ℚ)
  | proberSelect (c : SelectCase)
  | proberSleep (ev : SleepEvent)
  | proberTeardown
  | expirerTop (done : Bool)
  | expirerSendSuccess (now : Int)
  | expirerWake (done : Bool)
  | expirerRecheck
  | expirerCommit
  | expirerSendExpired
  | expirerExit
  | receiverRead (ip s : Nat) (receiveTime : Int)
  | receiverCommit

/-- The effect of one step. -/
def step (a : Action) (s : Sys) : Option Sys :=
  match a with
  | .proberSetup => proberSetup s
  | .proberInsert now r => proberInsert now r s
  | .proberSelect c => proberSelect c s
  | .proberSleep ev => proberSleep ev s
  | .proberTeardown => proberTeardown s
  | .expirerTop done => expirerTop done s
  | .expirerSendSuccess now => expirerSendSuccess now s
  | .expirerWake done => expirerWake done s
  | .expirerRecheck => expirerRecheck s
  | .expirerCommit => expirerCommit s
  | .expirerSendExpired => expirerSendExpired s
  | .expirerExit => expirerExit s
  | .receiverRead ip sq receiveTime => receiverRead ip sq receiveTime s
  | .receiverCommit => receiverCommit s

/-- The effect of a schedule, a sequence of steps. -/
def exec : List Action → Sys → Option Sys
  | [], s => some s
  | a :: rest, s =>
    match step a s with
    | none => none
    | some s2 => exec rest s2

/-- A step that cancels the Prober or shuts the engine down. -/
def Action.isStop : Action → Bool
  | .proberSelect .done => true
  | .proberSelect .allDone => true
  | .proberSleep .done => true
  | .proberSleep .allDone => true
  | .expirerTop true => true
  | .expirerWake true => true
  | _ => false

/-- The receipt of an echo reply from the peer `ip`. -/
def Action.isReplyFrom (ip : Nat) : Action → Bool
  | .receiverRead ip2 _ _ => decide (ip2 = ip)
  | _ => false

/-- A schedule of a normal-mode engine serving `PingerConfig` for the
destination 7 with one packet and timeout 1000: the probe (7, 0) is inserted at
time 100 and written to the socket; the Expirer snapshots it and sleeps; a
Receiver reads the reply at 1099 and finds the probe in its read-locked
lookup; the Expirer wakes at the deadline, finds the probe in its read-locked
recheck, removes it and enqueues `PingExpired`; the Receiver then runs its
write-locked section. -/
def raceSchedule : List Action :=
  [.proberSetup, .proberInsert 100 0, .expirerTop false, .receiverRead 7 0 1099,
   .expirerWake false, .expirerRecheck, .expirerCommit, .expirerSendExpired, .receiverCommit]

/-- The number of probes of the run that have received their terminal event,
read off the Prober's position. -/
def Prober.progress (p : Prober) : Nat :=
  match p.pc with
  | .start => 0
  | .loop => p.st.i
  | .select => p.st.i
  | .sleep => p.st.i + 1
  | .finish => p.packets
  | .returned => p.packets

/-- Invariant of a fake-success engine serving one `PingerConfig` call with drop
probability 0 that is neither cancelled nor shut down: no probe is marked
`FakeDrop`, the Expirer is only ever on its fake-success path, no Receiver
runs, no `PingExpired` is ever enqueued, and every terminal event the Prober
has consumed was a success. -/
structure FakeSuccessInv (N : Nat) (s : Sys) : Prop where
  fake : s.ie.FakeSuccess = true
  prob : s.prober.dropProb = 0
  pkts : s.prober.packets = N
  nodrop : ∀ e ∈ s.ie.ExpiresDLL, e.Value.FakeDrop = false
  exp : s.expirer = .stopped ∨ s.expirer = .top ∨ ∃ p c, s.expirer = .sendSuccess p c
  recv : s.receiver = .idle
  unlocked : s.lockHeld = false
  noexp : ∀ c, (s.expiredQ c).queue = []
  keep : s.prober.st.keepLooping = true
  i_le : s.prober.st.i ≤ N
  i_lt : s.prober.pc = .select ∨ s.prober.pc = .sleep → s.prober.st.i < N
  fails : s.prober.st.results.Failures = 0
  succ : s.prober.pc ≠ .start → s.prober.st.results.Successes = s.prober.progress

/-- Invariant of an engine, in either mode, serving one `PingerConfig` call
with drop probability 1 that is neither cancelled nor shut down and receives no
echo reply from its destination: every probe is marked `FakeDrop`, nothing is
written to the socket, the Expirer never synthesizes a success, the Receiver
never matches, no `PingSuccess` is ever enqueued, and every terminal event the
Prober has consumed was an expiry. -/
structure AllDropInv (IP N : Nat) (s : Sys) : Prop where
  prob : s.prober.dropProb = 1
  dest : s.prober.IP = IP
  pkts : s.prober.packets = N
  alldrop : ∀ e ∈ s.ie.ExpiresDLL, e.Value.FakeDrop = true
  exp : ∀ p c, s.expirer ≠ .sendSuccess p c
  recv : s.receiver = .idle
  unlocked : s.lockHeld = false
  nosucc : ∀ c, (s.successQ c).queue = []
  nowire : s.wire = []
  others : ∀ ip, ip ≠ s.prober.IP → s.ie.Pings ip = none
  keep : s.prober.st.keepLooping = true
  i_le : s.prober.st.i ≤ N
  i_lt : s.prober.pc = .select ∨ s.prober.pc = .sleep → s.prober.st.i < N
  succs : s.prober.st.results.Successes = 0
  fails : s.prober.pc ≠ .start → s.prober.st.results.Failures = s.prober.progress

/-- The steps of one loop iteration in fake-success mode when no probe is
dropped: the Prober inserts the probe, the Expirer removes it and sends the
synthesized success, finds the list empty and returns, and the Prober consumes
the success and sleeps out the interval. -/
def fakeSuccessRound : List Action :=
  [.proberInsert 0 0, .expirerTop false, .expirerSendSuccess 0, .expirerTop false,
   .proberSelect .success, .proberSleep .wake]

/-- The steps of one loop iteration when the probe is dropped: the Prober
inserts the probe, the Expirer sleeps to its deadline, finds it still in the
index, removes it and sends the expiry, finds the list empty and returns, and
the Prober consumes the expiry and sleeps out the interval. -/
def expiryRound : List Action :=
  [.proberInsert 0 0, .expirerTop false, .expirerWake false, .expirerRecheck, .expirerCommit,
   .expirerSendExpired, .expirerTop false, .proberSelect .expired, .proberSleep .wake]

/-- The list `round` repeated `n` times. -/
def rounds (round : List Action) : Nat → List Action
  | 0 => []
  | n + 1 => round ++ rounds round n

/-- A complete schedule of one `PingerConfig` call with `N` packets: the setup,
`N` rounds, the failing loop test and the teardown. -/
def completeSchedule (round : List Action) (N : Nat) : List Action :=
  .proberSetup :: (rounds round N ++ [.proberInsert 0 0, .proberTeardown])

/-- The state between the iterations `k - 1` and `k` of a run that follows
`completeSchedule`, in closed form: the Prober is at its loop test with `i = k`
after `k` terminal events (all successes when `succ`, all expiries otherwise,
every RTT being 0), the index is empty, no Expirer is alive, and both channels
of the run are registered and empty. -/
def idleState (timeout D : Int) (fake : Bool) (IP N : Nat) (sortRTTs : Bool) (p : ℚ)
    (succ : Bool) (k : Nat) : Sys :=
  { ie := { Timeout := timeout, FakeSuccess := fake, Running := false, DebugLevel := D,
            Pings := if k = 0 then fun _ => none
                     else Function.update (fun _ => none) IP (some (fun _ => none)),
            ExpiresDLL := [],
            SuccessChs := Function.update (fun _ => none) IP (some 0),
            ExpiredChs := Function.update (fun _ => none) IP (some 0),
            DonesChs := Function.update (fun _ => false) IP true,
            nextElement := k, nextChan := 1 },
    successQ := Function.update (fun _ => { cap := 0, queue := [] }) 0 { cap := N, queue := [] },
    expiredQ := Function.update (fun _ => { cap := 0, queue := [] }) 0 { cap := N, queue := [] },
    lockHeld := false,
    prober := { pc := .loop, IP := IP, packets := N, sortRTTs := sortRTTs, dropProb := p,
                fakeSuccess := fake, successCh := 0, expiredCh := 0,
                st := { i := k, keepLooping := true,
                        results := { IP := IP, Successes := if succ then k else 0,
                                     Failures := if succ then 0 else k, OutOfOrder := 0,
                                     RTTs := List.replicate N 0, Count := 0, Min := 0, Max := 0,
                                     Mean := 0, Sum := 0 } } },
    expirer := .stopped, overlap := false, receiver := .idle, wire := [] }

/-! ### The index of in-flight probes -/

/-- Invariant of the index and of the handles the workers hold, for one
`PingerConfig` call on a fresh engine: the list node created by iteration `k`
has identity `k` and holds the probe with sequence number `k` of the Prober's
destination; identities increase along the list; a map entry under `(ip, sq)`
refers to a node holding the probe `(ip, sq)`; and the node a Receiver or the
Expirer found in its lookup holds the probe it looked up, the Receiver's
`PingSuccess` being computed from that probe. -/
structure IndexInv (s : Sys) : Prop where
  pkts : s.prober.packets < 65536
  start : s.prober.pc = .start → s.prober.st.i = 0
  count : s.ie.nextElement =
    s.prober.st.i + (if s.prober.pc = .select ∨ s.prober.pc = .sleep then 1 else 0)
  i_lt : s.prober.pc = .select ∨ s.prober.pc = .sleep → s.prober.st.i < s.prober.packets
  node : ∀ e ∈ s.ie.ExpiresDLL,
    e.Value.NetaddrIP = s.prober.IP ∧ e.Value.Seq = e.id ∧ e.id < s.ie.nextElement
  sorted : s.ie.ExpiresDLL.Pairwise (fun a b => a.id < b.id)
  keyed : ∀ ip sq el, s.ie.lookup ip sq = some el →
    ip = s.prober.IP ∧ el.Value.NetaddrIP = ip ∧ el.Value.Seq = sq ∧ el.id = sq ∧
      sq < s.ie.nextElement
  recv : ∀ ip sq el ps,
    s.receiver = .commit ip sq el ps ∨ s.receiver = .blocked ip sq el ps →
      ip = s.prober.IP ∧ el.Value.NetaddrIP = ip ∧ el.Value.Seq = sq ∧ el.id = sq ∧
        sq < s.ie.nextElement ∧
        ps.Seq = sq ∧ ps.Send = el.Value.Send ∧ ps.RTT = ps.Received - ps.Send
  exp : ∀ p el kl, s.expirer = .commit p el kl →
    p.NetaddrIP = s.prober.IP ∧ el.Value.NetaddrIP = p.NetaddrIP ∧ el.Value.Seq = p.Seq ∧
      el.id = p.Seq ∧ p.Seq < s.ie.nextElement

/-- What is constant during one `PingerConfig` call on a fresh engine, and the
bounds on its loop index: the index never passes `packets`, a call that leaves
the loop without having been stopped has `i = packets`, and from the first
insertion until the teardown the inner map of the destination exists. -/
structure RunInv (timeout : Int) (IP N : Nat) (p : ℚ) (s : Sys) : Prop where
  timeout : s.ie.Timeout = timeout
  dest : s.prober.IP = IP
  pkts : s.prober.packets = N
  prob : s.prober.dropProb = p
  i_le : s.prober.st.i ≤ N
  fin : s.prober.pc = .finish ∨ s.prober.pc = .returned →
    s.prober.st.keepLooping = true → s.prober.st.i = N
  inner : 0 < s.ie.nextElement → s.prober.pc ≠ .returned →
    ∃ inner, s.ie.Pings s.prober.IP = some inner

/-- What one step does to the index of in-flight probes. -/
inductive IndexOp where
  | keep
  | insert (IP i : Nat) (ps : Pings)
  | removal (ip sq : Nat) (el : Element)
  | teardown (IP : Nat)

/-- The index after an index operation; the insertion can panic. -/
def IndexOp.run (op : IndexOp) (ie : ICMPEngine) : Option ICMPEngine :=
  match op with
  | .keep => some ie
  | .insert IP i ps => ie.insert IP i ps
  | .removal ip sq el => some ((ie.deleteSeq ip sq).remove el)
  | .teardown IP => some { ie with Pings := Function.update ie.Pings IP none }

/-- The index operation of the step `a` taken in the state `s`: the insertion
of `proberInsert` when the loop test passes, the removal of the head by the
Expirer in fake-success mode, the removal by the Expirer of the node its
recheck found, the removal by a Receiver of the node its lookup found once its
send has proceeded, and the deletion of the inner map at the end of
`PingerConfig`. -/
def indexOp (a : Action) (s : Sys) : IndexOp :=
  match a with
  | .proberInsert now r =>
    if s.prober.st.i < s.prober.packets ∧ s.prober.st.keepLooping = true then
      .insert s.prober.IP s.prober.st.i
        { NetaddrIP := s.prober.IP, Seq := s.prober.st.i, Send := now,
          Expiry := now + s.ie.Timeout, FakeDrop := FakeDrop s.prober.dropProb r }
    else .keep
  | .proberTeardown => .teardown s.prober.IP
  | .expirerTop false =>
    match s.ie.ExpiresDLL with
    | [] => .keep
    | el :: _ =>
      if s.ie.FakeSuccess ∧ ¬ el.Value.FakeDrop then
        .removal el.Value.NetaddrIP el.Value.Seq el
      else .keep
  | .expirerCommit =>
    match s.expirer with
    | .commit SoonestPing el _ => .removal SoonestPing.NetaddrIP SoonestPing.Seq el
    | _ => .keep
  | .receiverCommit =>
    match s.receiver with
    | .commit ip sq el ps =>
      if (receiverFinish ip sq el ps s).isSome then .removal ip sq el else .keep
    | .blocked ip sq el ps =>
      if (receiverFinish ip sq el ps s).isSome then .removal ip sq el else .keep
    | .idle => .keep
  | _ => .keep

/-- The steps of the Prober. -/
def Action.isProber : Action → Bool
  | .proberSetup => true
  | .proberInsert _ _ => true
  | .proberSelect _ => true
  | .proberSleep _ => true
  | .proberTeardown => true
  | _ => false

/-- The clock reading a step of the Prober's loop head carries: the `Send` time
of the probe it inserts. -/
def Action.sendTime : Action → Option Int
  | .proberInsert now _ => some now
  | _ => none

/-- The probe an index operation inserts. -/
def IndexOp.probe : IndexOp → Option Pings
  | .insert _ _ ps => some ps
  | _ => none

/-- The index after a sequence of index operations. -/
def runOps : List IndexOp → ICMPEngine → Option ICMPEngine
  | [], ie => some ie
  | op :: rest, ie =>
    match op.run ie with
    | none => none
    | some ie2 => runOps rest ie2

/-- A sequence of index operations on two destinations with timeout 1000: the
probes (7, 0), (9, 0) and (7, 1) are inserted at the times 100, 150 and 300,
and (7, 0) is removed in between. -/
def sampleOps : List IndexOp :=
  [.insert 7 0 { NetaddrIP := 7, Seq := 0, Send := 100, Expiry := 1100, FakeDrop := false },
   .insert 9 0 { NetaddrIP := 9, Seq := 0, Send := 150, Expiry := 1150, FakeDrop := false },
   .removal 7 0
     { id := 0,
       Value := { NetaddrIP := 7, Seq := 0, Send := 100, Expiry := 1100, FakeDrop := false } },
   .insert 7 1 { NetaddrIP := 7, Seq := 1, Send := 300, Expiry := 1300, FakeDrop := false }]

/-- The coupling of map and list: an entry of `Pings` under `(ip, sq)` refers
to a node that is linked in `ExpiresDLL` and holds the probe `(ip, sq)`, and
every linked node is the entry of `Pings` under the key of the probe it
holds. -/
def Coupled (ie : ICMPEngine) : Prop :=
  (∀ ip sq el, ie.lookup ip sq = some el →
    el ∈ ie.ExpiresDLL ∧ el.Value.NetaddrIP = ip ∧ el.Value.Seq = sq) ∧
  (∀ el ∈ ie.ExpiresDLL, ie.lookup el.Value.NetaddrIP el.Value.Seq = some el)

/-- A `PingerConfig` call for the destination 7 that is cancelled by its
caller while its first probe is in flight, up to its teardown: the setup, the
insertion of the probe (7, 0) at time 100, the cancel signal taken in the
`select`, and the loop test that fails. -/
def cancelSchedule : List Action :=
  [.proberSetup, .proberInsert 100 0, .proberSelect .done, .proberInsert 100 0]

/-- The list node of the probe (7, 0) inserted at time 100 on an engine with
timeout 1000, the first node the engine creates; `cancelSchedule` leaves it in
flight. -/
def cancelledNode : Element :=
  { id := 0,
    Value := { NetaddrIP := 7, Seq := 0, Send := 100, Expiry := 1100, FakeDrop := false } }

/-- The node that the step `a` taken in the state `s` links into the list. -/
def inserted (a : Action) (s : Sys) : Option Element :=
  match indexOp a s with
  | .insert _ _ ps => some { id := s.ie.nextElement, Value := ps }
  | _ => none

/-- The node whose probe the step `a` taken in the state `s` terminates: the
node a Receiver, the Expirer's fake-success path or the Expirer's expiry path
removes. -/
def terminated (a : Action) (s : Sys) : Option Element :=
  match indexOp a s with
  | .removal _ _ el => some el
  | _ => none

/-- The nodes that `f` observes along a schedule, in order. -/
def trace (f : Action → Sys → Option Element) : List Action → Sys → List Element
  | [], _ => []
  | a :: rest, s =>
    match step a s with
    | none => []
    | some s2 => (f a s).toList ++ trace f rest s2

/-- The list holds the nodes created so far whose identity is not in `T`, in
the order of their creation. -/
def Live (T : List Nat) (s : Sys) : Prop :=
  s.ie.ExpiresDLL.map Element.id =
    (List.range s.ie.nextElement).filter (fun k => decide (k ∉ T))

/-- The map of one `PingerConfig` call for `IP` on a fresh engine: no other
destination has an inner map, and after the call has returned `IP` has none
either. -/
structure EmptyingInv (IP : Nat) (s : Sys) : Prop where
  others : ∀ ip, ip ≠ IP → s.ie.Pings ip = none
  returned : s.prober.pc = .returned → s.ie.Pings IP = none

/-! ### Start and the sockets (ICMPEngine.go, Sockets.go) -/

/-- Go `OpenSocketsRetriesCst`. -/
def OpenSocketsRetriesCst : Nat := 2

/-- The field `Protocols` as `NewFullConfig` sets it (ICMPEngine.go:183). -/
def Protocols : List Nat := [4, 6]

/-- Go `type SocketsT struct`: `Open` and the map `Opens`; a missing key reads
as false. -/
structure SocketsT where
  Open : Bool
  Opens : Nat → Bool

/-- The fields of Go `ICMPEngine` that `Start`, `OpenSockets` and
`StartReceiversSplay` read and write: `EID`, `Expirers.FakeSuccess`, `Sockets`
and `Receivers.Running`. -/
structure Lifecycle where
  EID : Int
  FakeSuccess : Bool
  Sockets : SocketsT
  ReceiversRunning : Bool

/-- The lifecycle fields as `NewFullConfig` without `start` leaves them. -/
def Lifecycle.new (EID : Int) (fakeSuccess : Bool) : Lifecycle :=
  { EID := EID, FakeSuccess := fakeSuccess,
    Sockets := { Open := false, Opens := fun _ => false }, ReceiversRunning := false }

/-- The `log.Fatal` calls of `OpenSockets` and `StartReceiversSplay`, by the
line they are on. -/
inductive Fatal where
  /-- Sockets.go:38, "nothing should try to open the sockets". -/
  | fakeSuccess
  /-- Sockets.go:44, "sockets are already open". -/
  | alreadyOpen
  /-- Sockets.go:69, inside the retry loop. -/
  | protocolAlreadyOpen
  /-- Sockets.go:79, after the operator message naming the sysctl. -/
  | listenPacket
  /-- Sockets.go:91, "failed to open both IPv4 and IPv6 sockets". -/
  | socketCount
  /-- ICMPEngine.go:254. -/
  | receiversRunning
deriving DecidableEq, Repr

/-- Go `HackSysctl` (Sockets.go:134): false unless the effective uid is 0;
for uid 0 it runs the `sysctl` command and returns true whatever its status. -/
def HackSysctl (EID : Int) : Bool :=
  if EID ≠ 0 then false else true

/-- The retry loop of `OpenSockets` for the protocol `p` (Sockets.go:62-86).
The first argument is `OpenSocketsRetriesCst - retries`; `listen p retries`
tells whether `icmp.ListenPacket` succeeds at that attempt. The loop state is
the socket state, the count `sockets` and the attempts made so far, as
(protocol, `retries`). -/
def openRetries (EID : Int) (listen : Nat → Nat → Bool) (p : Nat) :
    Nat → SocketsT × Nat × List (Nat × Nat) →
      List (Nat × Nat) × Except Fatal (SocketsT × Nat)
  | 0, (st, sockets, attempts) => (attempts, .ok (st, sockets))
  | left + 1, (st, sockets, attempts) =>
    if st.Opens p then (attempts, .ok (st, sockets))
    else
      let retries := OpenSocketsRetriesCst - (left + 1)
      if st.Opens p then (attempts, .error .protocolAlreadyOpen)
      else
        let attempts := attempts ++ [(p, retries)]
        if listen p retries then
          openRetries EID listen p left
            ({ st with Opens := Function.update st.Opens p true }, sockets + 1, attempts)
        else if HackSysctl EID then openRetries EID listen p left (st, sockets, attempts)
        else (attempts, .error .listenPacket)

/-- The loop over `ie.Protocols` of `OpenSockets` (Sockets.go:61-87). -/
def openProtocols (EID : Int) (listen : Nat → Nat → Bool) :
    List Nat → SocketsT × Nat × List (Nat × Nat) →
      List (Nat × Nat) × Except Fatal (SocketsT × Nat)
  | [], (st, sockets, attempts) => (attempts, .ok (st, sockets))
  | p :: rest, acc =>
    match openRetries EID listen p OpenSocketsRetriesCst acc with
    | (attempts, .error f) => (attempts, .error f)
    | (attempts, .ok (st, sockets)) => openProtocols EID listen rest (st, sockets, attempts)

/-- Go `OpenSockets` (Sockets.go:25): the listen attempts it makes, and the
engine it leaves or the fatal error it ends with. -/
def OpenSockets (listen : Nat → Nat → Bool) (ie : Lifecycle) :
    List (Nat × Nat) × Except Fatal Lifecycle :=
  if ie.FakeSuccess then ([], .error .fakeSuccess)
  else if ie.Sockets.Open then ([], .error .alreadyOpen)
  else if ie.Sockets.Open then ([], .ok ie)
  else
    match openProtocols ie.EID listen Protocols (ie.Sockets, 0, []) with
    | (attempts, .error f) => (attempts, .error f)
    | (attempts, .ok (st, sockets)) =>
      if sockets ≠ Protocols.length then (attempts, .error .socketCount)
      else (attempts, .ok { ie with Sockets := { st with Open := true } })

/-- Go `StartReceiversSplay` (ICMPEngine.go:240) as far as the lifecycle
fields go: fatal when `Receivers.Running`, else the Receivers are spawned. No
statement of the package sets `Receivers.Running`. -/
def StartReceiversSplay (ie : Lifecycle) : Except Fatal Lifecycle :=
  if ie.ReceiversRunning then .error .receiversRunning else .ok ie

/-- Go `StartSplay` (ICMPEngine.go:340), which `Start` calls: the done
channels are made; in fake-success mode it returns; otherwise the sockets are
opened and the Receivers started. -/
def StartSplay (listen : Nat → Nat → Bool) (ie : Lifecycle) :
    List (Nat × Nat) × Except Fatal Lifecycle :=
  if ie.FakeSuccess then ([], .ok ie)
  else
    match OpenSockets listen ie with
    | (attempts, .error f) => (attempts, .error f)
    | (attempts, .ok ie2) => (attempts, StartReceiversSplay ie2)

/-- The listen attempts made for the protocol `p`. -/
def attemptsFor (p : Nat) (attempts : List (Nat × Nat)) : List (Nat × Nat) :=
  attempts.filter (fun a => decide (a.1 = p))

/-! ### A second Receiver -/

/-- The engine of `Sys` with a second Receiver goroutine of the same protocol
(`Receivers4Cst` and `Receivers6Cst` are 2); `second` is where that Receiver
is in its loop body. -/
structure TwoReceivers where
  sys : Sys
  second : ReceiverPC

/-- A step of the second Receiver: the Receiver code run with its own local
variables. -/
def stepSecond (a : Action) (t : TwoReceivers) : Option TwoReceivers :=
  match a with
  | .receiverRead ip sq receiveTime =>
    (receiverRead ip sq receiveTime { t.sys with receiver := t.second }).map
      (fun s2 => { sys := { s2 with receiver := t.sys.receiver }, second := s2.receiver })
  | .receiverCommit =>
    (receiverCommit { t.sys with receiver := t.second }).map
      (fun s2 => { sys := { s2 with receiver := t.sys.receiver }, second := s2.receiver })
  | _ => none

/-- One step of the engine with two Receivers: `(false, a)` is a step of `Sys`,
`(true, a)` a step of the second Receiver. -/
def step2 (a : Bool × Action) (t : TwoReceivers) : Option TwoReceivers :=
  if a.1 then stepSecond a.2 t
  else (step a.2 t.sys).map (fun s2 => { t with sys := s2 })

/-- The effect of a schedule of the engine with two Receivers. -/
def exec2 : List (Bool × Action) → TwoReceivers → Option TwoReceivers
  | [], t => some t
  | a :: rest, t =>
    match step2 a t with
    | none => none
    | some t2 => exec2 rest t2

/-- A normal-mode engine serves `PingerConfig` for the destination 7 with one
packet; the echo reply to the probe (7, 0) arrives twice. The probe is inserted
at time 100; the first Receiver reads one reply at 150 and the second the
other at 151, and both find the probe in their read-locked lookup; the first
Receiver runs its write-locked section and enqueues its `PingSuccess`; the
second takes the write lock and blocks in its send on the full channel. -/
def duplicateReplySchedule : List (Bool × Action) :=
  [(false, .proberSetup), (false, .proberInsert 100 0), (false, .receiverRead 7 0 150),
   (true, .receiverRead 7 0 151), (false, .receiverCommit), (true, .receiverCommit)]

/-- What `ReadFrom` returns to one Receiver iteration (Receiver.go:110): no
error, a timeout, or another error (on which the Receiver terminates the
process, Receiver.go:124). -/
inductive ReadOutcome where
  | ok
  | timeout
  | failure
deriving DecidableEq, Repr

/-- The expression of Receiver.go:106 for the deadline of the next read:
`time.Duration(float64(ie.ReadDeadline) * timeoutsInARowCalculator(timeoutsInARow))`,
with the conversion to `float64` and the `float64` product rounded. -/
def readDeadline (ReadDeadline timeoutsInARow : Int) : Option Int :=
  durationOfFloat
    (roundFloat64 (roundFloat64 (ReadDeadline : ℚ) * timeoutsInARowCalculator timeoutsInARow))

/-- The update of `timeoutsInARow` by one read (Receiver.go:112-129): a
timeout increments it, a read without error resets it, another error is
fatal. -/
def tiarAfter (timeoutsInARow : Int) : ReadOutcome → Option Int
  | .ok => some 0
  | .timeout => some (timeoutsInARow + 1)
  | .failure => none

/-- The value of `timeoutsInARow` after a sequence of reads, from the value
`timeoutsInARow`; `none` when the Receiver has terminated the process. -/
def tiarRun : List ReadOutcome → Int → Option Int
  | [], timeoutsInARow => some timeoutsInARow
  | o :: rest, timeoutsInARow =>
    match tiarAfter timeoutsInARow o with
    | none => none
    | some t => tiarRun rest t

/-- The number of consecutive timeouts at the end of a sequence of reads. -/
def consecutiveTimeouts (outcomes : List ReadOutcome) : Nat :=
  (outcomes.reverse.takeWhile (fun o => decide (o = .timeout))).length

/-! ### The read buffer of a Receiver (Receiver.go) -/

/-- Go `ReceiveBufferMax` (Receiver.go:17). -/
def ReceiveBufferMax : Nat := 200

/-- A buffer made by `bufPool.New` (Receiver.go:32): `ReceiveBufferMax` zero
bytes. The buffer a Receiver takes from the pool is such a buffer or one put
back after an earlier read, with the bytes of that read still in it. -/
def bufPoolNew : List Byte := List.replicate ReceiveBufferMax 0

/-- The call `ReadFrom(*buffer)` (Receiver.go:110) when it returns no error:
the datagram, cut to the length of the buffer, overwrites the front of the
buffer, and the number `n` of bytes copied is returned; the rest of the buffer
is left as it was. -/
def ReadFrom (buffer datagram : List Byte) : List Byte × Nat :=
  let n := min datagram.length buffer.length
  (datagram.take n ++ buffer.drop n, n)

/-- The body of one Receiver iteration after a read without error
(Receiver.go:133-182), for the pool buffer `buffer`, the datagram read and its
`peer`: for `n > 0` the buffer is decoded; a decode error drops the datagram,
and otherwise the Receiver makes its read-locked lookup of
(`peer`, `echoReply.Seq`). -/
def receiverDatagram (buffer datagram : List Byte) (peer : Nat) (receiveTime : Int)
    (sys : Sys) : Option Sys :=
  if sys.receiver = .idle ∧ sys.ie.FakeSuccess = false then
    let read := ReadFrom buffer datagram
    if read.2 > 0 then
      match ParseICMPEchoReply read.1 with
      | .error _ => some sys
      | .ok echoReply => receiverRead peer echoReply.Seq receiveTime sys
    else some sys
  else none

/-! ### The Expirer's lifetime and the channels of a call -/

/-- A step in which the Expirer takes the shutdown signal of the engine. -/
def Action.isShutdown : Action → Bool
  | .expirerTop true => true
  | .expirerWake true => true
  | _ => false

/-- Invariant of the Expirer of an engine that is not shut down: `Running` is
clear exactly when no Expirer is alive, no Expirer was ever spawned while
another was alive, a non-empty list has `Running` set, and the Expirer that is
alive has `keepLooping` set. -/
structure ExpirerInv (s : Sys) : Prop where
  running : s.ie.Running = false ↔ s.expirer = .stopped
  single : s.overlap = false
  covered : s.ie.ExpiresDLL ≠ [] → s.ie.Running = true
  looping : s.expirer ≠ .exiting
  recheck : ∀ p, s.expirer ≠ .recheck p false
  commit : ∀ p el, s.expirer ≠ .commit p el false
  send : ∀ p ch, s.expirer ≠ .sendExpired p ch false

/-- Every entry of the map refers to a node that is linked in the list. -/
def Linked (ie : ICMPEngine) : Prop :=
  ∀ ip sq el, ie.lookup ip sq = some el → el ∈ ie.ExpiresDLL

/-- Whether the call has its channels registered: from the setup of
`PingerConfig` until its teardown. -/
def Prober.active (p : Prober) : Bool :=
  match p.pc with
  | .start => false
  | .returned => false
  | _ => true

/-- The number of sends a Receiver owes for a node that is no longer in the
list with identities `ids`: one when it is between its lookup and the end of
its write-locked section and the node it found has since been unlinked. -/
def receiverPending (r : ReceiverPC) (ids : List Nat) : Nat :=
  match r with
  | .idle => 0
  | .commit _ _ el _ => if el.id ∈ ids then 0 else 1
  | .blocked _ _ el _ => if el.id ∈ ids then 0 else 1

/-- The number of `PingSuccess` sends the Expirer owes: one when it has removed
a head on its fake-success path and has not sent yet. -/
def expirerPendingSuccess (e : ExpirerPC) : Nat :=
  match e with
  | .sendSuccess _ _ => 1
  | _ => 0

/-- The number of `PingExpired` sends the Expirer owes for a node that is no
longer in the list with identities `ids`. -/
def expirerPendingExpired (e : ExpirerPC) (ids : List Nat) : Nat :=
  match e with
  | .commit _ el _ => if el.id ∈ ids then 0 else 1
  | .sendExpired _ _ _ => 1
  | _ => 0

/-- Invariant of the channels of one `PingerConfig` call on a fresh engine:
from setup to teardown the destination of the call, and no other, has the two
channels of the call registered; the channels have capacity `packets`; a
channel the Expirer has read for a send is a channel of the call; no Receiver
is at work in fake-success mode; and the events queued on a channel, the probes
in the list and the sends still owed for unlinked probes together do not
exceed the number of probes created. -/
structure ChanInv (s : Sys) : Prop where
  regS : ∀ ip, s.ie.SuccessChs ip =
    if ip = s.prober.IP ∧ s.prober.active = true then some s.prober.successCh else none
  regE : ∀ ip, s.ie.ExpiredChs ip =
    if ip = s.prober.IP ∧ s.prober.active = true then some s.prober.expiredCh else none
  capS : s.prober.pc ≠ .start → (s.successQ s.prober.successCh).cap = s.prober.packets
  capE : s.prober.pc ≠ .start → (s.expiredQ s.prober.expiredCh).cap = s.prober.packets
  heldS : ∀ p ch, s.expirer = .sendSuccess p (some ch) → ch = s.prober.successCh
  heldE : ∀ p ch kl, s.expirer = .sendExpired p (some ch) kl → ch = s.prober.expiredCh
  fakeIdle : s.ie.FakeSuccess = true → s.receiver = .idle
  boundS : (s.successQ s.prober.successCh).queue.length + s.ie.ExpiresDLL.length +
    (receiverPending s.receiver (s.ie.ExpiresDLL.map Element.id) +
      expirerPendingSuccess s.expirer) ≤ s.ie.nextElement
  boundE : (s.expiredQ s.prober.expiredCh).queue.length + s.ie.ExpiresDLL.length +
    expirerPendingExpired s.expirer (s.ie.ExpiresDLL.map Element.id) ≤ s.ie.nextElement

/-- What holds in every state reached from a fresh engine serving one
`PingerConfig` call. -/
structure Reachable (timeout : Int) (IP N : Nat) (p : ℚ) (s : Sys) : Prop where
  index : IndexInv s
  run : RunInv timeout IP N p s
  emptying : EmptyingInv IP s
  linked : Linked s.ie
  chans : ChanInv s

/-! ### The Expirer's loop on its own -/

/-- One iteration of the Expirer's loop (Expirer.go:66-194) when no shutdown
signal arrives and no other goroutine takes a step in between: the head of the
loop, then either the send of the synthesized success with clock reading `now`,
or the sleep, the recheck and, when the key is still there, the removal and the
send of the expiry. -/
def expirerIteration (now : Int) (s : Sys) : Option Sys :=
  match step (.expirerTop false) s with
  | none => none
  | some s1 =>
    match s1.expirer with
    | .sendSuccess _ _ => step (.expirerSendSuccess now) s1
    | .sleeping _ =>
      match exec [.expirerWake false, .expirerRecheck] s1 with
      | none => none
      | some s2 =>
        match s2.expirer with
        | .commit _ _ _ => exec [.expirerCommit, .expirerSendExpired] s2
        | _ => some s2
    | _ => some s1

/-- Successive iterations of the Expirer's loop, one clock reading each. -/
def expirerLoop : List Int → Sys → Option Sys
  | [], s => some s
  | now :: clock, s =>
    match expirerIteration now s with
    | none => none
    | some s2 => expirerLoop clock s2

/-- The `PingSuccess` the Expirer synthesizes for the node `el` at clock
reading `now`: in fake-success mode, unless the probe is marked `FakeDrop`. -/
def successOf (fakeSuccess : Bool) (now : Int) (el : Element) : Option PingSuccess :=
  if fakeSuccess = true ∧ el.Value.FakeDrop = false then
    some { Seq := el.Value.Seq, Send := el.Value.Send, Received := now,
           RTT := now - el.Value.Send }
  else none

/-- The `PingExpired` the Expirer sends for the node `el`: whenever it does not
synthesize a success for it. -/
def expiredOf (fakeSuccess : Bool) (el : Element) : Option PingExpired :=
  if fakeSuccess = true ∧ el.Value.FakeDrop = false then none
  else some { Seq := el.Value.Seq, Send := el.Value.Send }

/-! ### Several calls and several Receivers on one engine -/

/-- The arguments of one call of `PingerConfig`. -/
structure Call where
  IP : Nat
  packets : Nat
  sortRTTs : Bool
  dropProb : ℚ

/-- The local variables of a call that has not executed its first statement. -/
def Call.prober (c : Call) : Prober :=
  { pc := .start, IP := c.IP, packets := c.packets, sortRTTs := c.sortRTTs,
    dropProb := c.dropProb, fakeSuccess := false, successCh := 0, expiredCh := 0,
    st := loopInit c.IP c.packets }

/-- The engine with any number of `PingerConfig` calls and of Receivers: the
shared state of `Sys`, the local variables of the call number `c` in
`probers c` (a call that has not been made yet is at `start`), and the place of
the Receiver number `r` in `receivers r`. The calls may run one after another
or at the same time, to the same or to different destinations. -/
structure Engine where
  ie : ICMPEngine
  successQ : Nat → Chan PingSuccess
  expiredQ : Nat → Chan PingExpired
  lockHeld : Bool
  probers : Nat → Prober
  expirer : ExpirerPC
  overlap : Bool
  receivers : Nat → ReceiverPC
  wire : List (Nat × Nat)

/-- A fresh engine on which the calls `calls 0`, `calls 1`, ... of
`PingerConfig` are going to be made. -/
def Engine.init (timeout : Int) (debugLevel : Int) (fakeSuccess : Bool)
    (calls : Nat → Call) : Engine :=
  { ie := NewFullConfig timeout debugLevel fakeSuccess,
    successQ := fun _ => { cap := 0, queue := [] },
    expiredQ := fun _ => { cap := 0, queue := [] },
    lockHeld := false,
    probers := fun c => (calls c).prober,
    expirer := .stopped, overlap := false, receivers := fun _ => .idle, wire := [] }

/-- The engine as the call `c` and the Receiver `r` see it. -/
def Engine.focus (e : Engine) (c r : Nat) : Sys :=
  { ie := e.ie, successQ := e.successQ, expiredQ := e.expiredQ, lockHeld := e.lockHeld,
    prober := e.probers c, expirer := e.expirer, overlap := e.overlap,
    receiver := e.receivers r, wire := e.wire }

/-- The engine after the call `c` or the Receiver `r` has taken a step that
led to `s`. -/
def Engine.store (e : Engine) (c r : Nat) (s : Sys) : Engine :=
  { ie := s.ie, successQ := s.successQ, expiredQ := s.expiredQ, lockHeld := s.lockHeld,
    probers := Function.update e.probers c s.prober, expirer := s.expirer,
    overlap := s.overlap, receivers := Function.update e.receivers r s.receiver,
    wire := s.wire }

/-- One step of the engine: the step `action`, taken by the call number `call`
when it is a step of `PingerConfig`, by the Receiver number `receiver` when it
is a step of a Receiver, and by the Expirer otherwise. -/
structure Move where
  call : Nat
  receiver : Nat
  action : Action

/-- The effect of one step of the engine. -/
def Engine.step (m : Move) (e : Engine) : Option Engine :=
  (Icmpengine.step m.action (e.focus m.call m.receiver)).map (e.store m.call m.receiver)

/-- The effect of a schedule of the engine. -/
def Engine.exec : List Move → Engine → Option Engine
  | [], e => some e
  | m :: rest, e =>
    match e.step m with
    | none => none
    | some e2 => Engine.exec rest e2

/-- The nodes that `f` observes along a schedule of the engine, in order. -/
def Engine.trace (f : Action → Sys → Option Element) : List Move → Engine → List Element
  | [], _ => []
  | m :: rest, e =>
    match e.step m with
    | none => []
    | some e2 => (f m.action (e.focus m.call m.receiver)).toList ++ Engine.trace f rest e2

/-- The handles on list nodes that the engine holds, in the list, in the map,
in a Receiver between its lookup and the end of its write-locked section, and
in the Expirer between its recheck and its removal, are nodes created
earlier. -/
structure HandleInv (s : Sys) : Prop where
  node : ∀ e ∈ s.ie.ExpiresDLL, e.id < s.ie.nextElement
  keyed : ∀ ip sq el, s.ie.lookup ip sq = some el → el.id < s.ie.nextElement
  recv : ∀ ip sq el ps,
    s.receiver = .commit ip sq el ps ∨ s.receiver = .blocked ip sq el ps →
      el.id < s.ie.nextElement
  exp : ∀ p el kl, s.expirer = .commit p el kl → el.id < s.ie.nextElement

/-- Invariant of the engine with several calls: every handle is a node created
earlier, and a destination has an inner map only while a call to it is between
its setup and its teardown. -/
structure EngineInv (e : Engine) : Prop where
  handles : ∀ c r, HandleInv (e.focus c r)
  owner : ∀ ip, e.ie.Pings ip ≠ none →
    ∃ c, (e.probers c).IP = ip ∧ (e.probers c).active = true

/-- Two calls at the same time on a normal-mode engine with timeout 1000, one
probe each to the destinations 7 and 9: the probes (7, 0) and (9, 0) are
inserted at the times 100 and 150; the Expirer snapshots the head (7, 0) and
sleeps; a Receiver reads the reply to (9, 0) at 200 and removes that probe,
which is not the head; the Expirer wakes at the deadline, removes (7, 0) and
sends its expiry, finds the list empty and returns; both calls consume their
event, sleep out the interval and return. -/
def twoCallsSchedule : List Move :=
  [⟨0, 0, .proberSetup⟩, ⟨1, 0, .proberSetup⟩, ⟨0, 0, .proberInsert 100 0⟩,
   ⟨1, 0, .proberInsert 150 0⟩, ⟨0, 0, .expirerTop false⟩, ⟨0, 0, .receiverRead 9 0 200⟩,
   ⟨0, 0, .receiverCommit⟩, ⟨0, 0, .expirerWake false⟩, ⟨0, 0, .expirerRecheck⟩,
   ⟨0, 0, .expirerCommit⟩, ⟨0, 0, .expirerSendExpired⟩, ⟨0, 0, .expirerTop false⟩,
   ⟨0, 0, .proberSelect .expired⟩, ⟨0, 0, .proberSleep .wake⟩, ⟨0, 0, .proberInsert 1200 0⟩,
   ⟨0, 0, .proberTeardown⟩, ⟨1, 0, .proberSelect .success⟩, ⟨1, 0, .proberSleep .wake⟩,
   ⟨1, 0, .proberInsert 1200 0⟩, ⟨1, 0, .proberTeardown⟩]

/-- The calls of `twoCallsSchedule`: one packet to the destination 7, one to
the destination 9, and no further call. -/
def twoCalls : Nat → Call := fun c =>
  if c = 0 then ⟨7, 1, false, 0⟩ else ⟨9, 1, false, 0⟩

/-- The calls of the schedules below: a first call with one packet to the
destination 7, then calls with `packets` packets to the destination `ip`, all
with drop probability `p`. -/
def reuseCalls (p : ℚ) (ip packets : Nat) : Nat → Call := fun c =>
  if c = 0 then ⟨7, 1, false, p⟩ else ⟨ip, packets, false, p⟩

/-- The first call is cancelled while its probe (7, 0), inserted at time 100,
is in flight, and returns: setup, loop head, the cancel taken in the blocking
`select`, the failing loop test, and the teardown. -/
def cancelledCall : List Move :=
  [⟨0, 0, .proberSetup⟩, ⟨0, 0, .proberInsert 100 0⟩, ⟨0, 0, .proberSelect .done⟩,
   ⟨0, 0, .proberInsert 100 0⟩, ⟨0, 0, .proberTeardown⟩]

/-- After `cancelledCall` a second call is made on the same engine and inserts
its first probe at time 2000. -/
def reuseSchedule : List Move :=
  cancelledCall ++ [⟨1, 0, .proberSetup⟩, ⟨1, 0, .proberInsert 2000 0⟩]

/-- After `cancelledCall` on a fake-success engine the Expirer takes the head
left in the list, then a second call is made and inserts its first probe at
time 2000. -/
def fakeReuseSchedule : List Move :=
  cancelledCall ++
    [⟨0, 0, .expirerTop false⟩, ⟨1, 0, .proberSetup⟩, ⟨1, 0, .proberInsert 2000 0⟩]

/-- The list node of the probe inserted at time 2000 by the second call of
`reuseSchedule` to the destination `ip`, the second node the engine creates. -/
def reuseNode (ip : Nat) (drop : Bool) : Element :=
  { id := 1,
    Value := { NetaddrIP := ip, Seq := 0, Send := 2000, Expiry := 3000, FakeDrop := drop } }

/-- A normal-mode engine with two Receivers serves one call with two packets
to the destination 7. The reply to the probe (7, 0), inserted at time 100,
arrives twice; both Receivers find the probe in their lookup, and so does the
Expirer in its recheck at the deadline; both Receivers then enqueue a
`PingSuccess`, which fills the success channel of capacity 2, and the Expirer
enqueues a `PingExpired`. The call consumes the expiry, sleeps out the interval
and inserts the probe (7, 1) at time 1300. -/
def fullChannelSchedule : List Move :=
  [⟨0, 0, .proberSetup⟩, ⟨0, 0, .proberInsert 100 0⟩, ⟨0, 0, .expirerTop false⟩,
   ⟨0, 0, .receiverRead 7 0 150⟩, ⟨0, 1, .receiverRead 7 0 151⟩, ⟨0, 0, .expirerWake false⟩,
   ⟨0, 0, .expirerRecheck⟩, ⟨0, 0, .receiverCommit⟩, ⟨0, 1, .receiverCommit⟩,
   ⟨0, 0, .expirerCommit⟩, ⟨0, 0, .expirerSendExpired⟩, ⟨0, 0, .expirerTop false⟩,
   ⟨0, 0, .proberSelect .expired⟩, ⟨0, 0, .proberSleep .wake⟩, ⟨0, 0, .proberInsert 1300 0⟩]

/-- After `fullChannelSchedule` the reply to the probe (7, 1) arrives at time
1350: the first Receiver finds the probe, takes the lock and blocks in its
send on the full channel. The caller then cancels the call, which leaves its
loop and arrives at its teardown. -/
def blockedReceiverSchedule : List Move :=
  fullChannelSchedule ++
    [⟨0, 0, .receiverRead 7 1 1350⟩, ⟨0, 0, .receiverCommit⟩, ⟨0, 0, .proberSelect .done⟩,
     ⟨0, 0, .proberInsert 1400 0⟩]

/-- The list node of the probe (7, 1) inserted at time 1300 by
`fullChannelSchedule`, the second node the engine creates. -/
def secondNode : Element :=
  { id := 1,
    Value := { NetaddrIP := 7, Seq := 1, Send := 1300, Expiry := 2300, FakeDrop := false } }

/-- The calls of `fullChannelSchedule`: two packets to the destination 7. -/
def twoPacketCalls : Nat → Call := fun _ => ⟨7, 2, false, 0⟩

/-- The states of a normal-mode engine after `reuseSchedule` with a second
call to the destination 9: the list holds the node left by the cancelled call
to the destination 7, whose key is gone, and behind it the node of the second
call; the Expirer goes round on the head; the second call waits in its blocking
`select` with empty channels. -/
structure ResidualInv (e : Engine) : Prop where
  list : ∃ v0 v1, e.ie.ExpiresDLL = [⟨0, v0⟩, ⟨1, v1⟩] ∧ v0.NetaddrIP = 7 ∧ v0.Seq = 0
  others : ∀ ip, ip ≠ 9 → e.ie.Pings ip = none
  mode : e.ie.FakeSuccess = false
  unlocked : e.lockHeld = false
  first : (e.probers 0).pc = .returned
  second : (e.probers 1).pc = .select
  fails : (e.probers 1).st.results.Failures = 0
  succs : (e.probers 1).st.results.Successes = 0
  emptyS : (e.successQ (e.probers 1).successCh).queue = []
  emptyE : (e.expiredQ (e.probers 1).expiredCh).queue = []
  recv : ∀ r, e.receivers r = .idle
  exp : e.expirer = .top ∨
    ∃ v, (e.expirer = .sleeping v ∨ e.expirer = .recheck v true) ∧
      v.NetaddrIP = 7 ∧ v.Seq = 0

/-! ## Part II: theorems -/

/-! ### Wire codec -/

theorem binaryRead_ok_of_length {b : List Byte} (h : 8 ≤ b.length) :
    ∃ b0 b1 b2 b3 b4 b5 b6 b7 rest, b = b0 :: b1 :: b2 :: b3 :: b4 :: b5 :: b6 :: b7 :: rest := by
  match b, h with
  | b0 :: b1 :: b2 :: b3 :: b4 :: b5 :: b6 :: b7 :: rest, _ =>
    exact ⟨b0, b1, b2, b3, b4, b5, b6, b7, rest, rfl⟩

theorem ParseICMPEchoReply_cons8 (b0 b1 b2 b3 b4 b5 b6 b7 : Byte) (rest : List Byte) :
    ParseICMPEchoReply (b0 :: b1 :: b2 :: b3 :: b4 :: b5 :: b6 :: b7 :: rest) = .ok
      { Type_ := b0.val, Code := b1.val, Checksum := bigEndianUint16 b2 b3,
        Identifier := bigEndianUint16 b4 b5, Seq := bigEndianUint16 b6 b7 } := by
  have hlen : ¬ (b0 :: b1 :: b2 :: b3 :: b4 :: b5 :: b6 :: b7 :: rest).length < 8 := by
    simp only [List.length_cons]
    omega
  simp only [ParseICMPEchoReply, if_neg hlen, binaryRead]

/-- C5: `ParseICMPEchoReply b` returns `errMessageTooShort` exactly when `b` has
fewer than 8 bytes, and for every `b` of at least 8 bytes it returns a reply
and no error. -/
theorem C5_parse_too_short_iff (b : List Byte) :
    (ParseICMPEchoReply b = .error .errMessageTooShort ↔ b.length < 8) ∧
    (8 ≤ b.length → ∃ er, ParseICMPEchoReply b = .ok er) := by
  constructor
  · constructor
    · intro h
      by_contra hlen
      obtain ⟨b0, b1, b2, b3, b4, b5, b6, b7, rest, rfl⟩ :=
        binaryRead_ok_of_length (Nat.le_of_not_lt hlen)
      rw [ParseICMPEchoReply_cons8] at h
      cases h
    · intro h
      simp [ParseICMPEchoReply, h]
  · intro h
    obtain ⟨b0, b1, b2, b3, b4, b5, b6, b7, rest, rfl⟩ := binaryRead_ok_of_length h
    exact ⟨_, ParseICMPEchoReply_cons8 _ _ _ _ _ _ _ _ _⟩

/-- C6: for a slice of at least 8 bytes the header is decoded big-endian from
the first 8 bytes, and the bytes from index 8 onwards do not affect the
result. -/
theorem C6_parse_big_endian (b : List Byte) (h : 8 ≤ b.length) :
    ParseICMPEchoReply b = .ok
      { Type_ := (b.get ⟨0, by omega⟩).val,
        Code := (b.get ⟨1, by omega⟩).val,
        Checksum := 256 * (b.get ⟨2, by omega⟩).val + (b.get ⟨3, by omega⟩).val,
        Identifier := 256 * (b.get ⟨4, by omega⟩).val + (b.get ⟨5, by omega⟩).val,
        Seq := 256 * (b.get ⟨6, by omega⟩).val + (b.get ⟨7, by omega⟩).val } ∧
    ParseICMPEchoReply b = ParseICMPEchoReply (b.take 8) ∧
    (∀ b2 : List Byte, b2.take 8 = b.take 8 → ParseICMPEchoReply b2 = ParseICMPEchoReply b) := by
  obtain ⟨b0, b1, b2, b3, b4, b5, b6, b7, rest, rfl⟩ := binaryRead_ok_of_length h
  refine ⟨by simp [ParseICMPEchoReply_cons8, bigEndianUint16], by
    simp [ParseICMPEchoReply_cons8], ?_⟩
  intro c hc
  have hlen : 8 ≤ c.length := by
    have := congrArg List.length hc
    simp at this
    omega
  obtain ⟨c0, c1, c2, c3, c4, c5, c6, c7, crest, rfl⟩ := binaryRead_ok_of_length hlen
  simp at hc
  obtain ⟨h0, h1, h2, h3, h4, h5, h6, h7⟩ := hc
  subst h0 h1 h2 h3 h4 h5 h6 h7
  simp [ParseICMPEchoReply_cons8]

/-- Witness for C6 on the echo reply `00 00 ff f5 00 0a 01 02` followed by one
payload byte. -/
theorem C6_parse_big_endian_witness :
    ParseICMPEchoReply [0, 0, 255, 245, 0, 10, 1, 2, 77] = .ok
      { Type_ := 0, Code := 0, Checksum := 65525, Identifier := 10, Seq := 258 } :=
  (C6_parse_big_endian [0, 0, 255, 245, 0, 10, 1, 2, 77] (by decide)).1

/-! ### Receiver back-off table -/

/-- C7: `tiarCalculator` returns `mHigh` if `tiar ≥ high`, otherwise `mMedium`
if `tiar ≥ medium`, otherwise `mLow` if `tiar ≥ low`, otherwise `1`; with the
thresholds (5, 10, 20) and factors (2, 10, 20) the streaks 0, 4, 5, 10, 20,
1000 give 1, 1, 2, 10, 20, 20. -/
theorem C7_tiarCalculator_table :
    (∀ (α : Type) [One α] (tiar low medium high : Int) (mLow mMedium mHigh : α),
      (high ≤ tiar → tiarCalculator tiar low medium high mLow mMedium mHigh = mHigh) ∧
      (tiar < high → medium ≤ tiar →
        tiarCalculator tiar low medium high mLow mMedium mHigh = mMedium) ∧
      (tiar < high → tiar < medium → low ≤ tiar →
        tiarCalculator tiar low medium high mLow mMedium mHigh = mLow) ∧
      (tiar < high → tiar < medium → tiar < low →
        tiarCalculator tiar low medium high mLow mMedium mHigh = 1)) ∧
    timeoutsInARowCalculator 0 = 1 ∧
    timeoutsInARowCalculator (tiarLow - 1) = 1 ∧
    timeoutsInARowCalculator tiarLow = 2 ∧
    timeoutsInARowCalculator tiarMedium = 10 ∧
    timeoutsInARowCalculator tiarHigh = 20 ∧
    timeoutsInARowCalculator 1000 = 20 ∧
    (tiarLow, tiarMedium, tiarHigh) = (5, 10, 20) ∧
    (multiLow, multiMedium, multiHigh) = (2, 10, 20) := by
  refine ⟨?_, ?_, ?_, ?_, ?_, ?_, ?_, ?_, ?_⟩
  · intro α _ tiar low medium high mLow mMedium mHigh
    refine ⟨?_, ?_, ?_, ?_⟩
    · intro h
      simp [tiarCalculator, h]
    · intro h1 h2
      simp [tiarCalculator, not_le.mpr h1, h2]
    · intro h1 h2 h3
      simp [tiarCalculator, not_le.mpr h1, not_le.mpr h2, h3]
    · intro h1 h2 h3
      simp [tiarCalculator, not_le.mpr h1, not_le.mpr h2, not_le.mpr h3]
  all_goals
    simp [timeoutsInARowCalculator, tiarCalculator, tiarLow, tiarMedium, tiarHigh, multiLow,
      multiMedium, multiHigh]

/-! ### Machine arithmetic -/

theorem roundHalfEven_spec (q : ℚ) :
    |(roundHalfEven q : ℚ) - q| ≤ 1 / 2 ∧
    (|(roundHalfEven q : ℚ) - q| = 1 / 2 → roundHalfEven q % 2 = 0) := by
  have h1 := Int.floor_le q
  have h2 := Int.lt_floor_add_one q
  unfold roundHalfEven
  split_ifs with ha hb hc
  · constructor
    · rw [abs_le]; constructor <;> linarith
    · intro h
      rw [abs_sub_comm, abs_of_nonneg (by linarith)] at h
      linarith
  · constructor
    · rw [abs_le]; push_cast; constructor <;> linarith
    · intro h
      push_cast at h
      rw [abs_of_nonneg (by linarith)] at h
      linarith
  · constructor
    · rw [abs_le]; constructor <;> linarith
    · intro _; exact hc
  · constructor
    · rw [abs_le]; push_cast; constructor <;> linarith
    · intro _; omega

theorem roundHalfEven_unique (q : ℚ) (R : Int) (h1 : |(R : ℚ) - q| ≤ 1 / 2)
    (h2 : |(R : ℚ) - q| = 1 / 2 → R % 2 = 0) : roundHalfEven q = R := by
  obtain ⟨s1, s2⟩ := roundHalfEven_spec q
  rw [abs_le] at h1 s1
  have hd : ((roundHalfEven q - R : Int) : ℚ) ≤ 1 ∧ (-1 : ℚ) ≤ ((roundHalfEven q - R : Int) : ℚ) := by
    push_cast; constructor <;> linarith
  have hd1 : roundHalfEven q - R ≤ 1 := by exact_mod_cast hd.1
  have hd2 : -1 ≤ roundHalfEven q - R := by exact_mod_cast hd.2
  by_contra hne
  have hcase : roundHalfEven q - R = 1 ∨ roundHalfEven q - R = -1 := by omega
  rcases hcase with hc | hc
  · have hcq : (roundHalfEven q : ℚ) - R = 1 := by exact_mod_cast hc
    have e1 : (roundHalfEven q : ℚ) - q = 1 / 2 := by linarith
    have e2 : (R : ℚ) - q = -(1 / 2) := by linarith
    have p1 := s2 (by rw [e1]; norm_num)
    have p2 := h2 (by rw [e2]; norm_num)
    omega
  · have hcq : (roundHalfEven q : ℚ) - R = -1 := by exact_mod_cast hc
    have e1 : (roundHalfEven q : ℚ) - q = -(1 / 2) := by linarith
    have e2 : (R : ℚ) - q = 1 / 2 := by linarith
    have p1 := s2 (by rw [e1]; norm_num)
    have p2 := h2 (by rw [e2]; norm_num)
    omega

theorem roundHalfEven_intCast (m : Int) : roundHalfEven (m : ℚ) = m :=
  roundHalfEven_unique _ m (by simp) (by simp)

theorem roundHalfEven_neg (q : ℚ) : roundHalfEven (-q) = -roundHalfEven q := by
  obtain ⟨s1, s2⟩ := roundHalfEven_spec q
  have e : |((-roundHalfEven q : Int) : ℚ) - -q| = |(roundHalfEven q : ℚ) - q| := by
    push_cast
    rw [← abs_neg]
    congr 1
    ring
  apply roundHalfEven_unique
  · rw [e]; exact s1
  · intro h
    rw [e] at h
    have := s2 h
    omega

theorem roundHalfEven_le {q : ℚ} {m : Int} (h : q < m + 1 / 2) : roundHalfEven q ≤ m := by
  obtain ⟨s1, _⟩ := roundHalfEven_spec q
  rw [abs_le] at s1
  have : ((roundHalfEven q : Int) : ℚ) < ((m + 1 : Int) : ℚ) := by push_cast; linarith
  have : roundHalfEven q < m + 1 := by exact_mod_cast this
  omega

theorem le_roundHalfEven {q : ℚ} {m : Int} (h : (m : ℚ) - 1 / 2 < q) : m ≤ roundHalfEven q := by
  obtain ⟨s1, _⟩ := roundHalfEven_spec q
  rw [abs_le] at s1
  have : ((m - 1 : Int) : ℚ) < ((roundHalfEven q : Int) : ℚ) := by push_cast; linarith
  have : m - 1 < roundHalfEven q := by exact_mod_cast this
  omega

theorem float64Ulp_pos (x : ℚ) : 0 < float64Ulp x := by
  unfold float64Ulp
  positivity

theorem float64Exponent_neg (x : ℚ) : float64Exponent (-x) = float64Exponent x := by
  unfold float64Exponent
  rw [abs_neg]

theorem roundFloat64_neg (x : ℚ) : roundFloat64 (-x) = -roundFloat64 x := by
  unfold roundFloat64 float64Ulp
  rw [float64Exponent_neg, neg_div, roundHalfEven_neg]
  push_cast
  ring

theorem roundFloat64_zero : roundFloat64 0 = 0 := by
  unfold roundFloat64
  rw [zero_div]
  have := roundHalfEven_intCast 0
  simp only [Int.cast_zero] at this
  rw [this]
  simp

/-- The binade of `x`. -/
theorem float64Exponent_eq {x : ℚ} {e : Int} (he : -1022 ≤ e) (h1 : (2 : ℚ) ^ e ≤ |x|)
    (h2 : |x| < (2 : ℚ) ^ (e + 1)) : float64Exponent x = e := by
  have hpos : 0 < |x| := lt_of_lt_of_le (by positivity) h1
  have a1 : e ≤ Int.log 2 |x| := (Int.zpow_le_iff_le_log (by norm_num) hpos).mp (by exact_mod_cast h1)
  have a2 : Int.log 2 |x| < e + 1 := (Int.lt_zpow_iff_log_lt (by norm_num) hpos).mp (by exact_mod_cast h2)
  unfold float64Exponent
  omega

/-- A multiple of the unit in the last place is a `float64`. -/
theorem roundFloat64_of_grid {x : ℚ} (m : Int) (h : x = m * float64Ulp x) :
    roundFloat64 x = x := by
  have hu := float64Ulp_pos x
  unfold roundFloat64
  have : x / float64Ulp x = (m : ℚ) := by
    rw [div_eq_iff hu.ne']
    exact h
  rw [this, roundHalfEven_intCast]
  exact h.symm


/-- Integers of magnitude at most `2^53` are `float64` values. -/
theorem roundFloat64_intCast {z : Int} (hz : |z| ≤ 9007199254740992) :
    roundFloat64 (z : ℚ) = z := by
  by_cases h0 : z = 0
  · subst h0
    simpa using roundFloat64_zero
  have hq : |(z : ℚ)| ≤ 9007199254740992 := by exact_mod_cast hz
  have h1 : (1 : ℚ) ≤ |(z : ℚ)| := by
    have : (1 : Int) ≤ |z| := Int.one_le_abs h0
    exact_mod_cast this
  by_cases htop : |z| = 9007199254740992
  · have hqt : |(z : ℚ)| = 9007199254740992 := by exact_mod_cast htop
    have he : float64Exponent (z : ℚ) = 53 :=
      float64Exponent_eq (by norm_num) (by rw [hqt]; norm_num) (by rw [hqt]; norm_num)
    have hu : float64Ulp (z : ℚ) = 2 := by
      unfold float64Ulp
      rw [he]
      norm_num
    obtain ⟨k, hk⟩ : ∃ k : Int, z = k * 2 := by
      rcases abs_eq (by norm_num : (0 : Int) ≤ 9007199254740992) |>.mp htop with h | h
      · exact ⟨4503599627370496, by rw [h]; norm_num⟩
      · exact ⟨-4503599627370496, by rw [h]; norm_num⟩
    apply roundFloat64_of_grid k
    rw [hu, hk]
    push_cast
    ring
  · have hlt : |(z : ℚ)| < 9007199254740992 := by
      have : |z| < 9007199254740992 := lt_of_le_of_ne hz htop
      exact_mod_cast this
    have hpos : 0 < |(z : ℚ)| := by linarith
    have a1 : (0 : Int) ≤ Int.log 2 |(z : ℚ)| :=
      (Int.zpow_le_iff_le_log (by norm_num) hpos).mp (by simpa using h1)
    have a2 : Int.log 2 |(z : ℚ)| < 53 :=
      (Int.lt_zpow_iff_log_lt (by norm_num) hpos).mp (by norm_num; exact hlt)
    have he : float64Exponent (z : ℚ) = Int.log 2 |(z : ℚ)| := by
      unfold float64Exponent
      omega
    obtain ⟨j, hj⟩ : ∃ j : Nat, (j : Int) = 52 - Int.log 2 |(z : ℚ)| :=
      ⟨(52 - Int.log 2 |(z : ℚ)|).toNat, by omega⟩
    have hu : float64Ulp (z : ℚ) = ((2 : ℚ) ^ j)⁻¹ := by
      unfold float64Ulp
      rw [he, ← zpow_natCast, hj, ← zpow_neg]
      congr 1
      ring
    apply roundFloat64_of_grid (z * 2 ^ j)
    rw [hu]
    push_cast
    field_simp


theorem truncateFloat_neg (x : ℚ) : truncateFloat (-x) = -truncateFloat x := by
  unfold truncateFloat
  rcases lt_trichotomy x 0 with h | h | h
  · rw [if_pos (by linarith), if_neg (by linarith), Int.floor_neg]
  · subst h
    simp
  · rw [if_neg (by linarith), if_pos (by linarith), Int.ceil_neg]

theorem truncateFloat_of_bounds {y : ℚ} {k : Int} (h0 : 0 ≤ k) (h1 : (k : ℚ) ≤ y)
    (h2 : y < (k : ℚ) + 1) : truncateFloat y = k := by
  have hy : (0 : ℚ) ≤ y := le_trans (by exact_mod_cast h0) h1
  unfold truncateFloat
  rw [if_pos hy]
  exact Int.floor_eq_iff.mpr ⟨h1, h2⟩

theorem float64Exponent_zpow_le {x : ℚ} (hx : 0 < x) :
    (2 : ℚ) ^ float64Exponent x ≤ x ∨ (2 : ℚ) ^ float64Exponent x ≤ 1 / 2 := by
  unfold float64Exponent
  rw [abs_of_pos hx]
  by_cases h : -1022 ≤ Int.log 2 x
  · left
    rw [max_eq_left h]
    exact Int.zpow_log_le_self (by norm_num) hx
  · right
    rw [max_eq_right (by omega)]
    calc (2 : ℚ) ^ (-1022 : Int) ≤ (2 : ℚ) ^ (-1 : Int) :=
          zpow_le_zpow_right₀ (by norm_num) (by norm_num)
      _ = 1 / 2 := by norm_num

theorem float64Exponent_lt {x : ℚ} (hx : 0 < x) {b : Int} (hb : -1022 < b)
    (h : x < (2 : ℚ) ^ b) : float64Exponent x < b := by
  have a2 : Int.log 2 x < b := (Int.lt_zpow_iff_log_lt (by norm_num) hx).mp (by exact_mod_cast h)
  unfold float64Exponent
  rw [abs_of_pos hx]
  omega

/-- The correctly rounded quotient of a non-negative integer below `2^53` by a
positive integer does not reach the next integer. -/
theorem roundFloat64_div_nonneg {a : Int} {n : Nat} (ha0 : 0 ≤ a) (ha : a < 9007199254740992)
    (hn1 : 1 ≤ n) (hn2 : n ≤ 9007199254740992) :
    ((a / (n : Int) : Int) : ℚ) ≤ roundFloat64 ((a : ℚ) / n) ∧
    roundFloat64 ((a : ℚ) / n) < ((a / (n : Int) : Int) : ℚ) + 1 := by
  have hnq : (0 : ℚ) < n := by exact_mod_cast hn1
  have hnz : (0 : Int) < n := by exact_mod_cast hn1
  by_cases h0 : a = 0
  · subst h0
    simp [roundFloat64_zero]
  have hapos : 0 < a := by omega
  have haq : (0 : ℚ) < a := by exact_mod_cast hapos
  have hx : (0 : ℚ) < (a : ℚ) / n := div_pos haq hnq
  have hk1 : a / (n : Int) * n ≤ a := Int.ediv_mul_le a hnz.ne'
  have hk2 : a + 1 ≤ (a / (n : Int) + 1) * n := Int.add_one_le_iff.mpr (Int.lt_ediv_add_one_mul_self a hnz)
  generalize a / (n : Int) = k at hk1 hk2 ⊢
  have hk1q : (k : ℚ) * n ≤ a := by exact_mod_cast hk1
  have hk2q : (a : ℚ) + 1 ≤ ((k : ℚ) + 1) * n := by exact_mod_cast hk2
  have hn1q : (1 : ℚ) ≤ n := by exact_mod_cast hn1
  have hn2q : (n : ℚ) ≤ 9007199254740992 := by exact_mod_cast hn2
  have haq2 : (a : ℚ) < 9007199254740992 := by exact_mod_cast ha
  have hxlt : (a : ℚ) / n < (2 : ℚ) ^ (53 : Int) := by
    rw [div_lt_iff₀ hnq]
    norm_num
    nlinarith
  have he52 := float64Exponent_lt hx (by norm_num) hxlt
  obtain ⟨j, hj⟩ : ∃ j : Nat, (j : Int) = 52 - float64Exponent ((a : ℚ) / n) :=
    ⟨(52 - float64Exponent ((a : ℚ) / n)).toNat, by omega⟩
  have hP : (0 : ℚ) < 2 ^ j := by positivity
  have hpow : (2 : ℚ) ^ float64Exponent ((a : ℚ) / n) = 4503599627370496 / 2 ^ j := by
    have : float64Exponent ((a : ℚ) / n) = 52 - (j : Int) := by omega
    rw [this, zpow_sub₀ (by norm_num), zpow_natCast]
    norm_num
  have hu : float64Ulp ((a : ℚ) / n) = ((2 : ℚ) ^ j)⁻¹ := by
    unfold float64Ulp
    rw [← zpow_natCast, hj, ← zpow_neg]
    congr 1
    ring
  have hn2P : (n : ℚ) < 2 * 2 ^ j := by
    rcases float64Exponent_zpow_le hx with h | h
    · rw [hpow, div_le_div_iff₀ hP hnq] at h
      nlinarith
    · rw [hpow, div_le_iff₀ hP] at h
      linarith
  have hxk1 : (k : ℚ) ≤ (a : ℚ) / n := by
    rw [le_div_iff₀ hnq]
    exact hk1q
  have hxk2 : (a : ℚ) / n ≤ (k : ℚ) + 1 - 1 / n := by
    rw [div_le_iff₀ hnq, sub_mul, one_div, inv_mul_cancel₀ hnq.ne']
    linarith
  have hinv : (1 : ℚ) / (2 * 2 ^ j) < 1 / n := one_div_lt_one_div_of_lt hnq hn2P
  have hlow : k * 2 ^ j ≤ roundHalfEven ((a : ℚ) / n * 2 ^ j) := by
    apply le_roundHalfEven
    push_cast
    nlinarith
  have hupp : roundHalfEven ((a : ℚ) / n * 2 ^ j) ≤ (k + 1) * 2 ^ j - 1 := by
    apply roundHalfEven_le
    push_cast
    have h3 : (a : ℚ) / n * 2 ^ j ≤ ((k : ℚ) + 1 - 1 / n) * 2 ^ j :=
      mul_le_mul_of_nonneg_right hxk2 hP.le
    have h4 : (1 : ℚ) / (2 * 2 ^ j) * 2 ^ j < 1 / n * 2 ^ j := mul_lt_mul_of_pos_right hinv hP
    have h5 : (1 : ℚ) / (2 * 2 ^ j) * 2 ^ j = 1 / 2 := by
      field_simp
      ring
    nlinarith
  have hlowq : ((k : ℚ)) * 2 ^ j ≤ (roundHalfEven ((a : ℚ) / n * 2 ^ j) : ℚ) := by
    exact_mod_cast hlow
  have huppq : (roundHalfEven ((a : ℚ) / n * 2 ^ j) : ℚ) ≤ ((k : ℚ) + 1) * 2 ^ j - 1 := by
    exact_mod_cast hupp
  unfold roundFloat64
  rw [hu, div_inv_eq_mul]
  constructor
  · rw [← div_eq_mul_inv, le_div_iff₀ hP]
    exact hlowq
  · rw [← div_eq_mul_inv, div_lt_iff₀ hP]
    linarith

/-- Below `2^53` the `float64` quotient converted back to an integer is the
integer quotient truncated toward zero. -/
theorem float64Quotient_eq {a : Int} {n : Nat} (ha : |a| < 9007199254740992) (hn1 : 1 ≤ n)
    (hn2 : n ≤ 9007199254740992) : float64Quotient a n = some (Int.tdiv a n) := by
  have hnz : (0 : Int) ≤ n := Int.natCast_nonneg n
  have hfa : roundFloat64 (a : ℚ) = a := roundFloat64_intCast ha.le
  have hfn : roundFloat64 (n : ℚ) = n := by
    have := @roundFloat64_intCast (n : Int) (by rw [abs_of_nonneg hnz]; exact_mod_cast hn2)
    simpa using this
  unfold float64Quotient durationOfFloat
  rw [if_neg (by omega), hfa, hfn]
  have key : ∀ b : Int, 0 ≤ b → b < 9007199254740992 →
      truncateFloat (roundFloat64 ((b : ℚ) / n)) = b / (n : Int) ∧
      0 ≤ b / (n : Int) ∧ b / (n : Int) ≤ b := by
    intro b hb0 hb
    obtain ⟨h1, h2⟩ := roundFloat64_div_nonneg hb0 hb hn1 hn2
    have hk0 : 0 ≤ b / (n : Int) := Int.ediv_nonneg hb0 hnz
    refine ⟨truncateFloat_of_bounds hk0 h1 h2, hk0, ?_⟩
    exact Int.ediv_le_self _ hb0
  rcases le_or_lt 0 a with h | h
  · have ha2 : a < 9007199254740992 := by
      rw [abs_of_nonneg h] at ha
      exact ha
    obtain ⟨k1, k2, k3⟩ := key a h ha2
    rw [Int.tdiv_eq_ediv h hnz]
    simp only [k1]
    rw [if_pos (by omega)]
  · have ha2 : -a < 9007199254740992 := by
      rw [abs_of_neg h] at ha
      exact ha
    obtain ⟨k1, k2, k3⟩ := key (-a) (by omega) ha2
    have hneg : (a : ℚ) / n = -(((-a : Int) : ℚ) / n) := by
      push_cast
      ring
    have ht : Int.tdiv a n = -((-a) / (n : Int)) := by
      rw [← Int.tdiv_eq_ediv (by omega) hnz, Int.neg_tdiv, neg_neg]
    rw [hneg, roundFloat64_neg, ht]
    simp only [truncateFloat_neg, k1]
    rw [if_pos (by omega)]

/-- The value of `roundFloat64` from the binade of `x` and the nearest multiple
of the unit in the last place. -/
theorem roundFloat64_eq_of {x : ℚ} {e R : Int} (he : -1022 ≤ e) (h1 : (2 : ℚ) ^ e ≤ |x|)
    (h2 : |x| < (2 : ℚ) ^ (e + 1)) (h3 : |(R : ℚ) - x / (2 : ℚ) ^ (e - 52)| ≤ 1 / 2)
    (h4 : |(R : ℚ) - x / (2 : ℚ) ^ (e - 52)| = 1 / 2 → R % 2 = 0) :
    roundFloat64 x = R * (2 : ℚ) ^ (e - 52) := by
  unfold roundFloat64 float64Ulp
  rw [float64Exponent_eq he h1 h2, roundHalfEven_unique _ R h3 h4]

theorem roundFloat64_nonpos {x : ℚ} (h : x ≤ 0) : roundFloat64 x ≤ 0 := by
  have hu := float64Ulp_pos x
  unfold roundFloat64
  have : roundHalfEven (x / float64Ulp x) ≤ 0 := by
    apply roundHalfEven_le
    have : x / float64Ulp x ≤ 0 := div_nonpos_of_nonpos_of_nonneg h hu.le
    push_cast
    linarith
  have hq : (roundHalfEven (x / float64Ulp x) : ℚ) ≤ 0 := by exact_mod_cast this
  exact mul_nonpos_of_nonpos_of_nonneg hq hu.le

/-- Rounding a value of the open unit interval: the result stays in `[0, 1]`
and is within `2^-54` of the value. -/
theorem roundFloat64_unit {y : ℚ} (h0 : 0 < y) (h1 : y < 1) :
    0 ≤ roundFloat64 y ∧ roundFloat64 y ≤ 1 ∧
    |roundFloat64 y - y| ≤ 1 / 18014398509481984 ∧
    (∀ m : Int, y = m / 9007199254740992 → roundFloat64 y = y) ∧
    (1 - 1 / 18014398509481984 ≤ y → roundFloat64 y = 1) := by
  have he := float64Exponent_lt h0 (by norm_num : (-1022 : Int) < 0) (by simpa using h1)
  obtain ⟨j, hj⟩ : ∃ j : Nat, (j : Int) = -1 - float64Exponent y :=
    ⟨(-1 - float64Exponent y).toNat, by omega⟩
  have hP : (0 : ℚ) < 2 ^ j := by positivity
  have hP1 : (1 : ℚ) ≤ 2 ^ j := one_le_pow₀ (by norm_num)
  have hu : float64Ulp y = ((2 : ℚ) ^ j * 9007199254740992)⁻¹ := by
    unfold float64Ulp
    have : float64Exponent y - 52 = -((j : Int) + 53) := by omega
    rw [this, zpow_neg, zpow_add₀ (by norm_num), zpow_natCast]
    norm_num
  have hB : (0 : ℚ) < 2 ^ j * 9007199254740992 := by positivity
  obtain ⟨s1, _⟩ := roundHalfEven_spec (y * (2 ^ j * 9007199254740992))
  have hR0 : (0 : Int) ≤ roundHalfEven (y * (2 ^ j * 9007199254740992)) := by
    apply le_roundHalfEven
    have : 0 < y * (2 ^ j * 9007199254740992) := mul_pos h0 hB
    push_cast
    linarith
  have hR1 : roundHalfEven (y * (2 ^ j * 9007199254740992)) ≤ 2 ^ j * 9007199254740992 := by
    apply roundHalfEven_le
    push_cast
    nlinarith
  have hR0q : (0 : ℚ) ≤ roundHalfEven (y * (2 ^ j * 9007199254740992)) := by exact_mod_cast hR0
  have hR1q : (roundHalfEven (y * (2 ^ j * 9007199254740992)) : ℚ) ≤
      2 ^ j * 9007199254740992 := by exact_mod_cast hR1
  have hval : roundFloat64 y =
      roundHalfEven (y * (2 ^ j * 9007199254740992)) / (2 ^ j * 9007199254740992) := by
    unfold roundFloat64
    rw [hu, div_inv_eq_mul, div_eq_mul_inv]
  refine ⟨?_, ?_, ?_, ?_, ?_⟩
  · rw [hval]
    exact div_nonneg hR0q hB.le
  · rw [hval, div_le_one hB]
    exact hR1q
  · rw [hval]
    have : (roundHalfEven (y * (2 ^ j * 9007199254740992)) : ℚ) / (2 ^ j * 9007199254740992) - y =
        ((roundHalfEven (y * (2 ^ j * 9007199254740992)) : ℚ) - y * (2 ^ j * 9007199254740992)) /
          (2 ^ j * 9007199254740992) := by
      field_simp
      ring
    rw [this, abs_div, abs_of_pos hB, div_le_iff₀ hB]
    calc |(roundHalfEven (y * (2 ^ j * 9007199254740992)) : ℚ) - y * (2 ^ j * 9007199254740992)|
        ≤ 1 / 2 := s1
      _ ≤ 1 / 18014398509481984 * (2 ^ j * 9007199254740992) := by nlinarith
  · intro m hm
    apply roundFloat64_of_grid (m * 2 ^ j)
    rw [hu, hm]
    push_cast
    field_simp
    ring
  · intro hy
    have hj0 : j = 0 := by
      by_contra hne
      have hlt : float64Exponent y < -1 := by omega
      have hh : (1 / 2 : ℚ) ≤ |y| := by
        rw [abs_of_pos h0]
        linarith
      have a1 : (-1 : Int) ≤ Int.log 2 |y| :=
        (Int.zpow_le_iff_le_log (by norm_num) (by linarith)).mp (by norm_num; exact hh)
      unfold float64Exponent at hlt
      omega
    subst hj0
    rw [hval]
    have : roundHalfEven (y * (2 ^ 0 * 9007199254740992)) = 9007199254740992 := by
      apply roundHalfEven_unique
      · rw [abs_le]
        push_cast
        constructor <;> nlinarith
      · intro _
        decide
    rw [this]
    norm_num

/-- The `float64` difference `1 - 3 * 2^-54` is `1 - 2^-52`. -/
theorem roundFloat64_near_one :
    roundFloat64 (1 - 3 / 18014398509481984) = 9007199254740990 / 9007199254740992 := by
  have h := @roundFloat64_eq_of (1 - 3 / 18014398509481984) (-1) 9007199254740990
    (by norm_num) (by rw [abs_of_pos (by norm_num)]; norm_num)
    (by rw [abs_of_pos (by norm_num)]; norm_num)
    (by norm_num [abs_le]) (by intro _; decide)
  rw [h]
  norm_num

theorem roundFloat64_above_two_pow_53 :
    roundFloat64 (9007199254740993 : ℚ) = 9007199254740992 := by
  have h := @roundFloat64_eq_of 9007199254740993 53 4503599627370496
    (by norm_num) (by rw [abs_of_pos (by norm_num)]; norm_num)
    (by rw [abs_of_pos (by norm_num)]; norm_num)
    (by norm_num [abs_le]) (by intro _; decide)
  rw [h]
  norm_num

theorem durationOfFloat_intCast {z : Int} (h1 : -9223372036854775808 ≤ z)
    (h2 : z < 9223372036854775808) : durationOfFloat (z : ℚ) = some z := by
  have : truncateFloat (z : ℚ) = z := by
    unfold truncateFloat
    split <;> simp
  unfold durationOfFloat
  simp only [this]
  rw [if_pos ⟨h1, h2⟩]

/-! ### Prober statistics -/

theorem wrapInt64_of_range {x : Int} (h1 : -9223372036854775808 ≤ x)
    (h2 : x < 9223372036854775808) : wrapInt64 x = x := by
  unfold wrapInt64
  omega

@[simp] theorem wrapInt64_zero : wrapInt64 0 = 0 := by
  unfold wrapInt64
  omega

theorem wrapInt64_add (a b : Int) : wrapInt64 (wrapInt64 a + b) = wrapInt64 (a + b) := by
  unfold wrapInt64
  omega

theorem wrapInt64_range (x : Int) :
    -9223372036854775808 ≤ wrapInt64 x ∧ wrapInt64 x < 9223372036854775808 := by
  unfold wrapInt64
  omega

theorem onSuccess_ok {DebugLevel : Int} {packets i : Nat} {ps : PingSuccess}
    {r r2 : PingerResults} (h : onSuccess DebugLevel packets i ps r = .ok r2) :
    i < r.RTTs.length ∧ ¬ (DebugLevel > 100 ∧ packets / PingerFractionModulo = 0) ∧
    r2.IP = r.IP ∧ r2.Successes = r.Successes + 1 ∧ r2.Failures = r.Failures ∧
    r2.OutOfOrder = r.OutOfOrder + (if ps.Seq ≠ i then 1 else 0) ∧
    r2.RTTs = r.RTTs.set i ps.RTT ∧ r2.Count = r.Count ∧
    r2.Min = (if r.Successes = 0 then ps.RTT else min ps.RTT r.Min) ∧
    r2.Max = (if r.Successes = 0 then ps.RTT else max ps.RTT r.Max) ∧
    r2.Mean = r.Mean + floatQuotient (ps.RTT - r.Mean) (r.Successes + 1) ∧
    r2.Sum = wrapInt64 (r.Sum + ps.RTT) := by
  unfold onSuccess at h
  by_cases hi : i < r.RTTs.length
  · by_cases hd : DebugLevel > 100 ∧ packets / PingerFractionModulo = 0
    · simp [hi, hd] at h
    · simp only [hi, hd, if_true, if_false] at h
      refine ⟨hi, hd, ?_⟩
      by_cases hs : r.Successes = 0 <;> by_cases hq : ps.Seq = i <;>
        by_cases h1 : ps.RTT < r.Min <;> by_cases h2 : ps.RTT > r.Max <;>
        simp [hs, hq, h1, h2] at h <;> subst h <;>
        simp [hs, hq, h1, h2, min_def, max_def]
      all_goals clear hd
      all_goals constructor <;> split_ifs <;> omega
  · simp [hi] at h

theorem onSuccess_returns {DebugLevel : Int} {packets i : Nat} (ps : PingSuccess)
    {r : PingerResults} (hi : i < r.RTTs.length)
    (hd : DebugLevel ≤ 100 ∨ 10 ≤ packets) :
    ∃ r2, onSuccess DebugLevel packets i ps r = .ok r2 := by
  have hd2 : ¬ (DebugLevel > 100 ∧ packets / PingerFractionModulo = 0) := by
    rintro ⟨h1, h2⟩
    rcases hd with hd | hd
    · exact absurd h1 (not_lt.mpr hd)
    · have : packets / 10 = 0 := h2
      omega
  unfold onSuccess
  simp only [hi, hd2, if_true, if_false]
  by_cases hq : ps.Seq = i <;> simp [hq]

theorem consumed_succ (env : Nat → Iteration) (n : Nat) :
    consumed env (n + 1) = consumed env n ++ [(env n).sel] := by
  simp [consumed, List.range_succ]

theorem successRTTs_append (l : List SelectEvent) (e : SelectEvent) :
    successRTTs (l ++ [e]) = if e.isSuccess then successRTTs l ++ [e.rtt] else successRTTs l := by
  unfold successRTTs
  by_cases h : e.isSuccess = true <;> simp [List.filter_append, List.filter_cons, h]

theorem afterSelect_i (packets : Nat) (sleep : SleepEvent) (st : LoopState)
    (hp : packets < 65536) (hi : st.i < packets) :
    (afterSelect packets sleep st).i = st.i + 1 := by
  have h1 : ¬ st.i ≥ packets := by omega
  unfold afterSelect checkPackets increment
  simp only [h1, if_false]
  by_cases hk : st.keepLooping = true
  · cases sleep <;> simp [hk, onSleep] <;> omega
  · simp [hk]
    omega

theorem afterSelect_results (packets : Nat) (sleep : SleepEvent) (st : LoopState) :
    (afterSelect packets sleep st).results = st.results := by
  unfold afterSelect checkPackets increment
  by_cases h1 : st.i ≥ packets <;> by_cases hk : st.keepLooping = true <;>
    cases sleep <;> simp [h1, hk, onSleep]

theorem afterSelect_keepLooping (packets : Nat) (sleep : SleepEvent) (st : LoopState)
    (hi : st.i < packets) :
    (afterSelect packets sleep st).keepLooping = (st.keepLooping && decide (sleep = .wake)) := by
  have h1 : ¬ st.i ≥ packets := by omega
  unfold afterSelect checkPackets increment
  by_cases hk : st.keepLooping = true <;> cases sleep <;> simp [h1, hk, onSleep]

theorem abs_tmod_le (a : Int) (n : Nat) : |Int.tmod a ((n + 1 : Nat) : Int)| ≤ (n : Int) := by
  have hpos : (0 : Int) < ((n + 1 : Nat) : Int) := by exact_mod_cast Nat.succ_pos n
  rcases le_or_lt 0 a with ha | ha
  · have h1 := Int.tmod_nonneg ((n + 1 : Nat) : Int) ha
    have h2 := Int.tmod_lt_of_pos a hpos
    rw [abs_of_nonneg h1]
    push_cast at h1 h2 ⊢
    omega
  · have ha2 : 0 ≤ -a := by omega
    have h1 := Int.tmod_nonneg ((n + 1 : Nat) : Int) ha2
    have h2 := Int.tmod_lt_of_pos (-a) hpos
    have hneg : (-a).tmod ((n + 1 : Nat) : Int) = -(a.tmod ((n + 1 : Nat) : Int)) := by
      rw [Int.tmod_def, Int.tmod_def, Int.neg_tdiv]
      ring
    rw [hneg] at h1 h2
    rw [abs_le]
    push_cast at h1 h2 ⊢
    constructor <;> omega

theorem rttVector_length (packets : Nat) (env : Nat → Iteration) (n : Nat) :
    (rttVector packets env n).length = packets := by
  simp [rttVector]

theorem rttVector_succ (packets : Nat) (env : Nat → Iteration) (n : Nat) :
    rttVector packets env (n + 1) = (rttVector packets env n).set n (env n).sel.rtt := by
  apply List.ext_getElem
  · simp [rttVector]
  · intro j h1 h2
    simp only [rttVector, List.getElem_map, List.getElem_range, List.getElem_set]
    by_cases hj : n = j
    · subst hj
      simp
    · have : (j < n + 1) = (j < n) := by
        apply propext
        omega
      simp [hj, this]

theorem rttVector_succ_of_rtt_zero (packets : Nat) (env : Nat → Iteration) (n : Nat)
    (h : (env n).sel.rtt = 0) : rttVector packets env (n + 1) = rttVector packets env n := by
  unfold rttVector
  apply List.map_congr_left
  intro j _
  by_cases hj : j < n
  · have : j < n + 1 := by omega
    simp [hj, this]
  · by_cases hj2 : j = n
    · subst hj2
      simp [h]
    · have : ¬ j < n + 1 := by omega
      simp [hj, this]

theorem range_filter_succ (p : Nat → Bool) (n : Nat) :
    ((List.range (n + 1)).filter p).length =
      ((List.range n).filter p).length + (if p n then 1 else 0) := by
  rw [List.range_succ, List.filter_append]
  by_cases h : p n = true <;> simp [h]

theorem StatsInv_init (IP packets : Nat) (env : Nat → Iteration) :
    StatsInv packets env (loopInit IP packets) := by
  constructor <;> simp [loopInit, consumed, successRTTs, rttVector, List.map_const']

theorem StatsInv_flow {packets : Nat} {env : Nat → Iteration} {st st2 : LoopState}
    (hinv : StatsInv packets env st) (hk : st.keepLooping = true)
    (hi : st2.i = st.i + 1) (hk2 : st2.keepLooping = !(env st.i).stops) :
    (st2.keepLooping = true → ∀ j, j < st2.i → (env j).stops = false) ∧
    (st2.keepLooping = false →
      1 ≤ st2.i ∧ (env (st2.i - 1)).stops = true ∧ ∀ j, j + 1 < st2.i → (env j).stops = false) := by
  have hrun := hinv.running hk
  constructor
  · intro h j hj
    rw [hi] at hj
    rcases Nat.lt_succ_iff_lt_or_eq.mp hj with hj | hj
    · exact hrun j hj
    · subst hj
      rw [hk2] at h
      simpa using h
  · intro h
    rw [hk2] at h
    refine ⟨by omega, ?_, ?_⟩
    · rw [hi]
      simpa using h
    · intro j hj
      exact hrun j (by omega)

theorem StatsInv_other {packets : Nat} {env : Nat → Iteration} {st st2 : LoopState}
    (hinv : StatsInv packets env st) (hlt : st.i < packets) (hk : st.keepLooping = true)
    (hev : (env st.i).sel.isSuccess = false)
    (hi : st2.i = st.i + 1) (hk2 : st2.keepLooping = !(env st.i).stops)
    (hS : st2.results.Successes = st.results.Successes)
    (hF : st2.results.Failures =
      st.results.Failures + (if (env st.i).sel.isExpired then 1 else 0))
    (hO : st2.results.OutOfOrder = st.results.OutOfOrder)
    (hR : st2.results.RTTs = st.results.RTTs)
    (hMin : st2.results.Min = st.results.Min) (hMax : st2.results.Max = st.results.Max)
    (hMean : st2.results.Mean = st.results.Mean) (hSum : st2.results.Sum = st.results.Sum) :
    StatsInv packets env st2 := by
  have hrtt : (env st.i).sel.rtt = 0 := by
    cases h : (env st.i).sel <;> simp [h, SelectEvent.isSuccess, SelectEvent.rtt] at hev ⊢
  have hooo : (env st.i).sel.isOutOfOrder st.i = false := by
    cases h : (env st.i).sel <;> simp [h, SelectEvent.isSuccess, SelectEvent.isOutOfOrder] at hev ⊢
  have hcons : successRTTs (consumed env st2.i) = successRTTs (consumed env st.i) := by
    rw [hi, consumed_succ, successRTTs_append]
    simp [hev]
  have hflow := StatsInv_flow hinv hk hi hk2
  constructor
  · have := hinv.i_le
    omega
  · rw [hS, hi, consumed_succ, List.countP_append, hinv.succ]
    simp [hev]
  · rw [hF, hi, consumed_succ, List.countP_append, hinv.fail]
    by_cases h : (env st.i).sel.isExpired = true <;> simp [h]
  · rw [hcons, hS]
    exact hinv.succ_len
  · rw [hcons, hSum]
    exact hinv.sum
  · rw [hcons, hS, hMin]
    exact hinv.min_mem
  · rw [hcons, hS, hMin]
    exact hinv.min_le
  · rw [hcons, hS, hMax]
    exact hinv.max_mem
  · rw [hcons, hS, hMax]
    exact hinv.max_le
  · rw [hO, hi, range_filter_succ, hinv.ooo]
    simp [hooo]
  · rw [hO, hS]
    exact hinv.ooo_le
  · rw [hR, hi, rttVector_succ_of_rtt_zero packets env st.i hrtt]
    exact hinv.rtts
  · rw [hcons, hS, hMean]
    exact hinv.mean
  · exact hflow.1
  · exact hflow.2

theorem StatsInv_success (D : Int) {packets : Nat} {env : Nat → Iteration} {st st2 : LoopState}
    {ps : PingSuccess}
    (hinv : StatsInv packets env st) (hlt : st.i < packets) (hk : st.keepLooping = true)
    (hev : (env st.i).sel = .success ps)
    (hi : st2.i = st.i + 1) (hk2 : st2.keepLooping = !(env st.i).stops)
    (hr : onSuccess D packets st.i ps st.results = .ok st2.results) :
    StatsInv packets env st2 := by
  obtain ⟨_, _, _, hS, hF, hO, hR, _, hMin, hMax, hMean, hSum⟩ := onSuccess_ok hr
  have hcons : successRTTs (consumed env st2.i) = successRTTs (consumed env st.i) ++ [ps.RTT] := by
    rw [hi, consumed_succ, successRTTs_append]
    simp [hev, SelectEvent.isSuccess, SelectEvent.rtt]
  have hflow := StatsInv_flow hinv hk hi hk2
  have hzero : st.results.Successes = 0 → successRTTs (consumed env st.i) = [] := by
    intro h0
    have := hinv.succ_len
    rw [h0] at this
    exact List.length_eq_zero.mp this.symm
  constructor
  · have := hinv.i_le
    omega
  · rw [hS, hi, consumed_succ, List.countP_append, hinv.succ]
    simp [hev, SelectEvent.isSuccess]
  · rw [hF, hi, consumed_succ, List.countP_append, hinv.fail]
    simp [hev, SelectEvent.isExpired]
  · rw [hcons, hS, hinv.succ_len]
    simp
  · rw [hcons, hSum, hinv.sum, wrapInt64_add, List.sum_append]
    simp
  · intro _
    rw [hcons, hMin]
    by_cases h0 : st.results.Successes = 0
    · simp [h0]
    · have hm := hinv.min_mem (by omega)
      simp only [h0, if_false]
      rcases min_choice ps.RTT st.results.Min with h | h <;> rw [h] <;> simp [hm]
  · intro _ x hx
    rw [hcons] at hx
    rw [hMin]
    by_cases h0 : st.results.Successes = 0
    · simp [hzero h0] at hx
      simp [h0, hx]
    · simp only [h0, if_false]
      rcases List.mem_append.mp hx with hx | hx
      · exact le_trans (min_le_right _ _) (hinv.min_le (by omega) x hx)
      · simp at hx
        rw [hx]
        exact min_le_left _ _
  · intro _
    rw [hcons, hMax]
    by_cases h0 : st.results.Successes = 0
    · simp [h0]
    · have hm := hinv.max_mem (by omega)
      simp only [h0, if_false]
      rcases max_choice ps.RTT st.results.Max with h | h <;> rw [h] <;> simp [hm]
  · intro _ x hx
    rw [hcons] at hx
    rw [hMax]
    by_cases h0 : st.results.Successes = 0
    · simp [hzero h0] at hx
      simp [h0, hx]
    · simp only [h0, if_false]
      rcases List.mem_append.mp hx with hx | hx
      · exact le_trans (hinv.max_le (by omega) x hx) (le_max_right _ _)
      · simp at hx
        rw [hx]
        exact le_max_left _ _
  · rw [hO, hi, range_filter_succ, hinv.ooo]
    simp [hev, SelectEvent.isOutOfOrder]
  · rw [hO, hS]
    have := hinv.ooo_le
    split_ifs <;> omega
  · rw [hR, hi, rttVector_succ, hinv.rtts]
    simp [hev, SelectEvent.rtt]
  · rw [hcons, List.foldl_append, ← hinv.mean, hS, hMean]
    simp [welfordStep]
  · exact hflow.1
  · exact hflow.2

theorem StatsInv_step {D : Int} {packets : Nat} {env : Nat → Iteration} {st st2 : LoopState}
    (hp : packets < 65536) (hlt : st.i < packets) (hk : st.keepLooping = true)
    (hinv : StatsInv packets env st)
    (h : loopBody D packets (env st.i) st = .ok st2) : StatsInv packets env st2 := by
  unfold loopBody onSelect at h
  cases hsel : (env st.i).sel with
  | success ps =>
    simp only [hsel] at h
    cases hr : onSuccess D packets st.i ps st.results with
    | error e => simp [hr] at h
    | ok r =>
      simp only [hr, Except.ok.injEq] at h
      subst h
      refine StatsInv_success D hinv hlt hk hsel ?_ ?_ ?_
      · rw [afterSelect_i]
        exacts [hp, hlt]
      · rw [afterSelect_keepLooping]
        · cases hs : (env st.i).sleep <;> simp [hk, Iteration.stops, hsel, hs]
        · exact hlt
      · rw [afterSelect_results]
        exact hr
  | expired pe =>
    simp only [hsel, Except.ok.injEq] at h
    subst h
    refine StatsInv_other hinv hlt hk (by simp [hsel, SelectEvent.isSuccess]) ?_ ?_ ?_ ?_ ?_ ?_
      ?_ ?_ ?_ ?_
    · rw [afterSelect_i]
      exacts [hp, hlt]
    · rw [afterSelect_keepLooping]
      · cases hs : (env st.i).sleep <;> simp [hk, Iteration.stops, hsel, hs]
      · exact hlt
    all_goals simp [afterSelect_results, hsel, SelectEvent.isExpired]
  | done =>
    simp only [hsel, Except.ok.injEq] at h
    subst h
    refine StatsInv_other hinv hlt hk (by simp [hsel, SelectEvent.isSuccess]) ?_ ?_ ?_ ?_ ?_ ?_
      ?_ ?_ ?_ ?_
    · rw [afterSelect_i]
      exacts [hp, hlt]
    · rw [afterSelect_keepLooping]
      · simp [Iteration.stops, hsel]
      · exact hlt
    all_goals simp [afterSelect_results, hsel, SelectEvent.isExpired]
  | allDone =>
    simp only [hsel, Except.ok.injEq] at h
    subst h
    refine StatsInv_other hinv hlt hk (by simp [hsel, SelectEvent.isSuccess]) ?_ ?_ ?_ ?_ ?_ ?_
      ?_ ?_ ?_ ?_
    · rw [afterSelect_i]
      exacts [hp, hlt]
    · rw [afterSelect_keepLooping]
      · simp [Iteration.stops, hsel]
      · exact hlt
    all_goals simp [afterSelect_results, hsel, SelectEvent.isExpired]

theorem pingerLoop_inv {D : Int} {packets : Nat} {env : Nat → Iteration} (hp : packets < 65536) :
    ∀ (fuel : Nat) (st st2 : LoopState), StatsInv packets env st →
      pingerLoop D packets env fuel st = .ok st2 →
      StatsInv packets env st2 ∧ ¬ (st2.i < packets ∧ st2.keepLooping = true) := by
  intro fuel
  induction fuel with
  | zero =>
    intro st st2 _ h
    simp [pingerLoop] at h
  | succ fuel ih =>
    intro st st2 hinv h
    unfold pingerLoop at h
    by_cases hc : st.i < packets ∧ st.keepLooping = true
    · simp only [hc, and_self, if_true] at h
      cases hb : loopBody D packets (env st.i) st with
      | error e => simp [hb] at h
      | ok st1 =>
        simp only [hb] at h
        exact ih st1 st2 (StatsInv_step hp hc.1 hc.2 hinv hb) h
    · simp only [hc, if_false, Except.ok.injEq] at h
      subst h
      exact ⟨hinv, hc⟩

theorem loopBody_returns {D : Int} {packets : Nat} (it : Iteration) {st : LoopState}
    (hd : D ≤ 100 ∨ 10 ≤ packets ∨ it.sel.isSuccess = false)
    (hlen : st.i < st.results.RTTs.length) :
    ∃ st2, loopBody D packets it st = .ok st2 := by
  unfold loopBody onSelect
  cases hsel : it.sel with
  | success ps =>
    have hd2 : D ≤ 100 ∨ 10 ≤ packets := by
      rcases hd with h | h | h
      · exact Or.inl h
      · exact Or.inr h
      · simp [hsel, SelectEvent.isSuccess] at h
    obtain ⟨r, hr⟩ := onSuccess_returns ps hlen hd2
    simp [hr]
  | expired pe => simp
  | done => simp
  | allDone => simp

theorem pingerLoop_returns {D : Int} {packets : Nat} {env : Nat → Iteration}
    (hp : packets < 65536)
    (hd : D ≤ 100 ∨ 10 ≤ packets ∨ ∀ j, j < packets → (env j).sel.isSuccess = false) :
    ∀ (fuel : Nat) (st : LoopState), StatsInv packets env st → packets - st.i < fuel →
      ∃ st2, pingerLoop D packets env fuel st = .ok st2 := by
  intro fuel
  induction fuel with
  | zero =>
    intro st _ h
    omega
  | succ fuel ih =>
    intro st hinv hfuel
    unfold pingerLoop
    by_cases hc : st.i < packets ∧ st.keepLooping = true
    · simp only [hc, and_self, if_true]
      have hlen : st.i < st.results.RTTs.length := by
        rw [hinv.rtts, rttVector_length]
        exact hc.1
      have hd2 : D ≤ 100 ∨ 10 ≤ packets ∨ (env st.i).sel.isSuccess = false := by
        rcases hd with h | h | h
        · exact Or.inl h
        · exact Or.inr (Or.inl h)
        · exact Or.inr (Or.inr (h _ hc.1))
      obtain ⟨st1, hb⟩ := loopBody_returns (env st.i) hd2 hlen
      simp only [hb]
      have hinv1 := StatsInv_step hp hc.1 hc.2 hinv hb
      have hi1 : st1.i = st.i + 1 := by
        unfold loopBody at hb
        cases ho : onSelect D packets (env st.i).sel st with
        | error e => simp [ho] at hb
        | ok st0 =>
          simp only [ho, Except.ok.injEq] at hb
          subst hb
          have : st0.i = st.i := by
            unfold onSelect at ho
            cases hsel : (env st.i).sel with
            | success ps =>
              simp only [hsel] at ho
              cases hr : onSuccess D packets st.i ps st.results with
              | error e => simp [hr] at ho
              | ok r =>
                simp only [hr, Except.ok.injEq] at ho
                subst ho
                rfl
            | expired pe =>
              simp only [hsel, Except.ok.injEq] at ho
              subst ho
              rfl
            | done =>
              simp only [hsel, Except.ok.injEq] at ho
              subst ho
              rfl
            | allDone =>
              simp only [hsel, Except.ok.injEq] at ho
              subst ho
              rfl
          rw [afterSelect_i _ _ _ hp (by omega), this]
      exact ih st1 hinv1 (by omega)
    · simp [hc]

/-- The loop of `PingerConfig` leaves through its loop condition, with the
statistics invariant established. -/
theorem pingerRun_spec {D : Int} {IP packets : Nat} {env : Nat → Iteration} {st : LoopState}
    (hp : packets < 65536) (h : pingerRun D IP packets env = .ok st) :
    StatsInv packets env st ∧ ¬ (st.i < packets ∧ st.keepLooping = true) :=
  pingerLoop_inv hp _ _ _ (StatsInv_init IP packets env) h

/-- The loop of `PingerConfig` returns within its fuel unless the progress log
line divides by zero: it returns whenever the debug level is at most 100, or
`packets` is at least 10, or no iteration receives a success. -/
theorem pingerRun_returns {D : Int} (IP : Nat) {packets : Nat} {env : Nat → Iteration}
    (hp : packets < 65536)
    (hd : D ≤ 100 ∨ 10 ≤ packets ∨ ∀ j, j < packets → (env j).sel.isSuccess = false) :
    ∃ st, pingerRun D IP packets env = .ok st :=
  pingerLoop_returns hp hd _ _ (StatsInv_init IP packets env) (by simp [loopInit])

theorem PingerConfig_ok_iff {D : Int} {IP packets : Nat} {sortRTTs : Bool}
    {env : Nat → Iteration} {r : PingerResults} :
    PingerConfig D IP packets sortRTTs env = .ok r ↔
      ∃ st, pingerRun D IP packets env = .ok st ∧ r = finish sortRTTs st.results := by
  unfold PingerConfig
  cases h : pingerRun D IP packets env with
  | error e => simp
  | ok st =>
    simp only [Except.ok.injEq, exists_eq_left']
    exact eq_comm

theorem finish_fields (sortRTTs : Bool) (r : PingerResults) :
    (finish sortRTTs r).Successes = r.Successes ∧ (finish sortRTTs r).Failures = r.Failures ∧
    (finish sortRTTs r).OutOfOrder = r.OutOfOrder ∧ (finish sortRTTs r).Min = r.Min ∧
    (finish sortRTTs r).Max = r.Max ∧ (finish sortRTTs r).Mean = r.Mean ∧
    (finish sortRTTs r).Sum = r.Sum ∧ (finish sortRTTs r).IP = r.IP ∧
    (finish sortRTTs r).Count = r.Successes + r.Failures ∧
    (finish sortRTTs r).RTTs = if sortRTTs then sortSlice r.RTTs else r.RTTs := by
  cases sortRTTs <;> simp [finish]

theorem exit_iterations {packets : Nat} {env : Nat → Iteration} {st : LoopState}
    (hinv : StatsInv packets env st) (hexit : ¬ (st.i < packets ∧ st.keepLooping = true)) :
    (st.i = packets ∨ (1 ≤ st.i ∧ (env (st.i - 1)).stops = true)) ∧
    ∀ j, j + 1 < st.i → (env j).stops = false := by
  have hle := hinv.i_le
  cases hk : st.keepLooping with
  | true =>
    refine ⟨Or.inl ?_, fun j hj => hinv.running hk j (by omega)⟩
    have : ¬ st.i < packets := fun h => hexit ⟨h, hk⟩
    omega
  | false =>
    obtain ⟨h1, h2, h3⟩ := hinv.stopped hk
    exact ⟨Or.inr ⟨h1, h2⟩, h3⟩

theorem welford_fold_bound (l : List Int) :
    ∀ (acc : Nat × Int) (s : Int),
      2 * |(acc.1 : Int) * acc.2 - s| ≤ (acc.1 : Int) * ((acc.1 : Int) - 1) →
      2 * |((l.foldl welfordStep acc).1 : Int) * (l.foldl welfordStep acc).2 - (s + l.sum)| ≤
        ((l.foldl welfordStep acc).1 : Int) * (((l.foldl welfordStep acc).1 : Int) - 1) := by
  induction l with
  | nil =>
    intro acc s h
    simpa using h
  | cons x l ih =>
    intro acc s h
    rw [List.foldl_cons, List.sum_cons, ← add_assoc]
    apply ih
    obtain ⟨n, m⟩ := acc
    simp only [welfordStep, floatQuotient] at h ⊢
    have hdef := Int.tdiv_add_tmod (x - m) ((n + 1 : Nat) : Int)
    have hmod := abs_tmod_le (x - m) n
    have hkey : ((n + 1 : Nat) : Int) * (m + (x - m).tdiv ((n + 1 : Nat) : Int)) - (s + x) =
        ((n : Int) * m - s) - (x - m).tmod ((n + 1 : Nat) : Int) := by
      have : ((n + 1 : Nat) : Int) * (x - m).tdiv ((n + 1 : Nat) : Int) =
          (x - m) - (x - m).tmod ((n + 1 : Nat) : Int) := by
        linarith
      rw [mul_add, this]
      push_cast
      ring
    rw [hkey]
    have htri := abs_sub ((n : Int) * m - s) ((x - m).tmod ((n + 1 : Nat) : Int))
    push_cast at htri hmod ⊢
    nlinarith [htri, hmod, h]

/-- Welford's truncated running mean of `n` values stays within `(n - 1) / 2`
of their arithmetic mean: `2 * |n * mean - sum| ≤ n * (n - 1)`. -/
theorem welford_bound (l : List Int) :
    2 * |((l.foldl welfordStep (0, 0)).1 : Int) * (l.foldl welfordStep (0, 0)).2 - l.sum| ≤
      ((l.foldl welfordStep (0, 0)).1 : Int) * (((l.foldl welfordStep (0, 0)).1 : Int) - 1) := by
  have := welford_fold_bound l (0, 0) 0 (by simp)
  simpa using this

/-- `PingerConfig` returns unless the progress log line divides by zero: it
returns whenever the debug level is at most 100, or `packets` is at least 10,
or no iteration receives a success. -/
theorem PingerConfig_returns (D : Int) (IP : Nat) {packets : Nat} (sortRTTs : Bool)
    {env : Nat → Iteration} (hp : packets < 65536)
    (hd : D ≤ 100 ∨ 10 ≤ packets ∨ ∀ j, j < packets → (env j).sel.isSuccess = false) :
    ∃ r, PingerConfig D IP packets sortRTTs env = .ok r := by
  obtain ⟨st, hst⟩ := pingerRun_returns IP hp hd
  exact ⟨_, PingerConfig_ok_iff.mpr ⟨st, hst, rfl⟩⟩

/-- C2: the `Count` returned by `PingerConfig` equals `Successes + Failures`,
for every packet count and every sequence of success, expired, cancel and
shutdown events its loop consumes; and the call returns whenever the progress
log line cannot divide by zero. -/
theorem C2_count_is_successes_plus_failures (D : Int) (IP packets : Nat) (sortRTTs : Bool)
    (env : Nat → Iteration) (hp : packets < 65536) :
    (∀ r, PingerConfig D IP packets sortRTTs env = .ok r → r.Count = r.Successes + r.Failures) ∧
    ((D ≤ 100 ∨ 10 ≤ packets ∨ ∀ j, j < packets → (env j).sel.isSuccess = false) →
      ∃ r, PingerConfig D IP packets sortRTTs env = .ok r) := by
  constructor
  · intro r h
    obtain ⟨st, _, rfl⟩ := PingerConfig_ok_iff.mp h
    obtain ⟨hS, hF, _, _, _, _, _, _, hC, _⟩ := finish_fields sortRTTs st.results
    rw [hS, hF, hC]
  · intro hd
    exact PingerConfig_returns D IP sortRTTs hp hd

/-- Witness for C2: the sample run of ten probes at debug level 111 returns, with
`Count = Successes + Failures`. -/
theorem C2_count_is_successes_plus_failures_witness :
    (10 : Nat) < 65536 ∧
    ∃ r, PingerConfig 111 7 10 true sampleEnv = .ok r ∧ r.Count = r.Successes + r.Failures :=
  ⟨by decide,
    ((C2_count_is_successes_plus_failures 111 7 10 true sampleEnv (by decide)).2
      (Or.inr (Or.inl (by decide)))).elim
      (fun r hr => ⟨r, hr,
        (C2_count_is_successes_plus_failures 111 7 10 true sampleEnv (by decide)).1 r hr⟩)⟩

/-- The statistics returned by `PingerConfig` in terms of the events consumed by
the `st.i` iterations its loop made. -/
theorem statistics_of_run (D : Int) (IP packets : Nat) (sortRTTs : Bool)
    (env : Nat → Iteration) (r : PingerResults) (hp : packets < 65536)
    (h : PingerConfig D IP packets sortRTTs env = .ok r) :
    ∃ st, pingerRun D IP packets env = .ok st ∧ st.i ≤ packets ∧
      (st.i = packets ∨ (1 ≤ st.i ∧ (env (st.i - 1)).stops = true)) ∧
      (∀ j, j + 1 < st.i → (env j).stops = false) ∧
      r.Successes = (consumed env st.i).countP SelectEvent.isSuccess ∧
      r.Failures = (consumed env st.i).countP SelectEvent.isExpired ∧
      r.Sum = wrapInt64 (successRTTs (consumed env st.i)).sum ∧
      (1 ≤ r.Successes →
        r.Min ∈ successRTTs (consumed env st.i) ∧
        (∀ x ∈ successRTTs (consumed env st.i), r.Min ≤ x) ∧
        r.Max ∈ successRTTs (consumed env st.i) ∧
        (∀ x ∈ successRTTs (consumed env st.i), x ≤ r.Max)) ∧
      r.OutOfOrder = ((List.range st.i).filter (fun j => (env j).sel.isOutOfOrder j)).length ∧
      r.OutOfOrder ≤ r.Successes := by
  obtain ⟨st, hst, rfl⟩ := PingerConfig_ok_iff.mp h
  obtain ⟨hinv, hexit⟩ := pingerRun_spec hp hst
  obtain ⟨hS, hF, hO, hMin, hMax, _, hSum, _, _, _⟩ := finish_fields sortRTTs st.results
  obtain ⟨hn1, hn2⟩ := exit_iterations hinv hexit
  refine ⟨st, hst, hinv.i_le, hn1, hn2, ?_, ?_, ?_, ?_, ?_, ?_⟩
  · rw [hS]
    exact hinv.succ
  · rw [hF]
    exact hinv.fail
  · rw [hSum]
    exact hinv.sum
  · rw [hS, hMin, hMax]
    intro h1
    exact ⟨hinv.min_mem h1, hinv.min_le h1, hinv.max_mem h1, hinv.max_le h1⟩
  · rw [hO]
    exact hinv.ooo
  · rw [hO, hS]
    exact hinv.ooo_le

theorem sum_bounds (B : Int) :
    ∀ l : List Int, (∀ x ∈ l, 0 ≤ x ∧ x < B) → 0 ≤ l.sum ∧ l.sum ≤ (l.length : Int) * B := by
  intro l
  induction l with
  | nil =>
    intro _
    simp
  | cons x l ih =>
    intro h
    obtain ⟨h1, h2⟩ := ih (fun y hy => h y (List.mem_cons_of_mem _ hy))
    obtain ⟨h3, h4⟩ := h x (List.mem_cons_self _ _)
    rw [List.sum_cons, List.length_cons]
    push_cast
    constructor
    · omega
    · linarith

/-- C8, counterexample: a run of two probes whose successes have an RTT of
`2^62` ns each returns `Sum = -2^63`, while the sum of the two success RTTs is
`2^63`: the `int64` addition of Pinger.go:226 wraps. -/
theorem C8_sum_counterexample :
    ∃ r, PingerConfig 0 7 2 false overflowEnv = .ok r ∧
      successRTTs (consumed overflowEnv 2) = [4611686018427387904, 4611686018427387904] ∧
      r.Successes = 2 ∧ r.Sum = -9223372036854775808 ∧
      (successRTTs (consumed overflowEnv 2)).sum = 9223372036854775808 ∧
      r.Sum ≠ (successRTTs (consumed overflowEnv 2)).sum :=
  ⟨{ IP := 7, Successes := 2, Failures := 0, OutOfOrder := 0,
     RTTs := [4611686018427387904, 4611686018427387904], Count := 2,
     Min := 4611686018427387904, Max := 4611686018427387904, Mean := 4611686018427387904,
     Sum := -9223372036854775808 }, rfl, rfl, rfl, rfl, rfl, by decide⟩

/-- C8, amended: in the result of a `PingerConfig` run whose loop made `st.i`
iterations, `Successes` is the number of success events consumed, `Failures`
the number of expired events, `Sum` the sum of the success RTTs reduced modulo
`2^64` to the `int64` range, which is the sum itself whenever that lies in the
range, as it does when every success RTT is in `[0, 2^47)` ns; `Min` and `Max`
are the minimum and maximum success RTT (when there is a success), and
`OutOfOrder` is the number of successes whose `Seq` differs from the index of
the iteration that consumed them, so `OutOfOrder ≤ Successes`. The loop makes
`packets` iterations unless a cancel or shutdown ends it earlier, and the call
returns whenever the progress log line cannot divide by zero. -/
theorem C8_statistics_of_consumed_events (D : Int) (IP packets : Nat) (sortRTTs : Bool)
    (env : Nat → Iteration) (hp : packets < 65536) :
    ((D ≤ 100 ∨ 10 ≤ packets ∨ ∀ j, j < packets → (env j).sel.isSuccess = false) →
      ∃ r, PingerConfig D IP packets sortRTTs env = .ok r) ∧
    ∀ r, PingerConfig D IP packets sortRTTs env = .ok r →
      ∃ st, pingerRun D IP packets env = .ok st ∧ st.i ≤ packets ∧
        (st.i = packets ∨ (1 ≤ st.i ∧ (env (st.i - 1)).stops = true)) ∧
        (∀ j, j + 1 < st.i → (env j).stops = false) ∧
        r.Successes = (consumed env st.i).countP SelectEvent.isSuccess ∧
        r.Failures = (consumed env st.i).countP SelectEvent.isExpired ∧
        r.Sum = wrapInt64 (successRTTs (consumed env st.i)).sum ∧
        (-9223372036854775808 ≤ (successRTTs (consumed env st.i)).sum →
          (successRTTs (consumed env st.i)).sum < 9223372036854775808 →
          r.Sum = (successRTTs (consumed env st.i)).sum) ∧
        ((∀ x ∈ successRTTs (consumed env st.i), 0 ≤ x ∧ x < 140737488355328) →
          r.Sum = (successRTTs (consumed env st.i)).sum) ∧
        (1 ≤ r.Successes →
          r.Min ∈ successRTTs (consumed env st.i) ∧
          (∀ x ∈ successRTTs (consumed env st.i), r.Min ≤ x) ∧
          r.Max ∈ successRTTs (consumed env st.i) ∧
          (∀ x ∈ successRTTs (consumed env st.i), x ≤ r.Max)) ∧
        r.OutOfOrder =
          ((List.range st.i).filter (fun j => (env j).sel.isOutOfOrder j)).length ∧
        r.OutOfOrder ≤ r.Successes := by
  refine ⟨fun hd => PingerConfig_returns D IP sortRTTs hp hd, ?_⟩
  intro r h
  obtain ⟨st, hst, hle, hex, hrun, hS, hF, hSum, hmm, hO, hOle⟩ :=
    statistics_of_run D IP packets sortRTTs env r hp h
  refine ⟨st, hst, hle, hex, hrun, hS, hF, hSum, ?_, ?_, hmm, hO, hOle⟩
  · intro h1 h2
    rw [hSum, wrapInt64_of_range h1 h2]
  · intro hb
    obtain ⟨b1, b2⟩ := sum_bounds 140737488355328 _ hb
    have hlen : (successRTTs (consumed env st.i)).length ≤ st.i := by
      unfold successRTTs consumed
      rw [List.length_map]
      refine le_trans (List.length_filter_le _ _) ?_
      simp
    have hlen2 : (((successRTTs (consumed env st.i)).length : Nat) : Int) ≤ 65535 := by
      have : (successRTTs (consumed env st.i)).length ≤ 65535 := by omega
      exact_mod_cast this
    have hprod : (((successRTTs (consumed env st.i)).length : Nat) : Int) * 140737488355328 ≤
        65535 * 140737488355328 := by
      apply mul_le_mul_of_nonneg_right hlen2
      norm_num
    rw [hSum, wrapInt64_of_range (by omega) (by omega)]

/-- Witness for C8: the sample run of ten probes has 3 successes, 7 failures,
sum 12, minimum 1, maximum 7 and one success out of order. -/
theorem C8_statistics_of_consumed_events_witness :
    (10 : Nat) < 65536 ∧
    PingerConfig 111 7 10 false sampleEnv = .ok
      { IP := 7, Successes := 3, Failures := 7, OutOfOrder := 1,
        RTTs := [4, 1, 0, 7, 0, 0, 0, 0, 0, 0], Count := 10, Min := 1, Max := 7, Mean := 4,
        Sum := 12 } ∧
    ∃ st, pingerRun 111 7 10 sampleEnv = .ok st ∧ st.i ≤ 10 ∧
      (3 : Nat) = (consumed sampleEnv st.i).countP SelectEvent.isSuccess :=
  ⟨by decide, rfl,
    ((C8_statistics_of_consumed_events 111 7 10 false sampleEnv (by decide)).2 _ rfl).elim
      (fun st hst => ⟨st, hst.1, hst.2.1, hst.2.2.2.2.1⟩)⟩

/-- The `Mean` returned by `PingerConfig` is Welford's truncated running mean
of the success RTTs, within `(n - 1) / 2` of their arithmetic mean. -/
theorem mean_of_run (D : Int) (IP packets : Nat) (sortRTTs : Bool)
    (env : Nat → Iteration) (r : PingerResults) (hp : packets < 65536)
    (h : PingerConfig D IP packets sortRTTs env = .ok r) :
    ∃ st, pingerRun D IP packets env = .ok st ∧
      r.Successes = (successRTTs (consumed env st.i)).length ∧
      r.Sum = wrapInt64 (successRTTs (consumed env st.i)).sum ∧
      r.Mean = welfordMean (successRTTs (consumed env st.i)) ∧
      (r.Successes = 1 → r.Mean = (successRTTs (consumed env st.i)).sum) ∧
      2 * |(r.Successes : Int) * r.Mean - (successRTTs (consumed env st.i)).sum| ≤
        (r.Successes : Int) * ((r.Successes : Int) - 1) := by
  obtain ⟨st, hst, rfl⟩ := PingerConfig_ok_iff.mp h
  obtain ⟨hinv, _⟩ := pingerRun_spec hp hst
  obtain ⟨hS, _, _, _, _, hMean, hSum, _, _, _⟩ := finish_fields sortRTTs st.results
  have hb := welford_bound (successRTTs (consumed env st.i))
  rw [← hinv.mean] at hb
  have hm : st.results.Mean = welfordMean (successRTTs (consumed env st.i)) := by
    unfold welfordMean
    rw [← hinv.mean]
  rw [hS, hMean, hSum]
  refine ⟨st, hst, hinv.succ_len, hinv.sum, hm, ?_, hb⟩
  intro h1
  rw [h1] at hb
  have h0 : |((1 : Nat) : Int) * st.results.Mean - (successRTTs (consumed env st.i)).sum| ≤ 0 := by
    push_cast at hb ⊢
    linarith
  have := abs_nonpos_iff.mp h0
  push_cast at this
  linarith

/-- The `RTTs` vector returned by `PingerConfig` in terms of the events consumed
by the `st.i` iterations its loop made. -/
theorem rtts_of_run (D : Int) (IP packets : Nat) (sortRTTs : Bool)
    (env : Nat → Iteration) (r : PingerResults) (hp : packets < 65536)
    (h : PingerConfig D IP packets sortRTTs env = .ok r) :
    ∃ st, pingerRun D IP packets env = .ok st ∧ st.i ≤ packets ∧
      (st.i = packets ∨ (1 ≤ st.i ∧ (env (st.i - 1)).stops = true)) ∧
      (∀ j, j + 1 < st.i → (env j).stops = false) ∧
      r.RTTs.length = packets ∧
      (∀ j, j < packets →
        (rttVector packets env st.i)[j]? =
          some (if j < st.i then (env j).sel.rtt else 0)) ∧
      (sortRTTs = false → r.RTTs = rttVector packets env st.i) ∧
      (sortRTTs = true →
        r.RTTs.Sorted (fun a b => a ≤ b) ∧ r.RTTs.Perm (rttVector packets env st.i)) := by
  obtain ⟨st, hst, rfl⟩ := PingerConfig_ok_iff.mp h
  obtain ⟨hinv, hexit⟩ := pingerRun_spec hp hst
  obtain ⟨_, _, _, _, _, _, _, _, _, hR⟩ := finish_fields sortRTTs st.results
  obtain ⟨hn1, hn2⟩ := exit_iterations hinv hexit
  refine ⟨st, hst, hinv.i_le, hn1, hn2, ?_, ?_, ?_, ?_⟩
  · rw [hR]
    cases sortRTTs
    · simp [hinv.rtts, rttVector_length]
    · simp [sortSlice, List.length_insertionSort, hinv.rtts, rttVector_length]
  · intro j hj
    simp [rttVector, hj]
  · intro hs
    rw [hR, hs, ← hinv.rtts]
    simp
  · intro hs
    rw [hR, hs, ← hinv.rtts]
    simp only [if_true, sortSlice]
    exact ⟨List.sorted_insertionSort _ _, List.perm_insertionSort _ _⟩

/-- C10: the `RTTs` vector returned by `PingerConfig` has length `packets`, also
when the run ends early; unsorted, its entry `j` is the RTT of the success
consumed at iteration `j` and `0` for an iteration that consumed an expiry or
a cancellation or was never reached; with `sortRTTs` it is the ascending
sorted permutation of that vector. The call returns whenever the progress log
line cannot divide by zero. -/
theorem C10_rtts_vector (D : Int) (IP packets : Nat) (sortRTTs : Bool)
    (env : Nat → Iteration) (hp : packets < 65536) :
    ((D ≤ 100 ∨ 10 ≤ packets ∨ ∀ j, j < packets → (env j).sel.isSuccess = false) →
      ∃ r, PingerConfig D IP packets sortRTTs env = .ok r) ∧
    ∀ r, PingerConfig D IP packets sortRTTs env = .ok r →
      ∃ st, pingerRun D IP packets env = .ok st ∧ st.i ≤ packets ∧
        (st.i = packets ∨ (1 ≤ st.i ∧ (env (st.i - 1)).stops = true)) ∧
        (∀ j, j + 1 < st.i → (env j).stops = false) ∧
        r.RTTs.length = packets ∧
        (∀ j, j < packets →
          (rttVector packets env st.i)[j]? =
            some (if j < st.i then (env j).sel.rtt else 0)) ∧
        (sortRTTs = false → r.RTTs = rttVector packets env st.i) ∧
        (sortRTTs = true →
          r.RTTs.Sorted (fun a b => a ≤ b) ∧ r.RTTs.Perm (rttVector packets env st.i)) :=
  ⟨fun hd => PingerConfig_returns D IP sortRTTs hp hd,
    fun r h => rtts_of_run D IP packets sortRTTs env r hp h⟩

/-- Witness for C10: the sample run of ten probes returns the vector
`[4, 1, 0, 7, 0, 0, 0, 0, 0, 0]` unsorted and `[0, 0, 0, 0, 0, 0, 0, 1, 4, 7]`
sorted. -/
theorem C10_rtts_vector_witness :
    (10 : Nat) < 65536 ∧
    (∃ r, PingerConfig 111 7 10 true sampleEnv = .ok r ∧
      r.RTTs = [0, 0, 0, 0, 0, 0, 0, 1, 4, 7]) ∧
    ∃ st, pingerRun 111 7 10 sampleEnv = .ok st ∧ st.i ≤ 10 ∧
      ([4, 1, 0, 7, 0, 0, 0, 0, 0, 0] : List Int).length = 10 ∧
      ([4, 1, 0, 7, 0, 0, 0, 0, 0, 0] : List Int) = rttVector 10 sampleEnv st.i :=
  ⟨by decide, ⟨_, rfl, rfl⟩,
    ((C10_rtts_vector 111 7 10 false sampleEnv (by decide)).2
      { IP := 7, Successes := 3, Failures := 7, OutOfOrder := 1,
        RTTs := [4, 1, 0, 7, 0, 0, 0, 0, 0, 0], Count := 10, Min := 1, Max := 7, Mean := 4,
        Sum := 12 } rfl).elim
      (fun st hst => ⟨st, hst.1, hst.2.1, hst.2.2.2.2.1, hst.2.2.2.2.2.2.1 rfl⟩)⟩

/-! ### The engine and its workers -/

theorem FakeDrop_zero (r : ℚ) : FakeDrop 0 r = false := by
  simp [FakeDrop]

theorem FakeDrop_one (r : ℚ) (hr : 0 ≤ r) : FakeDrop 1 r = true := by
  simp [FakeDrop, roundFloat64_zero, hr]

theorem FakeDrop_iff (p x : ℚ) : FakeDrop p x = true ↔ 0 < p ∧ roundFloat64 (1 - p) ≤ x := by
  unfold FakeDrop
  by_cases hp : p > 0
  · by_cases hx : x ≥ roundFloat64 (1 - p)
    · simp [hp, hx]
    · rw [if_pos hp, if_neg hx]
      simp only [Bool.false_eq_true, false_iff, not_and]
      intro _
      exact hx
  · rw [if_neg hp]
    simp only [Bool.false_eq_true, false_iff, not_and]
    intro hp2
    exact absurd hp2 hp

theorem deleteSeq_ExpiresDLL (ie : ICMPEngine) (ip s : Nat) :
    (ie.deleteSeq ip s).ExpiresDLL = ie.ExpiresDLL := by
  unfold ICMPEngine.deleteSeq
  cases ie.Pings ip <;> rfl

theorem deleteSeq_FakeSuccess (ie : ICMPEngine) (ip s : Nat) :
    (ie.deleteSeq ip s).FakeSuccess = ie.FakeSuccess := by
  unfold ICMPEngine.deleteSeq
  cases ie.Pings ip <;> rfl

theorem mem_remove {ie : ICMPEngine} {el e : Element} (h : e ∈ (ie.remove el).ExpiresDLL) :
    e ∈ ie.ExpiresDLL := by
  unfold ICMPEngine.remove at h
  exact (List.mem_filter.mp h).1

theorem exec_cons (a : Action) (rest : List Action) (s : Sys) :
    exec (a :: rest) s = (step a s).bind (exec rest) := by
  simp only [exec]
  cases step a s <;> rfl

/-- An invariant that every permitted step preserves holds after every
schedule of permitted steps. -/
theorem exec_invariant (P : Sys → Prop) (ok : Action → Prop)
    (hstep : ∀ a s s2, ok a → P s → step a s = some s2 → P s2) :
    ∀ (sched : List Action) (s s2 : Sys), (∀ a ∈ sched, ok a) → P s →
      exec sched s = some s2 → P s2 := by
  intro sched
  induction sched with
  | nil =>
    intro s s2 _ hP h
    simp only [exec, Option.some.injEq] at h
    exact h ▸ hP
  | cons a rest ih =>
    intro s s2 hok hP h
    rw [exec_cons] at h
    cases hs : step a s with
    | none => simp [hs] at h
    | some s1 =>
      simp only [hs, Option.bind] at h
      exact ih s1 s2 (fun b hb => hok b (List.mem_cons_of_mem _ hb))
        (hstep a s s1 (hok a (List.mem_cons_self _ _)) hP hs) h

theorem FakeSuccessInv_init (timeout D : Int) (IP N : Nat) (sortRTTs : Bool) :
    FakeSuccessInv N (Sys.init timeout D true IP N sortRTTs 0) := by
  constructor <;> simp [Sys.init, NewFullConfig, loopInit]

theorem CheckExpirerIsRunning_fields (s : Sys) :
    (CheckExpirerIsRunning s).1.ie.ExpiresDLL = s.ie.ExpiresDLL ∧
    (CheckExpirerIsRunning s).1.ie.FakeSuccess = s.ie.FakeSuccess ∧
    (CheckExpirerIsRunning s).1.ie.Pings = s.ie.Pings ∧
    (CheckExpirerIsRunning s).1.prober = s.prober ∧
    (CheckExpirerIsRunning s).1.receiver = s.receiver ∧
    (CheckExpirerIsRunning s).1.lockHeld = s.lockHeld ∧
    (CheckExpirerIsRunning s).1.successQ = s.successQ ∧
    (CheckExpirerIsRunning s).1.expiredQ = s.expiredQ ∧
    (CheckExpirerIsRunning s).1.wire = s.wire ∧
    ((CheckExpirerIsRunning s).1.expirer = s.expirer ∨
      (CheckExpirerIsRunning s).1.expirer = .top) := by
  unfold CheckExpirerIsRunning
  cases s.ie.Running <;> simp

theorem CheckExpirerIsRunning_spawn (s : Sys) :
    (CheckExpirerIsRunning s).1.ie.Running = true ∧
    (CheckExpirerIsRunning s).1.ie.SuccessChs = s.ie.SuccessChs ∧
    (CheckExpirerIsRunning s).1.ie.ExpiredChs = s.ie.ExpiredChs ∧
    (CheckExpirerIsRunning s).1.ie.DebugLevel = s.ie.DebugLevel ∧
    (CheckExpirerIsRunning s).2 = !s.ie.Running ∧
    (s.ie.Running = false → (CheckExpirerIsRunning s).1.expirer = .top) ∧
    (s.ie.Running = true → (CheckExpirerIsRunning s).1.expirer = s.expirer) := by
  unfold CheckExpirerIsRunning
  cases h : s.ie.Running <;> simp [h]

/-- What a successful index insertion did. -/
theorem insert_some {ie ie2 : ICMPEngine} {IP i : Nat} {ps : Pings}
    (h : ie.insert IP i ps = some ie2) :
    ie2.ExpiresDLL = ie.ExpiresDLL ++ [{ id := ie.nextElement, Value := ps }] ∧
    ie2.lookup IP i = some { id := ie.nextElement, Value := ps } ∧
    (∃ inner, ie2.Pings IP = some inner) ∧
    (∀ ip, ip ≠ IP → ie2.Pings ip = ie.Pings ip) ∧
    ie2.nextElement = ie.nextElement + 1 ∧
    ie2.FakeSuccess = ie.FakeSuccess ∧ ie2.Running = ie.Running ∧
    ie2.SuccessChs = ie.SuccessChs ∧ ie2.ExpiredChs = ie.ExpiredChs ∧
    ie2.DonesChs = ie.DonesChs ∧ ie2.DebugLevel = ie.DebugLevel ∧
    ie2.Timeout = ie.Timeout ∧ ie2.nextChan = ie.nextChan := by
  unfold ICMPEngine.insert at h
  simp only at h
  split at h
  · simp at h
  · rename_i inner hinner
    simp only [Option.some.injEq] at h
    subst h
    refine ⟨rfl, ?_, ⟨_, Function.update_same _ _ _⟩, ?_, rfl, rfl, rfl, rfl, rfl, rfl, rfl, rfl,
      rfl⟩
    · simp only [ICMPEngine.lookup, Function.update_same]
    · intro ip hip
      simp only [Function.update_noteq hip]
      by_cases h0 : i = 0
      · simp only [h0, if_true]
        cases hq : ie.Pings IP with
        | none => simp only [Function.update_noteq hip]
        | some v => rfl
      · simp only [h0, if_false]

/-- The index insertion succeeds at the first iteration, and later whenever
the inner map of `IP` exists. -/
theorem insert_enabled (ie : ICMPEngine) (IP i : Nat) (ps : Pings)
    (h : i = 0 ∨ ∃ inner, ie.Pings IP = some inner) :
    ∃ ie2, ie.insert IP i ps = some ie2 := by
  unfold ICMPEngine.insert
  simp only
  cases hq : ie.Pings IP with
  | none =>
    rcases h with h | ⟨inner, h⟩
    · simp [h, hq]
    · rw [hq] at h
      cases h
  | some inner =>
    by_cases h0 : i = 0 <;> simp [h0, hq]

/-- What a successful `proberInsert` step did: either the loop test failed and
only the Prober moved on to its end, or one probe with the current loop index
was appended to the list and recorded in the map of the Prober's `IP`. -/
theorem proberInsert_some {s s2 : Sys} {now : Int} {r : ℚ}
    (h : proberInsert now r s = some s2) :
    s.prober.pc = .loop ∧
    ((¬ (s.prober.st.i < s.prober.packets ∧ s.prober.st.keepLooping = true) ∧
        s2 = { s with prober := { s.prober with pc := .finish } }) ∨
      (s.prober.st.i < s.prober.packets ∧ s.prober.st.keepLooping = true ∧ 0 ≤ r ∧ r < 1 ∧
        s.lockHeld = false ∧
        s2.ie.ExpiresDLL = s.ie.ExpiresDLL ++
          [{ id := s.ie.nextElement,
             Value := { NetaddrIP := s.prober.IP, Seq := s.prober.st.i, Send := now,
                        Expiry := now + s.ie.Timeout,
                        FakeDrop := FakeDrop s.prober.dropProb r } }] ∧
        s2.ie.lookup s.prober.IP s.prober.st.i =
          some { id := s.ie.nextElement,
                 Value := { NetaddrIP := s.prober.IP, Seq := s.prober.st.i, Send := now,
                            Expiry := now + s.ie.Timeout,
                            FakeDrop := FakeDrop s.prober.dropProb r } } ∧
        (∀ ip, ip ≠ s.prober.IP → s2.ie.Pings ip = s.ie.Pings ip) ∧
        s2.ie.FakeSuccess = s.ie.FakeSuccess ∧
        s2.prober = { s.prober with pc := .select } ∧
        s2.receiver = s.receiver ∧ s2.lockHeld = false ∧
        s2.successQ = s.successQ ∧ s2.expiredQ = s.expiredQ ∧
        (s2.expirer = s.expirer ∨ s2.expirer = .top) ∧
        s2.wire = (if s.prober.fakeSuccess ∨ FakeDrop s.prober.dropProb r = true then s.wire
                   else s.wire ++ [(s.prober.IP, s.prober.st.i)]))) := by
  unfold proberInsert at h
  split at h
  · rename_i hpc
    refine ⟨hpc, ?_⟩
    split at h
    · rename_i hc
      right
      split at h
      · rename_i hr
        simp only at h
        split at h
        · simp at h
        · rename_i ie1 hins
          simp only [Option.some.injEq] at h
          subst h
          obtain ⟨hD1, hL1, _, hO1, _, hF1, _⟩ := insert_some hins
          obtain ⟨hD, hF, hPi, hP, hR, hL, hSQ, hEQ, hW, hE⟩ :=
            CheckExpirerIsRunning_fields { s with ie := ie1 }
          refine ⟨hc.1, hc.2, hr.1, hr.2.1, hr.2.2, ?_, ?_, ?_, ?_, ?_, ?_, ?_, ?_, ?_, ?_, ?_⟩
          · simp only [hD]
            exact hD1
          · simp only [ICMPEngine.lookup, hPi]
            exact hL1
          · intro ip hip
            simp only [hPi]
            exact hO1 ip hip
          · simp only [hF]
            exact hF1
          · simp only [hP]
          · simp only [hR]
          · simp only [hL]
            exact hr.2.2
          · simp only [hSQ]
          · simp only [hEQ]
          · exact hE
          · simp only [hW]
      · simp at h
    · rename_i hc
      left
      simp only [Option.some.injEq] at h
      exact ⟨hc, h.symm⟩
  · simp at h

/-- The parts of the state that the critical section of `proberInsert` leaves
alone or sets through `CheckExpirerIsRunning`. -/
theorem proberInsert_frame {s s2 : Sys} {now : Int} {r : ℚ}
    (h : proberInsert now r s = some s2)
    (hc : s.prober.st.i < s.prober.packets ∧ s.prober.st.keepLooping = true) :
    s2.ie.Running = true ∧ s2.ie.SuccessChs = s.ie.SuccessChs ∧
    s2.ie.ExpiredChs = s.ie.ExpiredChs ∧ s2.ie.DebugLevel = s.ie.DebugLevel ∧
    (∃ inner, s2.ie.Pings s.prober.IP = some inner) ∧
    (s.ie.Running = false → s2.expirer = .top) ∧
    (s.ie.Running = true → s2.expirer = s.expirer) := by
  unfold proberInsert at h
  split at h
  · simp only [hc, and_self, if_true] at h
    split at h
    · split at h
      · simp at h
      · rename_i ie1 hins
        simp only [Option.some.injEq] at h
        subst h
        obtain ⟨_, _, hI1, _, _, _, hR1, hS1, hE1, _, hDb1, _⟩ := insert_some hins
        obtain ⟨_, _, hPi, _⟩ := CheckExpirerIsRunning_fields { s with ie := ie1 }
        obtain ⟨hRun, hS, hE, hDb, _, hsp, hnsp⟩ := CheckExpirerIsRunning_spawn { s with ie := ie1 }
        refine ⟨hRun, ?_, ?_, ?_, ?_, ?_, ?_⟩
        · simp only [hS]
          exact hS1
        · simp only [hE]
          exact hE1
        · simp only [hDb]
          exact hDb1
        · simp only [hPi]
          exact hI1
        · intro hr
          exact hsp (by simp only; rw [hR1]; exact hr)
        · intro hr
          exact hnsp (by simp only; rw [hR1]; exact hr)
    · simp at h
  · simp at h

/-- The `proberInsert` step can be taken at the loop test whenever the lock is
free and, past the first iteration, the inner map of `IP` exists. -/
theorem proberInsert_enabled {s : Sys} (now : Int) {r : ℚ} (hpc : s.prober.pc = .loop)
    (hr : 0 ≤ r ∧ r < 1) (hl : s.lockHeld = false)
    (hin : s.prober.st.i = 0 ∨ ∃ inner, s.ie.Pings s.prober.IP = some inner) :
    ∃ s2, proberInsert now r s = some s2 := by
  unfold proberInsert
  simp only [hpc, if_true]
  split
  · simp only [hr, hl, and_self, if_true]
    obtain ⟨ie2, hie2⟩ := insert_enabled s.ie s.prober.IP s.prober.st.i
      { NetaddrIP := s.prober.IP, Seq := s.prober.st.i, Send := now,
        Expiry := now + s.ie.Timeout, FakeDrop := FakeDrop s.prober.dropProb r } hin
    rw [hie2]
    exact ⟨_, rfl⟩
  · exact ⟨_, rfl⟩

theorem FakeSuccessInv_proberSetup {N : Nat} {s s2 : Sys} (hinv : FakeSuccessInv N s)
    (h : proberSetup s = some s2) : FakeSuccessInv N s2 := by
  unfold proberSetup at h
  split at h
  · simp only [Option.some.injEq] at h
    subst h
    constructor
    · exact hinv.fake
    · exact hinv.prob
    · exact hinv.pkts
    · exact hinv.nodrop
    · exact hinv.exp
    · exact hinv.recv
    · exact hinv.unlocked
    · intro c
      simp only [Function.update_apply]
      split
      · rfl
      · exact hinv.noexp c
    · simp [loopInit]
    · simp [loopInit]
    · simp
    · simp [loopInit]
    · simp [Prober.progress, loopInit]
  · simp at h

theorem FakeSuccessInv_proberInsert {N : Nat} {s s2 : Sys} {now : Int} {r : ℚ}
    (hinv : FakeSuccessInv N s) (h : proberInsert now r s = some s2) : FakeSuccessInv N s2 := by
  obtain ⟨hpc, hcase⟩ := proberInsert_some h
  have hsucc := hinv.succ (by simp [hpc])
  simp only [Prober.progress, hpc] at hsucc
  rcases hcase with ⟨hc, rfl⟩ | ⟨hlt, _, _, _, _, hD, _, _, hF, hP, hR, hL, hSQ, hEQ, hE, _⟩
  · have hi : s.prober.st.i = N := by
      have h1 := hinv.i_le
      have h2 := hinv.keep
      have h3 := hinv.pkts
      have : ¬ s.prober.st.i < s.prober.packets := fun hlt => hc ⟨hlt, h2⟩
      omega
    constructor
    · exact hinv.fake
    · exact hinv.prob
    · exact hinv.pkts
    · exact hinv.nodrop
    · exact hinv.exp
    · exact hinv.recv
    · exact hinv.unlocked
    · exact hinv.noexp
    · exact hinv.keep
    · exact hinv.i_le
    · simp
    · exact hinv.fails
    · intro _
      simp only [Prober.progress]
      rw [hsucc, hi, hinv.pkts]
  · constructor
    · rw [hF]
      exact hinv.fake
    · rw [hP]
      exact hinv.prob
    · rw [hP]
      exact hinv.pkts
    · rw [hD]
      intro e he
      rcases List.mem_append.mp he with he | he
      · exact hinv.nodrop e he
      · simp only [List.mem_singleton] at he
        subst he
        simp [hinv.prob, FakeDrop_zero]
    · rcases hE with hE | hE
      · rw [hE]
        exact hinv.exp
      · rw [hE]
        exact Or.inr (Or.inl rfl)
    · rw [hR]
      exact hinv.recv
    · exact hL
    · rw [hEQ]
      exact hinv.noexp
    · rw [hP]
      exact hinv.keep
    · rw [hP]
      exact hinv.i_le
    · intro _
      rw [hP, ← hinv.pkts]
      exact hlt
    · rw [hP]
      exact hinv.fails
    · intro _
      rw [hP]
      simpa [Prober.progress] using hsucc

/-- What a successful `proberSelect` step did: it received the event `ev` of
the chosen case (taking it from the head of the Prober's channel for the two
channel cases), applied `onSelect` and the `i >= packets` test, and went to the
sleep or, when the loop is not to continue, past `i++` to the loop test. -/
theorem proberSelect_some {c : SelectCase} {s s2 : Sys} (h : proberSelect c s = some s2) :
    s.prober.pc = .select ∧
    ∃ ev st1, onSelect s.ie.DebugLevel s.prober.packets ev s.prober.st = .ok st1 ∧
      (match c with
        | .success => ∃ ps q, (s.successQ s.prober.successCh).recv = some (ps, q) ∧
            ev = .success ps ∧
            s2.successQ = Function.update s.successQ s.prober.successCh q ∧
            s2.expiredQ = s.expiredQ
        | .expired => ∃ pe q, (s.expiredQ s.prober.expiredCh).recv = some (pe, q) ∧
            ev = .expired pe ∧
            s2.expiredQ = Function.update s.expiredQ s.prober.expiredCh q ∧
            s2.successQ = s.successQ
        | .done => ev = .done ∧ s2.successQ = s.successQ ∧ s2.expiredQ = s.expiredQ
        | .allDone => ev = .allDone ∧ s2.successQ = s.successQ ∧ s2.expiredQ = s.expiredQ) ∧
      s2.ie = s.ie ∧ s2.expirer = s.expirer ∧ s2.receiver = s.receiver ∧
      s2.lockHeld = s.lockHeld ∧ s2.wire = s.wire ∧ s2.overlap = s.overlap ∧
      s2.prober =
        (if (checkPackets s.prober.packets st1).keepLooping = true then
          { s.prober with pc := .sleep, st := checkPackets s.prober.packets st1 }
        else
          { s.prober with pc := .loop, st := increment (checkPackets s.prober.packets st1) }) := by
  unfold proberSelect at h
  split at h
  · rename_i hpc
    refine ⟨hpc, ?_⟩
    simp only at h
    split at h
    · simp at h
    · rename_i ev s1 hrecv
      split at h
      · simp at h
      · rename_i st1 hsel
        refine ⟨ev, st1, hsel, ?_⟩
        have hs2 : s2 = (if (checkPackets s.prober.packets st1).keepLooping = true then
            { s1 with prober := { s1.prober with pc := .sleep,
                                                   st := checkPackets s.prober.packets st1 } }
          else
            { s1 with prober := { s1.prober with pc := .loop,
                                                   st := increment (checkPackets s.prober.packets st1) } })
            := by
          split at h <;> rename_i hk <;> simp only [Option.some.injEq] at h <;>
            simp only [hk, if_true, if_false] <;> exact h.symm
        cases c with
        | success =>
          simp only at hrecv
          split at hrecv
          · simp at hrecv
          · rename_i ps q hq
            simp only [Option.some.injEq, Prod.mk.injEq] at hrecv
            obtain ⟨rfl, rfl⟩ := hrecv
            subst hs2
            refine ⟨⟨ps, q, hq, rfl, ?_, ?_⟩, ?_⟩ <;> split <;> simp
        | expired =>
          simp only at hrecv
          split at hrecv
          · simp at hrecv
          · rename_i pe q hq
            simp only [Option.some.injEq, Prod.mk.injEq] at hrecv
            obtain ⟨rfl, rfl⟩ := hrecv
            subst hs2
            refine ⟨⟨pe, q, hq, rfl, ?_, ?_⟩, ?_⟩ <;> split <;> simp
        | done =>
          simp only [Option.some.injEq, Prod.mk.injEq] at hrecv
          obtain ⟨rfl, rfl⟩ := hrecv
          subst hs2
          refine ⟨⟨rfl, ?_, ?_⟩, ?_⟩ <;> split <;> simp
        | allDone =>
          simp only [Option.some.injEq, Prod.mk.injEq] at hrecv
          obtain ⟨rfl, rfl⟩ := hrecv
          subst hs2
          refine ⟨⟨rfl, ?_, ?_⟩, ?_⟩ <;> split <;> simp
  · simp at h

theorem Chan.recv_eq_none_of_queue_nil {α : Type} {c : Chan α} (h : c.queue = []) :
    c.recv = none := by
  unfold Chan.recv
  rw [h]

theorem onSelect_success_ok {D : Int} {packets : Nat} {ps : PingSuccess} {st st1 : LoopState}
    (h : onSelect D packets (.success ps) st = .ok st1) :
    st1.i = st.i ∧ st1.keepLooping = st.keepLooping ∧
    onSuccess D packets st.i ps st.results = .ok st1.results := by
  unfold onSelect at h
  simp only at h
  split at h
  · simp at h
  · rename_i r hr
    simp only [Except.ok.injEq] at h
    subst h
    exact ⟨rfl, rfl, hr⟩

theorem onSelect_expired_ok {D : Int} {packets : Nat} {pe : PingExpired} {st st1 : LoopState}
    (h : onSelect D packets (.expired pe) st = .ok st1) :
    st1 = { st with results := { st.results with Failures := st.results.Failures + 1 } } := by
  unfold onSelect at h
  simp only [Except.ok.injEq] at h
  exact h.symm

theorem checkPackets_of_lt {packets : Nat} {st : LoopState} (h : st.i < packets) :
    checkPackets packets st = st := by
  unfold checkPackets
  simp [Nat.not_le.mpr h]

theorem FakeSuccessInv_proberSelect {N : Nat} {c : SelectCase} {s s2 : Sys}
    (hinv : FakeSuccessInv N s) (hc : c = .success ∨ c = .expired)
    (h : proberSelect c s = some s2) : FakeSuccessInv N s2 := by
  obtain ⟨hpc, ev, st1, hsel, hcase, hie, hexp, hrecv, hlock, _, _, hprober⟩ :=
    proberSelect_some h
  have hlt : s.prober.st.i < N := hinv.i_lt (Or.inl hpc)
  have hsucc := hinv.succ (by simp [hpc])
  simp only [Prober.progress, hpc] at hsucc
  rcases hc with rfl | rfl
  · obtain ⟨ps, q, _, rfl, _, hEQ⟩ := hcase
    obtain ⟨hi1, hk1, hr1⟩ := onSelect_success_ok hsel
    obtain ⟨_, _, _, hS, hF, _⟩ := onSuccess_ok hr1
    have hcp : checkPackets s.prober.packets st1 = st1 :=
      checkPackets_of_lt (by rw [hi1, hinv.pkts]; exact hlt)
    rw [hcp, hk1, hinv.keep] at hprober
    simp only [if_true] at hprober
    constructor
    · rw [hie]
      exact hinv.fake
    · rw [hprober]
      exact hinv.prob
    · rw [hprober]
      exact hinv.pkts
    · rw [hie]
      exact hinv.nodrop
    · rw [hexp]
      exact hinv.exp
    · rw [hrecv]
      exact hinv.recv
    · rw [hlock]
      exact hinv.unlocked
    · rw [hEQ]
      exact hinv.noexp
    · rw [hprober]
      simp only
      rw [hk1]
      exact hinv.keep
    · rw [hprober]
      simp only
      rw [hi1]
      exact hinv.i_le
    · intro _
      rw [hprober]
      simp only
      rw [hi1]
      exact hlt
    · rw [hprober]
      simp only
      rw [hF]
      exact hinv.fails
    · intro _
      rw [hprober]
      simp only [Prober.progress]
      rw [hS, hi1, hsucc]
  · obtain ⟨pe, q, hq, _⟩ := hcase
    rw [Chan.recv_eq_none_of_queue_nil (hinv.noexp _)] at hq
    simp at hq

theorem FakeSuccessInv_proberSleep {N : Nat} {s s2 : Sys}
    (hinv : FakeSuccessInv N s) (hN : N < 65536)
    (h : proberSleep .wake s = some s2) : FakeSuccessInv N s2 := by
  unfold proberSleep at h
  split at h
  · rename_i hpc
    simp only [Option.some.injEq] at h
    subst h
    have hlt : s.prober.st.i < N := hinv.i_lt (Or.inr hpc)
    have hsucc := hinv.succ (by simp [hpc])
    simp only [Prober.progress, hpc] at hsucc
    have hmod : (s.prober.st.i + 1) % 65536 = s.prober.st.i + 1 := Nat.mod_eq_of_lt (by omega)
    constructor
    · exact hinv.fake
    · exact hinv.prob
    · exact hinv.pkts
    · exact hinv.nodrop
    · exact hinv.exp
    · exact hinv.recv
    · exact hinv.unlocked
    · exact hinv.noexp
    · simp only [increment, onSleep]
      exact hinv.keep
    · simp only [increment, onSleep, hmod]
      omega
    · simp
    · simp only [increment, onSleep]
      exact hinv.fails
    · intro _
      simp only [Prober.progress, increment, onSleep, hmod]
      exact hsucc
  · simp at h

theorem FakeSuccessInv_proberTeardown {N : Nat} {s s2 : Sys}
    (hinv : FakeSuccessInv N s) (h : proberTeardown s = some s2) : FakeSuccessInv N s2 := by
  unfold proberTeardown at h
  split at h
  · rename_i hpc
    simp only [Option.some.injEq] at h
    subst h
    have hsucc := hinv.succ (by simp [hpc.1])
    simp only [Prober.progress, hpc.1] at hsucc
    obtain ⟨hS, hF, _⟩ := finish_fields s.prober.sortRTTs s.prober.st.results
    constructor
    · exact hinv.fake
    · exact hinv.prob
    · exact hinv.pkts
    · exact hinv.nodrop
    · exact hinv.exp
    · exact hinv.recv
    · exact hinv.unlocked
    · exact hinv.noexp
    · exact hinv.keep
    · exact hinv.i_le
    · simp
    · simp only
      rw [hF]
      exact hinv.fails
    · intro _
      simp only [Prober.progress]
      rw [hS]
      exact hsucc
  · simp at h

theorem FakeSuccessInv_expirerTop {N : Nat} {s s2 : Sys}
    (hinv : FakeSuccessInv N s) (h : expirerTop false s = some s2) : FakeSuccessInv N s2 := by
  unfold expirerTop at h
  split at h
  · simp only [Bool.false_eq_true, if_false] at h
    split at h
    · split at h
      · simp only [Option.some.injEq] at h
        subst h
        exact { hinv with exp := Or.inl rfl }
      · rename_i el rest hdll
        have hel : el.Value.FakeDrop = false := hinv.nodrop el (by rw [hdll]; simp)
        simp only [hinv.fake, hel, Bool.false_eq_true, not_false_eq_true, and_self, if_true,
          Option.some.injEq] at h
        subst h
        constructor
        · simp only [deleteSeq_FakeSuccess]
          exact hinv.fake
        · exact hinv.prob
        · exact hinv.pkts
        · simp only [deleteSeq_ExpiresDLL]
          intro e he
          exact hinv.nodrop e (mem_remove he)
        · exact Or.inr (Or.inr ⟨_, _, rfl⟩)
        · exact hinv.recv
        · exact hinv.unlocked
        · exact hinv.noexp
        · exact hinv.keep
        · exact hinv.i_le
        · exact hinv.i_lt
        · exact hinv.fails
        · exact hinv.succ
    · simp at h
  · simp at h

theorem FakeSuccessInv_expirerSendSuccess {N : Nat} {s s2 : Sys} {now : Int}
    (hinv : FakeSuccessInv N s) (h : expirerSendSuccess now s = some s2) :
    FakeSuccessInv N s2 := by
  unfold expirerSendSuccess at h
  split at h
  · split at h
    · simp at h
    · simp only [Option.some.injEq] at h
      subst h
      exact { hinv with exp := Or.inr (Or.inl rfl) }
  · simp at h

/-- Every step other than a cancel or shutdown preserves `FakeSuccessInv`. -/
theorem FakeSuccessInv_step {N : Nat} (hN : N < 65536) (a : Action) (s s2 : Sys)
    (ha : a.isStop = false) (hinv : FakeSuccessInv N s) (h : step a s = some s2) :
    FakeSuccessInv N s2 := by
  cases a with
  | proberSetup => exact FakeSuccessInv_proberSetup hinv h
  | proberInsert now r => exact FakeSuccessInv_proberInsert hinv h
  | proberSelect c =>
    cases c with
    | success => exact FakeSuccessInv_proberSelect hinv (Or.inl rfl) h
    | expired => exact FakeSuccessInv_proberSelect hinv (Or.inr rfl) h
    | done => simp [Action.isStop] at ha
    | allDone => simp [Action.isStop] at ha
  | proberSleep ev =>
    cases ev with
    | wake => exact FakeSuccessInv_proberSleep hinv hN h
    | done => simp [Action.isStop] at ha
    | allDone => simp [Action.isStop] at ha
  | proberTeardown => exact FakeSuccessInv_proberTeardown hinv h
  | expirerTop done =>
    cases done with
    | false => exact FakeSuccessInv_expirerTop hinv h
    | true => simp [Action.isStop] at ha
  | expirerSendSuccess now => exact FakeSuccessInv_expirerSendSuccess hinv h
  | expirerWake done =>
    rcases hinv.exp with he | he | ⟨p, c, he⟩ <;> simp [step, expirerWake, he] at h
  | expirerRecheck =>
    rcases hinv.exp with he | he | ⟨p, c, he⟩ <;> simp [step, expirerRecheck, he] at h
  | expirerCommit =>
    rcases hinv.exp with he | he | ⟨p, c, he⟩ <;> simp [step, expirerCommit, he] at h
  | expirerSendExpired =>
    rcases hinv.exp with he | he | ⟨p, c, he⟩ <;> simp [step, expirerSendExpired, he] at h
  | expirerExit =>
    rcases hinv.exp with he | he | ⟨p, c, he⟩ <;> simp [step, expirerExit, he] at h
  | receiverRead ip sq t => simp [step, receiverRead, hinv.fake] at h
  | receiverCommit => simp [step, receiverCommit, hinv.recv] at h

theorem deleteSeq_Pings_none {ie : ICMPEngine} {ip s ip2 : Nat} (h : ie.Pings ip2 = none) :
    (ie.deleteSeq ip s).Pings ip2 = none := by
  unfold ICMPEngine.deleteSeq
  cases hq : ie.Pings ip with
  | none => exact h
  | some inner =>
    simp only
    by_cases hip : ip2 = ip
    · subst hip
      rw [h] at hq
      cases hq
    · rw [Function.update_noteq hip]
      exact h

theorem AllDropInv_init (timeout D : Int) (fake : Bool) (IP N : Nat) (sortRTTs : Bool) :
    AllDropInv IP N (Sys.init timeout D fake IP N sortRTTs 1) := by
  constructor <;> simp [Sys.init, NewFullConfig, loopInit]

theorem AllDropInv_proberSetup {IP N : Nat} {s s2 : Sys} (hinv : AllDropInv IP N s)
    (h : proberSetup s = some s2) : AllDropInv IP N s2 := by
  unfold proberSetup at h
  split at h
  · simp only [Option.some.injEq] at h
    subst h
    constructor
    · exact hinv.prob
    · exact hinv.dest
    · exact hinv.pkts
    · exact hinv.alldrop
    · exact hinv.exp
    · exact hinv.recv
    · exact hinv.unlocked
    · intro c
      simp only [Function.update_apply]
      split
      · rfl
      · exact hinv.nosucc c
    · exact hinv.nowire
    · exact hinv.others
    · simp [loopInit]
    · simp [loopInit]
    · simp
    · simp [loopInit]
    · simp [Prober.progress, loopInit]
  · simp at h

theorem AllDropInv_proberInsert {IP N : Nat} {s s2 : Sys} {now : Int} {r : ℚ}
    (hinv : AllDropInv IP N s) (h : proberInsert now r s = some s2) : AllDropInv IP N s2 := by
  obtain ⟨hpc, hcase⟩ := proberInsert_some h
  have hfail := hinv.fails (by simp [hpc])
  simp only [Prober.progress, hpc] at hfail
  rcases hcase with ⟨hc, rfl⟩ |
    ⟨hlt, _, hr0, _, _, hD, _, hO, _, hP, hR, hL, hSQ, _, hE, hW⟩
  · have hi : s.prober.st.i = N := by
      have h1 := hinv.i_le
      have h2 := hinv.keep
      have h3 := hinv.pkts
      have : ¬ s.prober.st.i < s.prober.packets := fun hlt => hc ⟨hlt, h2⟩
      omega
    constructor
    · exact hinv.prob
    · exact hinv.dest
    · exact hinv.pkts
    · exact hinv.alldrop
    · exact hinv.exp
    · exact hinv.recv
    · exact hinv.unlocked
    · exact hinv.nosucc
    · exact hinv.nowire
    · exact hinv.others
    · exact hinv.keep
    · exact hinv.i_le
    · simp
    · exact hinv.succs
    · intro _
      simp only [Prober.progress]
      rw [hfail, hi, hinv.pkts]
  · have hdrop : FakeDrop s.prober.dropProb r = true := by
      rw [hinv.prob]
      exact FakeDrop_one r hr0
    constructor
    · rw [hP]
      exact hinv.prob
    · rw [hP]
      exact hinv.dest
    · rw [hP]
      exact hinv.pkts
    · rw [hD]
      intro e he
      rcases List.mem_append.mp he with he | he
      · exact hinv.alldrop e he
      · simp only [List.mem_singleton] at he
        subst he
        exact hdrop
    · intro p c
      rcases hE with hE | hE
      · rw [hE]
        exact hinv.exp p c
      · rw [hE]
        simp
    · rw [hR]
      exact hinv.recv
    · exact hL
    · rw [hSQ]
      exact hinv.nosucc
    · rw [hW, hdrop]
      simp [hinv.nowire]
    · intro ip hip
      rw [hP] at hip
      rw [hO ip hip]
      exact hinv.others ip hip
    · rw [hP]
      exact hinv.keep
    · rw [hP]
      exact hinv.i_le
    · intro _
      rw [hP, ← hinv.pkts]
      exact hlt
    · rw [hP]
      exact hinv.succs
    · intro _
      rw [hP]
      simpa [Prober.progress] using hfail

theorem AllDropInv_proberSelect {IP N : Nat} {c : SelectCase} {s s2 : Sys}
    (hinv : AllDropInv IP N s) (hc : c = .success ∨ c = .expired)
    (h : proberSelect c s = some s2) : AllDropInv IP N s2 := by
  obtain ⟨hpc, ev, st1, hsel, hcase, hie, hexp, hrecv, hlock, hwire, _, hprober⟩ :=
    proberSelect_some h
  have hlt : s.prober.st.i < N := hinv.i_lt (Or.inl hpc)
  have hfail := hinv.fails (by simp [hpc])
  simp only [Prober.progress, hpc] at hfail
  rcases hc with rfl | rfl
  · obtain ⟨ps, q, hq, _⟩ := hcase
    rw [Chan.recv_eq_none_of_queue_nil (hinv.nosucc _)] at hq
    simp at hq
  · obtain ⟨pe, q, _, rfl, _, hSQ⟩ := hcase
    have hst1 := onSelect_expired_ok hsel
    have hi1 : st1.i = s.prober.st.i := by rw [hst1]
    have hk1 : st1.keepLooping = s.prober.st.keepLooping := by rw [hst1]
    have hS1 : st1.results.Successes = s.prober.st.results.Successes := by rw [hst1]
    have hF1 : st1.results.Failures = s.prober.st.results.Failures + 1 := by rw [hst1]
    have hcp : checkPackets s.prober.packets st1 = st1 :=
      checkPackets_of_lt (by rw [hi1, hinv.pkts]; exact hlt)
    rw [hcp, hk1, hinv.keep] at hprober
    simp only [if_true] at hprober
    constructor
    · rw [hprober]
      exact hinv.prob
    · rw [hprober]
      exact hinv.dest
    · rw [hprober]
      exact hinv.pkts
    · rw [hie]
      exact hinv.alldrop
    · rw [hexp]
      exact hinv.exp
    · rw [hrecv]
      exact hinv.recv
    · rw [hlock]
      exact hinv.unlocked
    · rw [hSQ]
      exact hinv.nosucc
    · rw [hwire]
      exact hinv.nowire
    · rw [hie, hprober]
      exact hinv.others
    · rw [hprober]
      simp only
      rw [hk1]
      exact hinv.keep
    · rw [hprober]
      simp only
      rw [hi1]
      exact hinv.i_le
    · intro _
      rw [hprober]
      simp only
      rw [hi1]
      exact hlt
    · rw [hprober]
      simp only
      rw [hS1]
      exact hinv.succs
    · intro _
      rw [hprober]
      simp only [Prober.progress]
      rw [hF1, hi1, hfail]

theorem AllDropInv_proberSleep {IP N : Nat} {s s2 : Sys}
    (hinv : AllDropInv IP N s) (hN : N < 65536)
    (h : proberSleep .wake s = some s2) : AllDropInv IP N s2 := by
  unfold proberSleep at h
  split at h
  · rename_i hpc
    simp only [Option.some.injEq] at h
    subst h
    have hlt : s.prober.st.i < N := hinv.i_lt (Or.inr hpc)
    have hfail := hinv.fails (by simp [hpc])
    simp only [Prober.progress, hpc] at hfail
    have hmod : (s.prober.st.i + 1) % 65536 = s.prober.st.i + 1 := Nat.mod_eq_of_lt (by omega)
    constructor
    · exact hinv.prob
    · exact hinv.dest
    · exact hinv.pkts
    · exact hinv.alldrop
    · exact hinv.exp
    · exact hinv.recv
    · exact hinv.unlocked
    · exact hinv.nosucc
    · exact hinv.nowire
    · exact hinv.others
    · simp only [increment, onSleep]
      exact hinv.keep
    · simp only [increment, onSleep, hmod]
      omega
    · simp
    · simp only [increment, onSleep]
      exact hinv.succs
    · intro _
      simp only [Prober.progress, increment, onSleep, hmod]
      exact hfail
  · simp at h

theorem AllDropInv_proberTeardown {IP N : Nat} {s s2 : Sys}
    (hinv : AllDropInv IP N s) (h : proberTeardown s = some s2) : AllDropInv IP N s2 := by
  unfold proberTeardown at h
  split at h
  · rename_i hpc
    simp only [Option.some.injEq] at h
    subst h
    have hfail := hinv.fails (by simp [hpc.1])
    simp only [Prober.progress, hpc.1] at hfail
    obtain ⟨hS, hF, _⟩ := finish_fields s.prober.sortRTTs s.prober.st.results
    constructor
    · exact hinv.prob
    · exact hinv.dest
    · exact hinv.pkts
    · exact hinv.alldrop
    · exact hinv.exp
    · exact hinv.recv
    · exact hinv.unlocked
    · exact hinv.nosucc
    · exact hinv.nowire
    · intro ip hip
      simp only at hip ⊢
      rw [Function.update_noteq hip]
      exact hinv.others ip hip
    · exact hinv.keep
    · exact hinv.i_le
    · simp
    · simp only
      rw [hS]
      exact hinv.succs
    · intro _
      simp only [Prober.progress]
      rw [hF]
      exact hfail
  · simp at h

theorem AllDropInv_expirerTop {IP N : Nat} {s s2 : Sys}
    (hinv : AllDropInv IP N s) (h : expirerTop false s = some s2) : AllDropInv IP N s2 := by
  unfold expirerTop at h
  split at h
  · simp only [Bool.false_eq_true, if_false] at h
    split at h
    · split at h
      · simp only [Option.some.injEq] at h
        subst h
        exact { hinv with exp := by simp }
      · rename_i el rest hdll
        have hel : el.Value.FakeDrop = true := hinv.alldrop el (by rw [hdll]; simp)
        simp only [hel, not_true_eq_false, and_false, if_false, Option.some.injEq] at h
        subst h
        exact { hinv with exp := by simp }
    · simp at h
  · simp at h

theorem AllDropInv_expirer_ie {IP N : Nat} {s : Sys} (hinv : AllDropInv IP N s)
    (ie : ICMPEngine) (exp : ExpirerPC) (eq : Nat → Chan PingExpired)
    (hD : ∀ e ∈ ie.ExpiresDLL, e ∈ s.ie.ExpiresDLL)
    (hP : ∀ ip, s.ie.Pings ip = none → ie.Pings ip = none)
    (hexp : ∀ p c, exp ≠ .sendSuccess p c) :
    AllDropInv IP N { s with ie := ie, expirer := exp, expiredQ := eq } := by
  constructor
  · exact hinv.prob
  · exact hinv.dest
  · exact hinv.pkts
  · intro e he
    exact hinv.alldrop e (hD e he)
  · exact hexp
  · exact hinv.recv
  · exact hinv.unlocked
  · exact hinv.nosucc
  · exact hinv.nowire
  · intro ip hip
    exact hP ip (hinv.others ip hip)
  · exact hinv.keep
  · exact hinv.i_le
  · exact hinv.i_lt
  · exact hinv.succs
  · exact hinv.fails

theorem AllDropInv_expirerRest {IP N : Nat} {a : Action} {s s2 : Sys}
    (hinv : AllDropInv IP N s)
    (ha : (∃ d, a = .expirerWake d) ∨ a = .expirerRecheck ∨ a = .expirerCommit ∨
      a = .expirerSendExpired ∨ a = .expirerExit)
    (h : step a s = some s2) : AllDropInv IP N s2 := by
  rcases ha with ⟨d, rfl⟩ | rfl | rfl | rfl | rfl
  · simp only [step, expirerWake] at h
    split at h
    · simp only [Option.some.injEq] at h
      subst h
      exact AllDropInv_expirer_ie hinv s.ie _ s.expiredQ (fun _ he => he) (fun _ hp => hp)
        (by simp)
    · simp at h
  · simp only [step, expirerRecheck] at h
    split at h
    · split at h
      · split at h
        · simp only [Option.some.injEq] at h
          subst h
          exact AllDropInv_expirer_ie hinv s.ie _ s.expiredQ (fun _ he => he) (fun _ hp => hp)
            (by simp)
        · simp only [Option.some.injEq] at h
          subst h
          exact AllDropInv_expirer_ie hinv s.ie _ s.expiredQ (fun _ he => he) (fun _ hp => hp)
            (by intro p c; split <;> simp)
      · simp at h
    · simp at h
  · simp only [step, expirerCommit] at h
    split at h
    · split at h
      · simp only [Option.some.injEq] at h
        subst h
        refine AllDropInv_expirer_ie hinv _ _ s.expiredQ ?_ ?_ (by simp)
        · intro e he
          have := mem_remove he
          rwa [deleteSeq_ExpiresDLL] at this
        · intro ip hp
          exact deleteSeq_Pings_none hp
      · simp at h
    · simp at h
  · simp only [step, expirerSendExpired] at h
    split at h
    · split at h
      · simp at h
      · simp only [Option.some.injEq] at h
        subst h
        exact AllDropInv_expirer_ie hinv s.ie _ _ (fun _ he => he) (fun _ hp => hp)
          (by intro p c; split <;> simp)
    · simp at h
  · simp only [step, expirerExit] at h
    split at h
    · simp only [Option.some.injEq] at h
      subst h
      exact AllDropInv_expirer_ie hinv _ _ s.expiredQ (fun _ he => he) (fun _ hp => hp)
        (by simp)
    · simp at h

/-- Every step other than a cancel, a shutdown or the receipt of a reply from
the destination preserves `AllDropInv`. -/
theorem AllDropInv_step {IP N : Nat} (hN : N < 65536) (a : Action) (s s2 : Sys)
    (ha : a.isStop = false ∧ a.isReplyFrom IP = false) (hinv : AllDropInv IP N s)
    (h : step a s = some s2) : AllDropInv IP N s2 := by
  cases a with
  | proberSetup => exact AllDropInv_proberSetup hinv h
  | proberInsert now r => exact AllDropInv_proberInsert hinv h
  | proberSelect c =>
    cases c with
    | success => exact AllDropInv_proberSelect hinv (Or.inl rfl) h
    | expired => exact AllDropInv_proberSelect hinv (Or.inr rfl) h
    | done => simp [Action.isStop] at ha
    | allDone => simp [Action.isStop] at ha
  | proberSleep ev =>
    cases ev with
    | wake => exact AllDropInv_proberSleep hinv hN h
    | done => simp [Action.isStop] at ha
    | allDone => simp [Action.isStop] at ha
  | proberTeardown => exact AllDropInv_proberTeardown hinv h
  | expirerTop done =>
    cases done with
    | false => exact AllDropInv_expirerTop hinv h
    | true => simp [Action.isStop] at ha
  | expirerSendSuccess now =>
    simp only [step, expirerSendSuccess] at h
    split at h
    · rename_i p c he
      exact absurd he (hinv.exp p (some c))
    · simp at h
  | expirerWake done => exact AllDropInv_expirerRest hinv (Or.inl ⟨done, rfl⟩) h
  | expirerRecheck => exact AllDropInv_expirerRest hinv (Or.inr (Or.inl rfl)) h
  | expirerCommit => exact AllDropInv_expirerRest hinv (Or.inr (Or.inr (Or.inl rfl))) h
  | expirerSendExpired =>
    exact AllDropInv_expirerRest hinv (Or.inr (Or.inr (Or.inr (Or.inl rfl)))) h
  | expirerExit =>
    exact AllDropInv_expirerRest hinv (Or.inr (Or.inr (Or.inr (Or.inr rfl)))) h
  | receiverRead ip sq t =>
    have hip : ip ≠ s.prober.IP := by
      have := ha.2
      simp only [Action.isReplyFrom, decide_eq_false_iff_not] at this
      rw [hinv.dest]
      exact this
    simp only [step, receiverRead] at h
    split at h
    · simp only [ICMPEngine.lookup, hinv.others ip hip, Option.some.injEq] at h
      subst h
      exact hinv
    · simp at h
  | receiverCommit => simp [step, receiverCommit, hinv.recv] at h

theorem exec_append (l1 l2 : List Action) (s : Sys) :
    exec (l1 ++ l2) s = (exec l1 s).bind (exec l2) := by
  induction l1 generalizing s with
  | nil => simp [exec]
  | cons a l1 ih =>
    simp only [List.cons_append, exec_cons]
    cases step a s with
    | none => simp
    | some s1 => simp [ih]

theorem rounds_exec {round : List Action} {N : Nat} {idle : Nat → Sys}
    (hround : ∀ k, k < N → exec round (idle k) = some (idle (k + 1))) :
    ∀ (n k : Nat), k + n ≤ N → exec (rounds round n) (idle k) = some (idle (k + n)) := by
  intro n
  induction n with
  | zero =>
    intro k _
    rfl
  | succ n ih =>
    intro k hle
    have h2 := ih (k + 1) (by omega)
    have : k + (n + 1) = k + 1 + n := by omega
    rw [this, ← h2]
    simp only [rounds, exec_append, hround k (by omega), Option.bind]

theorem update_none_self (k : Nat) (el : Element) :
    Function.update (Function.update (fun _ : Nat => (none : Option Element)) k (some el)) k none =
      fun _ => none := by
  funext j
  by_cases h : j = k <;> simp [Function.update, h]

theorem replicate_set_zero (N k : Nat) :
    (List.replicate N (0 : Int)).set k 0 = List.replicate N 0 := by
  apply List.ext_getElem
  · simp
  · intro j h1 h2
    simp [List.getElem_set]

theorem idleState_setup (timeout D : Int) (fake : Bool) (IP N : Nat) (sortRTTs : Bool) (p : ℚ)
    (succ : Bool) :
    proberSetup (Sys.init timeout D fake IP N sortRTTs p) =
      some (idleState timeout D fake IP N sortRTTs p succ 0) := by
  simp [proberSetup, Sys.init, NewFullConfig, idleState, loopInit]

/-- One fake-success round takes the run from before iteration `k` to before
iteration `k + 1`. -/
theorem fakeSuccessRound_exec (timeout D : Int) (IP N : Nat) (sortRTTs : Bool) (k : Nat)
    (hN : N < 65536) (hd : D ≤ 100 ∨ 10 ≤ N) (hk : k < N) :
    exec fakeSuccessRound (idleState timeout D true IP N sortRTTs 0 true k) =
      some (idleState timeout D true IP N sortRTTs 0 true (k + 1)) := by
  have hN0 : 0 < N := by omega
  have hmod : (k + 1) % 65536 = k + 1 := Nat.mod_eq_of_lt (by omega)
  have hnk : ¬ N ≤ k := by omega
  have hd2 : ¬ (D > 100 ∧ N / PingerFractionModulo = 0) := by
    rintro ⟨h1, h2⟩
    rcases hd with hd | hd
    · exact absurd h1 (not_lt.mpr hd)
    · have : N / 10 = 0 := h2
      omega
  rcases Nat.eq_zero_or_pos k with h0 | h0
  · subst h0
    simp [fakeSuccessRound, exec, step, idleState, proberInsert, hk, ICMPEngine.insert,
      CheckExpirerIsRunning, expirerTop, FakeDrop_zero, ICMPEngine.remove, ICMPEngine.deleteSeq,
      expirerSendSuccess, Chan.send, hN0, proberSelect, Chan.recv, onSelect, onSuccess, hd2,
      checkPackets, hnk, proberSleep, increment, onSleep, floatQuotient, replicate_set_zero,
      update_none_self]
  · have hk0 : k ≠ 0 := by omega
    simp [fakeSuccessRound, exec, step, idleState, proberInsert, hk, ICMPEngine.insert,
      CheckExpirerIsRunning, expirerTop, FakeDrop_zero, ICMPEngine.remove, ICMPEngine.deleteSeq,
      expirerSendSuccess, Chan.send, hN0, proberSelect, Chan.recv, onSelect, onSuccess, hd2,
      checkPackets, hnk, proberSleep, increment, onSleep, floatQuotient, replicate_set_zero,
      update_none_self, hk0, hmod]

/-- One expiry round takes the run from before iteration `k` to before
iteration `k + 1`, in either mode. -/
theorem expiryRound_exec (timeout D : Int) (fake : Bool) (IP N : Nat) (sortRTTs : Bool)
    (k : Nat) (hN : N < 65536) (hk : k < N) :
    exec expiryRound (idleState timeout D fake IP N sortRTTs 1 false k) =
      some (idleState timeout D fake IP N sortRTTs 1 false (k + 1)) := by
  have hN0 : 0 < N := by omega
  have hmod : (k + 1) % 65536 = k + 1 := Nat.mod_eq_of_lt (by omega)
  have hnk : ¬ N ≤ k := by omega
  have hdrop : FakeDrop 1 0 = true := FakeDrop_one 0 (le_refl 0)
  rcases Nat.eq_zero_or_pos k with h0 | h0
  · subst h0
    simp [expiryRound, exec, step, idleState, proberInsert, hk, ICMPEngine.insert,
      CheckExpirerIsRunning, expirerTop, hdrop, ICMPEngine.remove, ICMPEngine.deleteSeq,
      expirerWake, expirerRecheck, ICMPEngine.lookup, expirerCommit, expirerSendExpired,
      Chan.send, hN0, proberSelect, Chan.recv, onSelect, checkPackets, hnk, proberSleep,
      increment, onSleep, update_none_self]
  · have hk0 : k ≠ 0 := by omega
    simp [expiryRound, exec, step, idleState, proberInsert, hk, ICMPEngine.insert,
      CheckExpirerIsRunning, expirerTop, hdrop, ICMPEngine.remove, ICMPEngine.deleteSeq,
      expirerWake, expirerRecheck, ICMPEngine.lookup, expirerCommit, expirerSendExpired,
      Chan.send, hN0, proberSelect, Chan.recv, onSelect, checkPackets, hnk, proberSleep,
      increment, onSleep, update_none_self, hk0, hmod]

/-- From the idle state after `N` iterations the loop test fails and the
teardown returns the results. -/
theorem idleState_finish (timeout D : Int) (fake : Bool) (IP N : Nat) (sortRTTs : Bool) (p : ℚ)
    (succ : Bool) :
    ∃ s, exec [.proberInsert 0 0, .proberTeardown]
        (idleState timeout D fake IP N sortRTTs p succ N) = some s ∧
      s.prober.pc = .returned ∧
      s.prober.st.results.Successes = (if succ then N else 0) ∧
      s.prober.st.results.Failures = (if succ then 0 else N) ∧
      s.prober.st.results.Count = N ∧ s.ie.ExpiresDLL = [] ∧ s.expirer = .stopped := by
  refine ⟨_, by simp [exec, step, idleState, proberInsert, proberTeardown]; rfl, ?_⟩
  cases succ <;> simp [idleState, finish] <;> split <;> simp

/-- A run that follows `completeSchedule` returns. -/
theorem completeSchedule_exec {round : List Action} (timeout D : Int) (fake : Bool)
    (IP N : Nat) (sortRTTs : Bool) (p : ℚ) (succ : Bool)
    (hround : ∀ k, k < N → exec round (idleState timeout D fake IP N sortRTTs p succ k) =
      some (idleState timeout D fake IP N sortRTTs p succ (k + 1))) :
    ∃ s, exec (completeSchedule round N) (Sys.init timeout D fake IP N sortRTTs p) = some s ∧
      s.prober.pc = .returned ∧
      s.prober.st.results.Successes = (if succ then N else 0) ∧
      s.prober.st.results.Failures = (if succ then 0 else N) ∧
      s.prober.st.results.Count = N ∧ s.ie.ExpiresDLL = [] ∧ s.expirer = .stopped := by
  obtain ⟨s, hs, hrest⟩ := idleState_finish timeout D fake IP N sortRTTs p succ
  refine ⟨s, ?_, hrest⟩
  have hr := rounds_exec hround N 0 (by omega)
  rw [Nat.zero_add] at hr
  unfold completeSchedule
  rw [exec_cons]
  simp only [step]
  rw [idleState_setup timeout D fake IP N sortRTTs p succ, Option.some_bind, exec_append, hr,
    Option.some_bind]
  exact hs

theorem mem_rounds {round : List Action} {a : Action} :
    ∀ n, a ∈ rounds round n → a ∈ round := by
  intro n
  induction n with
  | zero =>
    intro h
    simp [rounds] at h
  | succ n ih =>
    intro h
    simp only [rounds, List.mem_append] at h
    rcases h with h | h
    · exact h
    · exact ih h

/-- No step of a complete schedule of fake-success or expiry rounds is a
cancel, a shutdown or the receipt of a reply. -/
theorem completeSchedule_quiet (IP N : Nat) (a : Action)
    (h : a ∈ completeSchedule fakeSuccessRound N ∨ a ∈ completeSchedule expiryRound N) :
    a.isStop = false ∧ a.isReplyFrom IP = false := by
  have key : a = .proberSetup ∨ a ∈ fakeSuccessRound ∨ a ∈ expiryRound ∨
      a = .proberInsert 0 0 ∨ a = .proberTeardown := by
    rcases h with h | h <;>
      simp only [completeSchedule, List.mem_cons, List.mem_append, List.mem_singleton,
        List.not_mem_nil, or_false] at h
    · rcases h with h | h | h | h
      · exact Or.inl h
      · exact Or.inr (Or.inl (mem_rounds N h))
      · exact Or.inr (Or.inr (Or.inr (Or.inl h)))
      · exact Or.inr (Or.inr (Or.inr (Or.inr h)))
    · rcases h with h | h | h | h
      · exact Or.inl h
      · exact Or.inr (Or.inr (Or.inl (mem_rounds N h)))
      · exact Or.inr (Or.inr (Or.inr (Or.inl h)))
      · exact Or.inr (Or.inr (Or.inr (Or.inr h)))
  rcases key with h | h | h | h | h
  · subst h
    exact ⟨rfl, rfl⟩
  · simp only [fakeSuccessRound, List.mem_cons, List.mem_singleton, List.not_mem_nil,
      or_false] at h
    rcases h with h | h | h | h | h | h <;> subst h <;> exact ⟨rfl, rfl⟩
  · simp only [expiryRound, List.mem_cons, List.mem_singleton, List.not_mem_nil,
      or_false] at h
    rcases h with h | h | h | h | h | h | h | h | h <;> subst h <;> exact ⟨rfl, rfl⟩
  · subst h
    exact ⟨rfl, rfl⟩
  · subst h
    exact ⟨rfl, rfl⟩

/-- Once `PingerConfig` has returned, `Count = Successes + Failures`, whatever
the schedule. -/
theorem returned_count_step (a : Action) (s s2 : Sys)
    (hinv : s.prober.pc = .returned →
      s.prober.st.results.Count = s.prober.st.results.Successes + s.prober.st.results.Failures)
    (h : step a s = some s2) :
    s2.prober.pc = .returned →
      s2.prober.st.results.Count =
        s2.prober.st.results.Successes + s2.prober.st.results.Failures := by
  cases a with
  | proberSetup =>
    simp only [step, proberSetup] at h
    split at h
    · simp only [Option.some.injEq] at h
      subst h
      simp
    · simp at h
  | proberInsert now r =>
    obtain ⟨_, hcase⟩ := proberInsert_some h
    rcases hcase with ⟨_, rfl⟩ | ⟨_, _, _, _, _, _, _, _, _, hP, _⟩
    · simp
    · rw [hP]
      simp
  | proberSelect c =>
    obtain ⟨_, _, _, _, _, _, _, _, _, _, _, hP⟩ := proberSelect_some h
    rw [hP]
    split <;> simp
  | proberSleep ev =>
    simp only [step, proberSleep] at h
    split at h
    · simp only [Option.some.injEq] at h
      subst h
      simp
    · simp at h
  | proberTeardown =>
    simp only [step, proberTeardown] at h
    split at h
    · simp only [Option.some.injEq] at h
      subst h
      intro _
      obtain ⟨hS, hF, _, _, _, _, _, _, hC, _⟩ :=
        finish_fields s.prober.sortRTTs s.prober.st.results
      simp only
      rw [hS, hF, hC]
    · simp at h
  | expirerTop done =>
    simp only [step, expirerTop] at h
    split at h
    · split at h
      · simp only [Option.some.injEq] at h
        subst h
        exact hinv
      · split at h
        · split at h
          · simp only [Option.some.injEq] at h
            subst h
            exact hinv
          · split at h <;> simp only [Option.some.injEq] at h <;> subst h <;> exact hinv
        · simp at h
    · simp at h
  | expirerSendSuccess now =>
    simp only [step, expirerSendSuccess] at h
    split at h
    · split at h
      · simp at h
      · simp only [Option.some.injEq] at h
        subst h
        exact hinv
    · simp at h
  | expirerWake done =>
    simp only [step, expirerWake] at h
    split at h
    · simp only [Option.some.injEq] at h
      subst h
      exact hinv
    · simp at h
  | expirerRecheck =>
    simp only [step, expirerRecheck] at h
    split at h
    · split at h
      · split at h <;> simp only [Option.some.injEq] at h <;> subst h <;> exact hinv
      · simp at h
    · simp at h
  | expirerCommit =>
    simp only [step, expirerCommit] at h
    split at h
    · split at h
      · simp only [Option.some.injEq] at h
        subst h
        exact hinv
      · simp at h
    · simp at h
  | expirerSendExpired =>
    simp only [step, expirerSendExpired] at h
    split at h
    · split at h
      · simp at h
      · simp only [Option.some.injEq] at h
        subst h
        exact hinv
    · simp at h
  | expirerExit =>
    simp only [step, expirerExit] at h
    split at h
    · simp only [Option.some.injEq] at h
      subst h
      exact hinv
    · simp at h
  | receiverRead ip sq t =>
    simp only [step, receiverRead] at h
    split at h
    · split at h <;> simp only [Option.some.injEq] at h <;> subst h <;> exact hinv
    · simp at h
  | receiverCommit =>
    have hfin : ∀ ip sq el ps s3, receiverFinish ip sq el ps s = some s3 →
        s3.prober = s.prober := by
      intro ip sq el ps s3 h3
      unfold receiverFinish at h3
      split at h3
      · simp at h3
      · split at h3
        · simp at h3
        · simp only [Option.some.injEq] at h3
          subst h3
          rfl
    simp only [step, receiverCommit] at h
    split at h
    · split at h
      · split at h
        · rename_i h3
          simp only [Option.some.injEq] at h
          subst h
          rw [hfin _ _ _ _ _ h3]
          exact hinv
        · simp only [Option.some.injEq] at h
          subst h
          exact hinv
      · simp at h
    · rw [hfin _ _ _ _ _ h]
      exact hinv
    · simp at h

/-- C1, evaluated on `raceSchedule`: the single probe (7, 0), inserted with
`Send = 100`, is found both by the Receiver's read-locked lookup and by the
Expirer's read-locked recheck before either runs its write-locked section; the
Expirer removes it and enqueues `PingExpired`, and the Receiver's write-locked
section then enqueues `PingSuccess` for the same probe. Both events sit in the
channels registered for the destination 7. -/
theorem C1_success_and_expired_for_one_probe :
    (exec (raceSchedule.take 2) (Sys.init 1000 0 false 7 1 false 0)).map
        (fun s => (s.ie.ExpiresDLL.map Element.Value, s.wire)) =
      some ([{ NetaddrIP := 7, Seq := 0, Send := 100, Expiry := 1100, FakeDrop := false }],
            [(7, 0)]) ∧
    (exec raceSchedule (Sys.init 1000 0 false 7 1 false 0)).map
        (fun s => (s.ie.SuccessChs 7, s.ie.ExpiredChs 7, (s.successQ 0).queue,
          (s.expiredQ 0).queue, s.ie.ExpiresDLL)) =
      some (some 0, some 0, [{ Seq := 0, Send := 100, Received := 1099, RTT := 999 }],
            [{ Seq := 0, Send := 100 }], ([] : List Element)) := by
  constructor <;> rfl

/-- One call on a fresh engine in fake-success mode with drop probability 0:
along every schedule without cancel or shutdown no probe is marked `FakeDrop`, no Receiver runs, no
`PingExpired` is ever enqueued, and a `PingerConfig` call that has returned
has `Successes = N` and `Failures = 0`; and for every `N` the call does
return, on the schedule of `N` fake-success rounds, unless the progress log
line can divide by zero. -/
theorem fresh_fake_success_without_drop (timeout D : Int) (IP N : Nat) (sortRTTs : Bool)
    (hN : N < 65536) :
    (∀ (sched : List Action) (s : Sys), (∀ a ∈ sched, a.isStop = false) →
      exec sched (Sys.init timeout D true IP N sortRTTs 0) = some s →
        (∀ e ∈ s.ie.ExpiresDLL, e.Value.FakeDrop = false) ∧ s.receiver = .idle ∧
        (∀ c, (s.expiredQ c).queue = []) ∧
        (s.prober.pc = .returned →
          s.prober.st.results.Successes = N ∧ s.prober.st.results.Failures = 0)) ∧
    ((D ≤ 100 ∨ 10 ≤ N) →
      (∀ a ∈ completeSchedule fakeSuccessRound N, a.isStop = false) ∧
      ∃ s, exec (completeSchedule fakeSuccessRound N)
          (Sys.init timeout D true IP N sortRTTs 0) = some s ∧
        s.prober.pc = .returned ∧ s.prober.st.results.Successes = N ∧
        s.prober.st.results.Failures = 0) := by
  constructor
  · intro sched s hstop hexec
    have hinv := exec_invariant (FakeSuccessInv N) (fun a => a.isStop = false)
      (fun a s s2 ha hP h => FakeSuccessInv_step hN a s s2 ha hP h) sched _ s hstop
      (FakeSuccessInv_init timeout D IP N sortRTTs) hexec
    refine ⟨hinv.nodrop, hinv.recv, hinv.noexp, ?_⟩
    intro hpc
    have := hinv.succ (by simp [hpc])
    simp only [Prober.progress, hpc, hinv.pkts] at this
    exact ⟨this, hinv.fails⟩
  · intro hd
    refine ⟨fun a ha => (completeSchedule_quiet IP N a (Or.inl ha)).1, ?_⟩
    obtain ⟨s, hs, hpc, hS, hF, _⟩ := completeSchedule_exec timeout D true IP N sortRTTs 0 true
      (fun k hk => fakeSuccessRound_exec timeout D IP N sortRTTs k hN hd hk)
    exact ⟨s, hs, hpc, by simpa using hS, by simpa using hF⟩

/-- A sample run: a fake-success engine at debug level 111 serving ten
probes to the destination 7 returns with 10 successes and no failure on the
schedule of ten fake-success rounds. -/
theorem fresh_fake_success_sample :
    (10 : Nat) < 65536 ∧
    ∃ s, exec (completeSchedule fakeSuccessRound 10) (Sys.init 1000 111 true 7 10 true 0) =
        some s ∧
      s.prober.pc = .returned ∧ s.prober.st.results.Successes = 10 ∧
      s.prober.st.results.Failures = 0 :=
  ⟨by decide,
    ((fresh_fake_success_without_drop 1000 111 7 10 true (by decide)).2
      (Or.inr (le_refl 10))).2⟩

/-- One call on a fresh engine with drop probability 1, in either mode: along
every schedule without cancel, shutdown or reply from the destination, every probe is marked
`FakeDrop`, nothing is written to the socket, no `PingSuccess` is ever
enqueued, and a `PingerConfig` call that has returned has `Successes = 0` and
`Failures = Count = N`; and for every `N` the call does return, on the
schedule of `N` expiry rounds. -/
theorem fresh_drop_probability_one (timeout D : Int) (fake : Bool) (IP N : Nat) (sortRTTs : Bool)
    (hN : N < 65536) :
    (∀ (sched : List Action) (s : Sys),
      (∀ a ∈ sched, a.isStop = false ∧ a.isReplyFrom IP = false) →
      exec sched (Sys.init timeout D fake IP N sortRTTs 1) = some s →
        (∀ e ∈ s.ie.ExpiresDLL, e.Value.FakeDrop = true) ∧ s.wire = [] ∧
        s.receiver = .idle ∧ (∀ p c, s.expirer ≠ .sendSuccess p c) ∧
        (∀ c, (s.successQ c).queue = []) ∧
        (s.prober.pc = .returned →
          s.prober.st.results.Successes = 0 ∧ s.prober.st.results.Failures = N ∧
          s.prober.st.results.Count = N)) ∧
    ((∀ a ∈ completeSchedule expiryRound N, a.isStop = false ∧ a.isReplyFrom IP = false) ∧
      ∃ s, exec (completeSchedule expiryRound N)
          (Sys.init timeout D fake IP N sortRTTs 1) = some s ∧
        s.prober.pc = .returned ∧ s.prober.st.results.Successes = 0 ∧
        s.prober.st.results.Failures = N ∧ s.prober.st.results.Count = N) := by
  constructor
  · intro sched s hquiet hexec
    have hinv := exec_invariant (AllDropInv IP N)
      (fun a => a.isStop = false ∧ a.isReplyFrom IP = false)
      (fun a s s2 ha hP h => AllDropInv_step hN a s s2 ha hP h) sched _ s hquiet
      (AllDropInv_init timeout D fake IP N sortRTTs) hexec
    have hcount := exec_invariant
      (fun s => s.prober.pc = .returned →
        s.prober.st.results.Count =
          s.prober.st.results.Successes + s.prober.st.results.Failures)
      (fun _ => True) (fun a s s2 _ hP h => returned_count_step a s s2 hP h) sched _ s
      (fun _ _ => trivial) (by simp [Sys.init]) hexec
    refine ⟨hinv.alldrop, hinv.nowire, hinv.recv, hinv.exp, hinv.nosucc, ?_⟩
    intro hpc
    have hF := hinv.fails (by simp [hpc])
    simp only [Prober.progress, hpc, hinv.pkts] at hF
    have hC := hcount hpc
    rw [hinv.succs, hF, Nat.zero_add] at hC
    exact ⟨hinv.succs, hF, hC⟩
  · refine ⟨fun a ha => completeSchedule_quiet IP N a (Or.inr ha), ?_⟩
    obtain ⟨s, hs, hpc, hS, hF, hC, _⟩ :=
      completeSchedule_exec timeout D fake IP N sortRTTs 1 false
        (fun k hk => expiryRound_exec timeout D fake IP N sortRTTs k hN hk)
    exact ⟨s, hs, hpc, by simpa using hS, by simpa using hF, hC⟩

/-- A sample run: a fake-success engine serving ten probes to the destination
7 with drop probability 1 returns with no success and 10 failures on the
schedule of ten expiry rounds. -/
theorem fresh_drop_probability_one_sample :
    (10 : Nat) < 65536 ∧
    ∃ s, exec (completeSchedule expiryRound 10) (Sys.init 10000000 10 true 7 10 true 1) =
        some s ∧
      s.prober.pc = .returned ∧ s.prober.st.results.Successes = 0 ∧
      s.prober.st.results.Failures = 10 ∧ s.prober.st.results.Count = 10 :=
  ⟨by decide, (fresh_drop_probability_one 10000000 10 true 7 10 true (by decide)).2.2⟩

/-! ### The index of in-flight probes -/

theorem lookup_remove (ie : ICMPEngine) (el : Element) (ip sq : Nat) :
    (ie.remove el).lookup ip sq = ie.lookup ip sq := rfl

theorem remove_nextElement (ie : ICMPEngine) (el : Element) :
    (ie.remove el).nextElement = ie.nextElement := rfl

theorem deleteSeq_nextElement (ie : ICMPEngine) (ip sq : Nat) :
    (ie.deleteSeq ip sq).nextElement = ie.nextElement := by
  unfold ICMPEngine.deleteSeq
  cases ie.Pings ip <;> rfl

theorem deleteSeq_Timeout (ie : ICMPEngine) (ip sq : Nat) :
    (ie.deleteSeq ip sq).Timeout = ie.Timeout := by
  unfold ICMPEngine.deleteSeq
  cases ie.Pings ip <;> rfl

/-- The map after `delete(ie.Pingers.Pings[ip], sq)`. -/
theorem lookup_deleteSeq (ie : ICMPEngine) (ip sq ip2 sq2 : Nat) :
    (ie.deleteSeq ip sq).lookup ip2 sq2 =
      if ip2 = ip ∧ sq2 = sq then none else ie.lookup ip2 sq2 := by
  unfold ICMPEngine.deleteSeq ICMPEngine.lookup
  cases hq : ie.Pings ip with
  | none =>
    simp only
    by_cases hip : ip2 = ip
    · subst hip
      simp [hq]
    · simp [hip]
  | some inner =>
    simp only
    by_cases hip : ip2 = ip
    · subst hip
      simp only [Function.update_same, true_and, hq]
      by_cases hs : sq2 = sq
      · subst hs
        simp
      · simp [hs, Function.update_noteq hs]
    · simp [hip, Function.update_noteq hip]

/-- The map after the index insertion. -/
theorem lookup_insert {ie ie2 : ICMPEngine} {IP i : Nat} {ps : Pings}
    (h : ie.insert IP i ps = some ie2) (ip sq : Nat) :
    ie2.lookup ip sq =
      if ip = IP ∧ sq = i then some { id := ie.nextElement, Value := ps }
      else ie.lookup ip sq := by
  unfold ICMPEngine.insert at h
  simp only at h
  split at h
  · simp at h
  · rename_i inner hinner
    simp only [Option.some.injEq] at h
    subst h
    unfold ICMPEngine.lookup
    simp only
    by_cases hip : ip = IP
    · subst hip
      simp only [Function.update_same, true_and]
      by_cases hs : sq = i
      · subst hs
        simp
      · simp only [hs, if_false, Function.update_noteq hs]
        by_cases h0 : i = 0
        · simp only [h0, if_true] at hinner
          cases hq : ie.Pings ip with
          | none =>
            simp only [hq, Function.update_same, Option.some.injEq] at hinner
            rw [← hinner]
          | some v =>
            simp only [hq, Option.some.injEq] at hinner
            rw [hinner]
        · simp only [h0, if_false] at hinner
          rw [hinner]
    · simp only [hip, false_and, if_false, Function.update_noteq hip]
      by_cases h0 : i = 0
      · simp only [h0, if_true]
        cases hq : ie.Pings IP with
        | none => simp only [Function.update_noteq hip]
        | some v => rfl
      · simp only [h0, if_false]

theorem IndexInv_init (timeout D : Int) (fake : Bool) (IP N : Nat) (sortRTTs : Bool) (p : ℚ)
    (hN : N < 65536) : IndexInv (Sys.init timeout D fake IP N sortRTTs p) := by
  constructor <;> simp [Sys.init, NewFullConfig, loopInit, ICMPEngine.lookup, hN]

/-- The invariant carries over to a state whose list is a sublist of the old
one, whose map has no new entries, whose handles are old ones or come from a
lookup in the old map, and whose Prober still counts the nodes created. -/
theorem IndexInv_frame {s s2 : Sys} (hinv : IndexInv s)
    (hIP : s2.prober.IP = s.prober.IP) (hpk : s2.prober.packets = s.prober.packets)
    (hn : s2.ie.nextElement = s.ie.nextElement)
    (hstart : s2.prober.pc = .start → s2.prober.st.i = 0)
    (hcount : s.ie.nextElement =
      s2.prober.st.i + (if s2.prober.pc = .select ∨ s2.prober.pc = .sleep then 1 else 0))
    (hlt : s2.prober.pc = .select ∨ s2.prober.pc = .sleep → s2.prober.st.i < s.prober.packets)
    (hsub : s2.ie.ExpiresDLL.Sublist s.ie.ExpiresDLL)
    (hk : ∀ ip sq el, s2.ie.lookup ip sq = some el → s.ie.lookup ip sq = some el)
    (hr : ∀ ip sq el ps,
      s2.receiver = .commit ip sq el ps ∨ s2.receiver = .blocked ip sq el ps →
        (s.receiver = .commit ip sq el ps ∨ s.receiver = .blocked ip sq el ps) ∨
        (s.ie.lookup ip sq = some el ∧ ps.Seq = sq ∧ ps.Send = el.Value.Send ∧
          ps.RTT = ps.Received - ps.Send))
    (he : ∀ p el kl, s2.expirer = .commit p el kl →
      s.expirer = .commit p el kl ∨ s.ie.lookup p.NetaddrIP p.Seq = some el) :
    IndexInv s2 := by
  refine ⟨by rw [hpk]; exact hinv.pkts, hstart, by rw [hn]; exact hcount,
    by rw [hpk]; exact hlt, ?_, hinv.sorted.sublist hsub, ?_, ?_, ?_⟩
  · intro e he2
    rw [hIP, hn]
    exact hinv.node e (hsub.subset he2)
  · intro ip sq el h
    rw [hIP, hn]
    exact hinv.keyed ip sq el (hk ip sq el h)
  · intro ip sq el ps h
    rw [hIP, hn]
    rcases hr ip sq el ps h with h1 | ⟨h1, h2, h3, h4⟩
    · exact hinv.recv ip sq el ps h1
    · obtain ⟨k1, k2, k3, k4, k5⟩ := hinv.keyed ip sq el h1
      exact ⟨k1, k2, k3, k4, k5, h2, h3, h4⟩
  · intro p el kl h
    rw [hIP, hn]
    rcases he p el kl h with h1 | h1
    · exact hinv.exp p el kl h1
    · obtain ⟨k1, k2, k3, k4, k5⟩ := hinv.keyed _ _ el h1
      exact ⟨k1, k2, k3, k4, k5⟩

theorem remove_sublist (ie : ICMPEngine) (el : Element) :
    (ie.remove el).ExpiresDLL.Sublist ie.ExpiresDLL := by
  unfold ICMPEngine.remove
  exact List.filter_sublist _

theorem lookup_deleteSeq_some {ie : ICMPEngine} {ip sq ip2 sq2 : Nat} {el : Element}
    (h : (ie.deleteSeq ip sq).lookup ip2 sq2 = some el) : ie.lookup ip2 sq2 = some el := by
  rw [lookup_deleteSeq] at h
  split at h
  · cases h
  · exact h

/-- The frame lemma for a step of the Expirer or of a Receiver. -/
theorem IndexInv_worker {s s2 : Sys} (hinv : IndexInv s) (hpr : s2.prober = s.prober)
    (hn : s2.ie.nextElement = s.ie.nextElement)
    (hsub : s2.ie.ExpiresDLL.Sublist s.ie.ExpiresDLL)
    (hk : ∀ ip sq el, s2.ie.lookup ip sq = some el → s.ie.lookup ip sq = some el)
    (hr : ∀ ip sq el ps,
      s2.receiver = .commit ip sq el ps ∨ s2.receiver = .blocked ip sq el ps →
        (s.receiver = .commit ip sq el ps ∨ s.receiver = .blocked ip sq el ps) ∨
        (s.ie.lookup ip sq = some el ∧ ps.Seq = sq ∧ ps.Send = el.Value.Send ∧
          ps.RTT = ps.Received - ps.Send))
    (he : ∀ p el kl, s2.expirer = .commit p el kl →
      s.expirer = .commit p el kl ∨ s.ie.lookup p.NetaddrIP p.Seq = some el) :
    IndexInv s2 := by
  refine IndexInv_frame hinv (by rw [hpr]) (by rw [hpr]) hn ?_ ?_ ?_ hsub hk hr he
  · rw [hpr]
    exact hinv.start
  · rw [hpr]
    exact hinv.count
  · rw [hpr]
    exact hinv.i_lt

theorem IndexInv_expirerTop {s s2 : Sys} {done : Bool} (hinv : IndexInv s)
    (h : expirerTop done s = some s2) : IndexInv s2 := by
  unfold expirerTop at h
  split at h
  · split at h
    · simp only [Option.some.injEq] at h
      subst h
      exact IndexInv_worker hinv rfl rfl (List.Sublist.refl _) (fun _ _ _ h => h)
        (fun _ _ _ _ h => Or.inl h) (fun _ _ _ h => by simp at h)
    · split at h
      · split at h
        · simp only [Option.some.injEq] at h
          subst h
          exact IndexInv_worker hinv rfl rfl (List.Sublist.refl _) (fun _ _ _ h => h)
            (fun _ _ _ _ h => Or.inl h) (fun _ _ _ h => by simp at h)
        · rename_i el rest hl
          simp only at h
          split at h <;> simp only [Option.some.injEq] at h <;> subst h
          · refine IndexInv_worker hinv rfl ?_ ?_ ?_
              (fun _ _ _ _ h => Or.inl h) (fun _ _ _ h => by simp at h)
            · simp only [deleteSeq_nextElement, remove_nextElement]
            · simp only [deleteSeq_ExpiresDLL]
              exact remove_sublist _ _
            · intro ip sq e he
              have he2 := lookup_deleteSeq_some he
              rw [lookup_remove] at he2
              exact he2
          · exact IndexInv_worker hinv rfl rfl (List.Sublist.refl _) (fun _ _ _ h => h)
              (fun _ _ _ _ h => Or.inl h) (fun _ _ _ h => by simp at h)
      · simp at h
  · simp at h

theorem IndexInv_expirerRest {s s2 : Sys} {a : Action} (hinv : IndexInv s)
    (ha : (∃ now, a = .expirerSendSuccess now) ∨ (∃ done, a = .expirerWake done) ∨
      a = .expirerRecheck ∨ a = .expirerCommit ∨ a = .expirerSendExpired ∨ a = .expirerExit)
    (h : step a s = some s2) : IndexInv s2 := by
  rcases ha with ⟨now, rfl⟩ | ⟨done, rfl⟩ | rfl | rfl | rfl | rfl <;> simp only [step] at h
  · unfold expirerSendSuccess at h
    split at h
    · split at h
      · simp at h
      · simp only [Option.some.injEq] at h
        subst h
        exact IndexInv_worker hinv rfl rfl (List.Sublist.refl _) (fun _ _ _ h => h)
          (fun _ _ _ _ h => Or.inl h) (fun _ _ _ h => by simp at h)
    · simp at h
  · unfold expirerWake at h
    split at h
    · simp only [Option.some.injEq] at h
      subst h
      exact IndexInv_worker hinv rfl rfl (List.Sublist.refl _) (fun _ _ _ h => h)
        (fun _ _ _ _ h => Or.inl h) (fun _ _ _ h => by simp at h)
    · simp at h
  · unfold expirerRecheck at h
    split at h
    · rename_i p kl hpc
      split at h
      · split at h
        · rename_i el hlook
          simp only [Option.some.injEq] at h
          subst h
          refine IndexInv_worker hinv rfl rfl (List.Sublist.refl _) (fun _ _ _ h => h)
            (fun _ _ _ _ h => Or.inl h) ?_
          intro p2 el2 kl2 h2
          simp only [ExpirerPC.commit.injEq] at h2
          obtain ⟨rfl, rfl, rfl⟩ := h2
          exact Or.inr hlook
        · simp only [Option.some.injEq] at h
          subst h
          refine IndexInv_worker hinv rfl rfl (List.Sublist.refl _) (fun _ _ _ h => h)
            (fun _ _ _ _ h => Or.inl h) ?_
          intro p2 el2 kl2 h2
          split at h2 <;> simp at h2
      · simp at h
    · simp at h
  · unfold expirerCommit at h
    split at h
    · split at h
      · simp only at h
        simp only [Option.some.injEq] at h
        subst h
        refine IndexInv_worker hinv rfl ?_ ?_ ?_
          (fun _ _ _ _ h => Or.inl h) (fun _ _ _ h => by simp at h)
        · simp only [deleteSeq_nextElement, remove_nextElement]
        · exact (remove_sublist _ _).trans (by rw [deleteSeq_ExpiresDLL])
        · intro ip sq e he
          rw [lookup_remove] at he
          exact lookup_deleteSeq_some he
      · simp at h
    · simp at h
  · unfold expirerSendExpired at h
    split at h
    · split at h
      · simp at h
      · simp only [Option.some.injEq] at h
        subst h
        refine IndexInv_worker hinv rfl rfl (List.Sublist.refl _) (fun _ _ _ h => h)
          (fun _ _ _ _ h => Or.inl h) ?_
        intro p2 el2 kl2 h2
        split at h2 <;> simp at h2
    · simp at h
  · unfold expirerExit at h
    split at h
    · simp only [Option.some.injEq] at h
      subst h
      exact IndexInv_worker hinv rfl rfl (List.Sublist.refl _) (fun _ _ _ h => h)
        (fun _ _ _ _ h => Or.inl h) (fun _ _ _ h => by simp at h)
    · simp at h

/-- What a completed write-locked section of a Receiver did. -/
theorem receiverFinish_some {ip sq : Nat} {el : Element} {ps : PingSuccess} {s s2 : Sys}
    (h : receiverFinish ip sq el ps s = some s2) :
    ∃ ch q, s.ie.SuccessChs ip = some ch ∧ (s.successQ ch).send ps = some q ∧
      s2 = { s with successQ := Function.update s.successQ ch q,
                    ie := (s.ie.deleteSeq ip sq).remove el,
                    lockHeld := false, receiver := .idle } := by
  unfold receiverFinish at h
  split at h
  · simp at h
  · rename_i ch hch
    split at h
    · simp at h
    · rename_i q hq
      simp only [Option.some.injEq] at h
      exact ⟨ch, q, hch, hq, h.symm⟩

/-- What a `receiverCommit` step did: the write-locked section ran to its end,
or the Receiver took the lock and blocked in the send. -/
theorem receiverCommit_some {s s2 : Sys} (h : receiverCommit s = some s2) :
    ∃ ip sq el ps, (s.receiver = .commit ip sq el ps ∨ s.receiver = .blocked ip sq el ps) ∧
      (receiverFinish ip sq el ps s = some s2 ∨
        (s.receiver = .commit ip sq el ps ∧ s.lockHeld = false ∧
          receiverFinish ip sq el ps s = none ∧
          s2 = { s with lockHeld := true, receiver := .blocked ip sq el ps })) := by
  unfold receiverCommit at h
  split at h
  · rename_i ip sq el ps hpc
    refine ⟨ip, sq, el, ps, Or.inl hpc, ?_⟩
    split at h
    · rename_i hl
      split at h
      · rename_i s3 hf
        simp only [Option.some.injEq] at h
        subst h
        exact Or.inl hf
      · rename_i hf
        simp only [Option.some.injEq] at h
        exact Or.inr ⟨hpc, hl, hf, h.symm⟩
    · simp at h
  · rename_i ip sq el ps hpc
    exact ⟨ip, sq, el, ps, Or.inr hpc, Or.inl h⟩
  · simp at h

theorem IndexInv_receiver {s s2 : Sys} {a : Action} (hinv : IndexInv s)
    (ha : (∃ ip sq t, a = .receiverRead ip sq t) ∨ a = .receiverCommit)
    (h : step a s = some s2) : IndexInv s2 := by
  rcases ha with ⟨ip, sq, t, rfl⟩ | rfl <;> simp only [step] at h
  · unfold receiverRead at h
    split at h
    · split at h
      · simp only [Option.some.injEq] at h
        subst h
        exact hinv
      · rename_i el hlook
        simp only [Option.some.injEq] at h
        subst h
        refine IndexInv_worker hinv rfl rfl (List.Sublist.refl _) (fun _ _ _ h => h) ?_
          (fun _ _ _ h => Or.inl h)
        intro ip2 sq2 el2 ps2 h2
        simp only [ReceiverPC.commit.injEq, reduceCtorEq, or_false] at h2
        obtain ⟨rfl, rfl, rfl, rfl⟩ := h2
        exact Or.inr ⟨hlook, rfl, rfl, rfl⟩
    · simp at h
  · obtain ⟨ip, sq, el, ps, hpc, hf | ⟨hc, _, _, rfl⟩⟩ := receiverCommit_some h
    · obtain ⟨ch, q, _, _, rfl⟩ := receiverFinish_some hf
      refine IndexInv_worker hinv rfl ?_ ?_ ?_ (fun _ _ _ _ h => by simp at h)
        (fun _ _ _ h => Or.inl h)
      · simp only [deleteSeq_nextElement, remove_nextElement]
      · exact (remove_sublist _ _).trans (by rw [deleteSeq_ExpiresDLL])
      · intro ip2 sq2 e he
        rw [lookup_remove] at he
        exact lookup_deleteSeq_some he
    · refine IndexInv_worker hinv rfl rfl (List.Sublist.refl _) (fun _ _ _ h => h) ?_
        (fun _ _ _ h => Or.inl h)
      intro ip2 sq2 el2 ps2 h2
      simp only [ReceiverPC.blocked.injEq, reduceCtorEq, false_or] at h2
      obtain ⟨rfl, rfl, rfl, rfl⟩ := h2
      exact Or.inl (Or.inl hc)

theorem onSelect_i {D : Int} {packets : Nat} {ev : SelectEvent} {st st1 : LoopState}
    (h : onSelect D packets ev st = .ok st1) : st1.i = st.i := by
  unfold onSelect at h
  cases ev with
  | success ps =>
    simp only at h
    split at h
    · cases h
    · simp only [Except.ok.injEq] at h
      subst h
      rfl
  | expired pe =>
    simp only [Except.ok.injEq] at h
    subst h
    rfl
  | done =>
    simp only [Except.ok.injEq] at h
    subst h
    rfl
  | allDone =>
    simp only [Except.ok.injEq] at h
    subst h
    rfl

theorem checkPackets_i (packets : Nat) (st : LoopState) : (checkPackets packets st).i = st.i := by
  unfold checkPackets
  split <;> rfl

theorem onSleep_i (ev : SleepEvent) (st : LoopState) : (onSleep ev st).i = st.i := by
  cases ev <;> rfl

theorem increment_i (st : LoopState) (h : st.i + 1 < 65536) : (increment st).i = st.i + 1 := by
  unfold increment
  exact Nat.mod_eq_of_lt h

theorem IndexInv_proberSetup {s s2 : Sys} (hinv : IndexInv s) (h : proberSetup s = some s2) :
    IndexInv s2 := by
  unfold proberSetup at h
  split at h
  · rename_i hc
    simp only [Option.some.injEq] at h
    subst h
    have h0 := hinv.start hc.1
    have hcount := hinv.count
    simp only [hc.1, h0, reduceCtorEq, or_self, if_false] at hcount
    refine IndexInv_frame hinv rfl rfl rfl (fun _ => rfl) ?_ (by simp) (List.Sublist.refl _)
      (fun _ _ _ h => h) (fun _ _ _ _ h => Or.inl h) (fun _ _ _ h => Or.inl h)
    simp [loopInit, hcount]
  · simp at h

theorem IndexInv_proberSelect {s s2 : Sys} {c : SelectCase} (hinv : IndexInv s)
    (h : proberSelect c s = some s2) : IndexInv s2 := by
  obtain ⟨hpc, ev, st1, hsel, _, hie, hexp, hrecv, _, _, _, hpr⟩ := proberSelect_some h
  have hi := onSelect_i hsel
  have hlt := hinv.i_lt (Or.inl hpc)
  have hcount := hinv.count
  have hp := hinv.pkts
  simp only [hpc, true_or, if_true] at hcount
  refine IndexInv_frame hinv (by rw [hpr]; split <;> rfl) (by rw [hpr]; split <;> rfl)
    (by rw [hie]) ?_ ?_ ?_ (by rw [hie]) (fun _ _ _ h => by rw [hie] at h; exact h)
    (fun _ _ _ _ h => by rw [hrecv] at h; exact Or.inl h)
    (fun _ _ _ h => by rw [hexp] at h; exact Or.inl h)
  · rw [hpr]
    split <;> simp
  · rw [hpr]
    split
    · simp [checkPackets_i, hi, hcount]
    · simp only [reduceCtorEq, or_self, if_false, Nat.add_zero]
      rw [increment_i, checkPackets_i, hi, hcount]
      rw [checkPackets_i, hi]
      omega
  · rw [hpr]
    split
    · simp [checkPackets_i, hi, hlt]
    · simp

theorem IndexInv_proberSleep {s s2 : Sys} {ev : SleepEvent} (hinv : IndexInv s)
    (h : proberSleep ev s = some s2) : IndexInv s2 := by
  unfold proberSleep at h
  split at h
  · rename_i hpc
    simp only [Option.some.injEq] at h
    subst h
    have hlt := hinv.i_lt (Or.inr hpc)
    have hcount := hinv.count
    have hp := hinv.pkts
    simp only [hpc, or_true, if_true] at hcount
    refine IndexInv_frame hinv rfl rfl rfl (by simp) ?_ (by simp) (List.Sublist.refl _)
      (fun _ _ _ h => h) (fun _ _ _ _ h => Or.inl h) (fun _ _ _ h => Or.inl h)
    simp only [reduceCtorEq, or_self, if_false, Nat.add_zero]
    rw [increment_i, onSleep_i, hcount]
    rw [onSleep_i]
    omega
  · simp at h

theorem IndexInv_proberTeardown {s s2 : Sys} (hinv : IndexInv s)
    (h : proberTeardown s = some s2) : IndexInv s2 := by
  unfold proberTeardown at h
  split at h
  · rename_i hc
    simp only [Option.some.injEq] at h
    subst h
    have hcount := hinv.count
    simp only [hc.1, reduceCtorEq, or_self, if_false] at hcount
    refine IndexInv_frame hinv rfl rfl rfl (by simp) ?_ (by simp) (List.Sublist.refl _)
      ?_ (fun _ _ _ _ h => Or.inl h) (fun _ _ _ h => Or.inl h)
    · simp [hcount]
    · intro ip sq el hl
      unfold ICMPEngine.lookup at hl ⊢
      simp only at hl
      by_cases hip : ip = s.prober.IP
      · subst hip
        simp at hl
      · rw [Function.update_noteq hip] at hl
        exact hl
  · simp at h

/-- The index after the critical section of `proberInsert` is the index after
the insertion. -/
theorem proberInsert_index {s s2 : Sys} {now : Int} {r : ℚ}
    (h : proberInsert now r s = some s2)
    (hc : s.prober.st.i < s.prober.packets ∧ s.prober.st.keepLooping = true) :
    ∃ ie1, s.ie.insert s.prober.IP s.prober.st.i
        { NetaddrIP := s.prober.IP, Seq := s.prober.st.i, Send := now,
          Expiry := now + s.ie.Timeout, FakeDrop := FakeDrop s.prober.dropProb r } = some ie1 ∧
      s2.ie.Pings = ie1.Pings ∧ s2.ie.ExpiresDLL = ie1.ExpiresDLL ∧
      s2.ie.nextElement = ie1.nextElement ∧ s2.ie.Timeout = ie1.Timeout := by
  unfold proberInsert at h
  split at h
  · simp only [hc, and_self, if_true] at h
    split at h
    · split at h
      · simp at h
      · rename_i ie1 hins
        simp only [Option.some.injEq] at h
        subst h
        refine ⟨ie1, hins, ?_⟩
        unfold CheckExpirerIsRunning
        simp only
        split <;> simp
    · simp at h
  · simp at h

theorem lookup_congr {ie ie2 : ICMPEngine} (h : ie2.Pings = ie.Pings) (ip sq : Nat) :
    ie2.lookup ip sq = ie.lookup ip sq := by
  unfold ICMPEngine.lookup
  rw [h]

theorem IndexInv_proberInsert {s s2 : Sys} {now : Int} {r : ℚ} (hinv : IndexInv s)
    (h : proberInsert now r s = some s2) : IndexInv s2 := by
  obtain ⟨hpc, ⟨_, rfl⟩ | ⟨hi, hk, _, _, _, hlist, _, _, _, hpr, hrecv, _, _, _, hexp, _⟩⟩ :=
    proberInsert_some h
  · have hcount := hinv.count
    simp only [hpc, reduceCtorEq, or_self, if_false] at hcount
    exact IndexInv_frame hinv rfl rfl rfl (by simp) (by simp [hcount]) (by simp)
      (List.Sublist.refl _) (fun _ _ _ h => h) (fun _ _ _ _ h => Or.inl h)
      (fun _ _ _ h => Or.inl h)
  · obtain ⟨ie1, hins, hP, _, hn, _⟩ := proberInsert_index h ⟨hi, hk⟩
    have hn1 : s2.ie.nextElement = s.ie.nextElement + 1 := by
      rw [hn]
      exact (insert_some hins).2.2.2.2.1
    have hcount := hinv.count
    simp only [hpc, reduceCtorEq, or_self, if_false, Nat.add_zero] at hcount
    have hlook : ∀ ip sq, s2.ie.lookup ip sq =
        if ip = s.prober.IP ∧ sq = s.prober.st.i then
          some { id := s.ie.nextElement,
                 Value := { NetaddrIP := s.prober.IP, Seq := s.prober.st.i, Send := now,
                            Expiry := now + s.ie.Timeout,
                            FakeDrop := FakeDrop s.prober.dropProb r } }
        else s.ie.lookup ip sq := by
      intro ip sq
      rw [lookup_congr hP, lookup_insert hins]
    refine ⟨by rw [hpr]; exact hinv.pkts, by rw [hpr]; simp, by rw [hpr, hn1, hcount]; simp,
      by rw [hpr]; intro _; exact hi, ?_, ?_, ?_, ?_, ?_⟩
    · intro e he
      rw [hlist, List.mem_append, List.mem_singleton] at he
      rw [hpr, hn1]
      rcases he with he | rfl
      · obtain ⟨h1, h2, h3⟩ := hinv.node e he
        exact ⟨h1, h2, by omega⟩
      · exact ⟨rfl, hcount.symm, by simp⟩
    · rw [hlist, List.pairwise_append]
      refine ⟨hinv.sorted, List.pairwise_singleton _ _, ?_⟩
      intro a ha b hb
      rw [List.mem_singleton] at hb
      subst hb
      exact (hinv.node a ha).2.2
    · intro ip sq el hl
      rw [hlook] at hl
      rw [hpr, hn1]
      split at hl
      · rename_i hq
        simp only [Option.some.injEq] at hl
        subst hl
        obtain ⟨rfl, rfl⟩ := hq
        exact ⟨rfl, rfl, rfl, hcount, by omega⟩
      · obtain ⟨k1, k2, k3, k4, k5⟩ := hinv.keyed ip sq el hl
        exact ⟨k1, k2, k3, k4, by omega⟩
    · intro ip sq el ps hq
      rw [hrecv] at hq
      rw [hpr, hn1]
      obtain ⟨k1, k2, k3, k4, k5, k6⟩ := hinv.recv ip sq el ps hq
      exact ⟨k1, k2, k3, k4, by omega, k6⟩
    · intro p el kl hq
      rw [hpr, hn1]
      rcases hexp with he | he
      · rw [he] at hq
        obtain ⟨k1, k2, k3, k4, k5⟩ := hinv.exp p el kl hq
        exact ⟨k1, k2, k3, k4, by omega⟩
      · rw [he] at hq
        cases hq

/-- Every step preserves the index invariant. -/
theorem IndexInv_step {a : Action} {s s2 : Sys} (hinv : IndexInv s) (h : step a s = some s2) :
    IndexInv s2 := by
  cases a with
  | proberSetup => exact IndexInv_proberSetup hinv h
  | proberInsert now r => exact IndexInv_proberInsert hinv h
  | proberSelect c => exact IndexInv_proberSelect hinv h
  | proberSleep ev => exact IndexInv_proberSleep hinv h
  | proberTeardown => exact IndexInv_proberTeardown hinv h
  | expirerTop done => exact IndexInv_expirerTop hinv h
  | expirerSendSuccess now => exact IndexInv_expirerRest hinv (Or.inl ⟨now, rfl⟩) h
  | expirerWake done => exact IndexInv_expirerRest hinv (Or.inr (Or.inl ⟨done, rfl⟩)) h
  | expirerRecheck => exact IndexInv_expirerRest hinv (Or.inr (Or.inr (Or.inl rfl))) h
  | expirerCommit => exact IndexInv_expirerRest hinv (Or.inr (Or.inr (Or.inr (Or.inl rfl)))) h
  | expirerSendExpired =>
    exact IndexInv_expirerRest hinv (Or.inr (Or.inr (Or.inr (Or.inr (Or.inl rfl))))) h
  | expirerExit =>
    exact IndexInv_expirerRest hinv (Or.inr (Or.inr (Or.inr (Or.inr (Or.inr rfl))))) h
  | receiverRead ip sq t => exact IndexInv_receiver hinv (Or.inl ⟨ip, sq, t, rfl⟩) h
  | receiverCommit => exact IndexInv_receiver hinv (Or.inr rfl) h

/-- The index invariant holds in every state a schedule reaches from a fresh
engine. -/
theorem IndexInv_exec {timeout D : Int} {fake : Bool} {IP N : Nat} {sortRTTs : Bool} {p : ℚ}
    (hN : N < 65536) {sched : List Action} {s : Sys}
    (h : exec sched (Sys.init timeout D fake IP N sortRTTs p) = some s) : IndexInv s :=
  exec_invariant IndexInv (fun _ => True) (fun _ _ _ _ hinv hs => IndexInv_step hinv hs) sched _ _
    (fun _ _ => trivial) (IndexInv_init timeout D fake IP N sortRTTs p hN) h

/-- Only the channel creation, the Prober's receive, the Receiver's send and
the Expirer's fake-success send touch a success channel. -/
theorem step_successQ {a : Action} {s s2 : Sys} (h : step a s = some s2) :
    s2.successQ = s.successQ ∨ a = .proberSetup ∨ a = .proberSelect .success ∨
      a = .receiverCommit ∨ ∃ now, a = .expirerSendSuccess now := by
  cases a with
  | proberSetup => exact Or.inr (Or.inl rfl)
  | proberInsert now r =>
    obtain ⟨_, ⟨_, rfl⟩ | ⟨_, _, _, _, _, _, _, _, _, _, _, _, hq, _⟩⟩ := proberInsert_some h
    · exact Or.inl rfl
    · exact Or.inl hq
  | proberSelect c =>
    obtain ⟨_, ev, st1, _, hc, _⟩ := proberSelect_some h
    cases c with
    | success => exact Or.inr (Or.inr (Or.inl rfl))
    | expired =>
      obtain ⟨_, _, _, _, _, hq⟩ := hc
      exact Or.inl hq
    | done => exact Or.inl hc.2.1
    | allDone => exact Or.inl hc.2.1
  | proberSleep ev =>
    simp only [step, proberSleep] at h
    split at h
    · simp only [Option.some.injEq] at h
      subst h
      exact Or.inl rfl
    · simp at h
  | proberTeardown =>
    simp only [step, proberTeardown] at h
    split at h
    · simp only [Option.some.injEq] at h
      subst h
      exact Or.inl rfl
    · simp at h
  | expirerTop done =>
    left
    simp only [step, expirerTop] at h
    split at h
    · split at h
      · simp only [Option.some.injEq] at h
        subst h
        rfl
      · split at h
        · split at h
          · simp only [Option.some.injEq] at h
            subst h
            rfl
          · split at h <;> simp only [Option.some.injEq] at h <;> subst h <;> rfl
        · simp at h
    · simp at h
  | expirerSendSuccess now => exact Or.inr (Or.inr (Or.inr (Or.inr ⟨now, rfl⟩)))
  | expirerWake done =>
    left
    simp only [step, expirerWake] at h
    split at h
    · simp only [Option.some.injEq] at h
      subst h
      rfl
    · simp at h
  | expirerRecheck =>
    left
    simp only [step, expirerRecheck] at h
    split at h
    · split at h
      · split at h <;> simp only [Option.some.injEq] at h <;> subst h <;> rfl
      · simp at h
    · simp at h
  | expirerCommit =>
    left
    simp only [step, expirerCommit] at h
    split at h
    · split at h
      · simp only [Option.some.injEq] at h
        subst h
        rfl
      · simp at h
    · simp at h
  | expirerSendExpired =>
    left
    simp only [step, expirerSendExpired] at h
    split at h
    · split at h
      · simp at h
      · simp only [Option.some.injEq] at h
        subst h
        rfl
    · simp at h
  | expirerExit =>
    left
    simp only [step, expirerExit] at h
    split at h
    · simp only [Option.some.injEq] at h
      subst h
      rfl
    · simp at h
  | receiverRead ip sq t =>
    left
    simp only [step, receiverRead] at h
    split at h
    · split at h <;> simp only [Option.some.injEq] at h <;> subst h <;> rfl
    · simp at h
  | receiverCommit => exact Or.inr (Or.inr (Or.inr (Or.inl rfl)))

theorem Chan.send_some {α : Type} {c q : Chan α} {x : α} (h : c.send x = some q) :
    c.queue.length < c.cap ∧ q = { c with queue := c.queue ++ [x] } := by
  unfold Chan.send at h
  split at h
  · rename_i hlt
    simp only [Option.some.injEq] at h
    exact ⟨hlt, h.symm⟩
  · simp at h

/-- C11: in every state a schedule reaches from a fresh engine, (1) when a
Receiver that matched a reply `(ip, sq)` to the node `el` completes its
write-locked section, the `PingSuccess` it appends to `SuccessChs[ip]` is for
the probe `el.Value` of destination `ip`: it has that probe's `Seq` and
`Send`, and `RTT = Received - Send`, which is not negative when `Received` is
not earlier than `Send`; (2) the same holds for the `PingSuccess` the Expirer
appends in fake-success mode for the head probe it removed, `Received` being
its clock reading; (3) no other step appends to a success channel. -/
theorem C11_success_event_fields (timeout D : Int) (fake : Bool) (IP N : Nat) (sortRTTs : Bool)
    (p : ℚ) (hN : N < 65536) :
    (∀ (sched : List Action) (s : Sys),
      exec sched (Sys.init timeout D fake IP N sortRTTs p) = some s →
      (∀ ip sq el ps s2,
        s.receiver = .commit ip sq el ps ∨ s.receiver = .blocked ip sq el ps →
        step .receiverCommit s = some s2 → s2.receiver = .idle →
          (∃ ch, s.ie.SuccessChs ip = some ch ∧
            (s2.successQ ch).queue = (s.successQ ch).queue ++ [ps]) ∧
          el.Value.NetaddrIP = ip ∧ ps.Seq = el.Value.Seq ∧ ps.Send = el.Value.Send ∧
          ps.RTT = ps.Received - ps.Send ∧ (el.Value.Send ≤ ps.Received → 0 ≤ ps.RTT)) ∧
      (∀ probe ch now s2, s.expirer = .sendSuccess probe ch →
        step (.expirerSendSuccess now) s = some s2 →
          ∃ c ps, ch = some c ∧ (s2.successQ c).queue = (s.successQ c).queue ++ [ps] ∧
            ps.Seq = probe.Seq ∧ ps.Send = probe.Send ∧ ps.Received = now ∧
            ps.RTT = ps.Received - ps.Send ∧ (probe.Send ≤ ps.Received → 0 ≤ ps.RTT)) ∧
      (∀ a s2, step a s = some s2 → s2.successQ ≠ s.successQ →
        a = .proberSetup ∨ a = .proberSelect .success ∨ a = .receiverCommit ∨
          ∃ now, a = .expirerSendSuccess now)) ∧
    (∀ (s s2 : Sys) (ip sq : Nat) (t : Int) (ip2 sq2 : Nat) (el : Element) (ps : PingSuccess),
      step (.receiverRead ip sq t) s = some s2 → s2.receiver = .commit ip2 sq2 el ps →
        s.receiver = .idle → s.ie.lookup ip sq = some el ∧ ip2 = ip ∧ sq2 = sq ∧
          ps.Received = t) ∧
    (∀ (s s2 : Sys) (probe : Pings) (ch : Option Nat),
      step (.expirerTop false) s = some s2 → s2.expirer = .sendSuccess probe ch →
        ∃ el rest, s.ie.ExpiresDLL = el :: rest ∧ probe = el.Value ∧
          ch = s.ie.SuccessChs probe.NetaddrIP ∧ s.ie.FakeSuccess = true) := by
  refine ⟨?_, ?_, ?_⟩
  · intro sched s hexec
    have hinv := IndexInv_exec hN hexec
    refine ⟨?_, ?_, ?_⟩
    · intro ip sq el ps s2 hpc hstep hidle
      obtain ⟨_, k2, k3, _, _, k6, k7, k8⟩ := hinv.recv ip sq el ps hpc
      simp only [step] at hstep
      obtain ⟨ip2, sq2, el2, ps2, hpc2, hf | ⟨_, _, _, rfl⟩⟩ := receiverCommit_some hstep
      · have hsame : ip2 = ip ∧ sq2 = sq ∧ el2 = el ∧ ps2 = ps := by
          rcases hpc with h1 | h1 <;> rcases hpc2 with h2 | h2 <;> rw [h1] at h2 <;>
            simp at h2 <;> simp [h2]
        obtain ⟨rfl, rfl, rfl, rfl⟩ := hsame
        obtain ⟨ch, q, hch, hq, rfl⟩ := receiverFinish_some hf
        obtain ⟨_, rfl⟩ := Chan.send_some hq
        refine ⟨⟨ch, hch, by simp⟩, k2, by rw [k6, k3], k7, k8, ?_⟩
        intro hle
        rw [k8, k7]
        omega
      · simp at hidle
    · intro probe ch now s2 hpc hstep
      simp only [step, expirerSendSuccess, hpc] at hstep
      split at hstep
      · rename_i p2 c heq
        simp only [ExpirerPC.sendSuccess.injEq] at heq
        obtain ⟨rfl, rfl⟩ := heq
        split at hstep
        · simp at hstep
        · rename_i q hq
          simp only [Option.some.injEq] at hstep
          subst hstep
          obtain ⟨_, rfl⟩ := Chan.send_some hq
          refine ⟨c, { Seq := probe.Seq, Send := probe.Send, Received := now,
                       RTT := now - probe.Send }, rfl, by simp, rfl, rfl, rfl, rfl, ?_⟩
          intro hle
          simp only at hle ⊢
          omega
      · simp at hstep
    · intro a s2 hstep hne
      rcases step_successQ hstep with h | h
      · exact absurd h hne
      · exact h
  · intro s s2 ip sq t ip2 sq2 el ps hstep hpc hidle
    simp only [step, receiverRead] at hstep
    split at hstep
    · split at hstep
      · simp only [Option.some.injEq] at hstep
        subst hstep
        rw [hidle] at hpc
        cases hpc
      · rename_i e hlook
        simp only [Option.some.injEq] at hstep
        subst hstep
        simp only [ReceiverPC.commit.injEq] at hpc
        obtain ⟨rfl, rfl, rfl, rfl⟩ := hpc
        exact ⟨hlook, rfl, rfl, rfl⟩
    · simp at hstep
  · intro s s2 probe ch hstep hpc
    simp only [step, expirerTop] at hstep
    split at hstep
    · simp only [Bool.false_eq_true, if_false] at hstep
      split at hstep
      · split at hstep
        · simp only [Option.some.injEq] at hstep
          subst hstep
          simp at hpc
        · rename_i el rest hl
          split at hstep
          · rename_i hf
            simp only [Option.some.injEq] at hstep
            subst hstep
            simp only [ExpirerPC.sendSuccess.injEq] at hpc
            obtain ⟨rfl, rfl⟩ := hpc
            exact ⟨el, rest, hl, rfl, rfl, hf.1⟩
          · simp only [Option.some.injEq] at hstep
            subst hstep
            simp at hpc
      · simp at hstep
    · simp at hstep

/-- Witness for C11: a normal-mode engine serving one probe to the destination
7, after the insertion at time 100 and the read of the reply at time 150. -/
theorem C11_success_event_fields_witness :
    (1 : Nat) < 65536 ∧
    ∀ s, exec [.proberSetup, .proberInsert 100 0, .receiverRead 7 0 150]
        (Sys.init 1000 0 false 7 1 false 0) = some s →
      ∀ ip sq el ps s2,
        s.receiver = .commit ip sq el ps ∨ s.receiver = .blocked ip sq el ps →
        step .receiverCommit s = some s2 → s2.receiver = .idle →
          (∃ ch, s.ie.SuccessChs ip = some ch ∧
            (s2.successQ ch).queue = (s.successQ ch).queue ++ [ps]) ∧
          el.Value.NetaddrIP = ip ∧ ps.Seq = el.Value.Seq ∧ ps.Send = el.Value.Send ∧
          ps.RTT = ps.Received - ps.Send ∧ (el.Value.Send ≤ ps.Received → 0 ≤ ps.RTT) :=
  ⟨by decide, fun s h =>
    ((C11_success_event_fields 1000 0 false 7 1 false 0 (by decide)).1 _ s h).1⟩

theorem remove_deleteSeq (ie : ICMPEngine) (el : Element) (ip sq : Nat) :
    (ie.remove el).deleteSeq ip sq = (ie.deleteSeq ip sq).remove el := by
  unfold ICMPEngine.deleteSeq ICMPEngine.remove
  simp only
  cases ie.Pings ip <;> rfl

/-- Every step changes the index by its index operation and leaves the engine
timeout alone. -/
theorem step_indexOp {a : Action} {s s2 : Sys} (h : step a s = some s2) :
    ∃ ie2, (indexOp a s).run s.ie = some ie2 ∧ s2.ie.Pings = ie2.Pings ∧
      s2.ie.ExpiresDLL = ie2.ExpiresDLL ∧ s2.ie.nextElement = ie2.nextElement ∧
      s2.ie.Timeout = ie2.Timeout := by
  cases a with
  | proberSetup =>
    simp only [step, proberSetup] at h
    split at h
    · simp only [Option.some.injEq] at h
      subst h
      exact ⟨s.ie, rfl, rfl, rfl, rfl, rfl⟩
    · simp at h
  | proberInsert now r =>
    by_cases hc : s.prober.st.i < s.prober.packets ∧ s.prober.st.keepLooping = true
    · obtain ⟨ie1, hins, h1, h2, h3, h4⟩ := proberInsert_index h hc
      refine ⟨ie1, ?_, h1, h2, h3, h4⟩
      simp only [indexOp, hc, and_self, if_true, IndexOp.run]
      exact hins
    · obtain ⟨_, ⟨_, rfl⟩ | ⟨hi, hk, _⟩⟩ := proberInsert_some h
      · refine ⟨s.ie, ?_, rfl, rfl, rfl, rfl⟩
        simp only [indexOp, hc, if_false, IndexOp.run]
      · exact absurd ⟨hi, hk⟩ hc
  | proberSelect c =>
    obtain ⟨_, _, _, _, _, hie, _⟩ := proberSelect_some h
    exact ⟨s.ie, rfl, by rw [hie], by rw [hie], by rw [hie], by rw [hie]⟩
  | proberSleep ev =>
    simp only [step, proberSleep] at h
    split at h
    · simp only [Option.some.injEq] at h
      subst h
      exact ⟨s.ie, rfl, rfl, rfl, rfl, rfl⟩
    · simp at h
  | proberTeardown =>
    simp only [step, proberTeardown] at h
    split at h
    · simp only [Option.some.injEq] at h
      subst h
      exact ⟨_, rfl, rfl, rfl, rfl, rfl⟩
    · simp at h
  | expirerTop done =>
    simp only [step, expirerTop] at h
    split at h
    · split at h
      · rename_i hd
        simp only [Option.some.injEq] at h
        subst h
        subst hd
        exact ⟨s.ie, rfl, rfl, rfl, rfl, rfl⟩
      · rename_i hd
        have hd2 : done = false := by simpa using hd
        subst hd2
        split at h
        · split at h
          · rename_i hl
            simp only [Option.some.injEq] at h
            subst h
            refine ⟨s.ie, ?_, rfl, rfl, rfl, rfl⟩
            simp only [indexOp, hl, IndexOp.run]
          · rename_i el rest hl
            split at h
            · rename_i hf
              simp only [Option.some.injEq] at h
              subst h
              refine ⟨_, ?_, rfl, rfl, rfl, rfl⟩
              simp only [indexOp, hl]
              rw [if_pos hf]
              simp only [IndexOp.run, remove_deleteSeq]
            · rename_i hf
              simp only [Option.some.injEq] at h
              subst h
              refine ⟨s.ie, ?_, rfl, rfl, rfl, rfl⟩
              simp only [indexOp, hl]
              rw [if_neg hf]
              simp only [IndexOp.run]
        · simp at h
    · simp at h
  | expirerSendSuccess now =>
    simp only [step, expirerSendSuccess] at h
    split at h
    · split at h
      · simp at h
      · simp only [Option.some.injEq] at h
        subst h
        exact ⟨s.ie, rfl, rfl, rfl, rfl, rfl⟩
    · simp at h
  | expirerWake done =>
    simp only [step, expirerWake] at h
    split at h
    · simp only [Option.some.injEq] at h
      subst h
      exact ⟨s.ie, rfl, rfl, rfl, rfl, rfl⟩
    · simp at h
  | expirerRecheck =>
    simp only [step, expirerRecheck] at h
    split at h
    · split at h
      · split at h <;> simp only [Option.some.injEq] at h <;> subst h <;>
          exact ⟨s.ie, rfl, rfl, rfl, rfl, rfl⟩
      · simp at h
    · simp at h
  | expirerCommit =>
    simp only [step, expirerCommit] at h
    split at h
    · rename_i p el kl hpc
      split at h
      · simp only [Option.some.injEq] at h
        subst h
        refine ⟨_, ?_, rfl, rfl, rfl, rfl⟩
        simp only [indexOp, hpc, IndexOp.run]
      · simp at h
    · simp at h
  | expirerSendExpired =>
    simp only [step, expirerSendExpired] at h
    split at h
    · split at h
      · simp at h
      · simp only [Option.some.injEq] at h
        subst h
        exact ⟨s.ie, rfl, rfl, rfl, rfl, rfl⟩
    · simp at h
  | expirerExit =>
    simp only [step, expirerExit] at h
    split at h
    · simp only [Option.some.injEq] at h
      subst h
      exact ⟨s.ie, rfl, rfl, rfl, rfl, rfl⟩
    · simp at h
  | receiverRead ip sq t =>
    simp only [step, receiverRead] at h
    split at h
    · split at h <;> simp only [Option.some.injEq] at h <;> subst h <;>
        exact ⟨s.ie, rfl, rfl, rfl, rfl, rfl⟩
    · simp at h
  | receiverCommit =>
    simp only [step] at h
    obtain ⟨ip, sq, el, ps, hpc, hf | ⟨hc, _, hnone, rfl⟩⟩ := receiverCommit_some h
    · obtain ⟨ch, q, _, _, rfl⟩ := receiverFinish_some hf
      refine ⟨_, ?_, rfl, rfl, rfl, rfl⟩
      rcases hpc with hpc | hpc <;> simp only [indexOp, hpc, hf, Option.isSome_some, if_true,
        IndexOp.run]
    · refine ⟨s.ie, ?_, rfl, rfl, rfl, rfl⟩
      simp [indexOp, hc, hnone, IndexOp.run]

/-- A step of the Expirer or of a Receiver leaves the Prober alone. -/
theorem step_worker_prober {a : Action} {s s2 : Sys} (ha : a.isProber = false)
    (h : step a s = some s2) : s2.prober = s.prober := by
  cases a with
  | proberSetup => simp [Action.isProber] at ha
  | proberInsert now r => simp [Action.isProber] at ha
  | proberSelect c => simp [Action.isProber] at ha
  | proberSleep ev => simp [Action.isProber] at ha
  | proberTeardown => simp [Action.isProber] at ha
  | expirerTop done =>
    simp only [step, expirerTop] at h
    split at h
    · split at h
      · simp only [Option.some.injEq] at h
        subst h
        rfl
      · split at h
        · split at h
          · simp only [Option.some.injEq] at h
            subst h
            rfl
          · split at h <;> simp only [Option.some.injEq] at h <;> subst h <;> rfl
        · simp at h
    · simp at h
  | expirerSendSuccess now =>
    simp only [step, expirerSendSuccess] at h
    split at h
    · split at h
      · simp at h
      · simp only [Option.some.injEq] at h
        subst h
        rfl
    · simp at h
  | expirerWake done =>
    simp only [step, expirerWake] at h
    split at h
    · simp only [Option.some.injEq] at h
      subst h
      rfl
    · simp at h
  | expirerRecheck =>
    simp only [step, expirerRecheck] at h
    split at h
    · split at h
      · split at h <;> simp only [Option.some.injEq] at h <;> subst h <;> rfl
      · simp at h
    · simp at h
  | expirerCommit =>
    simp only [step, expirerCommit] at h
    split at h
    · split at h
      · simp only [Option.some.injEq] at h
        subst h
        rfl
      · simp at h
    · simp at h
  | expirerSendExpired =>
    simp only [step, expirerSendExpired] at h
    split at h
    · split at h
      · simp at h
      · simp only [Option.some.injEq] at h
        subst h
        rfl
    · simp at h
  | expirerExit =>
    simp only [step, expirerExit] at h
    split at h
    · simp only [Option.some.injEq] at h
      subst h
      rfl
    · simp at h
  | receiverRead ip sq t =>
    simp only [step, receiverRead] at h
    split at h
    · split at h <;> simp only [Option.some.injEq] at h <;> subst h <;> rfl
    · simp at h
  | receiverCommit =>
    simp only [step] at h
    obtain ⟨ip, sq, el, ps, _, hf | ⟨_, _, _, rfl⟩⟩ := receiverCommit_some h
    · obtain ⟨ch, q, _, _, rfl⟩ := receiverFinish_some hf
      rfl
    · rfl

/-- A step of the Expirer or of a Receiver keeps the index or removes one
probe from it. -/
theorem indexOp_worker {a : Action} (s : Sys) (ha : a.isProber = false) :
    indexOp a s = .keep ∨ ∃ ip sq el, indexOp a s = .removal ip sq el := by
  cases a with
  | proberSetup => simp [Action.isProber] at ha
  | proberInsert now r => simp [Action.isProber] at ha
  | proberSelect c => simp [Action.isProber] at ha
  | proberSleep ev => simp [Action.isProber] at ha
  | proberTeardown => simp [Action.isProber] at ha
  | expirerTop done =>
    cases done with
    | true => exact Or.inl rfl
    | false =>
      simp only [indexOp]
      split
      · exact Or.inl rfl
      · split
        · exact Or.inr ⟨_, _, _, rfl⟩
        · exact Or.inl rfl
  | expirerCommit =>
    simp only [indexOp]
    split
    · exact Or.inr ⟨_, _, _, rfl⟩
    · exact Or.inl rfl
  | receiverCommit =>
    simp only [indexOp]
    split
    · split
      · exact Or.inr ⟨_, _, _, rfl⟩
      · exact Or.inl rfl
    · split
      · exact Or.inr ⟨_, _, _, rfl⟩
      · exact Or.inl rfl
    · exact Or.inl rfl
  | _ => exact Or.inl rfl

theorem IndexOp.run_fields {op : IndexOp} {ie ie2 : ICMPEngine} (h : op.run ie = some ie2) :
    ie2.Timeout = ie.Timeout ∧ ie.nextElement ≤ ie2.nextElement ∧
    ((∃ IP i ps, op = .insert IP i ps) ∨ ie2.nextElement = ie.nextElement) := by
  cases op with
  | keep =>
    simp only [IndexOp.run, Option.some.injEq] at h
    subst h
    exact ⟨rfl, le_refl _, Or.inr rfl⟩
  | insert IP i ps =>
    simp only [IndexOp.run] at h
    obtain ⟨_, _, _, _, hn, _, _, _, _, _, _, ht, _⟩ := insert_some h
    exact ⟨ht, by omega, Or.inl ⟨IP, i, ps, rfl⟩⟩
  | removal ip sq el =>
    simp only [IndexOp.run, Option.some.injEq] at h
    subst h
    exact ⟨by rw [ICMPEngine.remove, deleteSeq_Timeout],
      by rw [remove_nextElement, deleteSeq_nextElement],
      Or.inr (by rw [remove_nextElement, deleteSeq_nextElement])⟩
  | teardown IP =>
    simp only [IndexOp.run, Option.some.injEq] at h
    subst h
    exact ⟨rfl, le_refl _, Or.inr rfl⟩

theorem deleteSeq_Pings_some {ie : ICMPEngine} {ip sq ip2 : Nat}
    (h : ∃ inner, ie.Pings ip2 = some inner) :
    ∃ inner, (ie.deleteSeq ip sq).Pings ip2 = some inner := by
  unfold ICMPEngine.deleteSeq
  cases hq : ie.Pings ip with
  | none => exact h
  | some v =>
    simp only
    by_cases hip : ip2 = ip
    · subst hip
      exact ⟨_, Function.update_same _ _ _⟩
    · rw [Function.update_noteq hip]
      exact h

theorem IndexOp.run_inner {op : IndexOp} {ie ie2 : ICMPEngine} {ip : Nat}
    (h : op.run ie = some ie2) (hop : ∀ IP, op ≠ .teardown IP)
    (hin : ∃ inner, ie.Pings ip = some inner) : ∃ inner, ie2.Pings ip = some inner := by
  cases op with
  | keep =>
    simp only [IndexOp.run, Option.some.injEq] at h
    subst h
    exact hin
  | insert IP i ps =>
    simp only [IndexOp.run] at h
    obtain ⟨_, _, hI, hother, _⟩ := insert_some h
    by_cases hip : ip = IP
    · subst hip
      exact hI
    · rw [hother ip hip]
      exact hin
  | removal ip2 sq el =>
    simp only [IndexOp.run, Option.some.injEq] at h
    subst h
    exact deleteSeq_Pings_some hin
  | teardown IP => exact absurd rfl (hop IP)

theorem RunInv_init (timeout D : Int) (fake : Bool) (IP N : Nat) (sortRTTs : Bool) (p : ℚ) :
    RunInv timeout IP N p (Sys.init timeout D fake IP N sortRTTs p) := by
  constructor <;> simp [Sys.init, NewFullConfig, loopInit]

theorem RunInv_worker {timeout : Int} {IP N : Nat} {p : ℚ} {a : Action} {s s2 : Sys}
    (hinv : RunInv timeout IP N p s) (ha : a.isProber = false) (h : step a s = some s2) :
    RunInv timeout IP N p s2 := by
  obtain ⟨ie2, hrun, hP, _, hn, hT⟩ := step_indexOp h
  obtain ⟨hT2, _, hn2⟩ := IndexOp.run_fields hrun
  have hpr := step_worker_prober ha h
  have hop := indexOp_worker s ha
  have hnt : ∀ IP, indexOp a s ≠ .teardown IP := by
    intro IP2 h2
    rcases hop with h3 | ⟨_, _, _, h3⟩ <;> rw [h3] at h2 <;> cases h2
  have hni : ie2.nextElement = s.ie.nextElement := by
    rcases hn2 with ⟨IP2, i, ps, h2⟩ | h2
    · rcases hop with h3 | ⟨_, _, _, h3⟩ <;> rw [h3] at h2 <;> cases h2
    · exact h2
  refine ⟨by rw [hT, hT2, hinv.timeout], by rw [hpr]; exact hinv.dest,
    by rw [hpr]; exact hinv.pkts, by rw [hpr]; exact hinv.prob, by rw [hpr]; exact hinv.i_le,
    by rw [hpr]; exact hinv.fin, ?_⟩
  intro hpos hpc
  rw [hpr] at hpc ⊢
  rw [hP]
  rw [hn, hni] at hpos
  exact IndexOp.run_inner hrun hnt (hinv.inner hpos hpc)

theorem RunInv_step {timeout : Int} {IP N : Nat} {p : ℚ} {a : Action} {s s2 : Sys}
    (hidx : IndexInv s) (hinv : RunInv timeout IP N p s) (h : step a s = some s2) :
    RunInv timeout IP N p s2 := by
  cases a with
  | proberSetup =>
    simp only [step, proberSetup] at h
    split at h
    · rename_i hc
      simp only [Option.some.injEq] at h
      subst h
      have h0 := hidx.start hc.1
      have hcount := hidx.count
      simp only [hc.1, h0, reduceCtorEq, or_self, if_false] at hcount
      refine ⟨hinv.timeout, hinv.dest, hinv.pkts, hinv.prob, by simp [loopInit], by simp, ?_⟩
      intro hpos
      simp only [hcount] at hpos
      omega
    · simp at h
  | proberInsert now r =>
    simp only [step] at h
    obtain ⟨hpc, ⟨hnc, rfl⟩ | ⟨hi, hk, _, _, _, _, _, _, _, hpr, _⟩⟩ := proberInsert_some h
    · refine ⟨hinv.timeout, hinv.dest, hinv.pkts, hinv.prob, hinv.i_le, ?_, ?_⟩
      · intro _ hkeep
        have := hinv.i_le
        have hp := hinv.pkts
        simp only at hkeep ⊢
        by_contra hne
        exact hnc ⟨by omega, hkeep⟩
      · intro hpos _
        exact hinv.inner hpos (by rw [hpc]; simp)
    · obtain ⟨ie1, hins, _, _, _, hT⟩ := proberInsert_index h ⟨hi, hk⟩
      obtain ⟨_, _, _, _, hin, _⟩ := proberInsert_frame h ⟨hi, hk⟩
      refine ⟨by rw [hT, (insert_some hins).2.2.2.2.2.2.2.2.2.2.2.1, hinv.timeout],
        by rw [hpr]; exact hinv.dest, by rw [hpr]; exact hinv.pkts, by rw [hpr]; exact hinv.prob,
        by rw [hpr]; exact hinv.i_le, by rw [hpr]; simp, ?_⟩
      intro _ _
      rw [hpr]
      exact hin
  | proberSelect c =>
    simp only [step] at h
    obtain ⟨hpc, ev, st1, hsel, _, hie, _, _, _, _, _, hpr⟩ := proberSelect_some h
    have hi := onSelect_i hsel
    have hlt := hidx.i_lt (Or.inl hpc)
    have hp := hidx.pkts
    have hpk := hinv.pkts
    refine ⟨by rw [hie]; exact hinv.timeout, by rw [hpr]; split <;> exact hinv.dest,
      by rw [hpr]; split <;> exact hinv.pkts, by rw [hpr]; split <;> exact hinv.prob, ?_, ?_, ?_⟩
    · rw [hpr]
      split
      · simp only [checkPackets_i, hi]
        exact hinv.i_le
      · simp only
        rw [increment_i, checkPackets_i, hi]
        · omega
        · rw [checkPackets_i, hi]
          omega
    · rw [hpr]
      split <;> simp
    · intro hpos hne
      rw [hie] at hpos ⊢
      have hIP : s2.prober.IP = s.prober.IP := by rw [hpr]; split <;> rfl
      rw [hIP]
      exact hinv.inner hpos (by rw [hpc]; simp)
  | proberSleep ev =>
    simp only [step, proberSleep] at h
    split at h
    · rename_i hpc
      simp only [Option.some.injEq] at h
      subst h
      have hlt := hidx.i_lt (Or.inr hpc)
      have hp := hidx.pkts
      have hpk := hinv.pkts
      refine ⟨hinv.timeout, hinv.dest, hinv.pkts, hinv.prob, ?_, by simp, ?_⟩
      · simp only
        rw [increment_i, onSleep_i]
        · omega
        · rw [onSleep_i]
          omega
      · intro hpos _
        exact hinv.inner hpos (by rw [hpc]; simp)
    · simp at h
  | proberTeardown =>
    simp only [step, proberTeardown] at h
    split at h
    · rename_i hc
      simp only [Option.some.injEq] at h
      subst h
      refine ⟨hinv.timeout, hinv.dest, hinv.pkts, hinv.prob, hinv.i_le, ?_, by simp⟩
      intro _ hk
      exact hinv.fin (Or.inl hc.1) hk
    · simp at h
  | expirerTop done => exact RunInv_worker hinv (by rfl) h
  | expirerSendSuccess now => exact RunInv_worker hinv (by rfl) h
  | expirerWake done => exact RunInv_worker hinv (by rfl) h
  | expirerRecheck => exact RunInv_worker hinv (by rfl) h
  | expirerCommit => exact RunInv_worker hinv (by rfl) h
  | expirerSendExpired => exact RunInv_worker hinv (by rfl) h
  | expirerExit => exact RunInv_worker hinv (by rfl) h
  | receiverRead ip sq t => exact RunInv_worker hinv (by rfl) h
  | receiverCommit => exact RunInv_worker hinv (by rfl) h

/-- Both invariants hold in every state a schedule reaches from a fresh
engine. -/
theorem RunInv_exec {timeout D : Int} {fake : Bool} {IP N : Nat} {sortRTTs : Bool} {p : ℚ}
    (hN : N < 65536) {sched : List Action} {s : Sys}
    (h : exec sched (Sys.init timeout D fake IP N sortRTTs p) = some s) :
    IndexInv s ∧ RunInv timeout IP N p s :=
  exec_invariant (fun s => IndexInv s ∧ RunInv timeout IP N p s) (fun _ => True)
    (fun _ _ _ _ hinv hs => ⟨IndexInv_step hinv.1 hs, RunInv_step hinv.1 hinv.2 hs⟩) sched _ _
    (fun _ _ => trivial)
    ⟨IndexInv_init timeout D fake IP N sortRTTs p hN, RunInv_init timeout D fake IP N sortRTTs p⟩ h

/-- C12: in every state a schedule reaches from a fresh engine serving
`PingerConfig` for `IP` with `N` packets, an iteration that passes the loop
test with index `i` appends one node to the tail of the list, holding the
probe with `NetaddrIP = IP`, `Seq = i`, `Send = now` and
`Expiry = now + Timeout`, and records exactly that node under `Pings[IP][i]`;
the node is new, `i` is the number of nodes created before it and exceeds
every sequence number in the list, `i < N`, and `i++` does not wrap; the
iteration can be taken whenever the lock is free; and a call that leaves the
loop without having been stopped has created exactly `N` nodes, so the
sequence numbers issued are `0, 1, ..., N - 1`. -/
theorem C12_probe_inserted (timeout D : Int) (fake : Bool) (IP N : Nat) (sortRTTs : Bool)
    (p : ℚ) (hN : N < 65536) :
    (∀ (sched : List Action) (s : Sys) (now : Int) (r : ℚ),
      exec sched (Sys.init timeout D fake IP N sortRTTs p) = some s →
      s.prober.pc = .loop → s.prober.st.i < N → s.prober.st.keepLooping = true →
      (∀ s2, step (.proberInsert now r) s = some s2 →
        s2.ie.ExpiresDLL = s.ie.ExpiresDLL ++
          [{ id := s.ie.nextElement,
             Value := { NetaddrIP := IP, Seq := s.prober.st.i, Send := now,
                        Expiry := now + timeout, FakeDrop := FakeDrop p r } }] ∧
        s2.ie.lookup IP s.prober.st.i =
          some { id := s.ie.nextElement,
                 Value := { NetaddrIP := IP, Seq := s.prober.st.i, Send := now,
                            Expiry := now + timeout, FakeDrop := FakeDrop p r } } ∧
        (∀ e ∈ s.ie.ExpiresDLL, e.id ≠ s.ie.nextElement ∧ e.Value.Seq < s.prober.st.i) ∧
        s.ie.nextElement = s.prober.st.i ∧
        (increment s.prober.st).i = s.prober.st.i + 1) ∧
      (0 ≤ r → r < 1 → s.lockHeld = false →
        ∃ s2, step (.proberInsert now r) s = some s2)) ∧
    (∀ (sched : List Action) (s : Sys),
      exec sched (Sys.init timeout D fake IP N sortRTTs p) = some s →
      s.prober.pc = .finish ∨ s.prober.pc = .returned → s.prober.st.keepLooping = true →
        s.ie.nextElement = N) := by
  constructor
  · intro sched s now r hexec hpc hi hk
    obtain ⟨hidx, hrun⟩ := RunInv_exec hN hexec
    have hcount := hidx.count
    simp only [hpc, reduceCtorEq, or_self, if_false, Nat.add_zero] at hcount
    constructor
    · intro s2 hstep
      simp only [step] at hstep
      obtain ⟨_, ⟨hnc, _⟩ | ⟨_, _, _, _, _, hlist, hlook, _⟩⟩ := proberInsert_some hstep
      · exact absurd ⟨by rw [hrun.pkts]; exact hi, hk⟩ hnc
      · rw [hrun.dest, hrun.timeout, hrun.prob] at hlist hlook
        refine ⟨hlist, hlook, ?_, hcount, ?_⟩
        · intro e he
          obtain ⟨_, h2, h3⟩ := hidx.node e he
          exact ⟨by omega, by omega⟩
        · exact increment_i _ (by omega)
    · intro hr0 hr1 hl
      simp only [step]
      refine proberInsert_enabled now hpc ⟨hr0, hr1⟩ hl ?_
      by_cases h0 : s.prober.st.i = 0
      · exact Or.inl h0
      · exact Or.inr (hrun.inner (by omega) (by rw [hpc]; simp))
  · intro sched s hexec hpc hk
    obtain ⟨hidx, hrun⟩ := RunInv_exec hN hexec
    have hcount := hidx.count
    have hfin := hrun.fin hpc hk
    rcases hpc with hpc | hpc <;>
      simp only [hpc, reduceCtorEq, or_self, if_false, Nat.add_zero] at hcount <;> omega

/-- Witness for C12: the iterations of a normal-mode engine serving three
probes to the destination 7, after the setup. -/
theorem C12_probe_inserted_witness :
    (3 : Nat) < 65536 ∧
    ∀ (s : Sys) (now : Int) (r : ℚ),
      exec [.proberSetup] (Sys.init 1000 0 false 7 3 false 0) = some s →
      s.prober.pc = .loop → s.prober.st.i < 3 → s.prober.st.keepLooping = true →
      (∀ s2, step (.proberInsert now r) s = some s2 →
        s2.ie.ExpiresDLL = s.ie.ExpiresDLL ++
          [{ id := s.ie.nextElement,
             Value := { NetaddrIP := 7, Seq := s.prober.st.i, Send := now,
                        Expiry := now + 1000, FakeDrop := FakeDrop 0 r } }] ∧
        s2.ie.lookup 7 s.prober.st.i =
          some { id := s.ie.nextElement,
                 Value := { NetaddrIP := 7, Seq := s.prober.st.i, Send := now,
                            Expiry := now + 1000, FakeDrop := FakeDrop 0 r } } ∧
        (∀ e ∈ s.ie.ExpiresDLL, e.id ≠ s.ie.nextElement ∧ e.Value.Seq < s.prober.st.i) ∧
        s.ie.nextElement = s.prober.st.i ∧
        (increment s.prober.st).i = s.prober.st.i + 1) ∧
      (0 ≤ r → r < 1 → s.lockHeld = false →
        ∃ s2, step (.proberInsert now r) s = some s2) :=
  ⟨by decide, fun s now r =>
    (C12_probe_inserted 1000 0 false 7 3 false 0 (by decide)).1 [.proberSetup] s now r⟩

/-- Only the Prober's loop head inserts, and it inserts the probe of its loop
index stamped with its clock reading. -/
theorem indexOp_insert {a : Action} {s : Sys} {IP i : Nat} {ps : Pings}
    (h : indexOp a s = .insert IP i ps) :
    ∃ now r, a = .proberInsert now r ∧ IP = s.prober.IP ∧ i = s.prober.st.i ∧
      ps = { NetaddrIP := s.prober.IP, Seq := s.prober.st.i, Send := now,
             Expiry := now + s.ie.Timeout, FakeDrop := FakeDrop s.prober.dropProb r } := by
  cases a with
  | proberInsert now r =>
    simp only [indexOp] at h
    split at h
    · simp only [IndexOp.insert.injEq] at h
      obtain ⟨rfl, rfl, rfl⟩ := h
      exact ⟨now, r, rfl, rfl, rfl, rfl⟩
    · cases h
  | proberTeardown => simp [indexOp] at h
  | expirerTop done =>
    cases done with
    | true => simp [indexOp] at h
    | false =>
      simp only [indexOp] at h
      split at h
      · cases h
      · split at h <;> cases h
  | expirerCommit =>
    simp only [indexOp] at h
    split at h <;> cases h
  | receiverCommit =>
    simp only [indexOp] at h
    split at h
    · split at h <;> cases h
    · split at h <;> cases h
    · cases h
  | _ => simp [indexOp] at h

/-- What a step does to the list: it removes at most one node, or it is the
Prober's loop head at clock reading `now` and appends a probe that expires at
`now + Timeout`. -/
theorem step_list {a : Action} {s s2 : Sys} (h : step a s = some s2) :
    s2.ie.Timeout = s.ie.Timeout ∧
    (s2.ie.ExpiresDLL.Sublist s.ie.ExpiresDLL ∨
      ∃ now r el, a = .proberInsert now r ∧ el.Value.Expiry = now + s.ie.Timeout ∧
        s2.ie.ExpiresDLL = s.ie.ExpiresDLL ++ [el]) := by
  obtain ⟨ie2, hrun, _, hL, _, hT⟩ := step_indexOp h
  obtain ⟨hT2, _⟩ := IndexOp.run_fields hrun
  refine ⟨by rw [hT, hT2], ?_⟩
  rw [hL]
  cases hop : indexOp a s with
  | keep =>
    rw [hop] at hrun
    simp only [IndexOp.run, Option.some.injEq] at hrun
    subst hrun
    exact Or.inl (List.Sublist.refl _)
  | insert IP i ps =>
    obtain ⟨now, r, rfl, _, _, hps⟩ := indexOp_insert hop
    rw [hop] at hrun
    simp only [IndexOp.run] at hrun
    obtain ⟨hlist, _⟩ := insert_some hrun
    exact Or.inr ⟨now, r, _, rfl, by rw [hps], hlist⟩
  | removal ip sq el =>
    rw [hop] at hrun
    simp only [IndexOp.run, Option.some.injEq] at hrun
    subst hrun
    exact Or.inl ((remove_sublist _ _).trans (by rw [deleteSeq_ExpiresDLL]))
  | teardown IP =>
    rw [hop] at hrun
    simp only [IndexOp.run, Option.some.injEq] at hrun
    subst hrun
    exact Or.inl (List.Sublist.refl _)

/-- Along a schedule whose insertions carry non-decreasing clock readings, a
list ordered by `Expiry` whose probes expire no later than any probe still to
be inserted stays ordered. -/
theorem ordered_exec :
    ∀ (sched : List Action) (s s2 : Sys),
      (sched.filterMap Action.sendTime).Pairwise (fun t u => t ≤ u) →
      s.ie.ExpiresDLL.Pairwise (fun a b => a.Value.Expiry ≤ b.Value.Expiry) →
      (∀ e ∈ s.ie.ExpiresDLL, ∀ t ∈ sched.filterMap Action.sendTime,
        e.Value.Expiry ≤ t + s.ie.Timeout) →
      exec sched s = some s2 →
        s2.ie.Timeout = s.ie.Timeout ∧
        s2.ie.ExpiresDLL.Pairwise (fun a b => a.Value.Expiry ≤ b.Value.Expiry) := by
  intro sched
  induction sched with
  | nil =>
    intro s s2 _ hs _ h
    simp only [exec, Option.some.injEq] at h
    subst h
    exact ⟨rfl, hs⟩
  | cons a rest ih =>
    intro s s2 hmono hs hb h
    rw [exec_cons] at h
    cases hst : step a s with
    | none => simp [hst] at h
    | some s1 =>
      simp only [hst, Option.bind] at h
      obtain ⟨hT, hl⟩ := step_list hst
      rcases hl with hsub | ⟨now, r, el, rfl, hel, hlist⟩
      · have hrest : (rest.filterMap Action.sendTime).Pairwise (fun t u => t ≤ u) := by
          cases hq : Action.sendTime a with
          | none =>
            rw [List.filterMap_cons_none hq] at hmono
            exact hmono
          | some t =>
            rw [List.filterMap_cons_some hq] at hmono
            exact (List.pairwise_cons.mp hmono).2
        obtain ⟨h1, h2⟩ := ih s1 s2 hrest (hs.sublist hsub) (by
          intro e he t ht
          rw [hT]
          refine hb e (hsub.subset he) t ?_
          cases hq : Action.sendTime a with
          | none =>
            rw [List.filterMap_cons_none hq]
            exact ht
          | some u =>
            rw [List.filterMap_cons_some hq]
            exact List.mem_cons_of_mem _ ht) h
        exact ⟨by rw [h1, hT], h2⟩
      · have hq : Action.sendTime (.proberInsert now r) = some now := rfl
        rw [List.filterMap_cons_some hq] at hmono hb
        obtain ⟨hnow, hrest⟩ := List.pairwise_cons.mp hmono
        obtain ⟨h1, h2⟩ := ih s1 s2 hrest (by
          rw [hlist, List.pairwise_append]
          refine ⟨hs, List.pairwise_singleton _ _, ?_⟩
          intro x hx y hy
          rw [List.mem_singleton] at hy
          subst hy
          rw [hel]
          exact hb x hx now (List.mem_cons_self _ _)) (by
          intro e he t ht
          rw [hT]
          rw [hlist, List.mem_append, List.mem_singleton] at he
          rcases he with he | rfl
          · exact hb e he t (List.mem_cons_of_mem _ ht)
          · rw [hel]
            have := hnow t ht
            omega) h
        exact ⟨by rw [h1, hT], h2⟩

/-- What an index operation does to the list. -/
theorem IndexOp.run_list {op : IndexOp} {ie ie2 : ICMPEngine} (h : op.run ie = some ie2) :
    ie2.ExpiresDLL.Sublist ie.ExpiresDLL ∨
      ∃ ps, op.probe = some ps ∧
        ie2.ExpiresDLL = ie.ExpiresDLL ++ [{ id := ie.nextElement, Value := ps }] := by
  cases op with
  | keep =>
    simp only [IndexOp.run, Option.some.injEq] at h
    subst h
    exact Or.inl (List.Sublist.refl _)
  | insert IP i ps =>
    simp only [IndexOp.run] at h
    exact Or.inr ⟨ps, rfl, (insert_some h).1⟩
  | removal ip sq el =>
    simp only [IndexOp.run, Option.some.injEq] at h
    subst h
    exact Or.inl ((remove_sublist _ _).trans (by rw [deleteSeq_ExpiresDLL]))
  | teardown IP =>
    simp only [IndexOp.run, Option.some.injEq] at h
    subst h
    exact Or.inl (List.Sublist.refl _)

theorem IndexOp.probe_eq_none {op : IndexOp} (hsub : ¬ ∃ ps, op.probe = some ps) :
    op.probe = none := by
  cases hq : op.probe with
  | none => rfl
  | some ps => exact absurd ⟨ps, hq⟩ hsub

/-- Along a sequence of index operations whose inserted probes all expire one
timeout after their `Send` time and have non-decreasing `Send` times, a list
ordered by `Expiry` whose probes expire no later than any probe still to be
inserted stays ordered. -/
theorem ordered_runOps (timeout : Int) :
    ∀ (ops : List IndexOp) (ie ie2 : ICMPEngine),
      (∀ ps ∈ ops.filterMap IndexOp.probe, ps.Expiry = ps.Send + timeout) →
      (ops.filterMap IndexOp.probe).Pairwise (fun a b => a.Send ≤ b.Send) →
      ie.ExpiresDLL.Pairwise (fun a b => a.Value.Expiry ≤ b.Value.Expiry) →
      (∀ e ∈ ie.ExpiresDLL, ∀ ps ∈ ops.filterMap IndexOp.probe,
        e.Value.Expiry ≤ ps.Send + timeout) →
      runOps ops ie = some ie2 →
        ie2.Timeout = ie.Timeout ∧
        ie2.ExpiresDLL.Pairwise (fun a b => a.Value.Expiry ≤ b.Value.Expiry) := by
  intro ops
  induction ops with
  | nil =>
    intro ie ie2 _ _ hs _ h
    simp only [runOps, Option.some.injEq] at h
    subst h
    exact ⟨rfl, hs⟩
  | cons op rest ih =>
    intro ie ie2 hstamp hmono hs hb h
    simp only [runOps] at h
    split at h
    · simp at h
    · rename_i ie1 hrun
      have hT := (IndexOp.run_fields hrun).1
      by_cases hp : ∃ ps, op.probe = some ps
      · obtain ⟨ps, hq⟩ := hp
        rw [List.filterMap_cons_some hq] at hstamp hmono hb
        obtain ⟨hnow, hrest⟩ := List.pairwise_cons.mp hmono
        have hlist : ie1.ExpiresDLL = ie.ExpiresDLL ++ [{ id := ie.nextElement, Value := ps }] := by
          cases op with
          | insert IP i ps2 =>
            simp only [IndexOp.probe, Option.some.injEq] at hq
            subst hq
            simp only [IndexOp.run] at hrun
            exact (insert_some hrun).1
          | keep => cases hq
          | removal ip sq el => cases hq
          | teardown IP => cases hq
        obtain ⟨h1, h2⟩ := ih ie1 ie2 (fun q hq2 => hstamp q (List.mem_cons_of_mem _ hq2)) hrest
          (by
            rw [hlist, List.pairwise_append]
            refine ⟨hs, List.pairwise_singleton _ _, ?_⟩
            intro x hx y hy
            rw [List.mem_singleton] at hy
            subst hy
            simp only
            rw [hstamp ps (List.mem_cons_self _ _)]
            exact hb x hx ps (List.mem_cons_self _ _))
          (by
            intro e he q hq2
            rw [hlist, List.mem_append, List.mem_singleton] at he
            rcases he with he | rfl
            · exact hb e he q (List.mem_cons_of_mem _ hq2)
            · simp only
              rw [hstamp ps (List.mem_cons_self _ _)]
              have := hnow q hq2
              omega) h
        exact ⟨by rw [h1, hT], h2⟩
      · have hq := IndexOp.probe_eq_none hp
        rw [List.filterMap_cons_none hq] at hstamp hmono hb
        have hsub : ie1.ExpiresDLL.Sublist ie.ExpiresDLL := by
          rcases IndexOp.run_list hrun with h3 | ⟨ps, h3, _⟩
          · exact h3
          · exact absurd ⟨ps, h3⟩ hp
        obtain ⟨h1, h2⟩ := ih ie1 ie2 hstamp hmono (hs.sublist hsub)
          (fun e he q hq2 => hb e (hsub.subset he) q hq2) h
        exact ⟨by rw [h1, hT], h2⟩

/-- C13: (1) from a fresh engine, along every sequence of insertions, removals
and teardowns in which every inserted probe has `Expiry = Send + Timeout` and
the `Send` times of successive insertions do not decrease, the engine timeout
is unchanged and the list is ordered by `Expiry`, so its head expires no later
than any probe in it; (2) the same holds in every state that the Prober, the
Expirer and a Receiver reach along a schedule whose insertions carry
non-decreasing clock readings. -/
theorem C13_list_ordered_by_expiry (timeout D : Int) (fake : Bool) :
    (∀ (ops : List IndexOp) (ie : ICMPEngine),
      (∀ ps ∈ ops.filterMap IndexOp.probe, ps.Expiry = ps.Send + timeout) →
      (ops.filterMap IndexOp.probe).Pairwise (fun a b => a.Send ≤ b.Send) →
      runOps ops (NewFullConfig timeout D fake) = some ie →
        ie.Timeout = timeout ∧
        ie.ExpiresDLL.Pairwise (fun a b => a.Value.Expiry ≤ b.Value.Expiry) ∧
        ∀ head rest, ie.ExpiresDLL = head :: rest →
          ∀ e ∈ ie.ExpiresDLL, head.Value.Expiry ≤ e.Value.Expiry) ∧
    (∀ (IP N : Nat) (sortRTTs : Bool) (p : ℚ) (sched : List Action) (s : Sys),
      (sched.filterMap Action.sendTime).Pairwise (fun t u => t ≤ u) →
      exec sched (Sys.init timeout D fake IP N sortRTTs p) = some s →
        s.ie.Timeout = timeout ∧
        s.ie.ExpiresDLL.Pairwise (fun a b => a.Value.Expiry ≤ b.Value.Expiry) ∧
        ∀ head rest, s.ie.ExpiresDLL = head :: rest →
          ∀ e ∈ s.ie.ExpiresDLL, head.Value.Expiry ≤ e.Value.Expiry) := by
  constructor
  · intro ops ie hstamp hmono hrun
    obtain ⟨h1, h2⟩ := ordered_runOps timeout ops _ ie hstamp hmono
      (by simp [NewFullConfig]) (by simp [NewFullConfig]) hrun
    refine ⟨by rw [h1]; rfl, h2, ?_⟩
    intro head rest hl e he
    rw [hl] at h2 he
    rcases List.mem_cons.mp he with rfl | he
    · exact le_refl _
    · exact (List.pairwise_cons.mp h2).1 e he
  · intro IP N sortRTTs p sched s hmono hexec
    obtain ⟨h1, h2⟩ := ordered_exec sched _ s hmono
      (by simp [Sys.init, NewFullConfig]) (by simp [Sys.init, NewFullConfig]) hexec
    refine ⟨by rw [h1]; rfl, h2, ?_⟩
    intro head rest hl e he
    rw [hl] at h2 he
    rcases List.mem_cons.mp he with rfl | he
    · exact le_refl _
    · exact (List.pairwise_cons.mp h2).1 e he

/-- Witness for C13: the operations `sampleOps` on a fresh engine with timeout
1000 leave the probes (9, 0) and (7, 1), in this order. -/
theorem C13_list_ordered_by_expiry_witness :
    ∃ ie, runOps sampleOps (NewFullConfig 1000 0 false) = some ie ∧
      ie.ExpiresDLL.map (fun e => e.Value.Expiry) = [1150, 1300] ∧
      ie.Timeout = 1000 ∧
      ie.ExpiresDLL.Pairwise (fun a b => a.Value.Expiry ≤ b.Value.Expiry) ∧
      ∀ head rest, ie.ExpiresDLL = head :: rest →
        ∀ e ∈ ie.ExpiresDLL, head.Value.Expiry ≤ e.Value.Expiry :=
  ⟨_, rfl, rfl,
    (C13_list_ordered_by_expiry 1000 0 false).1 sampleOps _ (by simp [sampleOps, IndexOp.probe])
      (by simp [sampleOps, IndexOp.probe]) rfl⟩

/-! ### Coupling of map and list -/

theorem indexOp_teardown {a : Action} {s : Sys} {IP : Nat} (h : indexOp a s = .teardown IP) :
    a = .proberTeardown := by
  cases a with
  | proberTeardown => rfl
  | proberInsert now r =>
    simp only [indexOp] at h
    split at h <;> cases h
  | expirerTop done =>
    cases done with
    | true => simp [indexOp] at h
    | false =>
      simp only [indexOp] at h
      split at h
      · cases h
      · split at h <;> cases h
  | expirerCommit =>
    simp only [indexOp] at h
    split at h <;> cases h
  | receiverCommit =>
    simp only [indexOp] at h
    split at h
    · split at h <;> cases h
    · split at h <;> cases h
    · cases h
  | _ => simp [indexOp] at h

/-- The node a removal acts on was created for the Prober's destination with
the sequence number it is removed under, which is also its identity. -/
theorem indexOp_removal {a : Action} {s : Sys} {ip sq : Nat} {el : Element}
    (hinv : IndexInv s) (h : indexOp a s = .removal ip sq el) :
    ip = s.prober.IP ∧ el.id = sq ∧ sq < s.ie.nextElement := by
  cases a with
  | proberInsert now r =>
    simp only [indexOp] at h
    split at h <;> cases h
  | proberTeardown => simp [indexOp] at h
  | expirerTop done =>
    cases done with
    | true => simp [indexOp] at h
    | false =>
      simp only [indexOp] at h
      split at h
      · cases h
      · rename_i e rest hl
        split at h
        · simp only [IndexOp.removal.injEq] at h
          obtain ⟨rfl, rfl, rfl⟩ := h
          obtain ⟨h1, h2, h3⟩ := hinv.node e (by rw [hl]; exact List.mem_cons_self _ _)
          exact ⟨h1, h2.symm, by omega⟩
        · cases h
  | expirerCommit =>
    simp only [indexOp] at h
    split at h
    · rename_i p e kl hpc
      simp only [IndexOp.removal.injEq] at h
      obtain ⟨rfl, rfl, rfl⟩ := h
      obtain ⟨h1, _, _, h4, h5⟩ := hinv.exp p e kl hpc
      exact ⟨h1, h4, h5⟩
    · cases h
  | receiverCommit =>
    simp only [indexOp] at h
    split at h
    · rename_i ip2 sq2 e ps hpc
      split at h
      · simp only [IndexOp.removal.injEq] at h
        obtain ⟨rfl, rfl, rfl⟩ := h
        obtain ⟨h1, _, _, h4, h5, _⟩ := hinv.recv _ _ _ _ (Or.inl hpc)
        exact ⟨h1, h4, h5⟩
      · cases h
    · rename_i ip2 sq2 e ps hpc
      split at h
      · simp only [IndexOp.removal.injEq] at h
        obtain ⟨rfl, rfl, rfl⟩ := h
        obtain ⟨h1, _, _, h4, h5, _⟩ := hinv.recv _ _ _ _ (Or.inr hpc)
        exact ⟨h1, h4, h5⟩
      · cases h
    · cases h
  | _ => simp [indexOp] at h

theorem Coupled_congr {ie ie2 : ICMPEngine} (hP : ie2.Pings = ie.Pings)
    (hL : ie2.ExpiresDLL = ie.ExpiresDLL) (h : Coupled ie) : Coupled ie2 := by
  unfold Coupled
  simp only [lookup_congr hP, hL]
  exact h

theorem Coupled_init (timeout D : Int) (fake : Bool) : Coupled (NewFullConfig timeout D fake) := by
  constructor <;> simp [NewFullConfig, ICMPEngine.lookup]

/-- The insertion of a probe under a key that is absent keeps map and list
coupled. -/
theorem Coupled_insert {ie ie2 : ICMPEngine} {IP i : Nat} {ps : Pings} (h : Coupled ie)
    (hnew : ie.lookup IP i = none) (hIP : ps.NetaddrIP = IP) (hi : ps.Seq = i)
    (hins : ie.insert IP i ps = some ie2) : Coupled ie2 := by
  have hlist := (insert_some hins).1
  constructor
  · intro ip sq el hl
    rw [lookup_insert hins] at hl
    rw [hlist]
    split at hl
    · rename_i hq
      simp only [Option.some.injEq] at hl
      subst hl
      exact ⟨by simp, by rw [hq.1]; exact hIP, by rw [hq.2]; exact hi⟩
    · obtain ⟨h1, h2, h3⟩ := h.1 ip sq el hl
      exact ⟨List.mem_append_left _ h1, h2, h3⟩
  · intro el hel
    rw [hlist, List.mem_append, List.mem_singleton] at hel
    rw [lookup_insert hins]
    rcases hel with hel | rfl
    · have hl := h.2 el hel
      split
      · rename_i hq
        rw [hq.1, hq.2, hnew] at hl
        cases hl
      · exact hl
    · simp [hIP, hi]

/-- The removal of the node with identity `sq` under the key `(IP, sq)` keeps
map and list coupled when every node of the list holds a probe of `IP` whose
sequence number is the node's identity. -/
theorem Coupled_removal {ie : ICMPEngine} {IP sq : Nat} {el : Element} (h : Coupled ie)
    (hnode : ∀ e ∈ ie.ExpiresDLL, e.Value.NetaddrIP = IP ∧ e.Value.Seq = e.id)
    (hid : el.id = sq) : Coupled ((ie.deleteSeq IP sq).remove el) := by
  constructor
  · intro ip2 sq2 e hl
    rw [lookup_remove, lookup_deleteSeq] at hl
    split at hl
    · cases hl
    · rename_i hne
      obtain ⟨h1, h2, h3⟩ := h.1 ip2 sq2 e hl
      refine ⟨?_, h2, h3⟩
      unfold ICMPEngine.remove
      simp only [deleteSeq_ExpiresDLL]
      refine List.mem_filter.mpr ⟨h1, ?_⟩
      simp only [ne_eq, decide_not, Bool.not_eq_true', decide_eq_false_iff_not]
      intro heq
      obtain ⟨n1, n2⟩ := hnode e h1
      exact hne ⟨by rw [← h2, n1], by rw [← h3, n2, heq, hid]⟩
  · intro e he
    unfold ICMPEngine.remove at he
    simp only [deleteSeq_ExpiresDLL] at he
    obtain ⟨he1, he2⟩ := List.mem_filter.mp he
    simp only [ne_eq, decide_not, Bool.not_eq_true', decide_eq_false_iff_not] at he2
    rw [lookup_remove, lookup_deleteSeq]
    obtain ⟨n1, n2⟩ := hnode e he1
    split
    · rename_i hq
      exact absurd (by rw [← n2, hq.2, hid]) he2
    · exact h.2 e he1

/-- Every step other than the teardown of `PingerConfig` keeps map and list
coupled. -/
theorem Coupled_step {a : Action} {s s2 : Sys} (hinv : IndexInv s) (hc : Coupled s.ie)
    (ha : a ≠ .proberTeardown) (h : step a s = some s2) : Coupled s2.ie := by
  obtain ⟨ie2, hrun, hP, hL, _, _⟩ := step_indexOp h
  refine Coupled_congr hP hL ?_
  cases hop : indexOp a s with
  | keep =>
    rw [hop] at hrun
    simp only [IndexOp.run, Option.some.injEq] at hrun
    subst hrun
    exact hc
  | insert IP i ps =>
    obtain ⟨now, r, rfl, rfl, rfl, hps⟩ := indexOp_insert hop
    rw [hop] at hrun
    simp only [IndexOp.run] at hrun
    obtain ⟨hpc, _⟩ := proberInsert_some h
    have hcount := hinv.count
    simp only [hpc, reduceCtorEq, or_self, if_false, Nat.add_zero] at hcount
    refine Coupled_insert hc ?_ (by rw [hps]) (by rw [hps]) hrun
    cases hq : s.ie.lookup s.prober.IP s.prober.st.i with
    | none => rfl
    | some el =>
      have := (hinv.keyed _ _ el hq).2.2.2.2
      omega
  | removal ip sq el =>
    obtain ⟨rfl, hid, _⟩ := indexOp_removal hinv hop
    rw [hop] at hrun
    simp only [IndexOp.run, Option.some.injEq] at hrun
    subst hrun
    exact Coupled_removal hc (fun e he => ⟨(hinv.node e he).1, (hinv.node e he).2.1⟩) hid
  | teardown IP => exact absurd (indexOp_teardown hop) ha

/-- Map and list are coupled in every state reached from a fresh engine before
the teardown of `PingerConfig`. -/
theorem Coupled_exec (timeout D : Int) (fake : Bool) (IP N : Nat) (sortRTTs : Bool) (p : ℚ)
    (hN : N < 65536) (sched : List Action) {s : Sys} (hsched : ∀ a ∈ sched, a ≠ .proberTeardown)
    (h : exec sched (Sys.init timeout D fake IP N sortRTTs p) = some s) : Coupled s.ie :=
  (exec_invariant (fun s => IndexInv s ∧ Coupled s.ie) (fun a => a ≠ .proberTeardown)
    (fun _ _ _ ha hinv hs => ⟨IndexInv_step hinv.1 hs, Coupled_step hinv.1 hinv.2 ha hs⟩) sched _ _
    hsched ⟨IndexInv_init timeout D fake IP N sortRTTs p hN, Coupled_init timeout D fake⟩ h).2

/-- C14: map and list are coupled in a fresh engine, and every step of the
Prober, the Expirer or a Receiver other than the teardown of `PingerConfig`
keeps them coupled: the insertion, the Receiver's removal, the Expirer's
fake-success removal and the Expirer's expiry removal. The teardown does not:
after `cancelSchedule`, a call cancelled while its probe (7, 0) is in flight,
map and list are coupled, and the teardown deletes `Pings[7]` and leaves the
node of (7, 0) in the list. -/
theorem C14_coupling_until_teardown :
    (∀ (timeout D : Int) (fake : Bool), Coupled (NewFullConfig timeout D fake)) ∧
    (∀ (timeout D : Int) (fake : Bool) (IP N : Nat) (sortRTTs : Bool) (p : ℚ)
        (sched : List Action) (s : Sys) (a : Action) (s2 : Sys),
      N < 65536 → exec sched (Sys.init timeout D fake IP N sortRTTs p) = some s →
      a ≠ .proberTeardown → step a s = some s2 → Coupled s.ie → Coupled s2.ie) ∧
    (∃ s s2, exec cancelSchedule (Sys.init 1000 0 false 7 3 false 0) = some s ∧
      Coupled s.ie ∧ step .proberTeardown s = some s2 ∧
      s2.ie.ExpiresDLL = [cancelledNode] ∧ s2.ie.lookup 7 0 = none ∧ ¬ Coupled s2.ie) := by
  refine ⟨Coupled_init, ?_, ?_⟩
  · intro timeout D fake IP N sortRTTs p sched s a s2 hN hexec ha hstep hc
    exact Coupled_step (IndexInv_exec hN hexec) hc ha hstep
  · refine ⟨_, _, rfl, ?_, rfl, rfl, rfl, ?_⟩
    · exact Coupled_exec 1000 0 false 7 3 false 0 (by decide) cancelSchedule
        (by simp [cancelSchedule]) rfl
    · intro hc
      have := hc.2 cancelledNode (List.mem_singleton.mpr rfl)
      exact absurd this (by decide)

/-- C15: in every state, the teardown of `PingerConfig` for `IP` deletes the
entries of `IP` from `SuccessChs`, `ExpiredChs`, `DonesChs` and `Pings`,
leaves the entries of every other destination alone, and leaves the list as it
is. So a residual probe of `IP` stays linked: after `cancelSchedule` and the
teardown the node of the probe (7, 0) is still in the list, and the Expirer,
whose recheck no longer finds the key, goes round its loop without removing
it. -/
theorem C15_teardown_leaves_list :
    (∀ (s s2 : Sys), step .proberTeardown s = some s2 →
      s2.ie.SuccessChs s.prober.IP = none ∧ s2.ie.ExpiredChs s.prober.IP = none ∧
      s2.ie.DonesChs s.prober.IP = false ∧ s2.ie.Pings s.prober.IP = none ∧
      (∀ ip, ip ≠ s.prober.IP →
        s2.ie.SuccessChs ip = s.ie.SuccessChs ip ∧ s2.ie.ExpiredChs ip = s.ie.ExpiredChs ip ∧
        s2.ie.DonesChs ip = s.ie.DonesChs ip ∧ s2.ie.Pings ip = s.ie.Pings ip) ∧
      s2.ie.ExpiresDLL = s.ie.ExpiresDLL) ∧
    (∃ s s2, exec cancelSchedule (Sys.init 1000 0 false 7 3 false 0) = some s ∧
      step .proberTeardown s = some s2 ∧ s2.prober.pc = .returned ∧ s2.prober.IP = 7 ∧
      s2.ie.ExpiresDLL = [cancelledNode] ∧ cancelledNode.Value.NetaddrIP = 7 ∧
      s2.expirer = .top ∧
      exec [.expirerTop false, .expirerWake false, .expirerRecheck] s2 = some s2) := by
  constructor
  · intro s s2 h
    simp only [step, proberTeardown] at h
    split at h
    · simp only [Option.some.injEq] at h
      subst h
      refine ⟨by simp, by simp, by simp, by simp, ?_, rfl⟩
      intro ip hip
      simp [Function.update_noteq hip]
    · simp at h
  · exact ⟨_, _, rfl, rfl, rfl, rfl, rfl, rfl, rfl, rfl⟩

/-! ### Terminations and the size of the index -/

theorem trace_append (f : Action → Sys → Option Element) :
    ∀ (pre post : List Action) (s0 s1 : Sys), exec pre s0 = some s1 →
      trace f (pre ++ post) s0 = trace f pre s0 ++ trace f post s1 := by
  intro pre
  induction pre with
  | nil =>
    intro post s0 s1 h
    simp only [exec, Option.some.injEq] at h
    subst h
    simp [trace]
  | cons a rest ih =>
    intro post s0 s1 h
    rw [exec_cons] at h
    cases hs : step a s0 with
    | none => simp [hs] at h
    | some s =>
      simp only [hs, Option.bind] at h
      have hih := ih post s s1 h
      simp only [List.cons_append, trace, hs, List.append_assoc]
      rw [← hih]
      rfl

theorem step_nextElement {a : Action} {s s2 : Sys} (h : step a s = some s2) :
    s.ie.nextElement ≤ s2.ie.nextElement := by
  obtain ⟨ie2, hrun, _, _, hn, _⟩ := step_indexOp h
  rw [hn]
  exact (IndexOp.run_fields hrun).2.1

theorem exec_nextElement :
    ∀ (sched : List Action) (s s2 : Sys), exec sched s = some s2 →
      s.ie.nextElement ≤ s2.ie.nextElement := by
  intro sched
  induction sched with
  | nil =>
    intro s s2 h
    simp only [exec, Option.some.injEq] at h
    subst h
    exact le_refl _
  | cons a rest ih =>
    intro s s2 h
    rw [exec_cons] at h
    cases hs : step a s with
    | none => simp [hs] at h
    | some s1 =>
      simp only [hs, Option.bind] at h
      exact le_trans (step_nextElement hs) (ih s1 s2 h)

/-- One step keeps the list equal to the nodes created and not yet terminated. -/
theorem Live_step {a : Action} {s s2 : Sys} {T : List Nat} (hinv : IndexInv s)
    (hlive : Live T s) (hT : ∀ k ∈ T, k < s.ie.nextElement) (h : step a s = some s2) :
    Live (T ++ (terminated a s).toList.map Element.id) s2 ∧
    (∀ k ∈ T ++ (terminated a s).toList.map Element.id, k < s2.ie.nextElement) := by
  obtain ⟨ie2, hrun, _, hL, hn, _⟩ := step_indexOp h
  unfold Live at hlive ⊢
  rw [hL, hn]
  cases hop : indexOp a s with
  | keep =>
    rw [hop] at hrun
    simp only [IndexOp.run, Option.some.injEq] at hrun
    subst hrun
    simp only [terminated, hop, Option.toList, List.map_nil, List.append_nil]
    exact ⟨hlive, hT⟩
  | teardown IP =>
    rw [hop] at hrun
    simp only [IndexOp.run, Option.some.injEq] at hrun
    subst hrun
    simp only [terminated, hop, Option.toList, List.map_nil, List.append_nil]
    exact ⟨hlive, hT⟩
  | insert IP i ps =>
    rw [hop] at hrun
    simp only [IndexOp.run] at hrun
    obtain ⟨hlist, _, _, _, hn1, _⟩ := insert_some hrun
    simp only [terminated, hop, Option.toList, List.map_nil, List.append_nil]
    refine ⟨?_, fun k hk => by rw [hn1]; exact Nat.lt_succ_of_lt (hT k hk)⟩
    rw [hlist, hn1, List.map_append, hlive, List.range_succ, List.filter_append]
    congr 1
    have hnot : s.ie.nextElement ∉ T := fun hmem => absurd (hT _ hmem) (lt_irrefl _)
    simp [hnot]
  | removal ip sq el =>
    obtain ⟨_, hid, hlt⟩ := indexOp_removal hinv hop
    rw [hop] at hrun
    simp only [IndexOp.run, Option.some.injEq] at hrun
    subst hrun
    simp only [terminated, hop, Option.toList, List.map_cons, List.map_nil]
    constructor
    · simp only [ICMPEngine.remove, deleteSeq_ExpiresDLL, deleteSeq_nextElement]
      have hmap : (s.ie.ExpiresDLL.filter (fun e => decide (e.id ≠ el.id))).map Element.id =
          (s.ie.ExpiresDLL.map Element.id).filter (fun k => decide (k ≠ el.id)) := by
        rw [List.filter_map]
        rfl
      rw [hmap, hlive, List.filter_filter]
      apply List.filter_congr
      intro k _
      simp only [List.mem_append, List.mem_singleton, not_or, ne_eq, decide_not,
        Bool.decide_and, Bool.and_comm]
    · intro k hk
      simp only [ICMPEngine.remove, deleteSeq_nextElement]
      rw [List.mem_append, List.mem_singleton] at hk
      rcases hk with hk | rfl
      · exact hT k hk
      · rw [hid]
        exact hlt

/-- Along a schedule the list stays equal to the nodes created and not yet
terminated. -/
theorem Live_exec :
    ∀ (sched : List Action) (s0 s : Sys) (T : List Nat), IndexInv s0 → Live T s0 →
      (∀ k ∈ T, k < s0.ie.nextElement) → exec sched s0 = some s →
        Live (T ++ (trace terminated sched s0).map Element.id) s ∧
        (∀ k ∈ T ++ (trace terminated sched s0).map Element.id, k < s.ie.nextElement) := by
  intro sched
  induction sched with
  | nil =>
    intro s0 s T _ hlive hT h
    simp only [exec, Option.some.injEq] at h
    subst h
    simp only [trace, List.map_nil, List.append_nil]
    exact ⟨hlive, hT⟩
  | cons a rest ih =>
    intro s0 s T hinv hlive hT h
    rw [exec_cons] at h
    cases hs : step a s0 with
    | none => simp [hs] at h
    | some s1 =>
      simp only [hs, Option.bind] at h
      obtain ⟨h1, h2⟩ := Live_step hinv hlive hT hs
      have h3 := ih s1 s _ (IndexInv_step hinv hs) h1 h2 h
      simp only [trace, hs, List.map_append, ← List.append_assoc]
      exact h3

/-- The nodes created along a schedule have the consecutive identities from
the first free one on. -/
theorem inserted_ids :
    ∀ (sched : List Action) (s0 s : Sys), exec sched s0 = some s →
      (trace inserted sched s0).map Element.id =
        List.range' s0.ie.nextElement (s.ie.nextElement - s0.ie.nextElement) := by
  intro sched
  induction sched with
  | nil =>
    intro s0 s h
    simp only [exec, Option.some.injEq] at h
    subst h
    simp [trace]
  | cons a rest ih =>
    intro s0 s h
    rw [exec_cons] at h
    cases hs : step a s0 with
    | none => simp [hs] at h
    | some s1 =>
      simp only [hs, Option.bind] at h
      have hle := exec_nextElement rest s1 s h
      simp only [trace, hs, List.map_append, ih s1 s h]
      obtain ⟨ie2, hrun, _, _, hn, _⟩ := step_indexOp hs
      cases hop : indexOp a s0 with
      | insert IP i ps =>
        rw [hop] at hrun
        simp only [IndexOp.run] at hrun
        have hn1 := (insert_some hrun).2.2.2.2.1
        rw [hn1] at hn
        simp only [inserted, hop, Option.toList, List.map_cons, List.map_nil, hn]
        have hlen : s.ie.nextElement - s0.ie.nextElement =
            (s.ie.nextElement - (s0.ie.nextElement + 1)) + 1 := by omega
        rw [hlen, List.range'_succ]
        rfl
      | keep =>
        rw [hop] at hrun
        simp only [IndexOp.run, Option.some.injEq] at hrun
        subst hrun
        simp only [inserted, hop, Option.toList, List.map_nil, List.nil_append, hn]
      | teardown IP =>
        rw [hop] at hrun
        simp only [IndexOp.run, Option.some.injEq] at hrun
        subst hrun
        simp only [inserted, hop, Option.toList, List.map_nil, List.nil_append, hn]
      | removal ip sq el =>
        rw [hop] at hrun
        simp only [IndexOp.run, Option.some.injEq] at hrun
        subst hrun
        simp only [inserted, hop, Option.toList, List.map_nil, List.nil_append, hn,
          remove_nextElement, deleteSeq_nextElement]

/-- Removing the one node with a given identity from a list of nodes with
distinct identities shortens it by one. -/
theorem length_filter_id :
    ∀ (l : List Element) (k : Nat), l.Pairwise (fun a b => a.id < b.id) →
      k ∈ l.map Element.id →
        (l.filter (fun e => decide (e.id ≠ k))).length + 1 = l.length := by
  intro l
  induction l with
  | nil =>
    intro k _ hk
    simp at hk
  | cons x rest ih =>
    intro k hp hk
    obtain ⟨hx, hrest⟩ := List.pairwise_cons.mp hp
    by_cases hxk : x.id = k
    · have hnone : ∀ e ∈ rest, e.id ≠ k := by
        intro e he
        have := hx e he
        omega
      have hfil : rest.filter (fun e => decide (e.id ≠ k)) = rest := by
        apply List.filter_eq_self.mpr
        intro e he
        simp [hnone e he]
      rw [List.filter_cons, hfil]
      simp [hxk]
    · have hk2 : k ∈ rest.map Element.id := by
        simp only [List.map_cons, List.mem_cons] at hk
        rcases hk with hk | hk
        · exact absurd hk.symm hxk
        · exact hk
      have := ih k hrest hk2
      simp only [List.filter_cons, ne_eq, hxk, not_false_eq_true, decide_True, if_true,
        List.length_cons]
      simp only [ne_eq] at this
      omega

theorem EmptyingInv_worker {IP : Nat} {a : Action} {s s2 : Sys} (hinv : EmptyingInv IP s)
    (ha : a.isProber = false) (h : step a s = some s2) : EmptyingInv IP s2 := by
  obtain ⟨ie2, hrun, hP, _⟩ := step_indexOp h
  have hpr := step_worker_prober ha h
  have hnone : ∀ ip, s.ie.Pings ip = none → s2.ie.Pings ip = none := by
    intro ip hip
    rw [hP]
    rcases indexOp_worker s ha with hop | ⟨ip2, sq, el, hop⟩
    · rw [hop] at hrun
      simp only [IndexOp.run, Option.some.injEq] at hrun
      subst hrun
      exact hip
    · rw [hop] at hrun
      simp only [IndexOp.run, Option.some.injEq] at hrun
      subst hrun
      exact deleteSeq_Pings_none hip
  exact ⟨fun ip hip => hnone ip (hinv.others ip hip),
    fun hpc => hnone IP (hinv.returned (by rw [← hpr]; exact hpc))⟩

theorem EmptyingInv_step {timeout : Int} {IP N : Nat} {p : ℚ} {a : Action} {s s2 : Sys}
    (hrun : RunInv timeout IP N p s) (hinv : EmptyingInv IP s) (h : step a s = some s2) :
    EmptyingInv IP s2 := by
  cases a with
  | proberSetup =>
    simp only [step, proberSetup] at h
    split at h
    · simp only [Option.some.injEq] at h
      subst h
      exact ⟨hinv.others, by simp⟩
    · simp at h
  | proberInsert now r =>
    simp only [step] at h
    obtain ⟨hpc, ⟨_, rfl⟩ | ⟨_, _, _, _, _, _, _, hother, _, hpr, _⟩⟩ := proberInsert_some h
    · exact ⟨hinv.others, by simp⟩
    · refine ⟨?_, by rw [hpr]; simp⟩
      intro ip hip
      rw [hother ip (by rw [hrun.dest]; exact hip)]
      exact hinv.others ip hip
  | proberSelect c =>
    simp only [step] at h
    obtain ⟨_, ev, st1, _, _, hie, _, _, _, _, _, hpr⟩ := proberSelect_some h
    refine ⟨by rw [hie]; exact hinv.others, ?_⟩
    rw [hpr]
    split <;> simp
  | proberSleep ev =>
    simp only [step, proberSleep] at h
    split at h
    · simp only [Option.some.injEq] at h
      subst h
      exact ⟨hinv.others, by simp⟩
    · simp at h
  | proberTeardown =>
    simp only [step, proberTeardown] at h
    split at h
    · simp only [Option.some.injEq] at h
      subst h
      refine ⟨?_, ?_⟩
      · intro ip hip
        simp only
        rw [Function.update_noteq (by rw [hrun.dest]; exact hip)]
        exact hinv.others ip hip
      · intro _
        simp only
        rw [hrun.dest, Function.update_same]
    · simp at h
  | expirerTop done => exact EmptyingInv_worker hinv (by rfl) h
  | expirerSendSuccess now => exact EmptyingInv_worker hinv (by rfl) h
  | expirerWake done => exact EmptyingInv_worker hinv (by rfl) h
  | expirerRecheck => exact EmptyingInv_worker hinv (by rfl) h
  | expirerCommit => exact EmptyingInv_worker hinv (by rfl) h
  | expirerSendExpired => exact EmptyingInv_worker hinv (by rfl) h
  | expirerExit => exact EmptyingInv_worker hinv (by rfl) h
  | receiverRead ip sq t => exact EmptyingInv_worker hinv (by rfl) h
  | receiverCommit => exact EmptyingInv_worker hinv (by rfl) h

theorem EmptyingInv_exec {timeout D : Int} {fake : Bool} {IP N : Nat} {sortRTTs : Bool} {p : ℚ}
    (hN : N < 65536) {sched : List Action} {s : Sys}
    (h : exec sched (Sys.init timeout D fake IP N sortRTTs p) = some s) : EmptyingInv IP s :=
  (exec_invariant
    (fun s => (IndexInv s ∧ RunInv timeout IP N p s) ∧ EmptyingInv IP s) (fun _ => True)
    (fun _ _ _ _ hinv hs =>
      ⟨⟨IndexInv_step hinv.1.1 hs, RunInv_step hinv.1.1 hinv.1.2 hs⟩,
        EmptyingInv_step hinv.1.2 hinv.2 hs⟩) sched _ _
    (fun _ _ => trivial)
    ⟨⟨IndexInv_init timeout D fake IP N sortRTTs p hN, RunInv_init timeout D fake IP N sortRTTs p⟩,
      ⟨by simp [Sys.init, NewFullConfig], by simp [Sys.init, NewFullConfig]⟩⟩ h).2

/-- One call: along every schedule from a fresh engine after which
`PingerConfig` has returned and in which every node created was terminated exactly once (by
a Receiver's removal, the Expirer's fake-success removal or the Expirer's
expiry removal), every termination shortens the list by exactly one node, and
at the end the list is empty and `Pings` has no inner map. -/
theorem single_call_index_returns_to_empty (timeout D : Int) (fake : Bool) (IP N : Nat)
    (sortRTTs : Bool) (p : ℚ) (sched : List Action) (s : Sys) (hN : N < 65536)
    (hexec : exec sched (Sys.init timeout D fake IP N sortRTTs p) = some s)
    (hret : s.prober.pc = .returned)
    (hall : ∀ e ∈ trace inserted sched (Sys.init timeout D fake IP N sortRTTs p),
      ((trace terminated sched (Sys.init timeout D fake IP N sortRTTs p)).map
        Element.id).count e.id = 1) :
    (∀ (pre : List Action) (a : Action) (post : List Action) (s1 s2 : Sys) (el : Element),
      sched = pre ++ a :: post →
      exec pre (Sys.init timeout D fake IP N sortRTTs p) = some s1 → step a s1 = some s2 →
      terminated a s1 = some el →
        s2.ie.ExpiresDLL.length + 1 = s1.ie.ExpiresDLL.length) ∧
    s.ie.ExpiresDLL = [] ∧ ∀ ip, s.ie.Pings ip = none := by
  have hinit := IndexInv_init timeout D fake IP N sortRTTs p hN
  have hlive0 : Live [] (Sys.init timeout D fake IP N sortRTTs p) := by
    simp [Live, Sys.init, NewFullConfig]
  have hids := inserted_ids sched _ s hexec
  have hnext0 : (Sys.init timeout D fake IP N sortRTTs p).ie.nextElement = 0 := rfl
  rw [hnext0, Nat.sub_zero] at hids
  have hcount : ∀ k, k < s.ie.nextElement →
      ((trace terminated sched (Sys.init timeout D fake IP N sortRTTs p)).map
        Element.id).count k = 1 := by
    intro k hk
    have hmem : k ∈ (trace inserted sched (Sys.init timeout D fake IP N sortRTTs p)).map
        Element.id := by
      rw [hids, List.mem_range']
      exact ⟨k, hk, by omega⟩
    obtain ⟨e, he, rfl⟩ := List.mem_map.mp hmem
    exact hall e he
  refine ⟨?_, ?_, ?_⟩
  · intro pre a post s1 s2 el hsched hpre hstep hterm
    subst hsched
    have hinv1 := IndexInv_exec hN hpre
    obtain ⟨hlive1, _⟩ := Live_exec pre _ s1 [] hinit hlive0 (by simp) hpre
    rw [List.nil_append] at hlive1
    have hrest : exec (a :: post) s1 = some s := by
      rw [exec_append, hpre] at hexec
      exact hexec
    have hle := exec_nextElement _ s1 s hrest
    have hop : ∃ ip sq, indexOp a s1 = .removal ip sq el := by
      unfold terminated at hterm
      split at hterm
      · rename_i ip sq e hq
        simp only [Option.some.injEq] at hterm
        subst hterm
        exact ⟨ip, sq, hq⟩
      · cases hterm
    obtain ⟨ip, sq, hop⟩ := hop
    obtain ⟨_, hid, hlt⟩ := indexOp_removal hinv1 hop
    have hc := hcount el.id (by omega)
    rw [trace_append terminated pre (a :: post) _ s1 hpre] at hc
    simp only [trace, hstep, hterm, Option.toList, List.map_append, List.map_cons, List.map_nil,
      List.count_append, List.count_cons_self, List.count_nil] at hc
    have hnot : el.id ∉ (trace terminated pre (Sys.init timeout D fake IP N sortRTTs p)).map
        Element.id := by
      apply List.count_eq_zero.mp
      omega
    have hmem : el.id ∈ s1.ie.ExpiresDLL.map Element.id := by
      unfold Live at hlive1
      rw [hlive1, List.mem_filter, List.mem_range]
      exact ⟨by omega, by simpa using hnot⟩
    obtain ⟨ie2, hrun, _, hL, _, _⟩ := step_indexOp hstep
    rw [hop] at hrun
    simp only [IndexOp.run, Option.some.injEq] at hrun
    subst hrun
    rw [hL]
    simp only [ICMPEngine.remove, deleteSeq_ExpiresDLL]
    exact length_filter_id _ _ hinv1.sorted hmem
  · obtain ⟨hlive, _⟩ := Live_exec sched _ s [] hinit hlive0 (by simp) hexec
    rw [List.nil_append] at hlive
    unfold Live at hlive
    have hnil : (List.range s.ie.nextElement).filter
        (fun k => decide (k ∉ (trace terminated sched
          (Sys.init timeout D fake IP N sortRTTs p)).map Element.id)) = [] := by
      apply List.filter_eq_nil_iff.mpr
      intro k hk
      have hc := hcount k (List.mem_range.mp hk)
      have hmem : k ∈ (trace terminated sched
          (Sys.init timeout D fake IP N sortRTTs p)).map Element.id := by
        apply List.count_pos_iff.mp
        omega
      simpa using hmem
    rw [hnil] at hlive
    exact List.map_eq_nil_iff.mp hlive
  · have hemp := EmptyingInv_exec hN hexec
    intro ip
    by_cases hip : ip = IP
    · subst hip
      exact hemp.returned hret
    · exact hemp.others ip hip

/-- A sample run: a normal-mode engine serves two probes to the destination
7, both expire, and the call returns; the nodes 0 and 1 are created and each
is terminated once. -/
theorem single_call_index_sample :
    ∃ s, exec (completeSchedule expiryRound 2) (Sys.init 1000 0 false 7 2 false 0) = some s ∧
      (trace inserted (completeSchedule expiryRound 2)
        (Sys.init 1000 0 false 7 2 false 0)).map Element.id = [0, 1] ∧
      (trace terminated (completeSchedule expiryRound 2)
        (Sys.init 1000 0 false 7 2 false 0)).map Element.id = [0, 1] ∧
      s.prober.pc = .returned ∧ s.ie.ExpiresDLL = [] ∧ ∀ ip, s.ie.Pings ip = none :=
  ⟨_, rfl, rfl, rfl, rfl,
    (single_call_index_returns_to_empty 1000 0 false 7 2 false 0 (completeSchedule expiryRound 2) _
      (by decide) rfl rfl (by
        intro e he
        have h1 : (trace inserted (completeSchedule expiryRound 2)
            (Sys.init 1000 0 false 7 2 false 0)).map Element.id = [0, 1] := rfl
        have h2 : (trace terminated (completeSchedule expiryRound 2)
            (Sys.init 1000 0 false 7 2 false 0)).map Element.id = [0, 1] := rfl
        have h3 : e.id ∈ [0, 1] := h1 ▸ List.mem_map_of_mem _ he
        rw [h2]
        simp only [List.mem_cons, List.mem_singleton, List.not_mem_nil, or_false] at h3
        rcases h3 with h | h <;> rw [h] <;> rfl)).2⟩

/-! ### The drop draw -/

/-- C17, counterexample: with the drop probability `3 * 2^-54` and the draw
`1 - 2^-52`, both `float64` values, `FakeDrop` returns true although the draw
is below `1 - p`: the difference `1 - p` is rounded to `1 - 2^-52`. -/
theorem C17_FakeDrop_counterexample :
    (0 : ℚ) ≤ 9007199254740990 / 9007199254740992 ∧
    (9007199254740990 / 9007199254740992 : ℚ) < 1 ∧
    FakeDrop (3 / 18014398509481984) (9007199254740990 / 9007199254740992) = true ∧
    ¬ ((0 : ℚ) < 3 / 18014398509481984 ∧
      (1 : ℚ) - 3 / 18014398509481984 ≤ 9007199254740990 / 9007199254740992) := by
  refine ⟨by norm_num, by norm_num, ?_, by norm_num⟩
  rw [FakeDrop_iff, roundFloat64_near_one]
  norm_num

/-- C17, amended: for a draw `r` in `[0, 1)`, `FakeDrop p r` is true exactly
when `p > 0` and `r` is at least the `float64` difference `1 - p`, which is
`1 - p` rounded to the nearest `float64`. It is false for every draw when
`p ≤ 0` and true for every draw when `p ≥ 1`. For `0 < p < 1` the draws that
drop are those of the interval from the rounded difference to 1, which lies
inside `[0, 1)`; the rounded difference is within `2^-54` of `1 - p`, it is 1
(no draw drops) when `p ≤ 2^-54`, and it is `1 - p` itself when `p` is a
multiple of `2^-53`. -/
theorem C17_FakeDrop_threshold (p r : ℚ) (h0 : 0 ≤ r) (h1 : r < 1) :
    (FakeDrop p r = true ↔ 0 < p ∧ roundFloat64 (1 - p) ≤ r) ∧
    (p ≤ 0 → FakeDrop p r = false) ∧
    (1 ≤ p → FakeDrop p r = true) ∧
    (0 < p → p < 1 →
      (FakeDrop p r = true ↔ r ∈ Set.Ico (roundFloat64 (1 - p)) 1) ∧
      {x : ℚ | 0 ≤ x ∧ x < 1 ∧ FakeDrop p x = true} = Set.Ico (roundFloat64 (1 - p)) 1 ∧
      0 ≤ roundFloat64 (1 - p) ∧ roundFloat64 (1 - p) ≤ 1 ∧
      |roundFloat64 (1 - p) - (1 - p)| ≤ 1 / 18014398509481984 ∧
      (p ≤ 1 / 18014398509481984 → FakeDrop p r = false) ∧
      ((∃ m : Int, p = m / 9007199254740992) →
        roundFloat64 (1 - p) = 1 - p ∧ (FakeDrop p r = true ↔ 1 - p ≤ r))) := by
  refine ⟨FakeDrop_iff p r, ?_, ?_, ?_⟩
  · intro hp
    cases hq : FakeDrop p r with
    | false => rfl
    | true =>
      have := ((FakeDrop_iff p r).mp hq).1
      exact absurd this (not_lt.mpr hp)
  · intro hp
    have := @roundFloat64_nonpos (1 - p) (by linarith)
    exact (FakeDrop_iff p r).mpr ⟨by linarith, by linarith⟩
  · intro hp0 hp1
    obtain ⟨u0, u1, u2, u3, u4⟩ := @roundFloat64_unit (1 - p) (by linarith) (by linarith)
    refine ⟨?_, ?_, u0, u1, u2, ?_, ?_⟩
    · rw [FakeDrop_iff p r, Set.mem_Ico]
      constructor
      · intro h
        exact ⟨h.2, h1⟩
      · intro h
        exact ⟨hp0, h.1⟩
    · ext x
      simp only [Set.mem_setOf_eq, Set.mem_Ico, FakeDrop_iff p x]
      constructor
      · intro h
        exact ⟨h.2.2.2, h.2.1⟩
      · intro h
        exact ⟨by linarith, h.2, hp0, h.1⟩
    · intro hsmall
      have := u4 (by linarith)
      cases hq : FakeDrop p r with
      | false => rfl
      | true =>
        have h2 := ((FakeDrop_iff p r).mp hq).2
        rw [this] at h2
        exact absurd h1 (not_lt.mpr h2)
    · rintro ⟨m, hm⟩
      have hex : roundFloat64 (1 - p) = 1 - p := by
        apply u3 (9007199254740992 - m)
        rw [hm]
        push_cast
        ring
      refine ⟨hex, ?_⟩
      rw [FakeDrop_iff p r, hex]
      constructor
      · intro h
        exact h.2
      · intro h
        exact ⟨hp0, h⟩

/-- Witness for C17: drop probability 1/4 and the draw 7/8. -/
theorem C17_FakeDrop_threshold_witness :
    (0 : ℚ) ≤ 7 / 8 ∧ (7 / 8 : ℚ) < 1 ∧ FakeDrop (1 / 4) (7 / 8) = true :=
  ⟨by norm_num, by norm_num,
    (((C17_FakeDrop_threshold (1 / 4) (7 / 8) (by norm_num) (by norm_num)).2.2.2
      (by norm_num) (by norm_num)).2.2.2.2.2.2 ⟨2251799813685248, by norm_num⟩).2.mpr
      (by norm_num)⟩

/-! ### Start and the sockets -/

/-- What `OpenSockets` does when the effective uid is 0, by the outcomes of
the listen attempts. -/
theorem OpenSockets_root (listen : Nat → Nat → Bool) (ie : Lifecycle)
    (hfake : ie.FakeSuccess = false) (hopen : ie.Sockets.Open = false)
    (hopens : ∀ p, ie.Sockets.Opens p = false) (hroot : ie.EID = 0) :
    (OpenSockets listen ie).1 =
      (if listen 4 0 then [(4, 0)] else [(4, 0), (4, 1)]) ++
        (if listen 6 0 then [(6, 0)] else [(6, 0), (6, 1)]) ∧
    (((listen 4 0 = true ∨ listen 4 1 = true) ∧ (listen 6 0 = true ∨ listen 6 1 = true)) →
      ∃ ie2, (OpenSockets listen ie).2 = .ok ie2 ∧ ie2.Sockets.Open = true ∧
        ie2.Sockets.Opens 4 = true ∧ ie2.Sockets.Opens 6 = true) ∧
    (¬ ((listen 4 0 = true ∨ listen 4 1 = true) ∧ (listen 6 0 = true ∨ listen 6 1 = true)) →
      (OpenSockets listen ie).2 = .error .socketCount) := by
  have h4 := hopens 4
  have h6 := hopens 6
  cases h40 : listen 4 0 <;> cases h41 : listen 4 1 <;> cases h60 : listen 6 0 <;>
    cases h61 : listen 6 1 <;>
    simp [OpenSockets, openProtocols, openRetries, Protocols, OpenSocketsRetriesCst, HackSysctl,
      hfake, hopen, hroot, h4, h6, h40, h41, h60, h61, Function.update_apply]

/-- What `OpenSockets` does when the effective uid is not 0, by the outcomes
of the listen attempts. -/
theorem OpenSockets_user (listen : Nat → Nat → Bool) (ie : Lifecycle)
    (hfake : ie.FakeSuccess = false) (hopen : ie.Sockets.Open = false)
    (hopens : ∀ p, ie.Sockets.Opens p = false) (huser : ie.EID ≠ 0) :
    (OpenSockets listen ie).1 = (if listen 4 0 then [(4, 0), (6, 0)] else [(4, 0)]) ∧
    ((listen 4 0 = true ∧ listen 6 0 = true) →
      ∃ ie2, (OpenSockets listen ie).2 = .ok ie2 ∧ ie2.Sockets.Open = true ∧
        ie2.Sockets.Opens 4 = true ∧ ie2.Sockets.Opens 6 = true) ∧
    (¬ (listen 4 0 = true ∧ listen 6 0 = true) →
      (OpenSockets listen ie).2 = .error .listenPacket) := by
  have h4 := hopens 4
  have h6 := hopens 6
  cases h40 : listen 4 0 <;> cases h60 : listen 6 0 <;>
    simp [OpenSockets, openProtocols, openRetries, Protocols, OpenSocketsRetriesCst, HackSysctl,
      hfake, hopen, huser, h4, h6, h40, h60, Function.update_apply]

/-- The claim C19 fails for an unprivileged process: with effective uid 1000,
when the first listen attempt for protocol 4 fails and every later attempt
would succeed, `OpenSockets` makes that one attempt and terminates fatally. -/
theorem C19_unprivileged_counterexample :
    (fun (p k : Nat) => !(p == 4 && k == 0)) 4 0 = false ∧
    (fun (p k : Nat) => !(p == 4 && k == 0)) 4 1 = true ∧
    OpenSockets (fun p k => !(p == 4 && k == 0)) (Lifecycle.new 1000 false) =
      ([(4, 0)], .error .listenPacket) :=
  ⟨rfl, rfl, rfl⟩

/-- C19, amended: on an engine in normal mode whose sockets are closed,
`OpenSockets` makes at most two listen attempts per protocol. With effective
uid 0 it retries each protocol exactly once after a failed first attempt,
returns normally with `Open` and every `Opens[p]` set when each protocol
opened at its first or second attempt, and otherwise terminates fatally at the
count assertion. With another effective uid it never retries: it returns
normally with `Open` and every `Opens[p]` set when both first attempts
succeed, and terminates fatally at the first failed attempt. -/
theorem C19_open_sockets_retry (listen : Nat → Nat → Bool) (ie : Lifecycle)
    (hfake : ie.FakeSuccess = false) (hopen : ie.Sockets.Open = false)
    (hopens : ∀ p, ie.Sockets.Opens p = false) :
    (∀ p, (attemptsFor p (OpenSockets listen ie).1).length ≤ 2) ∧
    (ie.EID = 0 →
      (∀ p ∈ Protocols, attemptsFor p (OpenSockets listen ie).1 =
        if listen p 0 then [(p, 0)] else [(p, 0), (p, 1)]) ∧
      ((∀ p ∈ Protocols, listen p 0 = true ∨ listen p 1 = true) →
        ∃ ie2, (OpenSockets listen ie).2 = .ok ie2 ∧ ie2.Sockets.Open = true ∧
          ∀ p ∈ Protocols, ie2.Sockets.Opens p = true) ∧
      ((∃ p ∈ Protocols, listen p 0 = false ∧ listen p 1 = false) →
        (OpenSockets listen ie).2 = .error .socketCount)) ∧
    (ie.EID ≠ 0 →
      (∀ p, (attemptsFor p (OpenSockets listen ie).1).length ≤ 1) ∧
      ((∀ p ∈ Protocols, listen p 0 = true) →
        ∃ ie2, (OpenSockets listen ie).2 = .ok ie2 ∧ ie2.Sockets.Open = true ∧
          ∀ p ∈ Protocols, ie2.Sockets.Opens p = true) ∧
      ((∃ p ∈ Protocols, listen p 0 = false) →
        (OpenSockets listen ie).2 = .error .listenPacket ∧
        ∃ p ∈ Protocols, listen p 0 = false ∧
          (OpenSockets listen ie).1.getLast? = some (p, 0))) := by
  by_cases hroot : ie.EID = 0
  · obtain ⟨hatt, hok, herr⟩ := OpenSockets_root listen ie hfake hopen hopens hroot
    refine ⟨?_, fun _ => ⟨?_, ?_, ?_⟩, fun h => absurd hroot h⟩
    · intro p
      rw [hatt]
      unfold attemptsFor
      cases listen 4 0 <;> cases listen 6 0 <;> by_cases h4 : 4 = p <;> by_cases h6 : 6 = p <;>
        simp [List.filter_cons, h4, h6] <;> omega
    · intro p hp
      rw [hatt]
      unfold attemptsFor
      simp only [Protocols, List.mem_cons, List.mem_singleton, List.not_mem_nil, or_false] at hp
      rcases hp with rfl | rfl <;> cases listen 4 0 <;> cases listen 6 0 <;>
        simp [List.filter_cons]
    · intro hall
      obtain ⟨ie2, h1, h2, h3, h4⟩ := hok ⟨hall 4 (by simp [Protocols]), hall 6 (by simp [Protocols])⟩
      refine ⟨ie2, h1, h2, ?_⟩
      intro p hp
      simp only [Protocols, List.mem_cons, List.mem_singleton, List.not_mem_nil, or_false] at hp
      rcases hp with rfl | rfl
      · exact h3
      · exact h4
    · intro hex
      apply herr
      obtain ⟨p, hp, h0, h1⟩ := hex
      simp only [Protocols, List.mem_cons, List.mem_singleton, List.not_mem_nil, or_false] at hp
      rcases hp with rfl | rfl <;> simp [h0, h1]
  · obtain ⟨hatt, hok, herr⟩ := OpenSockets_user listen ie hfake hopen hopens hroot
    refine ⟨?_, fun h => absurd h hroot, fun _ => ⟨?_, ?_, ?_⟩⟩
    · intro p
      rw [hatt]
      unfold attemptsFor
      cases listen 4 0 <;> by_cases h4 : 4 = p <;> by_cases h6 : 6 = p <;>
        simp [List.filter_cons, h4, h6]
    · intro p
      rw [hatt]
      unfold attemptsFor
      cases listen 4 0 <;> by_cases h4 : 4 = p <;> by_cases h6 : 6 = p <;>
        simp [List.filter_cons, h4, h6]
      omega
    · intro hall
      obtain ⟨ie2, h1, h2, h3, h4⟩ := hok ⟨hall 4 (by simp [Protocols]), hall 6 (by simp [Protocols])⟩
      refine ⟨ie2, h1, h2, ?_⟩
      intro p hp
      simp only [Protocols, List.mem_cons, List.mem_singleton, List.not_mem_nil, or_false] at hp
      rcases hp with rfl | rfl
      · exact h3
      · exact h4
    · intro hex
      refine ⟨herr ?_, ?_⟩
      · obtain ⟨p, hp, h0⟩ := hex
        simp only [Protocols, List.mem_cons, List.mem_singleton, List.not_mem_nil, or_false] at hp
        rcases hp with rfl | rfl <;> simp [h0]
      · rw [hatt]
        cases h40 : listen 4 0 with
        | false => exact ⟨4, by simp [Protocols], h40, by simp⟩
        | true =>
          obtain ⟨p, hp, h0⟩ := hex
          simp only [Protocols, List.mem_cons, List.mem_singleton, List.not_mem_nil, or_false] at hp
          rcases hp with rfl | rfl
          · rw [h40] at h0
            cases h0
          · exact ⟨6, by simp [Protocols], h0, by simp⟩

/-- Witness for C19: with effective uid 0, the first listen attempt for
protocol 4 fails and every other attempt succeeds. -/
theorem C19_open_sockets_retry_witness :
    (Lifecycle.new 0 false).FakeSuccess = false ∧ (Lifecycle.new 0 false).Sockets.Open = false ∧
    (∀ p, (Lifecycle.new 0 false).Sockets.Opens p = false) ∧
    (∀ p ∈ Protocols,
      attemptsFor p (OpenSockets (fun p k => !(p == 4 && k == 0)) (Lifecycle.new 0 false)).1 =
        if (fun (p k : Nat) => !(p == 4 && k == 0)) p 0 then [(p, 0)] else [(p, 0), (p, 1)]) :=
  ⟨rfl, rfl, fun _ => rfl,
    ((C19_open_sockets_retry (fun p k => !(p == 4 && k == 0)) (Lifecycle.new 0 false) rfl rfl
      (fun _ => rfl)).2.1 rfl).1⟩

/-- What a normal return of `OpenSockets` leaves. -/
theorem OpenSockets_ok {listen : Nat → Nat → Bool} {ie ie2 : Lifecycle}
    {attempts : List (Nat × Nat)} (h : OpenSockets listen ie = (attempts, .ok ie2)) :
    ie2.Sockets.Open = true ∧ ie2.FakeSuccess = ie.FakeSuccess ∧
    ie2.ReceiversRunning = ie.ReceiversRunning ∧ ie2.EID = ie.EID := by
  cases hf : ie.FakeSuccess with
  | true => simp [OpenSockets, hf] at h
  | false =>
    cases ho : ie.Sockets.Open with
    | true => simp [OpenSockets, hf, ho] at h
    | false =>
      simp only [OpenSockets, hf, ho, Bool.false_eq_true, if_false] at h
      split at h
      · simp at h
      · split at h
        · simp at h
        · simp only [Prod.mk.injEq, Except.ok.injEq] at h
          obtain ⟨_, rfl⟩ := h
          exact ⟨rfl, rfl, rfl, rfl⟩

/-- The claim C18 fails in fake mode: `Start` on a fresh fake-mode engine
returns normally, and `Start` on the engine so started returns normally
again. -/
theorem C18_fake_mode_counterexample :
    ∃ ie1, StartSplay (fun _ _ => true) (Lifecycle.new 1000 true) = ([], .ok ie1) ∧
      StartSplay (fun _ _ => true) ie1 = ([], .ok ie1) :=
  ⟨_, rfl, rfl⟩

/-- C18, amended: when `Start` has returned normally on an engine in normal
mode, a second `Start` terminates fatally at the "sockets are already open"
assertion of `OpenSockets`, before any listen attempt; in fake mode `Start`
opens nothing, leaves the engine as it is and returns normally, also when
called again. -/
theorem C18_duplicate_start (listen1 listen2 : Nat → Nat → Bool) (ie ie1 : Lifecycle)
    (attempts : List (Nat × Nat)) (h1 : StartSplay listen1 ie = (attempts, .ok ie1)) :
    (ie.FakeSuccess = false → StartSplay listen2 ie1 = ([], .error .alreadyOpen)) ∧
    (ie.FakeSuccess = true → ie1 = ie ∧ StartSplay listen2 ie1 = ([], .ok ie1)) := by
  constructor
  · intro hfake
    unfold StartSplay at h1
    simp only [hfake, Bool.false_eq_true, if_false] at h1
    split at h1
    · simp at h1
    · rename_i att ie2 hopen
      simp only [Prod.mk.injEq] at h1
      obtain ⟨_, hrecv⟩ := h1
      unfold StartReceiversSplay at hrecv
      split at hrecv
      · cases hrecv
      · simp only [Except.ok.injEq] at hrecv
        subst hrecv
        obtain ⟨ho, hf, _⟩ := OpenSockets_ok hopen
        rw [hfake] at hf
        simp [StartSplay, OpenSockets, hf, ho]
  · intro hfake
    unfold StartSplay at h1
    simp only [hfake, if_true, Prod.mk.injEq, Except.ok.injEq] at h1
    obtain ⟨_, rfl⟩ := h1
    exact ⟨rfl, by simp [StartSplay, hfake]⟩

/-- Witness for C18: a normal-mode engine whose listen attempts succeed is
started, and started again. -/
theorem C18_duplicate_start_witness :
    ∃ ie1, StartSplay (fun _ _ => true) (Lifecycle.new 1000 false) =
        ([(4, 0), (6, 0)], .ok ie1) ∧
      StartSplay (fun _ _ => true) ie1 = ([], .error .alreadyOpen) :=
  ⟨_, rfl,
    (C18_duplicate_start (fun _ _ => true) (fun _ _ => true) (Lifecycle.new 1000 false) _ _
      rfl).1 rfl⟩

/-! ### A second Receiver -/

/-- C20: the two channels of a `PingerConfig` call are created with capacity
`packets` and registered for its destination. But the events enqueued on the
success channel are not bounded by the probes inserted: along
`duplicateReplySchedule`, with one probe inserted and a channel of capacity 1,
the first Receiver enqueues a `PingSuccess` for the probe (7, 0) and the
second Receiver blocks, holding the engine lock, in its send of another
`PingSuccess` for the same probe. If the Prober consumes the first event, the
second is enqueued: two events for one probe. If the Prober is cancelled
instead, the second Receiver stays blocked and the teardown cannot take the
lock. -/
theorem C20_two_successes_for_one_probe :
    (∀ (s s2 : Sys), step .proberSetup s = some s2 →
      (s2.successQ s2.prober.successCh).cap = s.prober.packets ∧
      (s2.expiredQ s2.prober.expiredCh).cap = s.prober.packets ∧
      s2.ie.SuccessChs s.prober.IP = some s2.prober.successCh ∧
      s2.ie.ExpiredChs s.prober.IP = some s2.prober.expiredCh) ∧
    (exec2 duplicateReplySchedule
        { sys := Sys.init 1000 0 false 7 1 false 0, second := .idle }).map
      (fun t => (t.sys.ie.nextElement, (t.sys.successQ 0).cap, (t.sys.successQ 0).queue,
        t.sys.lockHeld, t.sys.ie.ExpiresDLL, t.second)) =
      some (1, 1, [{ Seq := 0, Send := 100, Received := 150, RTT := 50 }], true, [],
        .blocked 7 0 cancelledNode { Seq := 0, Send := 100, Received := 151, RTT := 51 }) ∧
    (exec2 (duplicateReplySchedule ++ [(false, .proberSelect .success), (true, .receiverCommit)])
        { sys := Sys.init 1000 0 false 7 1 false 0, second := .idle }).map
      (fun t => (t.sys.ie.nextElement, t.sys.prober.st.results.Successes,
        (t.sys.successQ 0).queue, t.sys.lockHeld)) =
      some (1, 1, [{ Seq := 0, Send := 100, Received := 151, RTT := 51 }], false) ∧
    (exec2 (duplicateReplySchedule ++ [(false, .proberSelect .done), (false, .proberInsert 0 0)])
        { sys := Sys.init 1000 0 false 7 1 false 0, second := .idle }).map
      (fun t => (t.sys.prober.pc, (t.sys.successQ 0).queue, t.sys.lockHeld,
        (step2 (false, .proberTeardown) t).isSome, (step2 (true, .receiverCommit) t).isSome)) =
      some (.finish, [{ Seq := 0, Send := 100, Received := 150, RTT := 50 }], true, false,
        false) := by
  refine ⟨?_, rfl, rfl, rfl⟩
  intro s s2 h
  simp only [step, proberSetup] at h
  split at h
  · simp only [Option.some.injEq] at h
    subst h
    simp
  · simp at h

/-! ### Faults and bounds of the statistics -/

/-- The two ways in which the success branch can fault. -/
theorem onSuccess_error {DebugLevel : Int} {packets i : Nat} {ps : PingSuccess}
    {r : PingerResults} {e : Fault} (h : onSuccess DebugLevel packets i ps r = .error e) :
    (¬ i < r.RTTs.length ∧ e = .indexOutOfRange) ∨
    (i < r.RTTs.length ∧ DebugLevel > 100 ∧ packets / PingerFractionModulo = 0 ∧
      e = .divideByZero) := by
  unfold onSuccess at h
  by_cases hi : i < r.RTTs.length
  · by_cases hd : DebugLevel > 100 ∧ packets / PingerFractionModulo = 0
    · simp only [hi, hd, and_self, if_true, Except.error.injEq] at h
      exact Or.inr ⟨hi, hd.1, hd.2, h.symm⟩
    · simp only [hi, hd, if_true, if_false] at h
      split at h <;> cases h
  · simp only [hi, if_false, Except.error.injEq] at h
    exact Or.inl ⟨hi, h.symm⟩

/-- One iteration of the loop with the index in range faults only by the
division by zero of the progress log line. -/
theorem loopBody_error {D : Int} {packets : Nat} {it : Iteration} {st : LoopState} {e : Fault}
    (hlen : st.i < st.results.RTTs.length) (h : loopBody D packets it st = .error e) :
    e = .divideByZero ∧ D > 100 ∧ packets / PingerFractionModulo = 0 ∧
      it.sel.isSuccess = true := by
  unfold loopBody onSelect at h
  cases hsel : it.sel with
  | success ps =>
    simp only [hsel] at h
    cases hr : onSuccess D packets st.i ps st.results with
    | error e2 =>
      simp only [hr, Except.error.injEq] at h
      subst h
      rcases onSuccess_error hr with ⟨h1, _⟩ | ⟨_, h2, h3, h4⟩
      · exact absurd hlen h1
      · exact ⟨h4, h2, h3, rfl⟩
    | ok r2 => simp [hr] at h
  | expired pe => simp [hsel] at h
  | done => simp [hsel] at h
  | allDone => simp [hsel] at h

theorem loopBody_i {D : Int} {packets : Nat} {it : Iteration} {st st1 : LoopState}
    (hp : packets < 65536) (hlt : st.i < packets) (h : loopBody D packets it st = .ok st1) :
    st1.i = st.i + 1 := by
  unfold loopBody at h
  cases ho : onSelect D packets it.sel st with
  | error e => simp [ho] at h
  | ok st0 =>
    simp only [ho, Except.ok.injEq] at h
    subst h
    have h0 : st0.i = st.i := by
      unfold onSelect at ho
      cases hsel : it.sel with
      | success ps =>
        simp only [hsel] at ho
        cases hr : onSuccess D packets st.i ps st.results with
        | error e => simp [hr] at ho
        | ok r =>
          simp only [hr, Except.ok.injEq] at ho
          subst ho
          rfl
      | expired pe =>
        simp only [hsel, Except.ok.injEq] at ho
        subst ho
        rfl
      | done =>
        simp only [hsel, Except.ok.injEq] at ho
        subst ho
        rfl
      | allDone =>
        simp only [hsel, Except.ok.injEq] at ho
        subst ho
        rfl
    rw [afterSelect_i _ _ _ hp (by omega), h0]

/-- With enough fuel the loop faults only by the division by zero of the
progress log line, at a success, with more than 100 as debug level and fewer
than 10 packets. -/
theorem pingerLoop_error {D : Int} {packets : Nat} {env : Nat → Iteration}
    (hp : packets < 65536) :
    ∀ (fuel : Nat) (st : LoopState) (e : Fault), StatsInv packets env st →
      packets - st.i < fuel → pingerLoop D packets env fuel st = .error e →
        e = .divideByZero ∧ D > 100 ∧ packets / PingerFractionModulo = 0 := by
  intro fuel
  induction fuel with
  | zero =>
    intro st e _ h
    omega
  | succ fuel ih =>
    intro st e hinv hfuel h
    unfold pingerLoop at h
    by_cases hc : st.i < packets ∧ st.keepLooping = true
    · simp only [hc, and_self, if_true] at h
      have hlen : st.i < st.results.RTTs.length := by
        rw [hinv.rtts, rttVector_length]
        exact hc.1
      cases hb : loopBody D packets (env st.i) st with
      | error e2 =>
        simp only [hb, Except.error.injEq] at h
        subst h
        obtain ⟨h1, h2, h3, _⟩ := loopBody_error hlen hb
        exact ⟨h1, h2, h3⟩
      | ok st1 =>
        simp only [hb] at h
        have hi1 := loopBody_i hp hc.1 hb
        exact ih st1 e (StatsInv_step hp hc.1 hc.2 hinv hb) (by omega) h
    · simp [hc] at h

theorem PingerConfig_error {D : Int} {IP packets : Nat} {sortRTTs : Bool}
    {env : Nat → Iteration} {e : Fault} :
    PingerConfig D IP packets sortRTTs env = .error e ↔ pingerRun D IP packets env = .error e := by
  unfold PingerConfig
  cases h : pingerRun D IP packets env with
  | error e2 => simp
  | ok st => simp

/-- C28: `PingerConfig` never writes `RTTs` out of bounds and never runs out
of fuel: its only fault is the division by zero of the progress log line, with
a debug level above 100 and fewer than 10 packets. It returns for every run
when the debug level is at most 100 or `N ≥ 10`. But for `1 ≤ N < 10` and a
debug level above 100 the modulus `N / PingerFractionModulo` is 0, and the
first success the loop handles faults: so does the call with one packet at
debug level 111 (the package default `PdebugLevel`) whose only probe is
answered. -/
theorem C28_success_handling_faults :
    (∀ (D : Int) (IP N : Nat) (sortRTTs : Bool) (env : Nat → Iteration) (e : Fault),
      N < 65536 → PingerConfig D IP N sortRTTs env = .error e →
        e = .divideByZero ∧ 100 < D ∧ N < 10) ∧
    (∀ (D : Int) (IP N : Nat) (sortRTTs : Bool) (env : Nat → Iteration),
      N < 65536 → D ≤ 100 ∨ 10 ≤ N → ∃ r, PingerConfig D IP N sortRTTs env = .ok r) ∧
    (∀ (D : Int) (IP N : Nat) (sortRTTs : Bool) (env : Nat → Iteration) (ps : PingSuccess),
      1 ≤ N → N < 10 → 100 < D → (env 0).sel = .success ps →
        N / PingerFractionModulo = 0 ∧
        PingerConfig D IP N sortRTTs env = .error .divideByZero) ∧
    PingerConfig 111 7 1 false (fun _ => ⟨.success ⟨0, 100, 104, 4⟩, .wake⟩) =
      .error .divideByZero := by
  refine ⟨?_, ?_, ?_, rfl⟩
  · intro D IP N sortRTTs env e hN h
    rw [PingerConfig_error] at h
    obtain ⟨h1, h2, h3⟩ := pingerLoop_error hN _ _ e (StatsInv_init IP N env)
      (by simp [loopInit]) h
    refine ⟨h1, h2, ?_⟩
    have : N / 10 = 0 := h3
    omega
  · intro D IP N sortRTTs env hN hd
    exact PingerConfig_returns D IP sortRTTs hN
      (hd.elim Or.inl (fun h => Or.inr (Or.inl h)))
  · intro D IP N sortRTTs env ps h1 h10 hD hsel
    have hz : N / PingerFractionModulo = 0 := by
      have : N / 10 = 0 := by omega
      exact this
    refine ⟨hz, ?_⟩
    rw [PingerConfig_error]
    unfold pingerRun pingerLoop
    have hc : (loopInit IP N).i < N ∧ (loopInit IP N).keepLooping = true :=
      ⟨h1, rfl⟩
    simp only [hc, and_self, if_true]
    have hb : loopBody D N (env 0) (loopInit IP N) = .error .divideByZero := by
      unfold loopBody onSelect
      simp only [hsel]
      have hs : onSuccess D N 0 ps (loopInit IP N).results = .error .divideByZero := by
        unfold onSuccess
        have hlen : 0 < (loopInit IP N).results.RTTs.length := by
          simp only [loopInit, List.length_replicate]
          exact h1
        have hd : D > 100 ∧ N / PingerFractionModulo = 0 := ⟨hD, hz⟩
        simp only [hlen, if_true, hd, and_self]
      simp only [loopInit] at hs ⊢
      rw [hs]
    have hi : (loopInit IP N).i = 0 := rfl
    rw [hi, hb]

/-- The quotient truncated toward zero lies between 0 and the dividend. -/
theorem tdiv_between (a : Int) (n : Nat) :
    (0 ≤ a → 0 ≤ a.tdiv ((n + 1 : Nat) : Int) ∧ a.tdiv ((n + 1 : Nat) : Int) ≤ a) ∧
    (a ≤ 0 → a ≤ a.tdiv ((n + 1 : Nat) : Int) ∧ a.tdiv ((n + 1 : Nat) : Int) ≤ 0) := by
  have hpos : ∀ b : Int, 0 ≤ b →
      0 ≤ b.tdiv ((n + 1 : Nat) : Int) ∧ b.tdiv ((n + 1 : Nat) : Int) ≤ b := by
    intro b hb
    have hn : (0 : Int) ≤ ((n + 1 : Nat) : Int) := Int.ofNat_nonneg _
    rw [Int.tdiv_eq_ediv hb hn]
    exact ⟨Int.ediv_nonneg hb hn, Int.ediv_le_self _ hb⟩
  refine ⟨hpos a, ?_⟩
  intro ha
  obtain ⟨h1, h2⟩ := hpos (-a) (by omega)
  rw [Int.neg_tdiv] at h1 h2
  constructor <;> omega

/-- Welford's truncated running mean stays between any bounds of the values
it has absorbed, and the count grows by one per value. -/
theorem welford_fold_between (lo hi : Int) :
    ∀ (l : List Int) (acc : Nat × Int), (acc.1 = 0 ∨ (lo ≤ acc.2 ∧ acc.2 ≤ hi)) →
      (∀ x ∈ l, lo ≤ x ∧ x ≤ hi) →
        ((l.foldl welfordStep acc).1 = 0 ∨
          (lo ≤ (l.foldl welfordStep acc).2 ∧ (l.foldl welfordStep acc).2 ≤ hi)) ∧
        (l.foldl welfordStep acc).1 = acc.1 + l.length := by
  intro l
  induction l with
  | nil =>
    intro acc h _
    exact ⟨h, rfl⟩
  | cons x l ih =>
    intro acc h hl
    rw [List.foldl_cons]
    obtain ⟨hx1, hx2⟩ := hl x (List.mem_cons_self _ _)
    have hstep : lo ≤ (welfordStep acc x).2 ∧ (welfordStep acc x).2 ≤ hi := by
      obtain ⟨n, m⟩ := acc
      simp only [welfordStep, floatQuotient]
      rcases h with h0 | ⟨h1, h2⟩
      · simp only at h0
        subst h0
        simp only [Nat.zero_add, Nat.cast_one, Int.tdiv_one]
        constructor <;> omega
      · obtain ⟨hp, hq⟩ := tdiv_between (x - m) n
        simp only at h1 h2
        by_cases hxm : 0 ≤ x - m
        · obtain ⟨a1, a2⟩ := hp hxm
          constructor <;> omega
        · obtain ⟨a1, a2⟩ := hq (by omega)
          constructor <;> omega
    obtain ⟨h3, h4⟩ := ih (welfordStep acc x) (Or.inr hstep)
      (fun y hy => hl y (List.mem_cons_of_mem _ hy))
    refine ⟨h3, ?_⟩
    rw [h4]
    simp only [welfordStep, List.length_cons]
    omega

theorem welfordMean_between {lo hi : Int} {l : List Int} (hne : l ≠ [])
    (hl : ∀ x ∈ l, lo ≤ x ∧ x ≤ hi) : lo ≤ welfordMean l ∧ welfordMean l ≤ hi := by
  obtain ⟨h1, h2⟩ := welford_fold_between lo hi l (0, 0) (Or.inl rfl) hl
  unfold welfordMean
  rcases h1 with h1 | h1
  · rw [h2] at h1
    have : l.length = 0 := by omega
    exact absurd (List.length_eq_zero.mp this) hne
  · exact h1

/-- The returned `Min`, `Mean`, `Max` and `Sum` of a run with at least one
success, in terms of the RTTs of the successes it consumed. -/
theorem extremes_of_run (D : Int) (IP packets : Nat) (sortRTTs : Bool)
    (env : Nat → Iteration) (r : PingerResults) (hp : packets < 65536)
    (h : PingerConfig D IP packets sortRTTs env = .ok r) (hs : 1 ≤ r.Successes) :
    ∃ st, pingerRun D IP packets env = .ok st ∧
      successRTTs (consumed env st.i) ≠ [] ∧
      r.Successes = (successRTTs (consumed env st.i)).length ∧
      r.Sum = wrapInt64 (successRTTs (consumed env st.i)).sum ∧
      r.Mean = welfordMean (successRTTs (consumed env st.i)) ∧
      r.Min ∈ successRTTs (consumed env st.i) ∧ r.Max ∈ successRTTs (consumed env st.i) ∧
      (∀ x ∈ successRTTs (consumed env st.i), r.Min ≤ x ∧ x ≤ r.Max) ∧
      2 * |(r.Successes : Int) * r.Mean - (successRTTs (consumed env st.i)).sum| ≤
        (r.Successes : Int) * ((r.Successes : Int) - 1) := by
  obtain ⟨st, hst, hlen, hsum, hmean, _, hb⟩ := mean_of_run D IP packets sortRTTs env r hp h
  obtain ⟨st2, hst2, _, _, _, _, _, _, hmm, _⟩ :=
    statistics_of_run D IP packets sortRTTs env r hp h
  have heq : st2 = st := by
    rw [hst] at hst2
    exact (Except.ok.inj hst2).symm
  subst heq
  obtain ⟨m1, m2, m3, m4⟩ := hmm hs
  refine ⟨st2, hst, ?_, hlen, hsum, hmean, m1, m3, fun x hx => ⟨m2 x hx, m4 x hx⟩, hb⟩
  intro hnil
  rw [hnil] at hlen
  simp only [List.length_nil] at hlen
  omega

theorem welford64_fold (l : List Int) :
    ∀ (n : Nat) (mean : Int), n + l.length ≤ 9007199254740992 → 0 ≤ mean →
      mean < 9007199254740992 → (∀ x ∈ l, 0 ≤ x ∧ x < 9007199254740992) →
      l.foldl welfordStep64 (some (n, mean)) = some (l.foldl welfordStep (n, mean)) := by
  induction l with
  | nil =>
    intro n mean _ _ _ _
    rfl
  | cons x l ih =>
    intro n mean hn hm0 hm1 hl
    obtain ⟨hx0, hx1⟩ := hl x (List.mem_cons_self _ _)
    simp only [List.length_cons] at hn
    have hd : |x - mean| < 9007199254740992 := by
      rw [abs_lt]
      constructor <;> omega
    have hw : wrapInt64 (x - mean) = x - mean := wrapInt64_of_range (by omega) (by omega)
    have hq := @float64Quotient_eq (x - mean) (n + 1) hd (by omega) (by omega)
    obtain ⟨b1, b2⟩ := tdiv_between (x - mean) n
    have hbetween : 0 ≤ mean + (x - mean).tdiv ((n + 1 : Nat) : Int) ∧
        mean + (x - mean).tdiv ((n + 1 : Nat) : Int) < 9007199254740992 := by
      rcases le_total 0 (x - mean) with h | h
      · obtain ⟨c1, c2⟩ := b1 h
        constructor <;> omega
      · obtain ⟨c1, c2⟩ := b2 h
        constructor <;> omega
    have hstep : welfordStep64 (some (n, mean)) x = some (welfordStep (n, mean) x) := by
      unfold welfordStep64 welfordStep floatQuotient
      rw [Option.some_bind]
      show Option.map _ (float64Quotient (wrapInt64 (x - mean)) (n + 1)) = _
      rw [hw, hq, Option.map_some']
      show some (n + 1, wrapInt64 (mean + (x - mean).tdiv ((n + 1 : Nat) : Int))) = _
      rw [wrapInt64_of_range (by omega) (by omega)]
    rw [List.foldl_cons, List.foldl_cons, hstep]
    apply ih
    · simp only [welfordStep]
      omega
    · exact hbetween.1
    · exact hbetween.2
    · intro y hy
      exact hl y (List.mem_cons_of_mem _ hy)

/-- For RTTs in `[0, 2^53)` ns the running mean computed in `float64` is the
running mean with the quotient truncated toward zero. -/
theorem welfordMean64_eq (l : List Int) (hlen : l.length ≤ 9007199254740992)
    (hl : ∀ x ∈ l, 0 ≤ x ∧ x < 9007199254740992) :
    welfordMean64 l = some (welfordMean l) := by
  unfold welfordMean64 welfordMean
  rw [welford64_fold l 0 0 (by omega) (by omega) (by omega) hl]
  rfl

/-- Beyond `2^53` ns the `float64` mean differs from the truncated one: a
single success with an RTT of `2^53 + 1` ns gives the mean `2^53`. -/
theorem welfordMean64_rounds :
    welfordMean64 [9007199254740993] = some 9007199254740992 ∧
    welfordMean [9007199254740993] = 9007199254740993 := by
  constructor
  · have hw : wrapInt64 (9007199254740993 - 0) = 9007199254740993 := by
      rw [wrapInt64_of_range (by norm_num) (by norm_num)]
      norm_num
    have h1 : roundFloat64 ((1 : Nat) : ℚ) = 1 := by
      have := @roundFloat64_intCast 1 (by norm_num)
      simpa using this
    have h2 : roundFloat64 ((9007199254740992 : ℚ) / 1) = 9007199254740992 := by
      have := @roundFloat64_intCast 9007199254740992 (by norm_num)
      simpa using this
    have h3 : durationOfFloat (9007199254740992 : ℚ) = some 9007199254740992 := by
      have := @durationOfFloat_intCast 9007199254740992 (by norm_num) (by norm_num)
      simpa using this
    have hq : float64Quotient 9007199254740993 (0 + 1) = some 9007199254740992 := by
      unfold float64Quotient
      rw [if_neg (by omega)]
      simp only [Int.cast_ofNat]
      rw [roundFloat64_above_two_pow_53, h1, h2, h3]
    unfold welfordMean64
    rw [List.foldl_cons, List.foldl_nil]
    unfold welfordStep64
    rw [Option.some_bind]
    show Option.map Prod.snd (Option.map _
      (float64Quotient (wrapInt64 (9007199254740993 - 0)) (0 + 1))) = _
    rw [hw, hq]
    simp [wrapInt64_of_range]
  · simp [welfordMean, welfordStep, floatQuotient]

/-- C9, counterexample: a run of two probes whose successes have RTTs 4 ns and
1 ns returns `Mean = 3`, while `Sum / 2` truncated is `2`. -/
theorem C9_mean_counterexample :
    ∃ r, PingerConfig 0 7 2 false sampleEnv = .ok r ∧ r.Successes = 2 ∧ r.Sum = 5 ∧
      r.Mean = 3 ∧ Int.tdiv r.Sum r.Successes = 2 ∧ r.Mean ≠ Int.tdiv r.Sum r.Successes :=
  ⟨{ IP := 7, Successes := 2, Failures := 0, OutOfOrder := 0, RTTs := [4, 1], Count := 2,
     Min := 1, Max := 4, Mean := 3, Sum := 5 }, rfl, rfl, rfl, rfl, by decide, by decide⟩

/-- C9, amended: after `n ≥ 1` successes whose RTTs are all in `[0, 2^53)` ns,
the returned `Mean` is Welford's running mean of the success RTTs with every
quotient `(val - oldMean) / k` truncated toward zero, which is what the
`float64` update of Pinger.go:242 computes for such RTTs; it equals `Sum` when
`n = 1`, and in general it is not the truncated arithmetic mean but satisfies
`2 * |n * Mean - S| ≤ n * (n - 1)`, where `S` is the sum of the `n` RTTs (the
returned `Sum` is `S` reduced to the `int64` range). The call returns whenever
the progress log line cannot divide by zero. -/
theorem C9_mean_is_truncated_welford (D : Int) (IP packets : Nat) (sortRTTs : Bool)
    (env : Nat → Iteration) (hp : packets < 65536) :
    ((D ≤ 100 ∨ 10 ≤ packets ∨ ∀ j, j < packets → (env j).sel.isSuccess = false) →
      ∃ r, PingerConfig D IP packets sortRTTs env = .ok r) ∧
    ∀ r, PingerConfig D IP packets sortRTTs env = .ok r → 1 ≤ r.Successes →
      ∃ st, pingerRun D IP packets env = .ok st ∧
        r.Successes = (successRTTs (consumed env st.i)).length ∧
        r.Sum = wrapInt64 (successRTTs (consumed env st.i)).sum ∧
        ((∀ x ∈ successRTTs (consumed env st.i), 0 ≤ x ∧ x < 9007199254740992) →
          welfordMean64 (successRTTs (consumed env st.i)) = some r.Mean ∧
          r.Mean = welfordMean (successRTTs (consumed env st.i)) ∧
          (r.Successes = 1 → r.Mean = r.Sum) ∧
          2 * |(r.Successes : Int) * r.Mean - (successRTTs (consumed env st.i)).sum| ≤
            (r.Successes : Int) * ((r.Successes : Int) - 1)) := by
  refine ⟨fun hd => PingerConfig_returns D IP sortRTTs hp hd, ?_⟩
  intro r h hs
  obtain ⟨st, hst, hne, hlen, hsum, hmean, _, _, _, hb⟩ :=
    extremes_of_run D IP packets sortRTTs env r hp h hs
  obtain ⟨st2, hst2, _, _, _, h1, _⟩ := mean_of_run D IP packets sortRTTs env r hp h
  have heq : st2 = st := by
    rw [hst] at hst2
    exact (Except.ok.inj hst2).symm
  subst heq
  refine ⟨st2, hst, hlen, hsum, ?_⟩
  intro hrtt
  have hlen2 : (successRTTs (consumed env st2.i)).length ≤ 9007199254740992 := by
    have : (successRTTs (consumed env st2.i)).length ≤ st2.i := by
      unfold successRTTs consumed
      rw [List.length_map]
      refine le_trans (List.length_filter_le _ _) ?_
      simp
    obtain ⟨st3, hst3, hle, _⟩ := statistics_of_run D IP packets sortRTTs env r hp h
    have heq3 : st3 = st2 := by
      rw [hst] at hst3
      exact (Except.ok.inj hst3).symm
    subst heq3
    omega
  refine ⟨?_, hmean, ?_, hb⟩
  · rw [welfordMean64_eq _ hlen2 hrtt, hmean]
  · intro hone
    have hm := h1 hone
    obtain ⟨m1, m2⟩ := welfordMean_between hne
      (fun x hx => ⟨(hrtt x hx).1, le_of_lt (hrtt x hx).2⟩)
    rw [hsum, ← hm, wrapInt64_of_range (by rw [hmean]; omega) (by rw [hmean]; omega)]

/-- Witness for C9, amended: the sample run of ten probes has 3 successes with
RTTs 4, 1, 7, sum 12 and mean 4. -/
theorem C9_mean_is_truncated_welford_witness :
    (10 : Nat) < 65536 ∧
    ∃ st, pingerRun 111 7 10 sampleEnv = .ok st ∧
      (3 : Nat) = (successRTTs (consumed sampleEnv st.i)).length ∧
      (12 : Int) = wrapInt64 (successRTTs (consumed sampleEnv st.i)).sum :=
  ⟨by decide,
    ((C9_mean_is_truncated_welford 111 7 10 false sampleEnv (by decide)).2
      { IP := 7, Successes := 3, Failures := 7, OutOfOrder := 1,
        RTTs := [4, 1, 0, 7, 0, 0, 0, 0, 0, 0], Count := 10, Min := 1, Max := 7, Mean := 4,
        Sum := 12 } rfl (by decide)).elim
      (fun st hst => ⟨st, hst.1, hst.2.1, hst.2.2.1⟩)⟩

theorem tiarRun_append (l : List ReadOutcome) (o : ReadOutcome) :
    ∀ t, tiarRun (l ++ [o]) t = (tiarRun l t).bind (fun u => tiarAfter u o) := by
  induction l with
  | nil =>
    intro t
    simp only [List.nil_append, tiarRun, Option.some_bind]
    cases tiarAfter t o <;> rfl
  | cons x l ih =>
    intro t
    simp only [List.cons_append, tiarRun]
    cases tiarAfter t x with
    | none => rfl
    | some u => exact ih u

/-- Without a fatal read error the Receiver's counter is the number of
consecutive timeouts since the last read without error. -/
theorem tiarRun_eq (outcomes : List ReadOutcome) (h : ∀ o ∈ outcomes, o ≠ .failure) :
    tiarRun outcomes 0 = some (consecutiveTimeouts outcomes : Int) := by
  induction outcomes using List.reverseRecOn with
  | nil => rfl
  | append_singleton l o ih =>
    have hl : ∀ x ∈ l, x ≠ .failure := fun x hx => h x (List.mem_append_left _ hx)
    rw [tiarRun_append, ih hl, Option.some_bind]
    unfold consecutiveTimeouts
    rw [List.reverse_append, List.reverse_singleton, List.singleton_append]
    cases o with
    | ok => simp [tiarAfter, List.takeWhile_cons]
    | timeout => simp [tiarAfter, List.takeWhile_cons]
    | failure => exact absurd rfl (h .failure (by simp))

/-- The multiplier as a function of the counter. -/
theorem timeoutsInARowCalculator_eq (s : Int) :
    timeoutsInARowCalculator s =
      (((if s < 5 then 1 else if s < 10 then 2 else if s < 20 then 10 else 20 : Int)) : ℚ) := by
  unfold timeoutsInARowCalculator tiarCalculator
  simp only [tiarLow, tiarMedium, tiarHigh, multiLow, multiMedium, multiHigh]
  by_cases h20 : s ≥ 20
  · have h1 : ¬ s < 5 := by omega
    have h2 : ¬ s < 10 := by omega
    have h3 : ¬ s < 20 := by omega
    simp [h20, h1, h2, h3]
  · by_cases h10 : s ≥ 10
    · have h1 : ¬ s < 5 := by omega
      have h2 : ¬ s < 10 := by omega
      have h3 : s < 20 := by omega
      simp [h20, h10, h1, h2, h3]
    · by_cases h5 : s ≥ 5
      · have h1 : ¬ s < 5 := by omega
        have h2 : s < 10 := by omega
        simp [h20, h10, h5, h1, h2]
      · have h1 : s < 5 := by omega
        simp [h20, h10, h5, h1]

/-- The deadline of the next read as a function of the counter, for a base
deadline whose 20-fold is at most `2^53` ns: conversion and product are
exact. -/
theorem readDeadline_eq (ReadDeadline : Int) (s : Int)
    (hb : 20 * |ReadDeadline| ≤ 9007199254740992) :
    readDeadline ReadDeadline s =
      some (ReadDeadline *
        (if s < 5 then 1 else if s < 10 then 2 else if s < 20 then 10 else 20)) := by
  have hab : |ReadDeadline| ≤ 450359962737049 := by omega
  obtain ⟨b1, b2⟩ := abs_le.mp hab
  have hfl : roundFloat64 (ReadDeadline : ℚ) = ReadDeadline :=
    roundFloat64_intCast (by omega)
  have hprod : |ReadDeadline *
      (if s < 5 then 1 else if s < 10 then 2 else if s < 20 then 10 else 20)| ≤
      9007199254740992 := by
    rw [abs_le]
    split_ifs <;> constructor <;> omega
  obtain ⟨c1, c2⟩ := abs_le.mp hprod
  unfold readDeadline
  rw [timeoutsInARowCalculator_eq, hfl, ← Int.cast_mul, roundFloat64_intCast hprod,
    durationOfFloat_intCast (by omega) (by omega)]

theorem consecutiveTimeouts_append (l : List ReadOutcome) :
    consecutiveTimeouts (l ++ [.ok]) = 0 ∧
    consecutiveTimeouts (l ++ [.timeout]) = consecutiveTimeouts l + 1 := by
  unfold consecutiveTimeouts
  simp [List.reverse_append, List.takeWhile_cons]

theorem roundFloat64_two_pow_54 :
    roundFloat64 ((9007199254740992 : ℚ) * 2) = 18014398509481984 := by
  have h := @roundFloat64_eq_of (9007199254740992 * 2) 54 4503599627370496
    (by norm_num) (by rw [abs_of_pos (by norm_num)]; norm_num)
    (by rw [abs_of_pos (by norm_num)]; norm_num)
    (by norm_num [abs_le]) (by intro _; decide)
  rw [h]
  norm_num

/-- C26, counterexample: with a base deadline of `2^53 + 1` ns and no timeout
so far the deadline set for the next read is `2^53` ns, shorter than the base:
the conversion of the base to `float64` rounds it. After five timeouts the
deadline is `2^54` ns, not twice the base. -/
theorem C26_read_deadline_counterexample :
    tiarRun [] 0 = some ((consecutiveTimeouts [] : Nat) : Int) ∧
    consecutiveTimeouts [] = 0 ∧
    readDeadline 9007199254740993 ((consecutiveTimeouts [] : Nat) : Int) =
      some 9007199254740992 ∧
    (9007199254740992 : Int) < 9007199254740993 * 1 ∧
    readDeadline 9007199254740993 5 = some 18014398509481984 ∧
    (18014398509481984 : Int) ≠ 9007199254740993 * 2 := by
  have h0 : readDeadline 9007199254740993 0 = some 9007199254740992 := by
    unfold readDeadline
    rw [timeoutsInARowCalculator_eq]
    simp only [Int.cast_ofNat, Int.reduceLT, if_true, Int.cast_one, mul_one]
    rw [roundFloat64_above_two_pow_53]
    have h2 := @roundFloat64_intCast 9007199254740992 (by norm_num)
    have h3 := @durationOfFloat_intCast 9007199254740992 (by norm_num) (by norm_num)
    simp only [Int.cast_ofNat] at h2 h3
    rw [h2, h3]
  have h5 : readDeadline 9007199254740993 5 = some 18014398509481984 := by
    unfold readDeadline
    rw [timeoutsInARowCalculator_eq]
    simp only [Int.cast_ofNat, Int.reduceLT, if_true, if_false]
    rw [roundFloat64_above_two_pow_53, roundFloat64_two_pow_54]
    have h3 := @durationOfFloat_intCast 18014398509481984 (by norm_num) (by norm_num)
    simp only [Int.cast_ofNat] at h3
    rw [h3]
  exact ⟨rfl, rfl, h0, by norm_num, h5, by norm_num⟩

/-- C26, amended: along every sequence of reads without a fatal error, the
Receiver's counter is the number `s` of consecutive timeouts since the last
read without error (a read without error resets it, a timeout increments it),
and for a base deadline with `20 * |ReadDeadline| ≤ 2^53` ns (five days) the
deadline set for the next read is `ReadDeadline * m` with `m = 1` for `s < 5`,
`2` for `5 ≤ s < 10`, `10` for `10 ≤ s < 20` and `20` for `s ≥ 20`; for a
non-negative such `ReadDeadline` it lies between `ReadDeadline` and
`20 * ReadDeadline`. -/
theorem C26_read_deadline (ReadDeadline : Int) (outcomes : List ReadOutcome)
    (h : ∀ o ∈ outcomes, o ≠ .failure) (hb : 20 * |ReadDeadline| ≤ 9007199254740992) :
    tiarRun outcomes 0 = some (consecutiveTimeouts outcomes : Int) ∧
    consecutiveTimeouts (outcomes ++ [.ok]) = 0 ∧
    consecutiveTimeouts (outcomes ++ [.timeout]) = consecutiveTimeouts outcomes + 1 ∧
    readDeadline ReadDeadline (consecutiveTimeouts outcomes : Int) =
      some (ReadDeadline * (if consecutiveTimeouts outcomes < 5 then 1
        else if consecutiveTimeouts outcomes < 10 then 2
        else if consecutiveTimeouts outcomes < 20 then 10 else 20)) ∧
    (0 ≤ ReadDeadline →
      ∃ d, readDeadline ReadDeadline (consecutiveTimeouts outcomes : Int) = some d ∧
        ReadDeadline ≤ d ∧ d ≤ 20 * ReadDeadline) := by
  obtain ⟨h1, h2⟩ := consecutiveTimeouts_append outcomes
  refine ⟨tiarRun_eq outcomes h, h1, h2, ?_, ?_⟩
  · rw [readDeadline_eq _ _ hb]
    congr 2
    split_ifs <;> first | rfl | omega
  · intro hnn
    rw [readDeadline_eq _ _ hb]
    refine ⟨_, rfl, ?_⟩
    split_ifs <;> constructor <;> omega

/-- Witness for C26: after a read without error and six timeouts, with a base
deadline of 500 ms, the next deadline is one second. -/
theorem C26_read_deadline_witness :
    (∀ o ∈ [ReadOutcome.timeout, .ok, .timeout, .timeout, .timeout, .timeout, .timeout,
        .timeout], o ≠ ReadOutcome.failure) ∧
    20 * |(500000000 : Int)| ≤ 9007199254740992 ∧
    tiarRun [.timeout, .ok, .timeout, .timeout, .timeout, .timeout, .timeout, .timeout] 0 =
      some 6 ∧
    readDeadline 500000000 6 = some 1000000000 :=
  ⟨by decide, by norm_num,
    (C26_read_deadline 500000000
      [.timeout, .ok, .timeout, .timeout, .timeout, .timeout, .timeout, .timeout]
      (by decide) (by norm_num)).1,
    (C26_read_deadline 500000000
      [.timeout, .ok, .timeout, .timeout, .timeout, .timeout, .timeout, .timeout]
      (by decide) (by norm_num)).2.2.2.1⟩

/-! ### The read buffer of a Receiver -/

theorem ReadFrom_short (buffer datagram : List Byte) (hb : buffer.length = ReceiveBufferMax)
    (h8 : datagram.length < 8) :
    (ReadFrom buffer datagram).2 = datagram.length ∧
    (ReadFrom buffer datagram).1 = datagram ++ buffer.drop datagram.length ∧
    (ReadFrom buffer datagram).1.length = ReceiveBufferMax := by
  have hmin : min datagram.length buffer.length = datagram.length := by
    rw [hb, ReceiveBufferMax]
    omega
  simp only [ReadFrom, hmin, List.take_length, List.length_append, List.length_drop, true_and]
  rw [hb, ReceiveBufferMax]
  omega

theorem receiverDatagram_decoded (buffer datagram : List Byte) (peer : Nat) (receiveTime : Int)
    (sys : Sys) (er : ICMPEchoReply) (hn : 0 < (ReadFrom buffer datagram).2)
    (hp : ParseICMPEchoReply (ReadFrom buffer datagram).1 = .ok er) :
    receiverDatagram buffer datagram peer receiveTime sys =
      receiverRead peer er.Seq receiveTime sys := by
  unfold receiverDatagram
  simp only [hp, gt_iff_lt, hn, if_true]
  by_cases h : sys.receiver = .idle ∧ sys.ie.FakeSuccess = false
  · rw [if_pos h]
  · rw [if_neg h]
    unfold receiverRead
    rw [if_neg]
    intro h3
    exact h ⟨h3.1, h3.2.1⟩

theorem ReadFrom_fresh :
    0 < (ReadFrom bufPoolNew [0, 0, 0, 0, 0]).2 ∧
    ParseICMPEchoReply (ReadFrom bufPoolNew [0, 0, 0, 0, 0]).1 =
      .ok { Type_ := 0, Code := 0, Checksum := 0, Identifier := 0, Seq := 0 } := by
  obtain ⟨hn, hbuf, _⟩ := ReadFrom_short bufPoolNew [0, 0, 0, 0, 0]
    (List.length_replicate _ _) (by decide)
  have hdrop : List.drop 5 bufPoolNew = 0 :: 0 :: 0 :: List.replicate 192 0 := by
    unfold bufPoolNew ReceiveBufferMax
    rw [List.drop_replicate]
    rfl
  constructor
  · rw [hn]
    decide
  · rw [hbuf]
    simp only [List.length_cons, List.length_nil, Nat.zero_add, Nat.reduceAdd, hdrop,
      List.cons_append, List.nil_append]
    exact ParseICMPEchoReply_cons8 _ _ _ _ _ _ _ _ _

/-- C21: a datagram of fewer than 8 bytes is not rejected. The Receiver decodes
its whole pool buffer of `ReceiveBufferMax` bytes, not the `n` bytes read, so
the decode of the buffer succeeds whatever `n` is (while the decode of the `n`
bytes alone returns `errMessageTooShort`), the missing header bytes are taken
from what the buffer held before, and the Receiver goes on to its lookup. With
the probe (7, 0) in flight, a datagram of five zero bytes from peer 7 read into
a fresh buffer is matched to the probe: a `PingSuccess` is enqueued and the
probe is removed from map and list. -/
theorem C21_short_datagram_is_decoded :
    (∀ (buffer datagram : List Byte) (peer : Nat) (receiveTime : Int) (sys : Sys),
      buffer.length = ReceiveBufferMax → 0 < datagram.length → datagram.length < 8 →
      (ReadFrom buffer datagram).2 = datagram.length ∧
      ParseICMPEchoReply datagram = .error .errMessageTooShort ∧
      ∃ er, ParseICMPEchoReply (datagram ++ buffer.drop datagram.length) = .ok er ∧
        ParseICMPEchoReply (ReadFrom buffer datagram).1 = .ok er ∧
        receiverDatagram buffer datagram peer receiveTime sys =
          receiverRead peer er.Seq receiveTime sys) ∧
    (∃ s s2 s3,
      exec [.proberSetup, .proberInsert 100 0, .expirerTop false]
        (Sys.init 1000 0 false 7 1 false 0) = some s ∧
      s.ie.ExpiresDLL = [⟨0, ⟨7, 0, 100, 1100, false⟩⟩] ∧
      s.ie.lookup 7 0 = some ⟨0, ⟨7, 0, 100, 1100, false⟩⟩ ∧
      (s.successQ 0).queue = [] ∧
      receiverDatagram bufPoolNew [0, 0, 0, 0, 0] 7 1099 s = some s2 ∧
      s2.receiver = .commit 7 0 ⟨0, ⟨7, 0, 100, 1100, false⟩⟩ ⟨0, 100, 1099, 999⟩ ∧
      step .receiverCommit s2 = some s3 ∧
      s3.ie.SuccessChs 7 = some 0 ∧
      (s3.successQ 0).queue = [⟨0, 100, 1099, 999⟩] ∧
      s3.ie.lookup 7 0 = none ∧ s3.ie.ExpiresDLL = []) := by
  constructor
  · intro buffer datagram peer receiveTime sys hb h0 h8
    obtain ⟨hn, hbuf, hlen⟩ := ReadFrom_short buffer datagram hb h8
    have h200 : 8 ≤ (ReadFrom buffer datagram).1.length := by
      rw [hlen, ReceiveBufferMax]
      omega
    obtain ⟨b0, b1, b2, b3, b4, b5, b6, b7, rest, hcons⟩ := binaryRead_ok_of_length h200
    have hp := ParseICMPEchoReply_cons8 b0 b1 b2 b3 b4 b5 b6 b7 rest
    rw [← hcons] at hp
    refine ⟨hn, by simp [ParseICMPEchoReply, h8], _, hbuf ▸ hp, hp, ?_⟩
    apply receiverDatagram_decoded _ _ _ _ _ _ _ hp
    rw [hn]
    exact h0
  · exact ⟨_, _, _, rfl, rfl, rfl, rfl,
      (receiverDatagram_decoded _ _ _ _ _ _ ReadFrom_fresh.1 ReadFrom_fresh.2).trans rfl,
      rfl, rfl, rfl, rfl, rfl, rfl⟩

/-! ### The steps of the Expirer and of a Receiver in closed form -/

theorem expirerTop_some {done : Bool} {s s2 : Sys} (h : expirerTop done s = some s2) :
    s.expirer = .top ∧
    ((done = true ∧ s2 = { s with expirer := .exiting }) ∨
      (done = false ∧ s.lockHeld = false ∧ s.ie.ExpiresDLL = [] ∧
        s2 = { s with ie := { s.ie with Running := false }, expirer := .stopped }) ∨
      (done = false ∧ s.lockHeld = false ∧ ∃ el rest, s.ie.ExpiresDLL = el :: rest ∧
        s.ie.FakeSuccess = true ∧ el.Value.FakeDrop = false ∧
        s2 = { s with
          ie := (s.ie.remove el).deleteSeq el.Value.NetaddrIP el.Value.Seq,
          expirer := .sendSuccess el.Value (s.ie.SuccessChs el.Value.NetaddrIP) }) ∨
      (done = false ∧ s.lockHeld = false ∧ ∃ el rest, s.ie.ExpiresDLL = el :: rest ∧
        ¬ (s.ie.FakeSuccess = true ∧ el.Value.FakeDrop = false) ∧
        s2 = { s with expirer := .sleeping el.Value })) := by
  unfold expirerTop at h
  split at h
  · rename_i htop
    refine ⟨htop, ?_⟩
    split at h
    · rename_i hd
      simp only [Option.some.injEq] at h
      exact Or.inl ⟨hd, h.symm⟩
    · rename_i hd
      have hd : done = false := by simpa using hd
      split at h
      · rename_i hl
        split at h
        · rename_i hnil
          simp only [Option.some.injEq] at h
          exact Or.inr (Or.inl ⟨hd, hl, hnil, h.symm⟩)
        · rename_i el rest hcons
          simp only at h
          split at h
          · rename_i hf
            simp only [Option.some.injEq] at h
            refine Or.inr (Or.inr (Or.inl ⟨hd, hl, el, rest, hcons, hf.1, ?_, h.symm⟩))
            simpa using hf.2
          · rename_i hf
            simp only [Option.some.injEq] at h
            refine Or.inr (Or.inr (Or.inr ⟨hd, hl, el, rest, hcons, ?_, h.symm⟩))
            intro hq
            exact hf ⟨hq.1, by simp [hq.2]⟩
      · simp at h
  · simp at h

theorem expirerSendSuccess_some {now : Int} {s s2 : Sys}
    (h : expirerSendSuccess now s = some s2) :
    ∃ p ch q, s.expirer = .sendSuccess p (some ch) ∧
      (s.successQ ch).send
        { Seq := p.Seq, Send := p.Send, Received := now, RTT := now - p.Send } = some q ∧
      s2 = { s with successQ := Function.update s.successQ ch q, expirer := .top } := by
  unfold expirerSendSuccess at h
  split at h
  · rename_i p ch hpc
    split at h
    · simp at h
    · rename_i q hq
      simp only [Option.some.injEq] at h
      exact ⟨p, ch, q, hpc, hq, h.symm⟩
  · simp at h

theorem expirerWake_some {done : Bool} {s s2 : Sys} (h : expirerWake done s = some s2) :
    ∃ p, s.expirer = .sleeping p ∧ s2 = { s with expirer := .recheck p (!done) } := by
  unfold expirerWake at h
  split at h
  · rename_i p hpc
    simp only [Option.some.injEq] at h
    exact ⟨p, hpc, h.symm⟩
  · simp at h

theorem expirerRecheck_some {s s2 : Sys} (h : expirerRecheck s = some s2) :
    ∃ p kl, s.expirer = .recheck p kl ∧ s.lockHeld = false ∧
      ((∃ el, s.ie.lookup p.NetaddrIP p.Seq = some el ∧
          s2 = { s with expirer := .commit p el kl }) ∨
        (s.ie.lookup p.NetaddrIP p.Seq = none ∧
          s2 = { s with expirer := if kl then .top else .exiting })) := by
  unfold expirerRecheck at h
  split at h
  · rename_i p kl hpc
    split at h
    · rename_i hl
      refine ⟨p, kl, hpc, hl, ?_⟩
      split at h
      · rename_i el hlook
        simp only [Option.some.injEq] at h
        exact Or.inl ⟨el, hlook, h.symm⟩
      · rename_i hlook
        simp only [Option.some.injEq] at h
        exact Or.inr ⟨hlook, h.symm⟩
    · simp at h
  · simp at h

theorem expirerCommit_some {s s2 : Sys} (h : expirerCommit s = some s2) :
    ∃ p el kl, s.expirer = .commit p el kl ∧ s.lockHeld = false ∧
      s2 = { s with
        ie := (s.ie.deleteSeq p.NetaddrIP p.Seq).remove el,
        expirer := .sendExpired p
          (((s.ie.deleteSeq p.NetaddrIP p.Seq).remove el).ExpiredChs p.NetaddrIP) kl } := by
  unfold expirerCommit at h
  split at h
  · rename_i p el kl hpc
    split at h
    · rename_i hl
      simp only [Option.some.injEq] at h
      exact ⟨p, el, kl, hpc, hl, h.symm⟩
    · simp at h
  · simp at h

theorem expirerSendExpired_some {s s2 : Sys} (h : expirerSendExpired s = some s2) :
    ∃ p ch kl q, s.expirer = .sendExpired p (some ch) kl ∧
      (s.expiredQ ch).send { Seq := p.Seq, Send := p.Send } = some q ∧
      s2 = { s with expiredQ := Function.update s.expiredQ ch q,
                    expirer := if kl then .top else .exiting } := by
  unfold expirerSendExpired at h
  split at h
  · rename_i p ch kl hpc
    split at h
    · simp at h
    · rename_i q hq
      simp only [Option.some.injEq] at h
      exact ⟨p, ch, kl, q, hpc, hq, h.symm⟩
  · simp at h

theorem expirerExit_some {s s2 : Sys} (h : expirerExit s = some s2) :
    s.expirer = .exiting ∧ s.lockHeld = false ∧
      s2 = { s with ie := { s.ie with Running := false }, expirer := .stopped } := by
  unfold expirerExit at h
  split at h
  · rename_i hc
    simp only [Option.some.injEq] at h
    exact ⟨hc.1, hc.2, h.symm⟩
  · simp at h

theorem receiverRead_some {ip sq : Nat} {receiveTime : Int} {s s2 : Sys}
    (h : receiverRead ip sq receiveTime s = some s2) :
    s.receiver = .idle ∧ s.ie.FakeSuccess = false ∧ s.lockHeld = false ∧
      ((s.ie.lookup ip sq = none ∧ s2 = s) ∨
        ∃ el, s.ie.lookup ip sq = some el ∧
          s2 = { s with receiver := (.commit ip sq el
            ⟨sq, el.Value.Send, receiveTime, receiveTime - el.Value.Send⟩) }) := by
  unfold receiverRead at h
  split at h
  · rename_i hc
    refine ⟨hc.1, hc.2.1, hc.2.2, ?_⟩
    split at h
    · rename_i hlook
      simp only [Option.some.injEq] at h
      exact Or.inl ⟨hlook, h.symm⟩
    · rename_i el hlook
      simp only [Option.some.injEq] at h
      exact Or.inr ⟨el, hlook, h.symm⟩
  · simp at h

theorem proberSetup_some {s s2 : Sys} (h : proberSetup s = some s2) :
    s.prober.pc = .start ∧ s.lockHeld = false ∧
      s2 = { s with
        ie := { s.ie with
          SuccessChs := Function.update s.ie.SuccessChs s.prober.IP (some s.ie.nextChan),
          ExpiredChs := Function.update s.ie.ExpiredChs s.prober.IP (some s.ie.nextChan),
          DonesChs := Function.update s.ie.DonesChs s.prober.IP true,
          nextChan := s.ie.nextChan + 1 },
        successQ := Function.update s.successQ s.ie.nextChan
          { cap := s.prober.packets, queue := [] },
        expiredQ := Function.update s.expiredQ s.ie.nextChan
          { cap := s.prober.packets, queue := [] },
        prober := { s.prober with pc := .loop, fakeSuccess := s.ie.FakeSuccess,
                                  successCh := s.ie.nextChan, expiredCh := s.ie.nextChan,
                                  st := loopInit s.prober.IP s.prober.packets } } := by
  unfold proberSetup at h
  split at h
  · rename_i hc
    simp only [Option.some.injEq] at h
    exact ⟨hc.1, hc.2, h.symm⟩
  · simp at h

theorem proberSleep_some {ev : SleepEvent} {s s2 : Sys} (h : proberSleep ev s = some s2) :
    s.prober.pc = .sleep ∧
      s2 = { s with prober := { s.prober with pc := .loop,
                                              st := increment (onSleep ev s.prober.st) } } := by
  unfold proberSleep at h
  split at h
  · rename_i hc
    simp only [Option.some.injEq] at h
    exact ⟨hc, h.symm⟩
  · simp at h

theorem proberTeardown_some {s s2 : Sys} (h : proberTeardown s = some s2) :
    s.prober.pc = .finish ∧ s.lockHeld = false ∧
      s2 = { s with
        ie := { s.ie with
          Pings := Function.update s.ie.Pings s.prober.IP none,
          SuccessChs := Function.update s.ie.SuccessChs s.prober.IP none,
          ExpiredChs := Function.update s.ie.ExpiredChs s.prober.IP none,
          DonesChs := Function.update s.ie.DonesChs s.prober.IP false },
        prober := { s.prober with
          pc := .returned,
          st := { s.prober.st with
            results := finish s.prober.sortRTTs s.prober.st.results } } } := by
  unfold proberTeardown at h
  split at h
  · rename_i hc
    simp only [Option.some.injEq] at h
    exact ⟨hc.1, hc.2, h.symm⟩
  · simp at h

/-- The loop head of `PingerConfig` when the loop test passes, in closed
form. -/
theorem proberInsert_eq {s s2 : Sys} {now : Int} {r : ℚ}
    (h : proberInsert now r s = some s2)
    (hc : s.prober.st.i < s.prober.packets ∧ s.prober.st.keepLooping = true) :
    ∃ ie1, s.ie.insert s.prober.IP s.prober.st.i
        { NetaddrIP := s.prober.IP, Seq := s.prober.st.i, Send := now,
          Expiry := now + s.ie.Timeout, FakeDrop := FakeDrop s.prober.dropProb r } = some ie1 ∧
      s.prober.pc = .loop ∧ s.lockHeld = false ∧
      s2 = { s with
        ie := { ie1 with Running := true },
        expirer := if s.ie.Running then s.expirer else .top,
        overlap := if s.ie.Running then s.overlap
                   else (s.overlap || decide (s.expirer ≠ .stopped)),
        prober := { s.prober with pc := .select },
        wire := if s.prober.fakeSuccess ∨ FakeDrop s.prober.dropProb r = true then s.wire
                else s.wire ++ [(s.prober.IP, s.prober.st.i)] } := by
  unfold proberInsert at h
  split at h
  · rename_i hpc
    simp only [hc, and_self, if_true] at h
    split at h
    · rename_i hr
      split at h
      · simp at h
      · rename_i ie1 hins
        simp only [Option.some.injEq] at h
        subst h
        refine ⟨ie1, hins, hpc, hr.2.2, ?_⟩
        have hrun := (insert_some hins).2.2.2.2.2.2.1
        unfold CheckExpirerIsRunning
        simp only [hrun]
        cases hR : s.ie.Running
        · simp
        · rw [hR] at hrun
          cases ie1
          simp only at hrun
          subst hrun
          simp
    · simp at h
  · simp at h

theorem deleteSeq_Running (ie : ICMPEngine) (ip sq : Nat) :
    (ie.deleteSeq ip sq).Running = ie.Running := by
  unfold ICMPEngine.deleteSeq
  split <;> rfl

theorem deleteSeq_SuccessChs (ie : ICMPEngine) (ip sq : Nat) :
    (ie.deleteSeq ip sq).SuccessChs = ie.SuccessChs := by
  unfold ICMPEngine.deleteSeq
  split <;> rfl

theorem deleteSeq_ExpiredChs (ie : ICMPEngine) (ip sq : Nat) :
    (ie.deleteSeq ip sq).ExpiredChs = ie.ExpiredChs := by
  unfold ICMPEngine.deleteSeq
  split <;> rfl

/-! ### The lifetime of the Expirer -/

theorem ExpirerInv_init (timeout D : Int) (fake : Bool) (IP N : Nat) (sortRTTs : Bool)
    (p : ℚ) : ExpirerInv (Sys.init timeout D fake IP N sortRTTs p) := by
  constructor <;> simp [Sys.init, NewFullConfig]

theorem ExpirerInv_step {a : Action} {s s2 : Sys} (ha : a.isShutdown = false)
    (hinv : ExpirerInv s) (h : step a s = some s2) : ExpirerInv s2 := by
  obtain ⟨h1, h2, h3, h4, h5, h6, h7⟩ := hinv
  cases a <;> simp only [step] at h
  case proberSetup =>
    obtain ⟨_, _, rfl⟩ := proberSetup_some h
    exact ⟨h1, h2, h3, h4, h5, h6, h7⟩
  case proberInsert now r =>
    by_cases hc : s.prober.st.i < s.prober.packets ∧ s.prober.st.keepLooping = true
    · obtain ⟨ie1, hins, _, _, rfl⟩ := proberInsert_eq h hc
      cases hR : s.ie.Running
      · have hst := h1.mp hR
        constructor <;> simp [hR, hst, h2]
      · have hst : s.expirer ≠ .stopped := fun hq => by
          rw [h1.mpr hq] at hR
          cases hR
        constructor <;> simp [hR, hst, h2, h4, h5, h6, h7]
    · obtain ⟨_, hcase⟩ := proberInsert_some h
      rcases hcase with ⟨_, rfl⟩ | ⟨hlt, hkl, _⟩
      · exact ⟨h1, h2, h3, h4, h5, h6, h7⟩
      · exact absurd ⟨hlt, hkl⟩ hc
  case proberSelect c =>
    obtain ⟨_, _, _, _, _, hie, hexp, _, _, _, hov, _⟩ := proberSelect_some h
    constructor <;> simp only [hie, hexp, hov] <;> assumption
  case proberSleep ev =>
    obtain ⟨_, rfl⟩ := proberSleep_some h
    exact ⟨h1, h2, h3, h4, h5, h6, h7⟩
  case proberTeardown =>
    obtain ⟨_, _, rfl⟩ := proberTeardown_some h
    exact ⟨h1, h2, h3, h4, h5, h6, h7⟩
  case expirerTop done =>
    obtain ⟨htop, hcase⟩ := expirerTop_some h
    have hR : s.ie.Running = true := by
      cases hq : s.ie.Running
      · rw [h1.mp hq] at htop
        cases htop
      · rfl
    rcases hcase with ⟨rfl, _⟩ | ⟨_, _, hnil, rfl⟩ | ⟨_, _, el, rest, _, _, _, rfl⟩ |
      ⟨_, _, el, rest, _, _, rfl⟩
    · simp [Action.isShutdown] at ha
    · constructor <;> simp [h2, hnil]
    · constructor <;> simp [h2, hR, deleteSeq_Running, ICMPEngine.remove]
    · constructor <;> simp [h2, hR]
  case expirerSendSuccess now =>
    obtain ⟨p, ch, q, hpc, _, rfl⟩ := expirerSendSuccess_some h
    have hR : s.ie.Running = true := by
      cases hq : s.ie.Running
      · rw [h1.mp hq] at hpc
        cases hpc
      · rfl
    constructor <;> simp [h2, hR]
  case expirerWake done =>
    obtain ⟨p, hpc, rfl⟩ := expirerWake_some h
    have hd : done = false := by
      cases done
      · rfl
      · simp [Action.isShutdown] at ha
    have hR : s.ie.Running = true := by
      cases hq : s.ie.Running
      · rw [h1.mp hq] at hpc
        cases hpc
      · rfl
    constructor <;> simp [h2, hR, hd]
  case expirerRecheck =>
    obtain ⟨p, kl, hpc, _, hcase⟩ := expirerRecheck_some h
    have hR : s.ie.Running = true := by
      cases hq : s.ie.Running
      · rw [h1.mp hq] at hpc
        cases hpc
      · rfl
    have hkl : kl = true := by
      cases kl
      · exact absurd hpc (h5 p)
      · rfl
    rcases hcase with ⟨el, _, rfl⟩ | ⟨_, rfl⟩ <;> constructor <;> simp [h2, hR, hkl]
  case expirerCommit =>
    obtain ⟨p, el, kl, hpc, _, rfl⟩ := expirerCommit_some h
    have hR : s.ie.Running = true := by
      cases hq : s.ie.Running
      · rw [h1.mp hq] at hpc
        cases hpc
      · rfl
    have hkl : kl = true := by
      cases kl
      · exact absurd hpc (h6 p el)
      · rfl
    constructor <;> simp [h2, hR, hkl, ICMPEngine.remove, deleteSeq_Running]
  case expirerSendExpired =>
    obtain ⟨p, ch, kl, q, hpc, _, rfl⟩ := expirerSendExpired_some h
    have hR : s.ie.Running = true := by
      cases hq : s.ie.Running
      · rw [h1.mp hq] at hpc
        cases hpc
      · rfl
    have hkl : kl = true := by
      cases kl
      · exact absurd hpc (h7 p (some ch))
      · rfl
    constructor <;> simp [h2, hR, hkl]
  case expirerExit =>
    obtain ⟨hpc, _⟩ := expirerExit_some h
    exact absurd hpc h4
  case receiverRead ip sq receiveTime =>
    obtain ⟨_, _, _, hcase⟩ := receiverRead_some h
    rcases hcase with ⟨_, rfl⟩ | ⟨el, _, rfl⟩ <;> exact ⟨h1, h2, h3, h4, h5, h6, h7⟩
  case receiverCommit =>
    obtain ⟨ip, sq, el, ps, _, hcase⟩ := receiverCommit_some h
    rcases hcase with hfin | ⟨_, _, _, rfl⟩
    · obtain ⟨ch, q, _, _, rfl⟩ := receiverFinish_some hfin
      refine ⟨?_, h2, ?_, h4, h5, h6, h7⟩
      · simp only [ICMPEngine.remove, deleteSeq_Running]
        exact h1
      · intro hne
        simp only [ICMPEngine.remove, deleteSeq_Running]
        apply h3
        intro hnil
        apply hne
        simp [ICMPEngine.remove, deleteSeq_ExpiresDLL, hnil]
    · exact ⟨h1, h2, h3, h4, h5, h6, h7⟩

theorem ExpirerInv_exec {timeout D : Int} {fake : Bool} {IP N : Nat} {sortRTTs : Bool} {p : ℚ}
    {sched : List Action} {s : Sys} (hsched : ∀ a ∈ sched, a.isShutdown = false)
    (h : exec sched (Sys.init timeout D fake IP N sortRTTs p) = some s) : ExpirerInv s :=
  exec_invariant ExpirerInv (fun a => a.isShutdown = false)
    (fun _ _ _ ha hinv hs => ExpirerInv_step ha hinv hs) sched _ _ hsched
    (ExpirerInv_init timeout D fake IP N sortRTTs p) h

/-- The steps that write `Running`: the loop head of `PingerConfig` sets it,
and the Expirer clears it when it finds the list empty and when it leaves its
loop. -/
theorem step_Running {a : Action} {s s2 : Sys} (h : step a s = some s2) :
    s2.ie.Running = s.ie.Running ∨ s2.ie.Running = true ∨
      (a = .expirerTop false ∧ s.ie.ExpiresDLL = []) ∨ a = .expirerExit := by
  cases a <;> simp only [step] at h
  case proberSetup =>
    obtain ⟨_, _, rfl⟩ := proberSetup_some h
    exact Or.inl rfl
  case proberInsert now r =>
    by_cases hc : s.prober.st.i < s.prober.packets ∧ s.prober.st.keepLooping = true
    · exact Or.inr (Or.inl (proberInsert_frame h hc).1)
    · obtain ⟨_, hcase⟩ := proberInsert_some h
      rcases hcase with ⟨_, rfl⟩ | ⟨hlt, hkl, _⟩
      · exact Or.inl rfl
      · exact absurd ⟨hlt, hkl⟩ hc
  case proberSelect c =>
    obtain ⟨_, _, _, _, _, hie, _⟩ := proberSelect_some h
    exact Or.inl (by rw [hie])
  case proberSleep ev =>
    obtain ⟨_, rfl⟩ := proberSleep_some h
    exact Or.inl rfl
  case proberTeardown =>
    obtain ⟨_, _, rfl⟩ := proberTeardown_some h
    exact Or.inl rfl
  case expirerTop done =>
    obtain ⟨_, hcase⟩ := expirerTop_some h
    rcases hcase with ⟨_, rfl⟩ | ⟨rfl, _, hnil, rfl⟩ | ⟨_, _, el, rest, _, _, _, rfl⟩ |
      ⟨_, _, el, rest, _, _, rfl⟩
    · exact Or.inl rfl
    · exact Or.inr (Or.inr (Or.inl ⟨rfl, hnil⟩))
    · exact Or.inl (by simp [deleteSeq_Running, ICMPEngine.remove])
    · exact Or.inl rfl
  case expirerSendSuccess now =>
    obtain ⟨p, ch, q, _, _, rfl⟩ := expirerSendSuccess_some h
    exact Or.inl rfl
  case expirerWake done =>
    obtain ⟨p, _, rfl⟩ := expirerWake_some h
    exact Or.inl rfl
  case expirerRecheck =>
    obtain ⟨p, kl, _, _, hcase⟩ := expirerRecheck_some h
    rcases hcase with ⟨el, _, rfl⟩ | ⟨_, rfl⟩ <;> exact Or.inl rfl
  case expirerCommit =>
    obtain ⟨p, el, kl, _, _, rfl⟩ := expirerCommit_some h
    exact Or.inl (by simp [deleteSeq_Running, ICMPEngine.remove])
  case expirerSendExpired =>
    obtain ⟨p, ch, kl, q, _, _, rfl⟩ := expirerSendExpired_some h
    exact Or.inl rfl
  case expirerExit => exact Or.inr (Or.inr (Or.inr rfl))
  case receiverRead ip sq receiveTime =>
    obtain ⟨_, _, _, hcase⟩ := receiverRead_some h
    rcases hcase with ⟨_, rfl⟩ | ⟨el, _, rfl⟩ <;> exact Or.inl rfl
  case receiverCommit =>
    obtain ⟨ip, sq, el, ps, _, hcase⟩ := receiverCommit_some h
    rcases hcase with hfin | ⟨_, _, _, rfl⟩
    · obtain ⟨ch, q, _, _, rfl⟩ := receiverFinish_some hfin
      exact Or.inl (by simp [deleteSeq_Running, ICMPEngine.remove])
    · exact Or.inl rfl

/-- C25: `CheckExpirerIsRunning` returns true exactly when `Running` was
false, in that case it spawns an Expirer (which starts at the head of its
loop) and otherwise it changes nothing, and it always leaves `Running` set.
In every state reached from a fresh engine by a schedule in which the Expirer
never takes the shutdown signal, no Expirer was spawned while another was
alive, `Running` is clear exactly when no Expirer is alive, and a non-empty
list has `Running` set; the only step from such a state that clears `Running`
is the critical section at the head of the Expirer's loop when it finds the
list empty. -/
theorem C25_single_expirer (timeout D : Int) (fake : Bool) (IP N : Nat) (sortRTTs : Bool)
    (p : ℚ) (sched : List Action) (s : Sys)
    (hsched : ∀ a ∈ sched, a.isShutdown = false)
    (hexec : exec sched (Sys.init timeout D fake IP N sortRTTs p) = some s) :
    (∀ t : Sys,
      ((CheckExpirerIsRunning t).2 = true ↔ t.ie.Running = false) ∧
      (t.ie.Running = false → (CheckExpirerIsRunning t).1.expirer = .top) ∧
      (t.ie.Running = true → (CheckExpirerIsRunning t).1 = t) ∧
      (CheckExpirerIsRunning t).1.ie.Running = true) ∧
    s.overlap = false ∧
    (s.ie.Running = false ↔ s.expirer = .stopped) ∧
    (s.ie.ExpiresDLL ≠ [] → s.ie.Running = true) ∧
    (∀ a s2, a.isShutdown = false → step a s = some s2 → s.ie.Running = true →
      s2.ie.Running = false → a = .expirerTop false ∧ s.ie.ExpiresDLL = []) := by
  have hinv := ExpirerInv_exec hsched hexec
  refine ⟨?_, hinv.single, hinv.running, hinv.covered, ?_⟩
  · intro t
    unfold CheckExpirerIsRunning
    cases hR : t.ie.Running <;> simp [hR]
  · intro a s2 ha hstep hR hR2
    rcases step_Running hstep with h | h | h | h
    · rw [hR, hR2] at h
      cases h
    · rw [hR2] at h
      cases h
    · exact h
    · subst h
      simp only [step] at hstep
      exact absurd (expirerExit_some hstep).1 hinv.looping

/-- Witness for C25: a normal-mode engine on which the probe (7, 0) has been
inserted and the Expirer sleeps on it. -/
theorem C25_single_expirer_witness :
    ∃ s, exec [.proberSetup, .proberInsert 100 0, .expirerTop false]
        (Sys.init 1000 0 false 7 1 false 0) = some s ∧
      s.ie.ExpiresDLL ≠ [] ∧ s.overlap = false ∧ s.ie.Running = true :=
  ⟨_, rfl, by decide,
    (C25_single_expirer 1000 0 false 7 1 false 0
      [.proberSetup, .proberInsert 100 0, .expirerTop false] _
      (by simp [Action.isShutdown]) rfl).2.1,
    (C25_single_expirer 1000 0 false 7 1 false 0
      [.proberSetup, .proberInsert 100 0, .expirerTop false] _
      (by simp [Action.isShutdown]) rfl).2.2.2.1 (by decide)⟩

/-! ### The channels of a call -/

theorem Chan.recv_some {α : Type} {c q : Chan α} {x : α} (h : c.recv = some (x, q)) :
    c.queue = x :: q.queue ∧ q.cap = c.cap := by
  unfold Chan.recv at h
  split at h
  · cases h
  · rename_i y r hq
    simp only [Option.some.injEq, Prod.mk.injEq] at h
    obtain ⟨rfl, rfl⟩ := h
    exact ⟨hq, rfl⟩

theorem filter_id_of_not_mem (l : List Element) (k : Nat) (hk : k ∉ l.map Element.id) :
    l.filter (fun e => decide (e.id ≠ k)) = l := by
  apply List.filter_eq_self.mpr
  intro e he
  simp only [ne_eq, decide_not, Bool.not_eq_true', decide_eq_false_iff_not]
  intro hq
  exact hk (hq ▸ List.mem_map_of_mem _ he)

theorem mem_filter_id (l : List Element) (k x : Nat) :
    x ∈ (l.filter (fun e => decide (e.id ≠ k))).map Element.id ↔
      x ∈ l.map Element.id ∧ x ≠ k := by
  simp only [List.mem_map, List.mem_filter, ne_eq, decide_not, Bool.not_eq_true',
    decide_eq_false_iff_not]
  constructor
  · rintro ⟨e, ⟨he, hne⟩, rfl⟩
    exact ⟨⟨e, he, rfl⟩, hne⟩
  · rintro ⟨⟨e, he, rfl⟩, hne⟩
    exact ⟨e, ⟨he, hne⟩, rfl⟩

/-- Unlinking the node `k` from a list without repeated identities: what the
list loses in length is made up by the send owed for `k`. -/
theorem filter_id_self (l : List Element) (k : Nat)
    (hs : l.Pairwise (fun a b => a.id < b.id)) :
    (l.filter (fun e => decide (e.id ≠ k))).length + 1 =
      l.length + (if k ∈ l.map Element.id then 0 else 1) := by
  by_cases hk : k ∈ l.map Element.id
  · rw [if_pos hk, length_filter_id l k hs hk, Nat.add_zero]
  · rw [if_neg hk, filter_id_of_not_mem l k hk]

theorem filter_id_le (l : List Element) (k : Nat) :
    (l.filter (fun e => decide (e.id ≠ k))).length ≤ l.length :=
  List.length_filter_le _ _

theorem filter_id_measure (l : List Element) (k x : Nat)
    (hs : l.Pairwise (fun a b => a.id < b.id)) :
    (l.filter (fun e => decide (e.id ≠ k))).length +
        (if x ∈ (l.filter (fun e => decide (e.id ≠ k))).map Element.id then 0 else 1) ≤
      l.length + (if x ∈ l.map Element.id then 0 else 1) := by
  by_cases hk : k ∈ l.map Element.id
  · have h := length_filter_id l k hs hk
    split_ifs <;> omega
  · rw [filter_id_of_not_mem l k hk]

theorem receiverPending_le_one (r : ReceiverPC) (ids : List Nat) : receiverPending r ids ≤ 1 := by
  unfold receiverPending
  split
  · omega
  · split_ifs <;> omega
  · split_ifs <;> omega

theorem receiverPending_append (r : ReceiverPC) (ids more : List Nat) :
    receiverPending r (ids ++ more) ≤ receiverPending r ids := by
  unfold receiverPending
  split
  · exact Nat.le_refl _
  · split_ifs <;> simp_all
  · split_ifs <;> simp_all

theorem receiverPending_filter (r : ReceiverPC) (l : List Element) (k : Nat)
    (hs : l.Pairwise (fun a b => a.id < b.id)) :
    (l.filter (fun e => decide (e.id ≠ k))).length +
        receiverPending r ((l.filter (fun e => decide (e.id ≠ k))).map Element.id) ≤
      l.length + receiverPending r (l.map Element.id) := by
  unfold receiverPending
  split
  · exact Nat.add_le_add_right (filter_id_le l k) 0
  · exact filter_id_measure l k _ hs
  · exact filter_id_measure l k _ hs

theorem expirerPendingExpired_append (e : ExpirerPC) (ids more : List Nat) :
    expirerPendingExpired e (ids ++ more) ≤ expirerPendingExpired e ids := by
  unfold expirerPendingExpired
  split
  · split_ifs <;> simp_all
  · exact Nat.le_refl _
  · exact Nat.le_refl _

theorem expirerPendingExpired_filter (e : ExpirerPC) (l : List Element) (k : Nat)
    (hs : l.Pairwise (fun a b => a.id < b.id)) :
    (l.filter (fun e => decide (e.id ≠ k))).length +
        expirerPendingExpired e ((l.filter (fun e => decide (e.id ≠ k))).map Element.id) ≤
      l.length + expirerPendingExpired e (l.map Element.id) := by
  unfold expirerPendingExpired
  split
  · exact filter_id_measure l k _ hs
  · exact Nat.add_le_add_right (filter_id_le l k) 1
  · exact Nat.add_le_add_right (filter_id_le l k) 0

theorem remove_list (ie : ICMPEngine) (ip sq : Nat) (el : Element) :
    ((ie.deleteSeq ip sq).remove el).ExpiresDLL =
      ie.ExpiresDLL.filter (fun e => decide (e.id ≠ el.id)) ∧
    ((ie.remove el).deleteSeq ip sq).ExpiresDLL =
      ie.ExpiresDLL.filter (fun e => decide (e.id ≠ el.id)) := by
  simp only [ICMPEngine.remove, deleteSeq_ExpiresDLL, and_self]

theorem remove_fields (ie : ICMPEngine) (ip sq : Nat) (el : Element) :
    ((ie.deleteSeq ip sq).remove el).SuccessChs = ie.SuccessChs ∧
    ((ie.deleteSeq ip sq).remove el).ExpiredChs = ie.ExpiredChs ∧
    ((ie.deleteSeq ip sq).remove el).FakeSuccess = ie.FakeSuccess ∧
    ((ie.deleteSeq ip sq).remove el).nextElement = ie.nextElement ∧
    ((ie.remove el).deleteSeq ip sq).SuccessChs = ie.SuccessChs ∧
    ((ie.remove el).deleteSeq ip sq).ExpiredChs = ie.ExpiredChs ∧
    ((ie.remove el).deleteSeq ip sq).FakeSuccess = ie.FakeSuccess ∧
    ((ie.remove el).deleteSeq ip sq).nextElement = ie.nextElement := by
  simp only [ICMPEngine.remove, deleteSeq_SuccessChs, deleteSeq_ExpiredChs,
    deleteSeq_FakeSuccess, deleteSeq_nextElement, and_self]

theorem Linked_init (timeout D : Int) (fake : Bool) : Linked (NewFullConfig timeout D fake) := by
  intro ip sq el h
  simp [NewFullConfig, ICMPEngine.lookup] at h

/-- Every step keeps the entries of the map linked in the list, the teardown
of `PingerConfig` included. -/
theorem Linked_step {a : Action} {s s2 : Sys} (hinv : IndexInv s) (hl : Linked s.ie)
    (h : step a s = some s2) : Linked s2.ie := by
  obtain ⟨ie2, hrun, hP, hL, _, _⟩ := step_indexOp h
  intro ip sq el hlook
  rw [lookup_congr hP] at hlook
  rw [hL]
  cases hop : indexOp a s with
  | keep =>
    rw [hop] at hrun
    simp only [IndexOp.run, Option.some.injEq] at hrun
    subst hrun
    exact hl _ _ _ hlook
  | insert IP i ps =>
    rw [hop] at hrun
    simp only [IndexOp.run] at hrun
    rw [lookup_insert hrun] at hlook
    rw [(insert_some hrun).1]
    split at hlook
    · simp only [Option.some.injEq] at hlook
      subst hlook
      simp
    · exact List.mem_append_left _ (hl _ _ _ hlook)
  | removal ip0 sq0 el0 =>
    obtain ⟨hip0, hid, _⟩ := indexOp_removal hinv hop
    rw [hop] at hrun
    simp only [IndexOp.run, Option.some.injEq] at hrun
    subst hrun
    rw [lookup_remove, lookup_deleteSeq] at hlook
    split at hlook
    · cases hlook
    · rename_i hne
      rw [(remove_list _ _ _ _).1]
      refine List.mem_filter.mpr ⟨hl _ _ _ hlook, ?_⟩
      simp only [ne_eq, decide_not, Bool.not_eq_true', decide_eq_false_iff_not]
      intro hq
      obtain ⟨k1, _, _, k4, _⟩ := hinv.keyed _ _ _ hlook
      exact hne ⟨by rw [k1, hip0], by rw [← k4, hq, hid]⟩
  | teardown IP =>
    rw [hop] at hrun
    simp only [IndexOp.run, Option.some.injEq] at hrun
    subst hrun
    unfold ICMPEngine.lookup at hlook
    simp only at hlook
    by_cases hip : ip = IP
    · subst hip
      simp only [Function.update_same] at hlook
      cases hlook
    · simp only [Function.update_noteq hip] at hlook
      exact hl ip sq el hlook

theorem ChanInv_init (timeout D : Int) (fake : Bool) (IP N : Nat) (sortRTTs : Bool)
    (p : ℚ) : ChanInv (Sys.init timeout D fake IP N sortRTTs p) := by
  constructor <;>
    simp [Sys.init, NewFullConfig, Prober.active, receiverPending, expirerPendingSuccess,
      expirerPendingExpired]

theorem ChanInv_proberSetup {s s2 : Sys} (hidx : IndexInv s) (hinv : ChanInv s)
    (h : proberSetup s = some s2) : ChanInv s2 := by
  obtain ⟨hpc, _, rfl⟩ := proberSetup_some h
  have hnext : s.ie.nextElement = 0 := by
    have h1 := hidx.count
    have h2 := hidx.start hpc
    simp only [hpc, reduceCtorEq, or_self, if_false, Nat.add_zero] at h1
    omega
  have hbS := hinv.boundS
  have hbE := hinv.boundE
  rw [hnext] at hbS hbE
  have hact : s.prober.active = false := by simp [Prober.active, hpc]
  constructor
  · intro ip
    have hr := hinv.regS ip
    simp only [hact, Bool.false_eq_true, and_false, if_false] at hr
    by_cases hip : ip = s.prober.IP
    · subst hip
      simp [Prober.active]
    · simp [Function.update_noteq hip, hip, hr]
  · intro ip
    have hr := hinv.regE ip
    simp only [hact, Bool.false_eq_true, and_false, if_false] at hr
    by_cases hip : ip = s.prober.IP
    · subst hip
      simp [Prober.active]
    · simp [Function.update_noteq hip, hip, hr]
  · intro _
    simp
  · intro _
    simp
  · intro p ch hq
    simp only at hq
    rw [hq] at hbS
    simp only [expirerPendingSuccess] at hbS
    omega
  · intro p ch kl hq
    simp only at hq
    rw [hq] at hbE
    simp only [expirerPendingExpired] at hbE
    omega
  · exact hinv.fakeIdle
  · simp only [Function.update_same, List.length_nil, hnext]
    omega
  · simp only [Function.update_same, List.length_nil, hnext]
    omega

theorem ChanInv_proberInsert {s s2 : Sys} {now : Int} {r : ℚ} (hinv : ChanInv s)
    (h : proberInsert now r s = some s2) : ChanInv s2 := by
  obtain ⟨h1, h2, h3, h4, h5, h6, h7, h8, h9⟩ := hinv
  by_cases hc : s.prober.st.i < s.prober.packets ∧ s.prober.st.keepLooping = true
  · obtain ⟨ie1, hins, hpc, _, rfl⟩ := proberInsert_eq h hc
    obtain ⟨hlist, _, _, _, hnext, hfake, _, hS, hE, _⟩ := insert_some hins
    have hact : s.prober.active = true := by simp [Prober.active, hpc]
    have hstart : s.prober.pc ≠ .start := by simp [hpc]
    constructor
    · intro ip
      have hr := h1 ip
      simp only [hact, and_true] at hr
      simp [Prober.active, hS, hr]
    · intro ip
      have hr := h2 ip
      simp only [hact, and_true] at hr
      simp [Prober.active, hE, hr]
    · intro _
      exact h3 hstart
    · intro _
      exact h4 hstart
    · intro p ch hq
      simp only at hq
      split at hq
      · exact h5 p ch hq
      · cases hq
    · intro p ch kl hq
      simp only at hq
      split at hq
      · exact h6 p ch kl hq
      · cases hq
    · intro hf
      simp only at hf
      rw [hfake] at hf
      exact h7 hf
    · simp only [hlist, hnext, List.length_append, List.length_singleton, List.map_append]
      have hr := receiverPending_append s.receiver (s.ie.ExpiresDLL.map Element.id)
        (List.map Element.id [{ id := s.ie.nextElement, Value :=
          { NetaddrIP := s.prober.IP, Seq := s.prober.st.i, Send := now,
            Expiry := now + s.ie.Timeout, FakeDrop := FakeDrop s.prober.dropProb r } }])
      have he : expirerPendingSuccess (if s.ie.Running = true then s.expirer else .top) ≤
          expirerPendingSuccess s.expirer := by
        split
        · exact Nat.le_refl _
        · simp [expirerPendingSuccess]
      omega
    · simp only [hlist, hnext, List.length_append, List.length_singleton, List.map_append]
      have hr := expirerPendingExpired_append s.expirer (s.ie.ExpiresDLL.map Element.id)
        (List.map Element.id [{ id := s.ie.nextElement, Value :=
          { NetaddrIP := s.prober.IP, Seq := s.prober.st.i, Send := now,
            Expiry := now + s.ie.Timeout, FakeDrop := FakeDrop s.prober.dropProb r } }])
      have he : expirerPendingExpired (if s.ie.Running = true then s.expirer else .top)
            (s.ie.ExpiresDLL.map Element.id ++
              List.map Element.id [{ id := s.ie.nextElement, Value :=
                { NetaddrIP := s.prober.IP, Seq := s.prober.st.i, Send := now,
                  Expiry := now + s.ie.Timeout, FakeDrop := FakeDrop s.prober.dropProb r } }]) ≤
          expirerPendingExpired s.expirer (s.ie.ExpiresDLL.map Element.id ++
              List.map Element.id [{ id := s.ie.nextElement, Value :=
                { NetaddrIP := s.prober.IP, Seq := s.prober.st.i, Send := now,
                  Expiry := now + s.ie.Timeout, FakeDrop := FakeDrop s.prober.dropProb r } }]) := by
        split
        · exact Nat.le_refl _
        · simp [expirerPendingExpired]
      omega
  · obtain ⟨hpc, hcase⟩ := proberInsert_some h
    rcases hcase with ⟨_, rfl⟩ | ⟨hlt, hkl, _⟩
    · have hact : s.prober.active = true := by simp [Prober.active, hpc]
      have hstart : s.prober.pc ≠ .start := by simp [hpc]
      refine ⟨?_, ?_, fun _ => h3 hstart, fun _ => h4 hstart, h5, h6, h7, h8, h9⟩
      · intro ip
        have hr := h1 ip
        simp only [hact, and_true] at hr
        simp [Prober.active, hr]
      · intro ip
        have hr := h2 ip
        simp only [hact, and_true] at hr
        simp [Prober.active, hr]
    · exact absurd ⟨hlt, hkl⟩ hc

theorem ChanInv_proberSelect {s s2 : Sys} {c : SelectCase} (hinv : ChanInv s)
    (h : proberSelect c s = some s2) : ChanInv s2 := by
  obtain ⟨h1, h2, h3, h4, h5, h6, h7, h8, h9⟩ := hinv
  obtain ⟨hpc, ev, st1, _, hq, hie, hexp, hrecv, _, _, _, hprober⟩ := proberSelect_some h
  have hact : s.prober.active = true := by simp [Prober.active, hpc]
  have hstart : s.prober.pc ≠ .start := by simp [hpc]
  have hp : s2.prober.IP = s.prober.IP ∧ s2.prober.successCh = s.prober.successCh ∧
      s2.prober.expiredCh = s.prober.expiredCh ∧ s2.prober.packets = s.prober.packets ∧
      s2.prober.active = true := by
    rw [hprober]
    split <;> simp [Prober.active]
  obtain ⟨p1, p2, p3, p4, p5⟩ := hp
  have hqs : (s2.successQ s.prober.successCh).cap = (s.successQ s.prober.successCh).cap ∧
      (s2.successQ s.prober.successCh).queue.length ≤
        (s.successQ s.prober.successCh).queue.length ∧
      (s2.expiredQ s.prober.expiredCh).cap = (s.expiredQ s.prober.expiredCh).cap ∧
      (s2.expiredQ s.prober.expiredCh).queue.length ≤
        (s.expiredQ s.prober.expiredCh).queue.length := by
    cases c <;> simp only at hq
    · obtain ⟨ps, q, hr, _, hS, hE⟩ := hq
      obtain ⟨r1, r2⟩ := Chan.recv_some hr
      rw [hS, hE, Function.update_same, r1, r2]
      simp
    · obtain ⟨pe, q, hr, _, hE, hS⟩ := hq
      obtain ⟨r1, r2⟩ := Chan.recv_some hr
      rw [hS, hE, Function.update_same, r1, r2]
      simp
    · obtain ⟨_, hS, hE⟩ := hq
      rw [hS, hE]
      simp
    · obtain ⟨_, hS, hE⟩ := hq
      rw [hS, hE]
      simp
  obtain ⟨q1, q2, q3, q4⟩ := hqs
  constructor
  · intro ip
    have hr := h1 ip
    simp only [hact, and_true] at hr
    simp only [hie, p1, p2, p5, and_true]
    exact hr
  · intro ip
    have hr := h2 ip
    simp only [hact, and_true] at hr
    simp only [hie, p1, p3, p5, and_true]
    exact hr
  · intro _
    rw [p2, p4, q1]
    exact h3 hstart
  · intro _
    rw [p3, p4, q3]
    exact h4 hstart
  · intro p ch hx
    rw [hexp] at hx
    rw [p2]
    exact h5 p ch hx
  · intro p ch kl hx
    rw [hexp] at hx
    rw [p3]
    exact h6 p ch kl hx
  · rw [hie, hrecv]
    exact h7
  · rw [hie, hrecv, hexp, p2]
    omega
  · rw [hie, hexp, p3]
    omega

theorem ChanInv_proberSleep {s s2 : Sys} {ev : SleepEvent} (hinv : ChanInv s)
    (h : proberSleep ev s = some s2) : ChanInv s2 := by
  obtain ⟨h1, h2, h3, h4, h5, h6, h7, h8, h9⟩ := hinv
  obtain ⟨hpc, rfl⟩ := proberSleep_some h
  have hact : s.prober.active = true := by simp [Prober.active, hpc]
  have hstart : s.prober.pc ≠ .start := by simp [hpc]
  refine ⟨?_, ?_, fun _ => h3 hstart, fun _ => h4 hstart, h5, h6, h7, h8, h9⟩
  · intro ip
    have hr := h1 ip
    simp only [hact, and_true] at hr
    simp [Prober.active, hr]
  · intro ip
    have hr := h2 ip
    simp only [hact, and_true] at hr
    simp [Prober.active, hr]

theorem ChanInv_proberTeardown {s s2 : Sys} (hinv : ChanInv s)
    (h : proberTeardown s = some s2) : ChanInv s2 := by
  obtain ⟨h1, h2, h3, h4, h5, h6, h7, h8, h9⟩ := hinv
  obtain ⟨hpc, _, rfl⟩ := proberTeardown_some h
  have hstart : s.prober.pc ≠ .start := by simp [hpc]
  refine ⟨?_, ?_, fun _ => h3 hstart, fun _ => h4 hstart, h5, h6, h7, h8, h9⟩
  · intro ip
    have hr := h1 ip
    by_cases hip : ip = s.prober.IP
    · subst hip
      simp [Prober.active]
    · simp only [hip, false_and, if_false] at hr
      simp [Prober.active, Function.update_noteq hip, hr]
  · intro ip
    have hr := h2 ip
    by_cases hip : ip = s.prober.IP
    · subst hip
      simp [Prober.active]
    · simp only [hip, false_and, if_false] at hr
      simp [Prober.active, Function.update_noteq hip, hr]

theorem ChanInv_expirerTop {s s2 : Sys} {done : Bool} (hidx : IndexInv s) (hinv : ChanInv s)
    (h : expirerTop done s = some s2) : ChanInv s2 := by
  obtain ⟨h1, h2, h3, h4, h5, h6, h7, h8, h9⟩ := hinv
  obtain ⟨htop, hcase⟩ := expirerTop_some h
  rw [htop] at h8 h9
  simp only [expirerPendingSuccess, expirerPendingExpired] at h8 h9
  rcases hcase with ⟨_, rfl⟩ | ⟨_, _, _, rfl⟩ | ⟨_, _, el, rest, hl, hf, _, rfl⟩ |
    ⟨_, _, el, rest, _, _, rfl⟩
  · refine ⟨h1, h2, h3, h4, ?_, ?_, h7, ?_, ?_⟩
    · intro p ch hx
      cases hx
    · intro p ch kl hx
      cases hx
    · simpa [expirerPendingSuccess] using h8
    · simpa [expirerPendingExpired] using h9
  · refine ⟨h1, h2, h3, h4, ?_, ?_, h7, ?_, ?_⟩
    · intro p ch hx
      cases hx
    · intro p ch kl hx
      cases hx
    · simpa [expirerPendingSuccess] using h8
    · simpa [expirerPendingExpired] using h9
  · obtain ⟨_, _, _, _, f5, f6, f7, f8⟩ :=
      remove_fields s.ie el.Value.NetaddrIP el.Value.Seq el
    have hlist := (remove_list s.ie el.Value.NetaddrIP el.Value.Seq el).2
    have hidle := h7 hf
    have hlen := filter_id_le s.ie.ExpiresDLL el.id
    have hself := filter_id_self s.ie.ExpiresDLL el.id hidx.sorted
    have hmem : el.id ∈ s.ie.ExpiresDLL.map Element.id := by
      rw [hl]
      simp
    rw [if_pos hmem] at hself
    rw [hidle] at h8
    simp only [receiverPending] at h8
    constructor
    · intro ip
      simp only [f5]
      exact h1 ip
    · intro ip
      simp only [f6]
      exact h2 ip
    · exact h3
    · exact h4
    · intro p ch hx
      simp only [ExpirerPC.sendSuccess.injEq] at hx
      have hr := h1 el.Value.NetaddrIP
      rw [hx.2] at hr
      split at hr
      · simp only [Option.some.injEq] at hr
        exact hr
      · cases hr
    · intro p ch kl hx
      cases hx
    · intro _
      exact hidle
    · simp only [f8, hlist, hidle, receiverPending, expirerPendingSuccess]
      omega
    · simp only [f8, hlist, expirerPendingExpired]
      omega
  · refine ⟨h1, h2, h3, h4, ?_, ?_, h7, ?_, ?_⟩
    · intro p ch hx
      cases hx
    · intro p ch kl hx
      cases hx
    · simpa [expirerPendingSuccess] using h8
    · simpa [expirerPendingExpired] using h9

theorem ChanInv_expirerRest {s s2 : Sys} {a : Action} (hidx : IndexInv s)
    (hl : Linked s.ie) (hinv : ChanInv s)
    (ha : (∃ now, a = .expirerSendSuccess now) ∨ (∃ done, a = .expirerWake done) ∨
      a = .expirerRecheck ∨ a = .expirerCommit ∨ a = .expirerSendExpired ∨ a = .expirerExit)
    (h : step a s = some s2) : ChanInv s2 := by
  obtain ⟨h1, h2, h3, h4, h5, h6, h7, h8, h9⟩ := hinv
  rcases ha with ⟨now, rfl⟩ | ⟨done, rfl⟩ | rfl | rfl | rfl | rfl <;> simp only [step] at h
  · obtain ⟨p, ch, q, hpc, hsend, rfl⟩ := expirerSendSuccess_some h
    have hch := h5 p ch hpc
    subst hch
    obtain ⟨_, rfl⟩ := Chan.send_some hsend
    rw [hpc] at h8 h9
    simp only [expirerPendingSuccess, expirerPendingExpired] at h8 h9
    refine ⟨h1, h2, ?_, h4, ?_, ?_, h7, ?_, ?_⟩
    · intro hs
      simp only [Function.update_same]
      exact h3 hs
    · intro p2 ch2 hx
      cases hx
    · intro p2 ch2 kl hx
      cases hx
    · simp only [Function.update_same, List.length_append, List.length_singleton,
        expirerPendingSuccess]
      omega
    · simpa [expirerPendingExpired] using h9
  · obtain ⟨p, hpc, rfl⟩ := expirerWake_some h
    rw [hpc] at h8 h9
    simp only [expirerPendingSuccess, expirerPendingExpired] at h8 h9
    refine ⟨h1, h2, h3, h4, ?_, ?_, h7, ?_, ?_⟩
    · intro p2 ch2 hx
      cases hx
    · intro p2 ch2 kl hx
      cases hx
    · simpa [expirerPendingSuccess] using h8
    · simpa [expirerPendingExpired] using h9
  · obtain ⟨p, kl, hpc, _, hcase⟩ := expirerRecheck_some h
    rw [hpc] at h8 h9
    simp only [expirerPendingSuccess, expirerPendingExpired] at h8 h9
    rcases hcase with ⟨el, hlook, rfl⟩ | ⟨_, rfl⟩
    · have hmem : el.id ∈ s.ie.ExpiresDLL.map Element.id :=
        List.mem_map_of_mem _ (hl _ _ _ hlook)
      refine ⟨h1, h2, h3, h4, ?_, ?_, h7, ?_, ?_⟩
      · intro p2 ch2 hx
        cases hx
      · intro p2 ch2 kl2 hx
        cases hx
      · simpa [expirerPendingSuccess] using h8
      · simpa [expirerPendingExpired, hmem] using h9
    · refine ⟨h1, h2, h3, h4, ?_, ?_, h7, ?_, ?_⟩
      · intro p2 ch2 hx
        simp only at hx
        split at hx <;> cases hx
      · intro p2 ch2 kl2 hx
        simp only at hx
        split at hx <;> cases hx
      · cases kl <;> simpa [expirerPendingSuccess] using h8
      · cases kl <;> simpa [expirerPendingExpired] using h9
  · obtain ⟨p, el, kl, hpc, _, rfl⟩ := expirerCommit_some h
    obtain ⟨f1, f2, f3, f4, _⟩ := remove_fields s.ie p.NetaddrIP p.Seq el
    have hlist := (remove_list s.ie p.NetaddrIP p.Seq el).1
    rw [hpc] at h8 h9
    simp only [expirerPendingSuccess, expirerPendingExpired] at h8 h9
    have hself := filter_id_self s.ie.ExpiresDLL el.id hidx.sorted
    have hrecv := receiverPending_filter s.receiver s.ie.ExpiresDLL el.id hidx.sorted
    constructor
    · intro ip
      simp only [f1]
      exact h1 ip
    · intro ip
      simp only [f2]
      exact h2 ip
    · exact h3
    · exact h4
    · intro p2 ch2 hx
      cases hx
    · intro p2 ch2 kl2 hx
      simp only [ExpirerPC.sendExpired.injEq] at hx
      have hr := h2 p.NetaddrIP
      rw [f2] at hx
      rw [hx.2.1] at hr
      split at hr
      · simp only [Option.some.injEq] at hr
        exact hr
      · cases hr
    · intro hf
      simp only [f3] at hf
      exact h7 hf
    · simp only [f4, hlist, expirerPendingSuccess]
      omega
    · simp only [f4, hlist, expirerPendingExpired]
      omega
  · obtain ⟨p, ch, kl, q, hpc, hsend, rfl⟩ := expirerSendExpired_some h
    have hch := h6 p ch kl hpc
    subst hch
    obtain ⟨_, rfl⟩ := Chan.send_some hsend
    rw [hpc] at h8 h9
    simp only [expirerPendingSuccess, expirerPendingExpired] at h8 h9
    refine ⟨h1, h2, h3, ?_, ?_, ?_, h7, ?_, ?_⟩
    · intro hs
      simp only [Function.update_same]
      exact h4 hs
    · intro p2 ch2 hx
      simp only at hx
      split at hx <;> cases hx
    · intro p2 ch2 kl2 hx
      simp only at hx
      split at hx <;> cases hx
    · cases kl <;> simpa [expirerPendingSuccess] using h8
    · cases kl <;>
        simp only [Function.update_same, List.length_append, List.length_singleton,
          expirerPendingExpired, if_true, Bool.false_eq_true, if_false] <;> omega
  · obtain ⟨hpc, _, rfl⟩ := expirerExit_some h
    rw [hpc] at h8 h9
    simp only [expirerPendingSuccess, expirerPendingExpired] at h8 h9
    refine ⟨h1, h2, h3, h4, ?_, ?_, h7, ?_, ?_⟩
    · intro p2 ch2 hx
      cases hx
    · intro p2 ch2 kl hx
      cases hx
    · simpa [expirerPendingSuccess] using h8
    · simpa [expirerPendingExpired] using h9

theorem ChanInv_receiver {s s2 : Sys} {a : Action} (hidx : IndexInv s)
    (hl : Linked s.ie) (hinv : ChanInv s)
    (ha : (∃ ip sq t, a = .receiverRead ip sq t) ∨ a = .receiverCommit)
    (h : step a s = some s2) : ChanInv s2 := by
  obtain ⟨h1, h2, h3, h4, h5, h6, h7, h8, h9⟩ := hinv
  rcases ha with ⟨ip, sq, t, rfl⟩ | rfl <;> simp only [step] at h
  · obtain ⟨hidle, hf, _, hcase⟩ := receiverRead_some h
    rcases hcase with ⟨_, rfl⟩ | ⟨el, hlook, rfl⟩
    · exact ⟨h1, h2, h3, h4, h5, h6, h7, h8, h9⟩
    · have hmem : el.id ∈ s.ie.ExpiresDLL.map Element.id :=
        List.mem_map_of_mem _ (hl _ _ _ hlook)
      refine ⟨h1, h2, h3, h4, h5, h6, ?_, ?_, h9⟩
      · intro hf2
        rw [hf] at hf2
        cases hf2
      · rw [hidle] at h8
        simpa [receiverPending, hmem] using h8
  · obtain ⟨ip, sq, el, ps, hpc, hcase⟩ := receiverCommit_some h
    have hpend : receiverPending s.receiver (s.ie.ExpiresDLL.map Element.id) =
        if el.id ∈ s.ie.ExpiresDLL.map Element.id then 0 else 1 := by
      rcases hpc with hpc | hpc <;> rw [hpc] <;> rfl
    have hfake : s.ie.FakeSuccess = false := by
      cases hq : s.ie.FakeSuccess
      · rfl
      · have := h7 hq
        rcases hpc with hpc | hpc <;> rw [hpc] at this <;> cases this
    rcases hcase with hfin | ⟨hpc2, _, _, rfl⟩
    · obtain ⟨ch, q, hreg, hsend, rfl⟩ := receiverFinish_some hfin
      obtain ⟨f1, f2, f3, f4, _⟩ := remove_fields s.ie ip sq el
      have hlist := (remove_list s.ie ip sq el).1
      have hch : ch = s.prober.successCh := by
        have hr := h1 ip
        rw [hreg] at hr
        split at hr
        · simp only [Option.some.injEq] at hr
          exact hr
        · cases hr
      subst hch
      obtain ⟨_, rfl⟩ := Chan.send_some hsend
      have hself := filter_id_self s.ie.ExpiresDLL el.id hidx.sorted
      have hexp := expirerPendingExpired_filter s.expirer s.ie.ExpiresDLL el.id hidx.sorted
      constructor
      · intro ip2
        simp only [f1]
        exact h1 ip2
      · intro ip2
        simp only [f2]
        exact h2 ip2
      · intro hs
        simp only [Function.update_same]
        exact h3 hs
      · exact h4
      · exact h5
      · exact h6
      · intro _
        rfl
      · simp only [f4, hlist, Function.update_same, List.length_append, List.length_singleton,
          receiverPending]
        omega
      · simp only [f4, hlist]
        omega
    · refine ⟨h1, h2, h3, h4, h5, h6, ?_, ?_, h9⟩
      · intro hf2
        rw [hfake] at hf2
        cases hf2
      · rw [hpc2] at h8
        simpa [receiverPending] using h8

theorem ChanInv_step {a : Action} {s s2 : Sys} (hidx : IndexInv s) (hl : Linked s.ie)
    (hinv : ChanInv s) (h : step a s = some s2) : ChanInv s2 := by
  cases a with
  | proberSetup => exact ChanInv_proberSetup hidx hinv h
  | proberInsert now r => exact ChanInv_proberInsert hinv h
  | proberSelect c => exact ChanInv_proberSelect hinv h
  | proberSleep ev => exact ChanInv_proberSleep hinv h
  | proberTeardown => exact ChanInv_proberTeardown hinv h
  | expirerTop done => exact ChanInv_expirerTop hidx hinv h
  | expirerSendSuccess now => exact ChanInv_expirerRest hidx hl hinv (Or.inl ⟨now, rfl⟩) h
  | expirerWake done => exact ChanInv_expirerRest hidx hl hinv (Or.inr (Or.inl ⟨done, rfl⟩)) h
  | expirerRecheck => exact ChanInv_expirerRest hidx hl hinv (Or.inr (Or.inr (Or.inl rfl))) h
  | expirerCommit =>
    exact ChanInv_expirerRest hidx hl hinv (Or.inr (Or.inr (Or.inr (Or.inl rfl)))) h
  | expirerSendExpired =>
    exact ChanInv_expirerRest hidx hl hinv (Or.inr (Or.inr (Or.inr (Or.inr (Or.inl rfl))))) h
  | expirerExit =>
    exact ChanInv_expirerRest hidx hl hinv (Or.inr (Or.inr (Or.inr (Or.inr (Or.inr rfl))))) h
  | receiverRead ip sq t => exact ChanInv_receiver hidx hl hinv (Or.inl ⟨ip, sq, t, rfl⟩) h
  | receiverCommit => exact ChanInv_receiver hidx hl hinv (Or.inr rfl) h

theorem Reachable_init (timeout D : Int) (fake : Bool) (IP N : Nat) (sortRTTs : Bool) (p : ℚ)
    (hN : N < 65536) : Reachable timeout IP N p (Sys.init timeout D fake IP N sortRTTs p) :=
  ⟨IndexInv_init timeout D fake IP N sortRTTs p hN, RunInv_init timeout D fake IP N sortRTTs p,
    ⟨by simp [Sys.init, NewFullConfig], by simp [Sys.init, NewFullConfig]⟩,
    Linked_init timeout D fake, ChanInv_init timeout D fake IP N sortRTTs p⟩

theorem Reachable_step {timeout : Int} {IP N : Nat} {p : ℚ} {a : Action} {s s2 : Sys}
    (hinv : Reachable timeout IP N p s) (h : step a s = some s2) :
    Reachable timeout IP N p s2 :=
  ⟨IndexInv_step hinv.index h, RunInv_step hinv.index hinv.run h,
    EmptyingInv_step hinv.run hinv.emptying h, Linked_step hinv.index hinv.linked h,
    ChanInv_step hinv.index hinv.linked hinv.chans h⟩

theorem Reachable_exec {timeout : Int} {IP N : Nat} {p : ℚ} :
    ∀ (sched : List Action) {s s2 : Sys}, Reachable timeout IP N p s →
      exec sched s = some s2 → Reachable timeout IP N p s2 := by
  intro sched s s2 hinv h
  exact exec_invariant (Reachable timeout IP N p) (fun _ => True)
    (fun _ _ _ _ hi hs => Reachable_step hi hs) sched s s2 (fun _ _ => trivial) hinv h

/-! ### One Receiver or Expirer section on a reachable state -/

theorem Reachable_of_exec {timeout D : Int} {fake : Bool} {IP N : Nat} {sortRTTs : Bool}
    {p : ℚ} (hN : N < 65536) {sched : List Action} {s : Sys}
    (h : exec sched (Sys.init timeout D fake IP N sortRTTs p) = some s) :
    Reachable timeout IP N p s :=
  Reachable_exec sched (Reachable_init timeout D fake IP N sortRTTs p hN) h

/-- No more probes are created than the call has packets. -/
theorem Reachable.nextElement_le {timeout : Int} {IP N : Nat} {p : ℚ} {s : Sys}
    (h : Reachable timeout IP N p s) : s.ie.nextElement ≤ s.prober.packets := by
  have h1 := h.index.count
  have h2 := h.index.i_lt
  have h3 := h.run.i_le
  have h4 := h.run.pkts
  by_cases hc : s.prober.pc = .select ∨ s.prober.pc = .sleep
  · have := h2 hc
    rw [if_pos hc] at h1
    omega
  · rw [if_neg hc] at h1
    omega

/-- A probe that is in the map belongs to the destination of the call, whose
channels are registered, and its node is in the list. -/
theorem Reachable.of_lookup {timeout : Int} {IP N : Nat} {p : ℚ} {s : Sys}
    (h : Reachable timeout IP N p s) {ip sq : Nat} {el : Element}
    (hlook : s.ie.lookup ip sq = some el) :
    el ∈ s.ie.ExpiresDLL ∧ el.id = sq ∧
    s.ie.SuccessChs ip = some s.prober.successCh ∧
    s.ie.ExpiredChs ip = some s.prober.expiredCh ∧
    (s.successQ s.prober.successCh).cap = s.prober.packets ∧
    (s.expiredQ s.prober.expiredCh).cap = s.prober.packets := by
  obtain ⟨hip, _, _, hid, hlt⟩ := h.index.keyed ip sq el hlook
  have hstart : s.prober.pc ≠ .start := by
    intro hq
    have h1 := h.index.count
    have h2 := h.index.start hq
    simp only [hq, reduceCtorEq, or_self, if_false, Nat.add_zero] at h1
    omega
  have hret : s.prober.pc ≠ .returned := by
    intro hq
    have h1 := h.emptying.returned hq
    by_cases hIP : ip = IP
    · subst hIP
      simp [ICMPEngine.lookup, h1] at hlook
    · have h2 := h.emptying.others ip hIP
      simp [ICMPEngine.lookup, h2] at hlook
  have hact : s.prober.active = true := by
    unfold Prober.active
    split
    · rename_i hq
      exact absurd hq hstart
    · rename_i hq
      exact absurd hq hret
    · rfl
  refine ⟨h.linked ip sq el hlook, hid, ?_, ?_, h.chans.capS hstart, h.chans.capE hstart⟩
  · rw [h.chans.regS ip, if_pos ⟨hip, hact⟩]
  · rw [h.chans.regE ip, if_pos ⟨hip, hact⟩]

/-- Unlinking a node of a list without repeated identities removes that node
and leaves the nodes before and after it in place. -/
theorem filter_id_split (l : List Element) (el : Element)
    (hs : l.Pairwise (fun a b => a.id < b.id)) (hmem : el ∈ l) :
    ∃ pre post, l = pre ++ el :: post ∧
      l.filter (fun e => decide (e.id ≠ el.id)) = pre ++ post := by
  obtain ⟨pre, post, rfl⟩ := List.append_of_mem hmem
  refine ⟨pre, post, rfl, ?_⟩
  rw [List.pairwise_append] at hs
  obtain ⟨_, hpost, hcross⟩ := hs
  rw [List.pairwise_cons] at hpost
  rw [List.filter_append, List.filter_cons]
  simp only [ne_eq, not_true_eq_false, decide_False, Bool.false_eq_true, if_false]
  congr 1
  · apply List.filter_eq_self.mpr
    intro e he
    have := hcross e he el (List.mem_cons_self _ _)
    simp only [decide_not, Bool.not_eq_true', decide_eq_false_iff_not]
    omega
  · apply List.filter_eq_self.mpr
    intro e he
    have := hpost.1 e he
    simp only [decide_not, Bool.not_eq_true', decide_eq_false_iff_not]
    omega

/-- The removal of the probe `(ip, sq)` with node `el` from map and list: the
key is gone, every other key reads as before, and the list has lost that node
and no other. -/
theorem removal_frame {timeout : Int} {IP N : Nat} {p : ℚ} {s : Sys}
    (h : Reachable timeout IP N p s) {ip sq : Nat} {el : Element}
    (hlook : s.ie.lookup ip sq = some el) :
    ((s.ie.deleteSeq ip sq).remove el).lookup ip sq = none ∧
    (∀ ip2 sq2, ¬ (ip2 = ip ∧ sq2 = sq) →
      ((s.ie.deleteSeq ip sq).remove el).lookup ip2 sq2 = s.ie.lookup ip2 sq2) ∧
    ∃ pre post, s.ie.ExpiresDLL = pre ++ el :: post ∧
      ((s.ie.deleteSeq ip sq).remove el).ExpiresDLL = pre ++ post := by
  refine ⟨?_, ?_, ?_⟩
  · rw [lookup_remove, lookup_deleteSeq]
    simp
  · intro ip2 sq2 hne
    rw [lookup_remove, lookup_deleteSeq, if_neg hne]
  · rw [(remove_list s.ie ip sq el).1]
    exact filter_id_split _ _ h.index.sorted (h.linked ip sq el hlook)

/-- One call and one Receiver: in every state reached from a fresh engine in
which a Receiver of a normal-mode engine is between reads and the lock is free, for a decoded reply
from peer `ip` with sequence `sq`: if `(ip, sq)` is not in the map, the
Receiver's lookup leaves the whole state as it is; if it is there with node
`el`, the lookup and the write-locked section both proceed, and together they
append exactly one `PingSuccess` (`Seq = sq`, `Send` the probe's send time,
`RTT = receiveTime - Send`) to the channel registered for `ip`, delete the key
`(ip, sq)` and unlink `el`, every other key reads as before, the nodes before
and after `el` stay in place, and nothing else in the state changes. -/
theorem single_receiver_frame (timeout D : Int) (fake : Bool) (IP N : Nat) (sortRTTs : Bool)
    (p : ℚ) (sched : List Action) (s : Sys) (ip sq : Nat) (receiveTime : Int)
    (hN : N < 65536)
    (hexec : exec sched (Sys.init timeout D fake IP N sortRTTs p) = some s)
    (hmode : s.ie.FakeSuccess = false) (hidle : s.receiver = .idle)
    (hlock : s.lockHeld = false) :
    (s.ie.lookup ip sq = none → step (.receiverRead ip sq receiveTime) s = some s) ∧
    (∀ el, s.ie.lookup ip sq = some el →
      ∃ ch pre post, s.ie.SuccessChs ip = some ch ∧ s.ie.ExpiresDLL = pre ++ el :: post ∧
        exec [.receiverRead ip sq receiveTime, .receiverCommit] s = some
          { s with
            successQ := Function.update s.successQ ch
              { cap := (s.successQ ch).cap,
                queue := (s.successQ ch).queue ++
                  [⟨sq, el.Value.Send, receiveTime, receiveTime - el.Value.Send⟩] },
            ie := (s.ie.deleteSeq ip sq).remove el } ∧
        ((s.ie.deleteSeq ip sq).remove el).lookup ip sq = none ∧
        (∀ ip2 sq2, ¬ (ip2 = ip ∧ sq2 = sq) →
          ((s.ie.deleteSeq ip sq).remove el).lookup ip2 sq2 = s.ie.lookup ip2 sq2) ∧
        ((s.ie.deleteSeq ip sq).remove el).ExpiresDLL = pre ++ post) := by
  have hr := Reachable_of_exec hN hexec
  constructor
  · intro hlook
    simp [step, receiverRead, hidle, hmode, hlock, hlook]
  · intro el hlook
    obtain ⟨hmem, _, hreg, _, hcap, _⟩ := hr.of_lookup hlook
    obtain ⟨hgone, hothers, pre, post, hsplit, hlist⟩ := removal_frame hr hlook
    have hnext := hr.nextElement_le
    have hb := hr.chans.boundS
    have hlen : 0 < s.ie.ExpiresDLL.length := List.length_pos_of_mem hmem
    have hroom : (s.successQ s.prober.successCh).queue.length <
        (s.successQ s.prober.successCh).cap := by omega
    refine ⟨_, pre, post, hreg, hsplit, ?_, hgone, hothers, hlist⟩
    have h1 : step (.receiverRead ip sq receiveTime) s = some { s with receiver :=
        (.commit ip sq el ⟨sq, el.Value.Send, receiveTime, receiveTime - el.Value.Send⟩) } := by
      simp [step, receiverRead, hidle, hmode, hlock, hlook]
    rw [exec_cons, h1, Option.bind, exec_cons]
    simp only [step, receiverCommit, hlock, if_true, receiverFinish, hreg, Chan.send, hroom,
      Option.bind, exec, Option.some.injEq]
    rw [← hidle, ← hlock]

/-- A sample run: the probe (7, 0) is in flight on a normal-mode engine with
timeout 1000, and a reply to it arrives at time 1099. -/
theorem single_receiver_frame_sample :
    ∃ s s2, exec [.proberSetup, .proberInsert 100 0, .expirerTop false]
        (Sys.init 1000 0 false 7 1 false 0) = some s ∧
      s.ie.lookup 7 0 = some cancelledNode ∧
      exec [.receiverRead 7 0 1099, .receiverCommit] s = some s2 ∧
      (s2.successQ 0).queue = [⟨0, 100, 1099, 999⟩] ∧ s2.ie.lookup 7 0 = none ∧
      s2.ie.ExpiresDLL = [] ∧
      (s.ie.lookup 7 1 = none → step (.receiverRead 7 1 1099) s = some s) :=
  ⟨_, _, rfl, rfl, rfl, rfl, rfl, rfl,
    (single_receiver_frame 1000 0 false 7 1 false 0
      [.proberSetup, .proberInsert 100 0, .expirerTop false] _ 7 1 1099 (by decide) rfl rfl rfl
      rfl).1⟩

theorem filter_id_head (el : Element) (rest : List Element)
    (hs : (el :: rest).Pairwise (fun a b => a.id < b.id)) :
    (el :: rest).filter (fun e => decide (e.id ≠ el.id)) = rest := by
  rw [List.pairwise_cons] at hs
  rw [List.filter_cons]
  simp only [ne_eq, not_true_eq_false, decide_False, Bool.false_eq_true, if_false]
  apply List.filter_eq_self.mpr
  intro e he
  have := hs.1 e he
  simp only [decide_not, Bool.not_eq_true', decide_eq_false_iff_not]
  omega

/-- The head of the list of a call that has not returned belongs to the
destination of the call, whose channels are registered and have room for one
more event each. -/
theorem Reachable.of_head {timeout : Int} {IP N : Nat} {p : ℚ} {s : Sys}
    (h : Reachable timeout IP N p s) {el : Element} {rest : List Element}
    (hl : s.ie.ExpiresDLL = el :: rest) (hret : s.prober.pc ≠ .returned) :
    s.ie.SuccessChs el.Value.NetaddrIP = some s.prober.successCh ∧
    s.ie.ExpiredChs el.Value.NetaddrIP = some s.prober.expiredCh ∧
    (s.successQ s.prober.successCh).queue.length < (s.successQ s.prober.successCh).cap ∧
    (s.expiredQ s.prober.expiredCh).queue.length < (s.expiredQ s.prober.expiredCh).cap ∧
    (s.ie.remove el).ExpiresDLL = rest := by
  have hmem : el ∈ s.ie.ExpiresDLL := by
    rw [hl]
    exact List.mem_cons_self _ _
  obtain ⟨hip, _, hlt⟩ := h.index.node el hmem
  have hstart : s.prober.pc ≠ .start := by
    intro hq
    have h1 := h.index.count
    have h2 := h.index.start hq
    simp only [hq, reduceCtorEq, or_self, if_false, Nat.add_zero] at h1
    omega
  have hact : s.prober.active = true := by
    unfold Prober.active
    split
    · rename_i hq
      exact absurd hq hstart
    · rename_i hq
      exact absurd hq hret
    · rfl
  have hnext := h.nextElement_le
  have hbS := h.chans.boundS
  have hbE := h.chans.boundE
  have hcS := h.chans.capS hstart
  have hcE := h.chans.capE hstart
  have hlen : 0 < s.ie.ExpiresDLL.length := List.length_pos_of_mem hmem
  refine ⟨?_, ?_, by omega, by omega, ?_⟩
  · rw [h.chans.regS, if_pos ⟨hip, hact⟩]
  · rw [h.chans.regE, if_pos ⟨hip, hact⟩]
  · have hs := h.index.sorted
    rw [hl] at hs
    simp only [ICMPEngine.remove, hl]
    exact filter_id_head el rest hs

/-- C24: in fake-success mode, with the Expirer at the head of its loop, the
lock free and a head `el` not marked `FakeDrop`, as long as the call that
inserted the probe has not returned, one iteration removes the head from list
and map without sleeping and appends one `PingSuccess` to the success channel
of the head's destination, and no `PingExpired`; and when the head is marked
`FakeDrop`, or the engine is in normal mode, the iteration synthesizes nothing,
leaves map and list as they are and goes to sleep on the head. After a call
that was cancelled with its probe in flight has returned, the first half
fails: the teardown has deleted the channel of the destination and left the
node in the list, so the iteration removes the head, reads a nil channel, and
the Expirer stays blocked in its send; no `PingSuccess` is enqueued. -/
theorem C24_fake_success_iteration :
    (∀ (timeout D : Int) (IP N : Nat) (sortRTTs : Bool) (p : ℚ) (sched : List Action)
        (s : Sys) (el : Element) (rest : List Element) (now : Int),
      N < 65536 → exec sched (Sys.init timeout D true IP N sortRTTs p) = some s →
      s.ie.FakeSuccess = true → s.expirer = .top → s.lockHeld = false →
      s.ie.ExpiresDLL = el :: rest → el.Value.FakeDrop = false →
      s.prober.pc ≠ .returned →
      ∃ ch, s.ie.SuccessChs el.Value.NetaddrIP = some ch ∧
        exec [.expirerTop false, .expirerSendSuccess now] s = some
          { s with
            ie := (s.ie.remove el).deleteSeq el.Value.NetaddrIP el.Value.Seq,
            successQ := Function.update s.successQ ch
              { cap := (s.successQ ch).cap,
                queue := (s.successQ ch).queue ++
                  [⟨el.Value.Seq, el.Value.Send, now, now - el.Value.Send⟩] } } ∧
        ((s.ie.remove el).deleteSeq el.Value.NetaddrIP el.Value.Seq).ExpiresDLL = rest ∧
        ((s.ie.remove el).deleteSeq el.Value.NetaddrIP el.Value.Seq).lookup
          el.Value.NetaddrIP el.Value.Seq = none) ∧
    (∀ (s : Sys) (el : Element) (rest : List Element),
      s.expirer = .top → s.lockHeld = false → s.ie.ExpiresDLL = el :: rest →
      s.ie.FakeSuccess = false ∨ el.Value.FakeDrop = true →
      step (.expirerTop false) s = some { s with expirer := .sleeping el.Value }) ∧
    (∃ s s2, exec (cancelSchedule ++ [.proberTeardown])
        (Sys.init 1000 0 true 7 3 false 0) = some s ∧
      s.ie.FakeSuccess = true ∧ s.expirer = .top ∧ s.lockHeld = false ∧
      s.prober.pc = .returned ∧
      s.ie.ExpiresDLL = [cancelledNode] ∧ cancelledNode.Value.FakeDrop = false ∧
      step (.expirerTop false) s = some s2 ∧
      s2.expirer = .sendSuccess cancelledNode.Value none ∧ s2.ie.ExpiresDLL = [] ∧
      (∀ now, step (.expirerSendSuccess now) s2 = none) ∧
      (∀ ch, (s2.successQ ch).queue = [])) := by
  refine ⟨?_, ?_, ?_⟩
  · intro timeout D IP N sortRTTs p sched s el rest now hN hexec hf htop hlock hl hdrop hret
    have hr := Reachable_of_exec hN hexec
    obtain ⟨hreg, _, hroom, _, hrest⟩ := hr.of_head hl hret
    refine ⟨_, hreg, ?_, ?_, ?_⟩
    · have h1 : step (.expirerTop false) s = some
          { s with
            ie := (s.ie.remove el).deleteSeq el.Value.NetaddrIP el.Value.Seq,
            expirer := .sendSuccess el.Value (some s.prober.successCh) } := by
        simp [step, expirerTop, htop, hlock, hl, hf, hdrop, hreg]
      rw [exec_cons, h1, Option.bind, exec_cons]
      simp only [step, expirerSendSuccess, Chan.send, hroom, if_true, Option.bind, exec,
        Option.some.injEq]
      rw [← htop]
    · rw [deleteSeq_ExpiresDLL]
      exact hrest
    · rw [lookup_deleteSeq]
      simp
  · intro s el rest htop hlock hl hcase
    have hn : ¬ (s.ie.FakeSuccess = true ∧ ¬ el.Value.FakeDrop = true) := by
      rintro ⟨h1, h2⟩
      rcases hcase with h | h
      · rw [h] at h1
        cases h1
      · exact h2 h
    simp only [step, expirerTop, htop, if_true, hlock, hl, hn, if_false, Bool.false_eq_true]
  · refine ⟨_, _, rfl, rfl, rfl, rfl, rfl, rfl, rfl, rfl, rfl, rfl, ?_, ?_⟩
    · intro now
      rfl
    · intro ch
      have hq : ∀ f : Nat → Chan PingSuccess,
          f = Function.update (fun _ => { cap := 0, queue := [] }) 0 { cap := 3, queue := [] } →
            (f ch).queue = [] := by
        intro f hf
        subst hf
        by_cases hch : ch = 0
        · subst hch
          rfl
        · simp [Function.update_noteq hch]
      exact hq _ rfl

/-! ### Termination of the Expirer's loop -/

/-- One iteration of the Expirer on a non-empty list whose head has its key in
the map: the iteration completes, removes the head and no other node, and
sends the one event of the head. -/
theorem expirerIteration_cons {timeout : Int} {IP N : Nat} {p : ℚ} {s : Sys}
    (h : Reachable timeout IP N p s) (htop : s.expirer = .top) (hlock : s.lockHeld = false)
    (hc : ∀ e ∈ s.ie.ExpiresDLL, s.ie.lookup e.Value.NetaddrIP e.Value.Seq = some e)
    {el : Element} {rest : List Element} (hl : s.ie.ExpiresDLL = el :: rest) (now : Int) :
    ∃ s2, expirerIteration now s = some s2 ∧ Reachable timeout IP N p s2 ∧
      s2.expirer = .top ∧ s2.lockHeld = false ∧
      (∀ e ∈ s2.ie.ExpiresDLL, s2.ie.lookup e.Value.NetaddrIP e.Value.Seq = some e) ∧
      s2.ie.ExpiresDLL = rest ∧ s2.prober = s.prober ∧
      s2.ie.FakeSuccess = s.ie.FakeSuccess ∧
      (s2.successQ s.prober.successCh).queue =
        (s.successQ s.prober.successCh).queue ++ (successOf s.ie.FakeSuccess now el).toList ∧
      (s2.expiredQ s.prober.expiredCh).queue =
        (s.expiredQ s.prober.expiredCh).queue ++ (expiredOf s.ie.FakeSuccess el).toList := by
  have hmem : el ∈ s.ie.ExpiresDLL := by
    rw [hl]
    exact List.mem_cons_self _ _
  have hlook := hc el hmem
  obtain ⟨_, _, hregS, hregE, hcapS, hcapE⟩ := h.of_lookup hlook
  have hnext := h.nextElement_le
  have hbS := h.chans.boundS
  have hbE := h.chans.boundE
  have hlen : 0 < s.ie.ExpiresDLL.length := List.length_pos_of_mem hmem
  have hroomS : (s.successQ s.prober.successCh).queue.length <
      (s.successQ s.prober.successCh).cap := by omega
  have hroomE : (s.expiredQ s.prober.expiredCh).queue.length <
      (s.expiredQ s.prober.expiredCh).cap := by omega
  have hsorted := h.index.sorted
  rw [hl] at hsorted
  have hrest : (el :: rest).filter (fun e => decide (e.id ≠ el.id)) = rest :=
    filter_id_head el rest hsorted
  have hkeys : ∀ e ∈ rest, ¬ (e.Value.NetaddrIP = el.Value.NetaddrIP ∧
      e.Value.Seq = el.Value.Seq) := by
    intro e he hq
    have h1 := (List.pairwise_cons.mp hsorted).1 e he
    have h2 := (h.index.node e (hl ▸ List.mem_cons_of_mem _ he)).2.1
    have h3 := (h.index.node el hmem).2.1
    omega
  have hcrest : ∀ e ∈ rest, s.ie.lookup e.Value.NetaddrIP e.Value.Seq = some e :=
    fun e he => hc e (hl ▸ List.mem_cons_of_mem _ he)
  by_cases hf : s.ie.FakeSuccess = true ∧ el.Value.FakeDrop = false
  · have h1 : step (.expirerTop false) s = some
        { s with
          ie := (s.ie.remove el).deleteSeq el.Value.NetaddrIP el.Value.Seq,
          expirer := .sendSuccess el.Value (some s.prober.successCh) } := by
      simp [step, expirerTop, htop, hlock, hl, hf.1, hf.2, hregS]
    have h2 : step (.expirerSendSuccess now)
        { s with
          ie := (s.ie.remove el).deleteSeq el.Value.NetaddrIP el.Value.Seq,
          expirer := .sendSuccess el.Value (some s.prober.successCh) } = some
        { s with
          ie := (s.ie.remove el).deleteSeq el.Value.NetaddrIP el.Value.Seq,
          successQ := Function.update s.successQ s.prober.successCh
            { cap := (s.successQ s.prober.successCh).cap,
              queue := (s.successQ s.prober.successCh).queue ++
                [⟨el.Value.Seq, el.Value.Send, now, now - el.Value.Send⟩] },
          expirer := .top } := by
      simp [step, expirerSendSuccess, Chan.send, hroomS]
    refine ⟨_, ?_, Reachable_step (Reachable_step h h1) h2, rfl, hlock, ?_, ?_, rfl, ?_, ?_, ?_⟩
    · simp only [expirerIteration, h1, h2]
    · intro e he
      simp only [deleteSeq_ExpiresDLL, ICMPEngine.remove, hl, hrest] at he
      rw [lookup_deleteSeq, if_neg (hkeys e he)]
      exact hcrest e he
    · simp only [deleteSeq_ExpiresDLL, ICMPEngine.remove, hl, hrest]
    · simp only [deleteSeq_FakeSuccess, ICMPEngine.remove]
    · simp [successOf, hf.1, hf.2]
    · simp [expiredOf, hf.1, hf.2]
  · have hf2 : ¬ (s.ie.FakeSuccess = true ∧ ¬ el.Value.FakeDrop = true) := by
      rintro ⟨a, b⟩
      exact hf ⟨a, by simpa using b⟩
    have h1 : step (.expirerTop false) s = some { s with expirer := .sleeping el.Value } := by
      simp only [step, expirerTop, htop, if_true, hlock, hl, hf2, if_false, Bool.false_eq_true]
    have h2 : exec [.expirerWake false, .expirerRecheck]
        { s with expirer := .sleeping el.Value } =
        some { s with expirer := .commit el.Value el true } := by
      simp [exec, step, expirerWake, expirerRecheck, hlock, hlook]
    have h3 : exec [.expirerCommit, .expirerSendExpired]
        { s with expirer := .commit el.Value el true } = some
        { s with
          ie := (s.ie.deleteSeq el.Value.NetaddrIP el.Value.Seq).remove el,
          expiredQ := Function.update s.expiredQ s.prober.expiredCh
            { cap := (s.expiredQ s.prober.expiredCh).cap,
              queue := (s.expiredQ s.prober.expiredCh).queue ++
                [⟨el.Value.Seq, el.Value.Send⟩] },
          expirer := .top } := by
      simp [exec, step, expirerCommit, expirerSendExpired, hlock, ICMPEngine.remove,
        deleteSeq_ExpiredChs, hregE, Chan.send, hroomE]
    have hr1 := Reachable_step h h1
    have hr2 := Reachable_exec _ hr1 h2
    have hr3 := Reachable_exec _ hr2 h3
    refine ⟨_, ?_, hr3, rfl, hlock, ?_, ?_, rfl, ?_, ?_, ?_⟩
    · simp only [expirerIteration, h1, h2, h3]
    · intro e he
      simp only [deleteSeq_ExpiresDLL, ICMPEngine.remove, hl, hrest] at he
      rw [lookup_remove, lookup_deleteSeq, if_neg (hkeys e he)]
      exact hcrest e he
    · simp only [deleteSeq_ExpiresDLL, ICMPEngine.remove, hl, hrest]
    · simp only [deleteSeq_FakeSuccess, ICMPEngine.remove]
    · simp [successOf, hf]
    · simp [expiredOf, hf]

/-- The Expirer's loop run for as many iterations as there are clock readings,
at most one per node: each iteration removes the head, so the list loses its
first nodes in order, and the events of those nodes are appended to the two
channels in that order. -/
theorem expirerLoop_spec {timeout : Int} {IP N : Nat} {p : ℚ} :
    ∀ (clock : List Int) (s : Sys), Reachable timeout IP N p s → s.expirer = .top →
      s.lockHeld = false →
      (∀ e ∈ s.ie.ExpiresDLL, s.ie.lookup e.Value.NetaddrIP e.Value.Seq = some e) →
      clock.length ≤ s.ie.ExpiresDLL.length →
      ∃ sk, expirerLoop clock s = some sk ∧ Reachable timeout IP N p sk ∧
        sk.expirer = .top ∧ sk.lockHeld = false ∧
        sk.ie.ExpiresDLL = s.ie.ExpiresDLL.drop clock.length ∧ sk.prober = s.prober ∧
        sk.ie.FakeSuccess = s.ie.FakeSuccess ∧
        (sk.successQ s.prober.successCh).queue =
          (s.successQ s.prober.successCh).queue ++
            (List.zip s.ie.ExpiresDLL clock).filterMap
              (fun x => successOf s.ie.FakeSuccess x.2 x.1) ∧
        (sk.expiredQ s.prober.expiredCh).queue =
          (s.expiredQ s.prober.expiredCh).queue ++
            (List.zip s.ie.ExpiresDLL clock).filterMap
              (fun x => expiredOf s.ie.FakeSuccess x.1) := by
  intro clock
  induction clock with
  | nil =>
    intro s h htop hlock _ _
    exact ⟨s, rfl, h, htop, hlock, by simp, rfl, rfl, by simp, by simp⟩
  | cons now clock ih =>
    intro s h htop hlock hc hlen
    cases hl : s.ie.ExpiresDLL with
    | nil =>
      rw [hl] at hlen
      simp at hlen
    | cons el rest =>
      obtain ⟨s2, hit, hr2, htop2, hlock2, hc2, hl2, hp2, hf2, hS2, hE2⟩ :=
        expirerIteration_cons h htop hlock hc hl now
      have hlen2 : clock.length ≤ s2.ie.ExpiresDLL.length := by
        rw [hl] at hlen
        rw [hl2]
        simpa using hlen
      obtain ⟨sk, hloop, hrk, htopk, hlockk, hlk, hpk, hfk, hSk, hEk⟩ :=
        ih s2 hr2 htop2 hlock2 hc2 hlen2
      refine ⟨sk, ?_, hrk, htopk, hlockk, ?_, hpk.trans hp2, hfk.trans hf2, ?_, ?_⟩
      · simp only [expirerLoop, hit, hloop]
      · rw [hlk, hl2]
        simp
      · rw [hp2, hS2, hl2, hf2] at hSk
        rw [hSk, List.zip_cons_cons, List.filterMap_cons]
        cases hq : successOf s.ie.FakeSuccess now el <;> simp
      · rw [hp2, hE2, hl2, hf2] at hEk
        rw [hEk, List.zip_cons_cons, List.filterMap_cons]
        cases hq : expiredOf s.ie.FakeSuccess el <;> simp

/-- Each node gets exactly one of the two events. -/
theorem event_count (fakeSuccess : Bool) :
    ∀ (l : List Element) (clock : List Int), clock.length = l.length →
      ((List.zip l clock).filterMap (fun x => successOf fakeSuccess x.2 x.1)).length +
        ((List.zip l clock).filterMap (fun x => expiredOf fakeSuccess x.1)).length =
          l.length := by
  intro l
  induction l with
  | nil =>
    intro clock _
    simp
  | cons el rest ih =>
    intro clock hlen
    cases clock with
    | nil => simp at hlen
    | cons now clock =>
      have hlen2 : clock.length = rest.length := by simpa using hlen
      have := ih clock hlen2
      rw [List.zip_cons_cons, List.filterMap_cons, List.filterMap_cons]
      by_cases hf : fakeSuccess = true ∧ el.Value.FakeDrop = false
      · have hs : successOf fakeSuccess now el = some
            { Seq := el.Value.Seq, Send := el.Value.Send, Received := now,
              RTT := now - el.Value.Send } := by
          simp [successOf, hf.1, hf.2]
        have he : expiredOf fakeSuccess el = none := by simp [expiredOf, hf.1, hf.2]
        simp only [hs, he, List.length_cons]
        omega
      · have hs : successOf fakeSuccess now el = none := by simp [successOf, hf]
        have he : expiredOf fakeSuccess el =
            some { Seq := el.Value.Seq, Send := el.Value.Send } := by
          simp [expiredOf, hf]
        simp only [hs, he, List.length_cons]
        omega

/-- One call: from every state reached from a fresh engine in which the Expirer is
at the head of its loop, the lock is free and every node of the list has its
key in the map, the Expirer's loop on its own, without shutdown, terminates.
With `k` nodes in the list: after `j ≤ k` iterations the list has lost exactly
its first `j` nodes (each iteration removes the head, so the length goes down
by one and the order is the order of the list); the `k` iterations append to
the channels of the call the events of the nodes in list order, one event per
node (a synthesized success or an expiry), `k` events in all; and the next
iteration finds the list empty, clears `Running` and ends the Expirer. -/
theorem single_call_expirer_terminates (timeout D : Int) (fake : Bool) (IP N : Nat)
    (sortRTTs : Bool) (p : ℚ) (sched : List Action) (s : Sys) (clock : List Int) (now : Int)
    (hN : N < 65536)
    (hexec : exec sched (Sys.init timeout D fake IP N sortRTTs p) = some s)
    (htop : s.expirer = .top) (hlock : s.lockHeld = false)
    (hkeys : ∀ e ∈ s.ie.ExpiresDLL, s.ie.lookup e.Value.NetaddrIP e.Value.Seq = some e)
    (hclock : clock.length = s.ie.ExpiresDLL.length) :
    (∀ j, j ≤ s.ie.ExpiresDLL.length →
      ∃ sj, expirerLoop (clock.take j) s = some sj ∧ sj.expirer = .top ∧
        sj.ie.ExpiresDLL = s.ie.ExpiresDLL.drop j ∧
        sj.ie.ExpiresDLL.length + j = s.ie.ExpiresDLL.length) ∧
    ∃ sk, expirerLoop clock s = some sk ∧ sk.ie.ExpiresDLL = [] ∧
      (sk.successQ s.prober.successCh).queue =
        (s.successQ s.prober.successCh).queue ++
          (List.zip s.ie.ExpiresDLL clock).filterMap
            (fun x => successOf s.ie.FakeSuccess x.2 x.1) ∧
      (sk.expiredQ s.prober.expiredCh).queue =
        (s.expiredQ s.prober.expiredCh).queue ++
          (List.zip s.ie.ExpiresDLL clock).filterMap
            (fun x => expiredOf s.ie.FakeSuccess x.1) ∧
      (sk.successQ s.prober.successCh).queue.length +
          (sk.expiredQ s.prober.expiredCh).queue.length =
        (s.successQ s.prober.successCh).queue.length +
          (s.expiredQ s.prober.expiredCh).queue.length + s.ie.ExpiresDLL.length ∧
      expirerIteration now sk =
        some { sk with ie := { sk.ie with Running := false }, expirer := .stopped } ∧
      expirerLoop (clock ++ [now]) s =
        some { sk with ie := { sk.ie with Running := false }, expirer := .stopped } ∧
      expirerIteration now
        { sk with ie := { sk.ie with Running := false }, expirer := .stopped } = none := by
  have hr := Reachable_of_exec hN hexec
  constructor
  · intro j hj
    have hlen : (clock.take j).length = j := by
      rw [List.length_take]
      omega
    obtain ⟨sj, hloop, _, htopj, _, hlj, _⟩ :=
      expirerLoop_spec (clock.take j) s hr htop hlock hkeys (by omega)
    rw [hlen] at hlj
    refine ⟨sj, hloop, htopj, hlj, ?_⟩
    rw [hlj, List.length_drop]
    omega
  · obtain ⟨sk, hloop, _, htopk, hlockk, hlk, _, _, hS, hE⟩ :=
      expirerLoop_spec clock s hr htop hlock hkeys (by omega)
    have hnil : sk.ie.ExpiresDLL = [] := by
      rw [hlk, hclock]
      simp
    have hlast : expirerIteration now sk =
        some { sk with ie := { sk.ie with Running := false }, expirer := .stopped } := by
      simp [expirerIteration, step, expirerTop, htopk, hlockk, hnil]
    have hcount := event_count s.ie.FakeSuccess s.ie.ExpiresDLL clock hclock
    refine ⟨sk, hloop, hnil, hS, hE, ?_, hlast, ?_, ?_⟩
    · rw [hS, hE, List.length_append, List.length_append]
      omega
    · have happ : ∀ (c : List Int) (t t2 : Sys), expirerLoop c t = some t2 →
          expirerLoop (c ++ [now]) t = expirerIteration now t2 := by
        intro c
        induction c with
        | nil =>
          intro t t2 ht
          simp only [expirerLoop, Option.some.injEq] at ht
          subst ht
          simp only [List.nil_append, expirerLoop]
          cases expirerIteration now t <;> rfl
        | cons a c ih =>
          intro t t2 ht
          simp only [List.cons_append, expirerLoop] at ht ⊢
          cases hq : expirerIteration a t with
          | none => simp [hq] at ht
          | some t1 =>
            simp only [hq] at ht ⊢
            exact ih t1 t2 ht
      rw [happ clock s sk hloop, hlast]
    · simp [expirerIteration, step, expirerTop]

/-- A sample run: a normal-mode engine with timeout 1000 on which the probe
(7, 0) has been inserted at time 100 and the Expirer has just been spawned;
the first iteration expires the probe and the second ends the Expirer. -/
theorem single_call_expirer_sample :
    ∃ s sk, exec [.proberSetup, .proberInsert 100 0]
        (Sys.init 1000 0 false 7 1 false 0) = some s ∧
      s.expirer = .top ∧ s.ie.ExpiresDLL = [cancelledNode] ∧
      expirerLoop [1100, 1100] s = some sk ∧ sk.expirer = .stopped ∧
      sk.ie.Running = false ∧ sk.ie.ExpiresDLL = [] ∧ (sk.expiredQ 0).queue = [⟨0, 100⟩] ∧
      (∀ j, j ≤ s.ie.ExpiresDLL.length →
        ∃ sj, expirerLoop (List.take j [1100]) s = some sj ∧ sj.expirer = .top ∧
          sj.ie.ExpiresDLL = s.ie.ExpiresDLL.drop j ∧
          sj.ie.ExpiresDLL.length + j = s.ie.ExpiresDLL.length) :=
  ⟨_, _, rfl, rfl, rfl, rfl, rfl, rfl, rfl, rfl,
    (single_call_expirer_terminates 1000 0 false 7 1 false 0 [.proberSetup, .proberInsert 100 0] _
      [1100] 1100 (by decide) rfl rfl rfl
      (by
        intro e he
        have h1 : e = cancelledNode := List.mem_singleton.mp he
        subst h1
        rfl) rfl).1⟩

/-! ### The engine with several calls -/

theorem Engine.step_some {m : Move} {e e2 : Engine} (h : e.step m = some e2) :
    ∃ s2, Icmpengine.step m.action (e.focus m.call m.receiver) = some s2 ∧
      e2 = e.store m.call m.receiver s2 := by
  unfold Engine.step at h
  cases hs : Icmpengine.step m.action (e.focus m.call m.receiver) with
  | none => simp [hs] at h
  | some s2 =>
    simp only [hs, Option.map_some', Option.some.injEq] at h
    exact ⟨s2, rfl, h.symm⟩

theorem Engine.run_cons (m : Move) (rest : List Move) (e : Engine) :
    Engine.exec (m :: rest) e = (e.step m).bind (Engine.exec rest) := by
  simp only [Engine.exec]
  cases e.step m <;> rfl

theorem Engine.run_append (l1 l2 : List Move) (e : Engine) :
    Engine.exec (l1 ++ l2) e = (Engine.exec l1 e).bind (Engine.exec l2) := by
  induction l1 generalizing e with
  | nil => simp [Engine.exec]
  | cons a l1 ih =>
    simp only [List.cons_append, Engine.run_cons]
    cases e.step a with
    | none => simp
    | some s1 => simp [ih]

/-- An invariant that every permitted step preserves holds after every
schedule of permitted steps. -/
theorem Engine.run_invariant (P : Engine → Prop) (ok : Move → Prop)
    (hstep : ∀ m e e2, ok m → P e → e.step m = some e2 → P e2) :
    ∀ (sched : List Move) (e e2 : Engine), (∀ m ∈ sched, ok m) → P e →
      Engine.exec sched e = some e2 → P e2 := by
  intro sched
  induction sched with
  | nil =>
    intro e e2 _ hP h
    simp only [Engine.exec, Option.some.injEq] at h
    exact h ▸ hP
  | cons a rest ih =>
    intro e e2 hok hP h
    rw [Engine.run_cons] at h
    cases hs : e.step a with
    | none => simp [hs] at h
    | some e1 =>
      simp only [hs, Option.bind] at h
      exact ih e1 e2 (fun b hb => hok b (List.mem_cons_of_mem _ hb))
        (hstep a e e1 (hok a (List.mem_cons_self _ _)) hP hs) h

theorem Engine.observed_append (f : Action → Sys → Option Element) :
    ∀ (pre post : List Move) (e0 e1 : Engine), Engine.exec pre e0 = some e1 →
      Engine.trace f (pre ++ post) e0 = Engine.trace f pre e0 ++ Engine.trace f post e1 := by
  intro pre
  induction pre with
  | nil =>
    intro post e0 e1 h
    simp only [Engine.exec, Option.some.injEq] at h
    subst h
    simp [Engine.trace]
  | cons a rest ih =>
    intro post e0 e1 h
    rw [Engine.run_cons] at h
    cases hs : e0.step a with
    | none => simp [hs] at h
    | some e =>
      simp only [hs, Option.bind] at h
      have hih := ih post e e1 h
      simp only [List.cons_append, Engine.trace, hs, List.append_assoc]
      rw [← hih]
      rfl

/-- An index operation keeps the nodes of list and map among the nodes created
so far. -/
theorem IndexOp.run_handles {op : IndexOp} {ie ie2 : ICMPEngine} (h : op.run ie = some ie2)
    (hnode : ∀ e ∈ ie.ExpiresDLL, e.id < ie.nextElement)
    (hkey : ∀ ip sq el, ie.lookup ip sq = some el → el.id < ie.nextElement) :
    (∀ e ∈ ie2.ExpiresDLL, e.id < ie2.nextElement) ∧
    (∀ ip sq el, ie2.lookup ip sq = some el → el.id < ie2.nextElement) := by
  cases op with
  | keep =>
    simp only [IndexOp.run, Option.some.injEq] at h
    subst h
    exact ⟨hnode, hkey⟩
  | insert IP i ps =>
    simp only [IndexOp.run] at h
    obtain ⟨hl, _, _, _, hn, _⟩ := insert_some h
    constructor
    · intro e he
      rw [hl, List.mem_append, List.mem_singleton] at he
      rw [hn]
      rcases he with he | rfl
      · exact Nat.lt_succ_of_lt (hnode e he)
      · exact Nat.lt_succ_self _
    · intro ip sq el hlook
      rw [lookup_insert h] at hlook
      rw [hn]
      split at hlook
      · simp only [Option.some.injEq] at hlook
        subst hlook
        exact Nat.lt_succ_self _
      · exact Nat.lt_succ_of_lt (hkey ip sq el hlook)
  | removal ip sq el =>
    simp only [IndexOp.run, Option.some.injEq] at h
    subst h
    constructor
    · intro e he
      rw [(remove_list ie ip sq el).1] at he
      rw [remove_nextElement, deleteSeq_nextElement]
      exact hnode e (List.mem_of_mem_filter he)
    · intro ip2 sq2 el2 hlook
      rw [lookup_remove, lookup_deleteSeq] at hlook
      rw [remove_nextElement, deleteSeq_nextElement]
      split at hlook
      · cases hlook
      · exact hkey ip2 sq2 el2 hlook
  | teardown IP =>
    simp only [IndexOp.run, Option.some.injEq] at h
    subst h
    refine ⟨hnode, ?_⟩
    intro ip sq el hlook
    apply hkey ip sq el
    unfold ICMPEngine.lookup at hlook ⊢
    simp only at hlook
    by_cases hip : ip = IP
    · subst hip
      simp at hlook
    · rw [Function.update_noteq hip] at hlook
      exact hlook

/-- Where the handles of the workers come from: a step leaves the handle of a
Receiver and of the Expirer as it is, drops it, or takes it from the map. -/
theorem step_handles {a : Action} {s s2 : Sys} (h : step a s = some s2) :
    (∀ ip sq el ps,
      s2.receiver = .commit ip sq el ps ∨ s2.receiver = .blocked ip sq el ps →
        (s.receiver = .commit ip sq el ps ∨ s.receiver = .blocked ip sq el ps) ∨
          s.ie.lookup ip sq = some el) ∧
    (∀ p el kl, s2.expirer = .commit p el kl →
      s.expirer = .commit p el kl ∨ s.ie.lookup p.NetaddrIP p.Seq = some el) := by
  cases a with
  | proberSetup =>
    obtain ⟨_, _, rfl⟩ := proberSetup_some h
    exact ⟨fun _ _ _ _ hr => Or.inl hr, fun _ _ _ he => Or.inl he⟩
  | proberInsert now r =>
    obtain ⟨_, ⟨_, rfl⟩ | ⟨_, _, _, _, _, _, _, _, _, _, hrc, _, _, _, hex, _⟩⟩ :=
      proberInsert_some h
    · exact ⟨fun _ _ _ _ hr => Or.inl hr, fun _ _ _ he => Or.inl he⟩
    · refine ⟨fun _ _ _ _ hr => Or.inl (by rw [hrc] at hr; exact hr), ?_⟩
      intro p el kl he
      rcases hex with hex | hex
      · rw [hex] at he
        exact Or.inl he
      · rw [hex] at he
        cases he
  | proberSelect c =>
    obtain ⟨_, _, _, _, _, _, hex, hrc, _⟩ := proberSelect_some h
    exact ⟨fun _ _ _ _ hr => Or.inl (by rw [hrc] at hr; exact hr),
      fun _ _ _ he => Or.inl (by rw [hex] at he; exact he)⟩
  | proberSleep ev =>
    obtain ⟨_, rfl⟩ := proberSleep_some h
    exact ⟨fun _ _ _ _ hr => Or.inl hr, fun _ _ _ he => Or.inl he⟩
  | proberTeardown =>
    obtain ⟨_, _, rfl⟩ := proberTeardown_some h
    exact ⟨fun _ _ _ _ hr => Or.inl hr, fun _ _ _ he => Or.inl he⟩
  | expirerTop done =>
    obtain ⟨_, ⟨_, rfl⟩ | ⟨_, _, _, rfl⟩ | ⟨_, _, _, _, _, _, _, rfl⟩ |
      ⟨_, _, _, _, _, _, rfl⟩⟩ := expirerTop_some h
    all_goals
      exact ⟨fun _ _ _ _ hr => Or.inl hr, fun _ _ _ he => by simp at he⟩
  | expirerSendSuccess now =>
    obtain ⟨_, _, _, _, _, rfl⟩ := expirerSendSuccess_some h
    exact ⟨fun _ _ _ _ hr => Or.inl hr, fun _ _ _ he => by simp at he⟩
  | expirerWake done =>
    obtain ⟨_, _, rfl⟩ := expirerWake_some h
    exact ⟨fun _ _ _ _ hr => Or.inl hr, fun _ _ _ he => by simp at he⟩
  | expirerRecheck =>
    obtain ⟨p, kl, hpc, _, ⟨el, hlook, rfl⟩ | ⟨_, rfl⟩⟩ := expirerRecheck_some h
    · refine ⟨fun _ _ _ _ hr => Or.inl hr, ?_⟩
      intro p2 el2 kl2 he
      simp only [ExpirerPC.commit.injEq] at he
      obtain ⟨rfl, rfl, rfl⟩ := he
      exact Or.inr hlook
    · refine ⟨fun _ _ _ _ hr => Or.inl hr, ?_⟩
      intro p2 el2 kl2 he
      cases kl <;> simp at he
  | expirerCommit =>
    obtain ⟨_, _, _, _, _, rfl⟩ := expirerCommit_some h
    exact ⟨fun _ _ _ _ hr => Or.inl hr, fun _ _ _ he => by simp at he⟩
  | expirerSendExpired =>
    obtain ⟨_, _, kl, _, _, _, rfl⟩ := expirerSendExpired_some h
    refine ⟨fun _ _ _ _ hr => Or.inl hr, ?_⟩
    intro p2 el2 kl2 he
    cases kl <;> simp at he
  | expirerExit =>
    obtain ⟨_, _, rfl⟩ := expirerExit_some h
    exact ⟨fun _ _ _ _ hr => Or.inl hr, fun _ _ _ he => by simp at he⟩
  | receiverRead ip sq t =>
    obtain ⟨_, _, _, ⟨_, rfl⟩ | ⟨el, hlook, rfl⟩⟩ := receiverRead_some h
    · exact ⟨fun _ _ _ _ hr => Or.inl hr, fun _ _ _ he => Or.inl he⟩
    · refine ⟨?_, fun _ _ _ he => Or.inl he⟩
      intro ip2 sq2 el2 ps2 hr
      rcases hr with hr | hr
      · simp only [ReceiverPC.commit.injEq] at hr
        obtain ⟨rfl, rfl, rfl, _⟩ := hr
        exact Or.inr hlook
      · simp at hr
  | receiverCommit =>
    obtain ⟨ip, sq, el, ps, hpc, hfin | ⟨_, _, _, rfl⟩⟩ := receiverCommit_some h
    · obtain ⟨_, _, _, _, rfl⟩ := receiverFinish_some hfin
      exact ⟨fun _ _ _ _ hr => by simp at hr, fun _ _ _ he => Or.inl he⟩
    · refine ⟨?_, fun _ _ _ he => Or.inl he⟩
      intro ip2 sq2 el2 ps2 hr
      rcases hr with hr | hr
      · simp at hr
      · simp only [ReceiverPC.blocked.injEq] at hr
        obtain ⟨rfl, rfl, rfl, rfl⟩ := hr
        exact Or.inl hpc

theorem HandleInv_step {a : Action} {s s2 : Sys} (hinv : HandleInv s)
    (h : step a s = some s2) : HandleInv s2 := by
  obtain ⟨ie2, hrun, hP, hL, hn, _⟩ := step_indexOp h
  obtain ⟨h1, h2⟩ := IndexOp.run_handles hrun hinv.node hinv.keyed
  obtain ⟨hr, he⟩ := step_handles h
  have hle := step_nextElement h
  refine ⟨?_, ?_, ?_, ?_⟩
  · intro e hmem
    rw [hL] at hmem
    rw [hn]
    exact h1 e hmem
  · intro ip sq el hlook
    rw [lookup_congr hP] at hlook
    rw [hn]
    exact h2 ip sq el hlook
  · intro ip sq el ps hrc
    rcases hr ip sq el ps hrc with h0 | h0
    · exact lt_of_lt_of_le (hinv.recv ip sq el ps h0) hle
    · exact lt_of_lt_of_le (hinv.keyed ip sq el h0) hle
  · intro p el kl hex
    rcases he p el kl hex with h0 | h0
    · exact lt_of_lt_of_le (hinv.exp p el kl h0) hle
    · exact lt_of_lt_of_le (hinv.keyed _ _ el h0) hle

/-- The node an index operation removes is a node created earlier. -/
theorem indexOp_removal_handle {a : Action} {s : Sys} {ip sq : Nat} {el : Element}
    (hinv : HandleInv s) (h : indexOp a s = .removal ip sq el) :
    el.id < s.ie.nextElement := by
  cases a with
  | proberInsert now r =>
    simp only [indexOp] at h
    split at h <;> cases h
  | proberTeardown => simp [indexOp] at h
  | expirerTop done =>
    cases done with
    | true => simp [indexOp] at h
    | false =>
      simp only [indexOp] at h
      split at h
      · cases h
      · rename_i e rest hl
        split at h
        · simp only [IndexOp.removal.injEq] at h
          obtain ⟨rfl, rfl, rfl⟩ := h
          exact hinv.node e (by rw [hl]; exact List.mem_cons_self _ _)
        · cases h
  | expirerCommit =>
    simp only [indexOp] at h
    split at h
    · rename_i p e kl hpc
      simp only [IndexOp.removal.injEq] at h
      obtain ⟨rfl, rfl, rfl⟩ := h
      exact hinv.exp p e kl hpc
    · cases h
  | receiverCommit =>
    simp only [indexOp] at h
    split at h
    · rename_i ip2 sq2 e ps hpc
      split at h
      · simp only [IndexOp.removal.injEq] at h
        obtain ⟨rfl, rfl, rfl⟩ := h
        exact hinv.recv _ _ _ _ (Or.inl hpc)
      · cases h
    · rename_i ip2 sq2 e ps hpc
      split at h
      · simp only [IndexOp.removal.injEq] at h
        obtain ⟨rfl, rfl, rfl⟩ := h
        exact hinv.recv _ _ _ _ (Or.inr hpc)
      · cases h
    · cases h
  | _ => simp [indexOp] at h

/-- One step keeps the list equal to the nodes created and not yet terminated,
whatever the number of calls the engine serves. -/
theorem Live_step_of_handles {a : Action} {s s2 : Sys} {T : List Nat} (hinv : HandleInv s)
    (hlive : Live T s) (hT : ∀ k ∈ T, k < s.ie.nextElement) (h : step a s = some s2) :
    Live (T ++ (terminated a s).toList.map Element.id) s2 ∧
    (∀ k ∈ T ++ (terminated a s).toList.map Element.id, k < s2.ie.nextElement) := by
  obtain ⟨ie2, hrun, _, hL, hn, _⟩ := step_indexOp h
  unfold Live at hlive ⊢
  rw [hL, hn]
  cases hop : indexOp a s with
  | keep =>
    rw [hop] at hrun
    simp only [IndexOp.run, Option.some.injEq] at hrun
    subst hrun
    simp only [terminated, hop, Option.toList, List.map_nil, List.append_nil]
    exact ⟨hlive, hT⟩
  | teardown IP =>
    rw [hop] at hrun
    simp only [IndexOp.run, Option.some.injEq] at hrun
    subst hrun
    simp only [terminated, hop, Option.toList, List.map_nil, List.append_nil]
    exact ⟨hlive, hT⟩
  | insert IP i ps =>
    rw [hop] at hrun
    simp only [IndexOp.run] at hrun
    obtain ⟨hlist, _, _, _, hn1, _⟩ := insert_some hrun
    simp only [terminated, hop, Option.toList, List.map_nil, List.append_nil]
    refine ⟨?_, fun k hk => by rw [hn1]; exact Nat.lt_succ_of_lt (hT k hk)⟩
    rw [hlist, hn1, List.map_append, hlive, List.range_succ, List.filter_append]
    congr 1
    have hnot : s.ie.nextElement ∉ T := fun hmem => absurd (hT _ hmem) (lt_irrefl _)
    simp [hnot]
  | removal ip sq el =>
    have hlt := indexOp_removal_handle hinv hop
    rw [hop] at hrun
    simp only [IndexOp.run, Option.some.injEq] at hrun
    subst hrun
    simp only [terminated, hop, Option.toList, List.map_cons, List.map_nil]
    constructor
    · simp only [ICMPEngine.remove, deleteSeq_ExpiresDLL, deleteSeq_nextElement]
      have hmap : (s.ie.ExpiresDLL.filter (fun e => decide (e.id ≠ el.id))).map Element.id =
          (s.ie.ExpiresDLL.map Element.id).filter (fun k => decide (k ≠ el.id)) := by
        rw [List.filter_map]
        rfl
      rw [hmap, hlive, List.filter_filter]
      apply List.filter_congr
      intro k _
      simp only [List.mem_append, List.mem_singleton, not_or, ne_eq, decide_not,
        Bool.decide_and, Bool.and_comm]
    · intro k hk
      simp only [ICMPEngine.remove, deleteSeq_nextElement]
      rw [List.mem_append, List.mem_singleton] at hk
      rcases hk with hk | rfl
      · exact hT k hk
      · exact hlt

/-- A destination gets an inner map only by the insertion of a call to it. -/
theorem step_Pings_some {a : Action} {s s2 : Sys} {ip : Nat} (h : step a s = some s2)
    (h0 : s.ie.Pings ip = none) (h1 : s2.ie.Pings ip ≠ none) :
    ip = s.prober.IP ∧ s2.prober.IP = s.prober.IP ∧ s2.prober.active = true := by
  obtain ⟨ie2, hrun, hP, _⟩ := step_indexOp h
  rw [hP] at h1
  cases hop : indexOp a s with
  | keep =>
    rw [hop] at hrun
    simp only [IndexOp.run, Option.some.injEq] at hrun
    subst hrun
    exact absurd h0 h1
  | teardown IP =>
    rw [hop] at hrun
    simp only [IndexOp.run, Option.some.injEq] at hrun
    subst hrun
    simp only at h1
    by_cases hip : ip = IP
    · subst hip
      simp at h1
    · rw [Function.update_noteq hip] at h1
      exact absurd h0 h1
  | removal ip2 sq el =>
    rw [hop] at hrun
    simp only [IndexOp.run, Option.some.injEq] at hrun
    subst hrun
    exact absurd (deleteSeq_Pings_none h0) h1
  | insert IP i ps =>
    obtain ⟨now, r, rfl, hIP, _, _⟩ := indexOp_insert hop
    rw [hop] at hrun
    simp only [IndexOp.run] at hrun
    obtain ⟨_, _, _, hother, _⟩ := insert_some hrun
    have hip : ip = IP := by
      by_contra hne
      rw [hother ip hne] at h1
      exact absurd h0 h1
    obtain ⟨_, ⟨hc, rfl⟩ | ⟨_, _, _, _, _, _, _, _, _, hpr, _⟩⟩ := proberInsert_some h
    · simp only [indexOp] at hop
      rw [if_neg hc] at hop
      cases hop
    · rw [hpr]
      exact ⟨by rw [hip, hIP], rfl, rfl⟩

/-- A call keeps its destination, and between its setup and its teardown it
keeps its channels registered; its teardown deletes the inner map of its
destination. -/
theorem step_prober_active {a : Action} {s s2 : Sys} (h : step a s = some s2) :
    s2.prober.IP = s.prober.IP ∧
    (s.prober.active = true →
      s2.prober.active = true ∨ s2.ie.Pings s.prober.IP = none) := by
  cases ha : a.isProber with
  | false =>
    rw [step_worker_prober ha h]
    exact ⟨rfl, fun hact => Or.inl hact⟩
  | true =>
    cases a with
    | proberSetup =>
      obtain ⟨hpc, _, rfl⟩ := proberSetup_some h
      exact ⟨rfl, fun _ => Or.inl rfl⟩
    | proberInsert now r =>
      obtain ⟨_, ⟨_, rfl⟩ | ⟨_, _, _, _, _, _, _, _, _, hpr, _⟩⟩ := proberInsert_some h
      · exact ⟨rfl, fun _ => Or.inl rfl⟩
      · rw [hpr]
        exact ⟨rfl, fun _ => Or.inl rfl⟩
    | proberSelect c =>
      obtain ⟨_, _, _, _, _, _, _, _, _, _, _, hpr⟩ := proberSelect_some h
      rw [hpr]
      split
      · exact ⟨rfl, fun _ => Or.inl rfl⟩
      · exact ⟨rfl, fun _ => Or.inl rfl⟩
    | proberSleep ev =>
      obtain ⟨_, rfl⟩ := proberSleep_some h
      exact ⟨rfl, fun _ => Or.inl rfl⟩
    | proberTeardown =>
      obtain ⟨_, _, rfl⟩ := proberTeardown_some h
      exact ⟨rfl, fun _ => Or.inr (by simp)⟩
    | _ => simp [Action.isProber] at ha

theorem Engine.focus_store (e : Engine) (c r : Nat) (s : Sys) (c2 r2 : Nat) :
    (e.store c r s).focus c2 r2 =
      { s with prober := if c2 = c then s.prober else e.probers c2,
               receiver := if r2 = r then s.receiver else e.receivers r2 } := by
  unfold Engine.store Engine.focus
  simp only [Function.update_apply]

theorem EngineInv_init (timeout D : Int) (fake : Bool) (calls : Nat → Call) :
    EngineInv (Engine.init timeout D fake calls) := by
  constructor
  · intro c r
    constructor <;>
      simp [Engine.init, Engine.focus, NewFullConfig, ICMPEngine.lookup]
  · intro ip h
    simp [Engine.init, NewFullConfig] at h

theorem EngineInv_step {m : Move} {e e2 : Engine} (hinv : EngineInv e)
    (h : e.step m = some e2) : EngineInv e2 := by
  obtain ⟨s2, hs, rfl⟩ := Engine.step_some h
  have h2 := HandleInv_step (hinv.handles m.call m.receiver) hs
  have hle := step_nextElement hs
  constructor
  · intro c r
    rw [Engine.focus_store]
    refine ⟨h2.node, h2.keyed, ?_, h2.exp⟩
    intro ip sq el ps hrc
    simp only at hrc
    by_cases hr : r = m.receiver
    · rw [if_pos hr] at hrc
      exact h2.recv ip sq el ps hrc
    · rw [if_neg hr] at hrc
      exact lt_of_lt_of_le ((hinv.handles m.call r).recv ip sq el ps hrc) hle
  · intro ip hne
    have hne2 : s2.ie.Pings ip ≠ none := hne
    obtain ⟨hIP, hact⟩ := step_prober_active hs
    by_cases h0 : e.ie.Pings ip = none
    · obtain ⟨a1, a2, a3⟩ := @step_Pings_some _ _ _ ip hs h0 hne2
      refine ⟨m.call, ?_, ?_⟩
      · simp only [Engine.store, Function.update_same]
        rw [a2, a1]
      · simp only [Engine.store, Function.update_same]
        exact a3
    · obtain ⟨c0, hc1, hc2⟩ := hinv.owner ip h0
      by_cases hc : c0 = m.call
      · rw [hc] at hc1 hc2
        refine ⟨m.call, ?_, ?_⟩
        · simp only [Engine.store, Function.update_same]
          rw [hIP]
          exact hc1
        · simp only [Engine.store, Function.update_same]
          rcases hact hc2 with h3 | h3
          · exact h3
          · exfalso
            apply hne2
            have : (e.focus m.call m.receiver).prober.IP = ip := hc1
            rw [← this]
            exact h3
      · refine ⟨c0, ?_, ?_⟩
        · simp only [Engine.store, Function.update_noteq hc]
          exact hc1
        · simp only [Engine.store, Function.update_noteq hc]
          exact hc2

theorem EngineInv_exec {timeout D : Int} {fake : Bool} {calls : Nat → Call}
    {sched : List Move} {e : Engine}
    (h : Engine.exec sched (Engine.init timeout D fake calls) = some e) : EngineInv e :=
  Engine.run_invariant EngineInv (fun _ => True) (fun _ _ _ _ hinv hs => EngineInv_step hinv hs)
    sched _ _ (fun _ _ => trivial) (EngineInv_init timeout D fake calls) h

theorem Engine.run_nextElement :
    ∀ (sched : List Move) (e e2 : Engine), Engine.exec sched e = some e2 →
      e.ie.nextElement ≤ e2.ie.nextElement := by
  intro sched
  induction sched with
  | nil =>
    intro e e2 h
    simp only [Engine.exec, Option.some.injEq] at h
    subst h
    exact le_refl _
  | cons a rest ih =>
    intro e e2 h
    rw [Engine.run_cons] at h
    cases hs : e.step a with
    | none => simp [hs] at h
    | some e1 =>
      simp only [hs, Option.bind] at h
      obtain ⟨s2, hs2, rfl⟩ := Engine.step_some hs
      exact le_trans (step_nextElement hs2) (ih _ e2 h)

/-- Along a schedule of the engine the list stays equal to the nodes created
and not yet terminated. -/
theorem Engine.Live_run :
    ∀ (sched : List Move) (e0 e : Engine) (T : List Nat), EngineInv e0 →
      Live T (e0.focus 0 0) → (∀ k ∈ T, k < e0.ie.nextElement) →
      Engine.exec sched e0 = some e →
        Live (T ++ (Engine.trace terminated sched e0).map Element.id) (e.focus 0 0) ∧
        (∀ k ∈ T ++ (Engine.trace terminated sched e0).map Element.id,
          k < e.ie.nextElement) := by
  intro sched
  induction sched with
  | nil =>
    intro e0 e T _ hlive hT h
    simp only [Engine.exec, Option.some.injEq] at h
    subst h
    simp only [Engine.trace, List.map_nil, List.append_nil]
    exact ⟨hlive, hT⟩
  | cons a rest ih =>
    intro e0 e T hinv hlive hT h
    rw [Engine.run_cons] at h
    cases hs : e0.step a with
    | none => simp [hs] at h
    | some e1 =>
      simp only [hs, Option.bind] at h
      obtain ⟨s2, hs2, rfl⟩ := Engine.step_some hs
      obtain ⟨h1, h2⟩ := Live_step_of_handles (hinv.handles a.call a.receiver) hlive hT hs2
      have h3 := ih _ e _ (EngineInv_step hinv hs) h1 h2 h
      simp only [Engine.trace, hs, List.map_append, ← List.append_assoc]
      exact h3

/-- The nodes created along a schedule of the engine have the consecutive
identities from the first free one on. -/
theorem Engine.created_ids :
    ∀ (sched : List Move) (e0 e : Engine), Engine.exec sched e0 = some e →
      (Engine.trace inserted sched e0).map Element.id =
        List.range' e0.ie.nextElement (e.ie.nextElement - e0.ie.nextElement) := by
  intro sched
  induction sched with
  | nil =>
    intro e0 e h
    simp only [Engine.exec, Option.some.injEq] at h
    subst h
    simp [Engine.trace]
  | cons a rest ih =>
    intro e0 e h
    rw [Engine.run_cons] at h
    cases hs : e0.step a with
    | none => simp [hs] at h
    | some e1 =>
      simp only [hs, Option.bind] at h
      obtain ⟨s2, hs2, rfl⟩ := Engine.step_some hs
      have hle := Engine.run_nextElement rest _ e h
      have hone := Icmpengine.inserted_ids [a.action] (e0.focus a.call a.receiver) s2
        (by simp only [Icmpengine.exec, hs2])
      simp only [Icmpengine.trace, hs2, List.append_nil] at hone
      simp only [Engine.trace, hs, List.map_append, ih _ e h, hone]
      have hle1 := step_nextElement hs2
      have e1 : (e0.focus a.call a.receiver).ie.nextElement = e0.ie.nextElement := rfl
      have e2 : (e0.store a.call a.receiver s2).ie.nextElement = s2.ie.nextElement := rfl
      rw [e1] at hle1 ⊢
      rw [e2] at hle ⊢
      obtain ⟨x, hx⟩ : ∃ x, s2.ie.nextElement = e0.ie.nextElement + x :=
        ⟨s2.ie.nextElement - e0.ie.nextElement, by omega⟩
      obtain ⟨y, hy⟩ : ∃ y, e.ie.nextElement = e0.ie.nextElement + x + y :=
        ⟨e.ie.nextElement - s2.ie.nextElement, by omega⟩
      rw [hy, hx]
      have q1 : e0.ie.nextElement + x - e0.ie.nextElement = x := by omega
      have q2 : e0.ie.nextElement + x + y - (e0.ie.nextElement + x) = y := by omega
      have q3 : e0.ie.nextElement + x + y - e0.ie.nextElement = x + y := by omega
      rw [q1, q2, q3, Nat.add_comm x y]
      exact List.range'_append_1 _ _ _

theorem Live_sorted {T : List Nat} {s : Sys} (h : Live T s) :
    s.ie.ExpiresDLL.Pairwise (fun a b => a.id < b.id) := by
  unfold Live at h
  have hp : (s.ie.ExpiresDLL.map Element.id).Pairwise (fun a b => a < b) := by
    rw [h]
    exact List.Pairwise.filter _ (List.pairwise_lt_range _)
  exact List.pairwise_map.mp hp

/-- C16: on an engine serving any number of `PingerConfig` calls, at the same
time or one after another, to any destinations, with any number of Receivers:
along every schedule from a fresh engine after which every call that was made
has returned and in which every node created was terminated exactly once (by
a Receiver's removal, the Expirer's fake-success removal or the Expirer's
expiry removal), every termination shortens the list by exactly one node, and
at the end the list is empty and `Pings` has no inner map. -/
theorem C16_index_returns_to_empty (timeout D : Int) (fake : Bool) (calls : Nat → Call)
    (sched : List Move) (e : Engine)
    (hexec : Engine.exec sched (Engine.init timeout D fake calls) = some e)
    (hret : ∀ c, (e.probers c).pc = .returned ∨ (e.probers c).pc = .start)
    (hall : ∀ el ∈ Engine.trace inserted sched (Engine.init timeout D fake calls),
      ((Engine.trace terminated sched (Engine.init timeout D fake calls)).map
        Element.id).count el.id = 1) :
    (∀ (pre : List Move) (m : Move) (post : List Move) (e1 e2 : Engine) (el : Element),
      sched = pre ++ m :: post →
      Engine.exec pre (Engine.init timeout D fake calls) = some e1 → e1.step m = some e2 →
      terminated m.action (e1.focus m.call m.receiver) = some el →
        e2.ie.ExpiresDLL.length + 1 = e1.ie.ExpiresDLL.length) ∧
    e.ie.ExpiresDLL = [] ∧ ∀ ip, e.ie.Pings ip = none := by
  have hinit := EngineInv_init timeout D fake calls
  have hlive0 : Live [] ((Engine.init timeout D fake calls).focus 0 0) := by
    simp [Live, Engine.init, Engine.focus, NewFullConfig]
  have hids := Engine.created_ids sched _ e hexec
  have hnext0 : (Engine.init timeout D fake calls).ie.nextElement = 0 := rfl
  rw [hnext0, Nat.sub_zero] at hids
  have hcount : ∀ k, k < e.ie.nextElement →
      ((Engine.trace terminated sched (Engine.init timeout D fake calls)).map
        Element.id).count k = 1 := by
    intro k hk
    have hmem : k ∈ (Engine.trace inserted sched (Engine.init timeout D fake calls)).map
        Element.id := by
      rw [hids, List.mem_range']
      exact ⟨k, hk, by omega⟩
    obtain ⟨x, hx, rfl⟩ := List.mem_map.mp hmem
    exact hall x hx
  refine ⟨?_, ?_, ?_⟩
  · intro pre m post e1 e2 el hsched hpre hstep hterm
    subst hsched
    have hinv1 := EngineInv_exec hpre
    obtain ⟨hlive1, _⟩ := Engine.Live_run pre _ e1 [] hinit hlive0 (by simp) hpre
    rw [List.nil_append] at hlive1
    have hrest : Engine.exec (m :: post) e1 = some e := by
      rw [Engine.run_append, hpre] at hexec
      exact hexec
    have hle := Engine.run_nextElement _ e1 e hrest
    obtain ⟨s2, hs2, rfl⟩ := Engine.step_some hstep
    have hop : ∃ ip sq, indexOp m.action (e1.focus m.call m.receiver) = .removal ip sq el := by
      unfold terminated at hterm
      split at hterm
      · rename_i ip sq x hq
        simp only [Option.some.injEq] at hterm
        subst hterm
        exact ⟨ip, sq, hq⟩
      · cases hterm
    obtain ⟨ip, sq, hop⟩ := hop
    have hlt := indexOp_removal_handle (hinv1.handles m.call m.receiver) hop
    have hlt2 : el.id < e1.ie.nextElement := hlt
    have hc := hcount el.id (by omega)
    rw [Engine.observed_append terminated pre (m :: post) _ e1 hpre] at hc
    simp only [Engine.trace, hstep, hterm, Option.toList, List.map_append, List.map_cons,
      List.map_nil, List.count_append, List.count_cons_self, List.count_nil] at hc
    have hnot : el.id ∉
        (Engine.trace terminated pre (Engine.init timeout D fake calls)).map Element.id := by
      apply List.count_eq_zero.mp
      omega
    have hmem : el.id ∈ e1.ie.ExpiresDLL.map Element.id := by
      unfold Live at hlive1
      have hl2 : e1.ie.ExpiresDLL.map Element.id =
          (List.range e1.ie.nextElement).filter (fun k => decide (k ∉
            (Engine.trace terminated pre (Engine.init timeout D fake calls)).map
              Element.id)) := hlive1
      rw [hl2, List.mem_filter, List.mem_range]
      exact ⟨hlt2, by simpa using hnot⟩
    obtain ⟨ie2, hrun, _, hL, _, _⟩ := step_indexOp hs2
    rw [hop] at hrun
    simp only [IndexOp.run, Option.some.injEq] at hrun
    subst hrun
    have hL2 : (e1.store m.call m.receiver s2).ie.ExpiresDLL =
        e1.ie.ExpiresDLL.filter (fun x => decide (x.id ≠ el.id)) := by
      show s2.ie.ExpiresDLL = _
      rw [hL]
      exact (remove_list _ ip sq el).1
    rw [hL2]
    exact length_filter_id _ _ (Live_sorted hlive1) hmem
  · obtain ⟨hlive, _⟩ := Engine.Live_run sched _ e [] hinit hlive0 (by simp) hexec
    rw [List.nil_append] at hlive
    unfold Live at hlive
    have hnil : (List.range e.ie.nextElement).filter
        (fun k => decide (k ∉ (Engine.trace terminated sched
          (Engine.init timeout D fake calls)).map Element.id)) = [] := by
      apply List.filter_eq_nil_iff.mpr
      intro k hk
      have hc := hcount k (List.mem_range.mp hk)
      have hmem : k ∈ (Engine.trace terminated sched
          (Engine.init timeout D fake calls)).map Element.id := by
        apply List.count_pos_iff.mp
        omega
      simpa using hmem
    have hl2 : e.ie.ExpiresDLL.map Element.id =
        (List.range e.ie.nextElement).filter (fun k => decide (k ∉
          (Engine.trace terminated sched (Engine.init timeout D fake calls)).map
            Element.id)) := hlive
    rw [hnil] at hl2
    exact List.map_eq_nil_iff.mp hl2
  · have hinv := EngineInv_exec hexec
    intro ip
    by_contra hne
    obtain ⟨c, _, hact⟩ := hinv.owner ip hne
    unfold Prober.active at hact
    rcases hret c with h | h <;> rw [h] at hact <;> cases hact

/-- Witness for C16: two calls at the same time to the destinations 7 and 9;
the probe (9, 0), second in the list, is removed by a Receiver, then the head
(7, 0) by the Expirer, and both calls return. -/
theorem C16_index_returns_to_empty_witness :
    ∃ e, Engine.exec twoCallsSchedule (Engine.init 1000 0 false twoCalls) = some e ∧
      (Engine.trace inserted twoCallsSchedule (Engine.init 1000 0 false twoCalls)).map
        Element.id = [0, 1] ∧
      (Engine.trace terminated twoCallsSchedule (Engine.init 1000 0 false twoCalls)).map
        Element.id = [1, 0] ∧
      e.ie.ExpiresDLL = [] ∧ ∀ ip, e.ie.Pings ip = none :=
  ⟨_, rfl, rfl, rfl,
    (C16_index_returns_to_empty 1000 0 false twoCalls twoCallsSchedule _ rfl
      (by
        intro c
        by_cases h0 : c = 0
        · subst h0
          exact Or.inl rfl
        · by_cases h1 : c = 1
          · subst h1
            exact Or.inl rfl
          · right
            simp [Engine.exec, twoCallsSchedule, Engine.step, Engine.store, Engine.focus,
              Function.update_noteq h0, Function.update_noteq h1, Engine.init, Call.prober])
      (by
        intro el he
        have h1 : (Engine.trace inserted twoCallsSchedule
            (Engine.init 1000 0 false twoCalls)).map Element.id = [0, 1] := rfl
        have h2 : (Engine.trace terminated twoCallsSchedule
            (Engine.init 1000 0 false twoCalls)).map Element.id = [1, 0] := rfl
        have h3 : el.id ∈ [0, 1] := h1 ▸ List.mem_map_of_mem _ he
        rw [h2]
        simp only [List.mem_cons, List.mem_singleton, List.not_mem_nil, or_false] at h3
        rcases h3 with h | h <;> rw [h] <;> rfl)).2⟩

theorem Engine.step_probers {m : Move} {e e2 : Engine} (h : e.step m = some e2) {c : Nat}
    (hc : m.call ≠ c) : e2.probers c = e.probers c := by
  obtain ⟨s2, _, rfl⟩ := Engine.step_some h
  simp only [Engine.store]
  exact Function.update_noteq (Ne.symm hc) _ _

theorem Engine.step_receivers {m : Move} {e e2 : Engine} (h : e.step m = some e2) {r : Nat}
    (hr : m.receiver ≠ r) : e2.receivers r = e.receivers r := by
  obtain ⟨s2, _, rfl⟩ := Engine.step_some h
  simp only [Engine.store]
  exact Function.update_noteq (Ne.symm hr) _ _

/-- A call that takes no step of a schedule keeps its local variables. -/
theorem Engine.exec_probers (c : Nat) :
    ∀ (sched : List Move) (e e2 : Engine), Engine.exec sched e = some e2 →
      (∀ m ∈ sched, m.call ≠ c) → e2.probers c = e.probers c := by
  intro sched
  induction sched with
  | nil =>
    intro e e2 h _
    simp only [Engine.exec, Option.some.injEq] at h
    rw [h]
  | cons a rest ih =>
    intro e e2 h hc
    rw [Engine.run_cons] at h
    cases hs : e.step a with
    | none => simp [hs] at h
    | some e1 =>
      simp only [hs, Option.bind] at h
      rw [ih e1 e2 h (fun m hm => hc m (List.mem_cons_of_mem _ hm)),
        Engine.step_probers hs (hc a (List.mem_cons_self _ _))]

/-- A Receiver that takes no step of a schedule stays where it is. -/
theorem Engine.exec_receivers (r : Nat) :
    ∀ (sched : List Move) (e e2 : Engine), Engine.exec sched e = some e2 →
      (∀ m ∈ sched, m.receiver ≠ r) → e2.receivers r = e.receivers r := by
  intro sched
  induction sched with
  | nil =>
    intro e e2 h _
    simp only [Engine.exec, Option.some.injEq] at h
    rw [h]
  | cons a rest ih =>
    intro e e2 h hr
    rw [Engine.run_cons] at h
    cases hs : e.step a with
    | none => simp [hs] at h
    | some e1 =>
      simp only [hs, Option.bind] at h
      rw [ih e1 e2 h (fun m hm => hr m (List.mem_cons_of_mem _ hm)),
        Engine.step_receivers hs (hr a (List.mem_cons_self _ _))]

/-- While a Receiver sits in its send with the lock held and the channel stays
full, the Expirer is at the head of its loop, and every call is at its
teardown or has not started, no goroutine of the engine can take a step other
than the receipt of the shutdown signal. -/
theorem Engine.stuck_of_lock {e : Engine} (hlock : e.lockHeld = true) (hexp : e.expirer = .top)
    (hp : ∀ c, (e.probers c).pc = .finish ∨ (e.probers c).pc = .start ∨
      (e.probers c).pc = .returned)
    (hr : ∀ r, e.receivers r = .idle ∨
      ∃ ip sq el ps, e.receivers r = .blocked ip sq el ps ∧
        ∀ c, receiverFinish ip sq el ps (e.focus c r) = none) :
    ∀ m : Move, m.action.isStop = false → e.step m = none := by
  intro m hstop
  cases hq : e.step m with
  | none => rfl
  | some e2 =>
    exfalso
    obtain ⟨s2, hs, _⟩ := Engine.step_some hq
    obtain ⟨c, r, a⟩ := m
    simp only at hs hstop
    have hl : (e.focus c r).lockHeld = true := hlock
    have he : (e.focus c r).expirer = .top := hexp
    have hpc : (e.focus c r).prober.pc = .finish ∨ (e.focus c r).prober.pc = .start ∨
        (e.focus c r).prober.pc = .returned := hp c
    cases a with
    | proberSetup =>
      obtain ⟨_, h2, _⟩ := proberSetup_some hs
      rw [hl] at h2
      cases h2
    | proberInsert now x =>
      obtain ⟨h1, _⟩ := proberInsert_some hs
      rw [h1] at hpc
      simp at hpc
    | proberSelect sc =>
      obtain ⟨h1, _⟩ := proberSelect_some hs
      rw [h1] at hpc
      simp at hpc
    | proberSleep ev =>
      obtain ⟨h1, _⟩ := proberSleep_some hs
      rw [h1] at hpc
      simp at hpc
    | proberTeardown =>
      obtain ⟨_, h2, _⟩ := proberTeardown_some hs
      rw [hl] at h2
      cases h2
    | expirerTop done =>
      obtain ⟨_, ⟨hd, _⟩ | ⟨_, h2, _⟩ | ⟨_, h2, _⟩ | ⟨_, h2, _⟩⟩ := expirerTop_some hs
      · subst hd
        simp [Action.isStop] at hstop
      · rw [hl] at h2
        cases h2
      · rw [hl] at h2
        cases h2
      · rw [hl] at h2
        cases h2
    | expirerSendSuccess now =>
      obtain ⟨_, _, _, h1, _⟩ := expirerSendSuccess_some hs
      rw [he] at h1
      cases h1
    | expirerWake done =>
      obtain ⟨_, h1, _⟩ := expirerWake_some hs
      rw [he] at h1
      cases h1
    | expirerRecheck =>
      obtain ⟨_, _, h1, _⟩ := expirerRecheck_some hs
      rw [he] at h1
      cases h1
    | expirerCommit =>
      obtain ⟨_, _, _, h1, _⟩ := expirerCommit_some hs
      rw [he] at h1
      cases h1
    | expirerSendExpired =>
      obtain ⟨_, _, _, _, h1, _⟩ := expirerSendExpired_some hs
      rw [he] at h1
      cases h1
    | expirerExit =>
      obtain ⟨h1, _⟩ := expirerExit_some hs
      rw [he] at h1
      cases h1
    | receiverRead ip sq t =>
      obtain ⟨_, _, h2, _⟩ := receiverRead_some hs
      rw [hl] at h2
      cases h2
    | receiverCommit =>
      obtain ⟨ip, sq, el, ps, hpc2, hfin | ⟨_, h2, _⟩⟩ := receiverCommit_some hs
      · have hrr : (e.focus c r).receiver = e.receivers r := rfl
        rcases hr r with h0 | ⟨ip2, sq2, el2, ps2, hb, hnone⟩
        · rw [hrr, h0] at hpc2
          simp at hpc2
        · rw [hrr, hb] at hpc2
          rcases hpc2 with h3 | h3
          · cases h3
          · simp only [ReceiverPC.blocked.injEq] at h3
            obtain ⟨rfl, rfl, rfl, rfl⟩ := h3
            rw [hnone c] at hfin
            cases hfin
      · rw [hl] at h2
        cases h2

/-- The run `blockedReceiverSchedule`: the reply to the probe (7, 1) finds the
success channel of the call full, the Receiver blocks in its send with the
engine lock held, and after the caller has cancelled the call nothing can
proceed: the call cannot take the lock for its teardown, the Receiver's send
has no reader, and the Expirer cannot take the lock either. -/
theorem blockedReceiver_exec :
    ∃ e, Engine.exec blockedReceiverSchedule (Engine.init 1000 0 false twoPacketCalls) =
        some e ∧
      e.lockHeld = true ∧ e.expirer = .top ∧ e.ie.Running = true ∧
      e.receivers 0 = .blocked 7 1 secondNode ⟨1, 1300, 1350, 50⟩ ∧
      (e.successQ 0).queue = [⟨0, 100, 150, 50⟩, ⟨0, 100, 151, 51⟩] ∧
      (e.successQ 0).cap = 2 ∧ e.ie.SuccessChs 7 = some 0 ∧
      e.ie.lookup 7 1 = some secondNode ∧ e.ie.ExpiresDLL = [secondNode] ∧
      (e.probers 0).pc = .finish ∧
      ∀ m : Move, m.action.isStop = false → e.step m = none := by
  have hsome : (Engine.exec blockedReceiverSchedule
      (Engine.init 1000 0 false twoPacketCalls)).isSome = true := rfl
  have hex : Engine.exec blockedReceiverSchedule (Engine.init 1000 0 false twoPacketCalls) =
      some ((Engine.exec blockedReceiverSchedule
        (Engine.init 1000 0 false twoPacketCalls)).get hsome) := (Option.some_get hsome).symm
  refine ⟨_, hex, rfl, rfl, rfl, rfl, rfl, rfl, rfl, rfl, rfl, rfl, ?_⟩
  have hcalls : ∀ m ∈ blockedReceiverSchedule, m.call = 0 := by decide
  have hrecv : ∀ m ∈ blockedReceiverSchedule, m.receiver ≤ 1 := by decide
  apply Engine.stuck_of_lock rfl rfl
  · intro c
    by_cases hc : c = 0
    · subst hc
      exact Or.inl rfl
    · right
      left
      rw [Engine.exec_probers c blockedReceiverSchedule _ _ hex
        (fun m hm => by rw [hcalls m hm]; exact Ne.symm hc)]
      rfl
  · intro r
    by_cases h0 : r = 0
    · subst h0
      exact Or.inr ⟨7, 1, secondNode, ⟨1, 1300, 1350, 50⟩, rfl, fun c => rfl⟩
    · left
      by_cases h1 : r = 1
      · subst h1
        rfl
      · rw [Engine.exec_receivers r blockedReceiverSchedule _ _ hex
          (fun m hm => by have := hrecv m hm; omega)]
        rfl

/-- C22: for every state in which a Receiver of a normal-mode engine is
between reads and the lock is free, and every decoded reply from peer `ip`
with sequence `sq`: if `(ip, sq)` is not in the map, the Receiver's lookup
leaves the whole state as it is. If it is there with node `el` and the success
channel of `ip` has room, the lookup and the write-locked section append
exactly one `PingSuccess` to that channel, delete the key and unlink `el`,
every other key reads as before, the nodes before and after `el` stay in
place, and nothing else changes. But when the channel is full the Receiver
takes the lock and blocks in its send: nothing is enqueued, key and node stay.
The run `fullChannelSchedule` leads a normal-mode engine with two Receivers to
such a state, in which the reply to the probe (7, 1) in flight finds the
channel of capacity 2 filled by the two `PingSuccess` of the probe (7, 0); and
once the caller has cancelled the call, the engine is deadlocked with the lock
held. -/
theorem C22_receiver_frame :
    (∀ (s : Sys) (ip sq : Nat) (receiveTime : Int),
      s.receiver = .idle → s.ie.FakeSuccess = false → s.lockHeld = false →
      (s.ie.lookup ip sq = none → step (.receiverRead ip sq receiveTime) s = some s) ∧
      (∀ el ch, s.ie.lookup ip sq = some el → s.ie.SuccessChs ip = some ch →
        ((s.successQ ch).queue.length < (s.successQ ch).cap →
          exec [.receiverRead ip sq receiveTime, .receiverCommit] s = some
            { s with
              successQ := Function.update s.successQ ch
                { cap := (s.successQ ch).cap,
                  queue := (s.successQ ch).queue ++
                    [⟨sq, el.Value.Send, receiveTime, receiveTime - el.Value.Send⟩] },
              ie := (s.ie.deleteSeq ip sq).remove el } ∧
          ((s.ie.deleteSeq ip sq).remove el).lookup ip sq = none ∧
          (∀ ip2 sq2, ¬ (ip2 = ip ∧ sq2 = sq) →
            ((s.ie.deleteSeq ip sq).remove el).lookup ip2 sq2 = s.ie.lookup ip2 sq2) ∧
          (s.ie.ExpiresDLL.Pairwise (fun a b => a.id < b.id) → el ∈ s.ie.ExpiresDLL →
            ∃ pre post, s.ie.ExpiresDLL = pre ++ el :: post ∧
              ((s.ie.deleteSeq ip sq).remove el).ExpiresDLL = pre ++ post)) ∧
        ((s.successQ ch).cap ≤ (s.successQ ch).queue.length →
          exec [.receiverRead ip sq receiveTime, .receiverCommit] s = some
            { s with
              lockHeld := true,
              receiver := .blocked ip sq el
                ⟨sq, el.Value.Send, receiveTime, receiveTime - el.Value.Send⟩ }))) ∧
    (∃ e e2, Engine.exec fullChannelSchedule (Engine.init 1000 0 false twoPacketCalls) =
        some e ∧
      e.receivers 0 = .idle ∧ e.receivers 1 = .idle ∧ e.lockHeld = false ∧
      e.ie.FakeSuccess = false ∧ e.ie.lookup 7 1 = some secondNode ∧
      e.ie.ExpiresDLL = [secondNode] ∧ e.ie.SuccessChs 7 = some 0 ∧
      (e.successQ 0).cap = 2 ∧
      (e.successQ 0).queue = [⟨0, 100, 150, 50⟩, ⟨0, 100, 151, 51⟩] ∧
      Engine.exec blockedReceiverSchedule (Engine.init 1000 0 false twoPacketCalls) =
        some e2 ∧
      e2.lockHeld = true ∧ e2.receivers 0 = .blocked 7 1 secondNode ⟨1, 1300, 1350, 50⟩ ∧
      (e2.successQ 0).queue = (e.successQ 0).queue ∧
      e2.ie.lookup 7 1 = some secondNode ∧ e2.ie.ExpiresDLL = [secondNode] ∧
      (e2.probers 0).pc = .finish ∧
      ∀ m : Move, m.action.isStop = false → e2.step m = none) := by
  constructor
  · intro s ip sq receiveTime hidle hmode hlock
    constructor
    · intro hlook
      simp [step, receiverRead, hidle, hmode, hlock, hlook]
    · intro el ch hlook hreg
      have h1 : step (.receiverRead ip sq receiveTime) s = some { s with receiver :=
          (.commit ip sq el ⟨sq, el.Value.Send, receiveTime, receiveTime - el.Value.Send⟩) } := by
        simp [step, receiverRead, hidle, hmode, hlock, hlook]
      constructor
      · intro hroom
        refine ⟨?_, ?_, ?_, ?_⟩
        · rw [exec_cons, h1, Option.bind, exec_cons]
          simp only [step, receiverCommit, hlock, if_true, receiverFinish, hreg, Chan.send,
            hroom, Option.bind, exec, Option.some.injEq]
          rw [← hidle, ← hlock]
        · rw [lookup_remove, lookup_deleteSeq]
          simp
        · intro ip2 sq2 hne
          rw [lookup_remove, lookup_deleteSeq, if_neg hne]
        · intro hs hmem
          rw [(remove_list s.ie ip sq el).1]
          exact filter_id_split _ _ hs hmem
      · intro hfull
        have hnroom : ¬ (s.successQ ch).queue.length < (s.successQ ch).cap := by omega
        rw [exec_cons, h1, Option.bind, exec_cons]
        simp only [step, receiverCommit, hlock, if_true, receiverFinish, hreg, Chan.send,
          hnroom, if_false, Option.bind, exec]
  · obtain ⟨e2, h0, h1, _, _, h4, h5, _, _, h8, h9, h10, h11⟩ := blockedReceiver_exec
    exact ⟨_, e2, rfl, rfl, rfl, rfl, rfl, rfl, rfl, rfl, rfl, rfl, h0, h1, h4, h5, h8, h9, h10,
      h11⟩

/-- An iteration of the Expirer that leaves the state as it is repeats for
ever. -/
theorem expirerLoop_fixed {s : Sys} (h : ∀ now, expirerIteration now s = some s) :
    ∀ clock, expirerLoop clock s = some s := by
  intro clock
  induction clock with
  | nil => rfl
  | cons now clock ih => simp only [expirerLoop, h now, ih]

/-- C27: the Expirer loop does not terminate on an engine that serves a second
call after a cancelled one. After `reuseSchedule` the list holds the node left by the
cancelled call and the node of the probe (7, 0) of the second call; both have
their key (7, 0) in the map, the Expirer is at the head of its loop and the
lock is free. The first iteration of the Expirer snapshots the head, finds the
key at its recheck and removes the node recorded under it, which is the second
node, not the head; the `PingExpired` it sends to the second call carries the
send time 100 of the head. Every later iteration finds no key, removes nothing
and does not exit: the list keeps the head, `Running` stays set, and the loop
never ends. And on an engine with two Receivers, after
`blockedReceiverSchedule`, the list holds one probe recorded under its key, but
a Receiver holds the lock for ever and the Expirer, at the head of its loop,
can never take a step. -/
theorem C27_expirer_terminates :
    (∃ e s1, Engine.exec reuseSchedule (Engine.init 1000 0 false (reuseCalls 0 7 1)) =
        some e ∧
      e.expirer = .top ∧ e.lockHeld = false ∧
      e.ie.ExpiresDLL = [cancelledNode, reuseNode 7 false] ∧
      (∀ el ∈ e.ie.ExpiresDLL, e.ie.lookup el.Value.NetaddrIP el.Value.Seq ≠ none) ∧
      e.ie.lookup 7 0 = some (reuseNode 7 false) ∧
      (e.probers 0).pc = .returned ∧ (e.probers 1).pc = .select ∧
      (e.probers 1).expiredCh = 1 ∧
      expirerIteration 1100 (e.focus 1 0) = some s1 ∧
      s1.ie.ExpiresDLL = [cancelledNode] ∧ (s1.expiredQ 1).queue = [⟨0, 100⟩] ∧
      s1.expirer = .top ∧ s1.lockHeld = false ∧ s1.ie.Running = true ∧
      s1.ie.lookup 7 0 = none ∧
      (∀ now, expirerIteration now s1 = some s1) ∧
      (∀ clock, expirerLoop clock s1 = some s1)) ∧
    (∃ e, Engine.exec blockedReceiverSchedule (Engine.init 1000 0 false twoPacketCalls) =
        some e ∧
      e.expirer = .top ∧ e.ie.Running = true ∧ e.ie.ExpiresDLL = [secondNode] ∧
      e.ie.lookup 7 1 = some secondNode ∧ e.lockHeld = true ∧
      (∀ c r, step (.expirerTop false) (e.focus c r) = none) ∧
      ∀ m : Move, m.action.isStop = false → e.step m = none) := by
  constructor
  · have hsome : (Engine.exec reuseSchedule
        (Engine.init 1000 0 false (reuseCalls 0 7 1))).isSome = true := rfl
    have hsome1 : (expirerIteration 1100 (((Engine.exec reuseSchedule
        (Engine.init 1000 0 false (reuseCalls 0 7 1))).get hsome).focus 1 0)).isSome = true :=
      rfl
    have hfix : ∀ now, expirerIteration now
        ((expirerIteration 1100 (((Engine.exec reuseSchedule
          (Engine.init 1000 0 false (reuseCalls 0 7 1))).get hsome).focus 1 0)).get hsome1) =
        some ((expirerIteration 1100 (((Engine.exec reuseSchedule
          (Engine.init 1000 0 false (reuseCalls 0 7 1))).get hsome).focus 1 0)).get hsome1) :=
      fun _ => rfl
    refine ⟨_, _, (Option.some_get hsome).symm, rfl, rfl, rfl, ?_, rfl, rfl, rfl, rfl,
      (Option.some_get hsome1).symm, rfl, rfl, rfl, rfl, rfl, rfl, hfix,
      expirerLoop_fixed hfix⟩
    intro el hel
    have hl : ((Engine.exec reuseSchedule
        (Engine.init 1000 0 false (reuseCalls 0 7 1))).get hsome).ie.ExpiresDLL =
        [cancelledNode, reuseNode 7 false] := rfl
    rw [hl] at hel
    simp only [List.mem_cons, List.mem_singleton, List.not_mem_nil, or_false] at hel
    rcases hel with rfl | rfl
    · exact fun h => Option.noConfusion (h.symm.trans (rfl : _ = some (reuseNode 7 false)))
    · exact fun h => Option.noConfusion (h.symm.trans (rfl : _ = some (reuseNode 7 false)))
  · obtain ⟨e, h0, h1, h2, h3, _, _, _, _, h8, h9, _, h11⟩ := blockedReceiver_exec
    refine ⟨e, h0, h2, h3, h9, h8, h1, ?_, h11⟩
    intro c r
    have := h11 ⟨c, r, .expirerTop false⟩ rfl
    unfold Engine.step at this
    cases hq : step (.expirerTop false) (e.focus c r) with
    | none => rfl
    | some s2 => simp [hq] at this

theorem deleteSeq_DebugLevel (ie : ICMPEngine) (ip sq : Nat) :
    (ie.deleteSeq ip sq).DebugLevel = ie.DebugLevel := by
  unfold ICMPEngine.deleteSeq
  cases ie.Pings ip <;> rfl

/-- No step changes the debug level of the engine. -/
theorem step_DebugLevel {a : Action} {s s2 : Sys} (h : step a s = some s2) :
    s2.ie.DebugLevel = s.ie.DebugLevel := by
  cases a with
  | proberSetup =>
    obtain ⟨_, _, rfl⟩ := proberSetup_some h
    rfl
  | proberInsert now r =>
    by_cases hc : s.prober.st.i < s.prober.packets ∧ s.prober.st.keepLooping = true
    · exact (proberInsert_frame h hc).2.2.2.1
    · obtain ⟨_, ⟨_, rfl⟩ | ⟨h1, h2, _⟩⟩ := proberInsert_some h
      · rfl
      · exact absurd ⟨h1, h2⟩ hc
  | proberSelect c =>
    obtain ⟨_, _, _, _, _, hie, _⟩ := proberSelect_some h
    rw [hie]
  | proberSleep ev =>
    obtain ⟨_, rfl⟩ := proberSleep_some h
    rfl
  | proberTeardown =>
    obtain ⟨_, _, rfl⟩ := proberTeardown_some h
    rfl
  | expirerTop done =>
    obtain ⟨_, ⟨_, rfl⟩ | ⟨_, _, _, rfl⟩ | ⟨_, _, _, _, _, _, _, rfl⟩ |
      ⟨_, _, _, _, _, _, rfl⟩⟩ := expirerTop_some h
    · rfl
    · rfl
    · simp only [deleteSeq_DebugLevel, ICMPEngine.remove]
    · rfl
  | expirerSendSuccess now =>
    obtain ⟨_, _, _, _, _, rfl⟩ := expirerSendSuccess_some h
    rfl
  | expirerWake done =>
    obtain ⟨_, _, rfl⟩ := expirerWake_some h
    rfl
  | expirerRecheck =>
    obtain ⟨_, _, _, _, ⟨_, _, rfl⟩ | ⟨_, rfl⟩⟩ := expirerRecheck_some h
    · rfl
    · rfl
  | expirerCommit =>
    obtain ⟨_, _, _, _, _, rfl⟩ := expirerCommit_some h
    simp only [deleteSeq_DebugLevel, ICMPEngine.remove]
  | expirerSendExpired =>
    obtain ⟨_, _, _, _, _, _, rfl⟩ := expirerSendExpired_some h
    rfl
  | expirerExit =>
    obtain ⟨_, _, rfl⟩ := expirerExit_some h
    rfl
  | receiverRead ip sq t =>
    obtain ⟨_, _, _, ⟨_, rfl⟩ | ⟨_, _, rfl⟩⟩ := receiverRead_some h
    · rfl
    · rfl
  | receiverCommit =>
    obtain ⟨ip, sq, el, ps, _, hfin | ⟨_, _, _, rfl⟩⟩ := receiverCommit_some h
    · obtain ⟨_, _, _, _, rfl⟩ := receiverFinish_some hfin
      simp only [deleteSeq_DebugLevel, ICMPEngine.remove]
    · rfl

/-- In fake-success mode with drop probability 0, a debug level above 100 and
fewer than 10 packets, a call that is neither cancelled nor shut down never
gets past its first probe: the success of that probe cannot be handled, because
the progress log line divides by zero. -/
theorem small_run_stuck (timeout D : Int) (IP N : Nat) (sortRTTs : Bool)
    (hD : 100 < D) (h1 : 1 ≤ N) (hN : N < 10) :
    ∀ (sched : List Action) (s : Sys), (∀ a ∈ sched, a.isStop = false) →
      exec sched (Sys.init timeout D true IP N sortRTTs 0) = some s →
        s.prober.st.i = 0 ∧ s.prober.st.results.Successes = 0 ∧
        (s.prober.pc = .start ∨ s.prober.pc = .loop ∨ s.prober.pc = .select) := by
  intro sched s hstop hexec
  have hN2 : N < 65536 := by omega
  have hinv := exec_invariant
    (fun s => FakeSuccessInv N s ∧ s.ie.DebugLevel = D ∧ s.prober.st.i = 0 ∧
      s.prober.st.results.Successes = 0 ∧
      (s.prober.pc = .start ∨ s.prober.pc = .loop ∨ s.prober.pc = .select))
    (fun a => a.isStop = false) ?_ sched _ s hstop
    ⟨FakeSuccessInv_init timeout D IP N sortRTTs, rfl, rfl, rfl, Or.inl rfl⟩ hexec
  · exact ⟨hinv.2.2.1, hinv.2.2.2.1, hinv.2.2.2.2⟩
  · intro a s s2 ha ⟨hf, hd, hi, hs, hpc⟩ h
    have hf2 := FakeSuccessInv_step hN2 a s s2 ha hf h
    have hd2 : s2.ie.DebugLevel = D := by rw [step_DebugLevel h, hd]
    refine ⟨hf2, hd2, ?_⟩
    cases hw : a.isProber with
    | false =>
      rw [step_worker_prober hw h]
      exact ⟨hi, hs, hpc⟩
    | true =>
      cases a with
      | proberSetup =>
        obtain ⟨_, _, rfl⟩ := proberSetup_some h
        exact ⟨rfl, rfl, Or.inr (Or.inl rfl)⟩
      | proberInsert now r =>
        obtain ⟨_, ⟨hc, _⟩ | ⟨_, _, _, _, _, _, _, _, _, hpr, _⟩⟩ := proberInsert_some h
        · exfalso
          apply hc
          rw [hi, hf.pkts]
          exact ⟨by omega, hf.keep⟩
        · rw [hpr]
          exact ⟨hi, hs, Or.inr (Or.inr rfl)⟩
      | proberSelect c =>
        exfalso
        obtain ⟨_, ev, st1, hsel, hcase, _⟩ := proberSelect_some h
        cases c with
        | success =>
          obtain ⟨ps, q, _, hev, _⟩ := hcase
          subst hev
          unfold onSelect at hsel
          simp only at hsel
          cases hq : onSuccess s.ie.DebugLevel s.prober.packets s.prober.st.i ps
              s.prober.st.results with
          | error x => simp [hq] at hsel
          | ok r2 =>
            obtain ⟨_, hnd, _⟩ := onSuccess_ok hq
            apply hnd
            rw [hd, hf.pkts]
            refine ⟨hD, ?_⟩
            have : N / 10 = 0 := by omega
            exact this
        | expired =>
          obtain ⟨pe, q, hrecv, _⟩ := hcase
          have := hf.noexp s.prober.expiredCh
          simp [Chan.recv, this] at hrecv
        | done => simp [Action.isStop] at ha
        | allDone => simp [Action.isStop] at ha
      | proberSleep ev =>
        obtain ⟨hp, _⟩ := proberSleep_some h
        rw [hp] at hpc
        simp at hpc
      | proberTeardown =>
        obtain ⟨hp, _⟩ := proberTeardown_some h
        rw [hp] at hpc
        simp at hpc
      | _ => simp [Action.isProber] at hw

/-- While the Expirer of a fake-success engine sits in its send on a nil
channel, and every call that was made has returned or waits in its blocking
`select` with empty channels, none of these goroutines can take a step other
than a cancel or the receipt of the shutdown signal. -/
theorem Engine.stuck_of_nil_send {e : Engine} {p : Pings} (hfake : e.ie.FakeSuccess = true)
    (hexp : e.expirer = .sendSuccess p none)
    (hp : ∀ c, c ≤ 1 → (e.probers c).pc = .returned ∨
      ((e.probers c).pc = .select ∧ (e.successQ (e.probers c).successCh).queue = [] ∧
        (e.expiredQ (e.probers c).expiredCh).queue = []))
    (hr : ∀ r, e.receivers r = .idle) :
    ∀ m : Move, m.call ≤ 1 → m.action.isStop = false → e.step m = none := by
  intro m hcall hstop
  cases hq : e.step m with
  | none => rfl
  | some e2 =>
    exfalso
    obtain ⟨s2, hs, _⟩ := Engine.step_some hq
    obtain ⟨c, r, a⟩ := m
    simp only at hs hstop hcall
    have he : (e.focus c r).expirer = .sendSuccess p none := hexp
    have hrc : (e.focus c r).receiver = .idle := hr r
    have hpc : (e.focus c r).prober.pc = .returned ∨
        ((e.focus c r).prober.pc = .select ∧
          ((e.focus c r).successQ (e.focus c r).prober.successCh).queue = [] ∧
          ((e.focus c r).expiredQ (e.focus c r).prober.expiredCh).queue = []) := hp c hcall
    cases a with
    | proberSetup =>
      obtain ⟨h1, _⟩ := proberSetup_some hs
      rw [h1] at hpc
      simp at hpc
    | proberInsert now x =>
      obtain ⟨h1, _⟩ := proberInsert_some hs
      rw [h1] at hpc
      simp at hpc
    | proberSelect sc =>
      obtain ⟨h1, ev, st1, _, hcase, _⟩ := proberSelect_some hs
      rcases hpc with h2 | ⟨_, hS, hE⟩
      · rw [h1] at h2
        cases h2
      · cases sc with
        | success =>
          obtain ⟨ps, q, hrecv, _⟩ := hcase
          simp [Chan.recv, hS] at hrecv
        | expired =>
          obtain ⟨pe, q, hrecv, _⟩ := hcase
          simp [Chan.recv, hE] at hrecv
        | done => simp [Action.isStop] at hstop
        | allDone => simp [Action.isStop] at hstop
    | proberSleep ev =>
      obtain ⟨h1, _⟩ := proberSleep_some hs
      rw [h1] at hpc
      simp at hpc
    | proberTeardown =>
      obtain ⟨h1, _⟩ := proberTeardown_some hs
      rw [h1] at hpc
      simp at hpc
    | expirerTop done =>
      obtain ⟨h1, _⟩ := expirerTop_some hs
      rw [he] at h1
      cases h1
    | expirerSendSuccess now =>
      obtain ⟨_, _, _, h1, _⟩ := expirerSendSuccess_some hs
      rw [he] at h1
      cases h1
    | expirerWake done =>
      obtain ⟨_, h1, _⟩ := expirerWake_some hs
      rw [he] at h1
      cases h1
    | expirerRecheck =>
      obtain ⟨_, _, h1, _⟩ := expirerRecheck_some hs
      rw [he] at h1
      cases h1
    | expirerCommit =>
      obtain ⟨_, _, _, h1, _⟩ := expirerCommit_some hs
      rw [he] at h1
      cases h1
    | expirerSendExpired =>
      obtain ⟨_, _, _, _, h1, _⟩ := expirerSendExpired_some hs
      rw [he] at h1
      cases h1
    | expirerExit =>
      obtain ⟨h1, _⟩ := expirerExit_some hs
      rw [he] at h1
      cases h1
    | receiverRead ip sq t =>
      obtain ⟨_, h2, _⟩ := receiverRead_some hs
      have h3 : (e.focus c r).ie.FakeSuccess = true := hfake
      rw [h3] at h2
      cases h2
    | receiverCommit =>
      obtain ⟨ip, sq, el, ps, hpc2, _⟩ := receiverCommit_some hs
      rw [hrc] at hpc2
      simp at hpc2

/-- C3: a call in fake-success mode with drop probability 0 that is not
cancelled need not end with `Successes = N`. On an engine whose debug level for
`PingerConfig` is above 100 (111 is the package default), a call with
`1 ≤ N < 10` packets that is neither cancelled nor shut down never returns and
counts no success: the success of its first probe cannot be handled, because
the progress log line divides by zero; so for `N = 1` at debug level 111 the
synthesized success is queued and the step that consumes it faults. And on a
fake-success engine that has served a call cancelled with its probe in flight,
the Expirer removes the node left in the list, reads the nil success channel
of the returned call and stays blocked in its send; the probe of a later call,
which is not cancelled, is never removed, no success is ever synthesized for
it, and that call waits in its `select` for ever. -/
theorem C3_fake_success_without_drop :
    (∀ (timeout D : Int) (IP N : Nat) (sortRTTs : Bool) (sched : List Action) (s : Sys),
      100 < D → 1 ≤ N → N < 10 → (∀ a ∈ sched, a.isStop = false) →
      exec sched (Sys.init timeout D true IP N sortRTTs 0) = some s →
        s.prober.pc ≠ .returned ∧ s.prober.st.results.Successes = 0) ∧
    (∃ s, exec [.proberSetup, .proberInsert 100 0, .expirerTop false, .expirerSendSuccess 100]
        (Sys.init 1000 111 true 7 1 false 0) = some s ∧
      s.prober.pc = .select ∧ (s.successQ 0).queue = [⟨0, 100, 100, 0⟩] ∧
      s.prober.successCh = 0 ∧
      onSuccess 111 1 0 ⟨0, 100, 100, 0⟩ s.prober.st.results = .error .divideByZero ∧
      step (.proberSelect .success) s = none) ∧
    (∃ e, Engine.exec fakeReuseSchedule (Engine.init 1000 0 true (reuseCalls 0 9 1)) =
        some e ∧
      (e.probers 0).pc = .returned ∧ (e.probers 1).pc = .select ∧
      (e.probers 1).st.results.Successes = 0 ∧
      e.expirer = .sendSuccess cancelledNode.Value none ∧
      e.ie.ExpiresDLL = [reuseNode 9 false] ∧ e.ie.lookup 9 0 = some (reuseNode 9 false) ∧
      (e.successQ (e.probers 1).successCh).queue = [] ∧
      (e.expiredQ (e.probers 1).expiredCh).queue = [] ∧
      ∀ m : Move, m.call ≤ 1 → m.action.isStop = false → e.step m = none) := by
  refine ⟨?_, ⟨_, rfl, rfl, rfl, rfl, rfl, rfl⟩, ?_⟩
  · intro timeout D IP N sortRTTs sched s hD h1 hN hstop hexec
    obtain ⟨_, hS, hpc⟩ := small_run_stuck timeout D IP N sortRTTs hD h1 hN sched s hstop hexec
    refine ⟨?_, hS⟩
    intro hret
    rw [hret] at hpc
    simp at hpc
  · have hsome : (Engine.exec fakeReuseSchedule
        (Engine.init 1000 0 true (reuseCalls 0 9 1))).isSome = true := rfl
    have hex : Engine.exec fakeReuseSchedule (Engine.init 1000 0 true (reuseCalls 0 9 1)) =
        some ((Engine.exec fakeReuseSchedule
          (Engine.init 1000 0 true (reuseCalls 0 9 1))).get hsome) :=
      (Option.some_get hsome).symm
    have hrecv : ∀ m ∈ fakeReuseSchedule, m.receiver = 0 := by decide
    refine ⟨_, hex, rfl, rfl, rfl, rfl, rfl, rfl, rfl, rfl, ?_⟩
    apply Engine.stuck_of_nil_send rfl rfl
    · intro c hc
      have hc2 : c = 0 ∨ c = 1 := by omega
      rcases hc2 with rfl | rfl
      · exact Or.inl rfl
      · exact Or.inr ⟨rfl, rfl, rfl⟩
    · intro r
      by_cases h0 : r = 0
      · subst h0
        rfl
      · rw [Engine.exec_receivers r fakeReuseSchedule _ _ hex
          (fun m hm => by rw [hrecv m hm]; exact Ne.symm h0)]
        rfl

theorem Engine.store_focus (e : Engine) (c r : Nat) : e.store c r (e.focus c r) = e := by
  unfold Engine.store Engine.focus
  simp only [Function.update_eq_self]

theorem Engine.store_expirer (e : Engine) (c r : Nat) (x : ExpirerPC) :
    e.store c r { e.focus c r with expirer := x } = { e with expirer := x } := by
  unfold Engine.store Engine.focus
  simp only [Function.update_eq_self]

theorem ResidualInv.with_expirer {e : Engine} (h : ResidualInv e) {x : ExpirerPC}
    (hx : x = .top ∨
      ∃ v, (x = .sleeping v ∨ x = .recheck v true) ∧ v.NetaddrIP = 7 ∧ v.Seq = 0) :
    ResidualInv { e with expirer := x } :=
  ⟨h.list, h.others, h.mode, h.unlocked, h.first, h.second, h.fails, h.succs, h.emptyS,
    h.emptyE, h.recv, hx⟩

/-- The steps that are neither a cancel, nor a shutdown, nor the receipt of a
reply from the destination 9 keep the engine in the states of `ResidualInv`. -/
theorem ResidualInv_step {m : Move} {e e2 : Engine} (hinv : ResidualInv e)
    (hcall : m.call ≤ 1) (hstop : m.action.isStop = false)
    (hreply : m.action.isReplyFrom 9 = false) (h : e.step m = some e2) : ResidualInv e2 := by
  obtain ⟨s2, hs, rfl⟩ := Engine.step_some h
  obtain ⟨c, r, a⟩ := m
  simp only at hs hstop hcall hreply ⊢
  have hrc : (e.focus c r).receiver = .idle := hinv.recv r
  have hpc : (e.focus c r).prober.pc = .returned ∨
      ((e.focus c r).prober.pc = .select ∧
        ((e.focus c r).successQ (e.focus c r).prober.successCh).queue = [] ∧
        ((e.focus c r).expiredQ (e.focus c r).prober.expiredCh).queue = []) := by
    have hc2 : c = 0 ∨ c = 1 := by omega
    rcases hc2 with rfl | rfl
    · exact Or.inl hinv.first
    · exact Or.inr ⟨hinv.second, hinv.emptyS, hinv.emptyE⟩
  have hexp : (e.focus c r).expirer = e.expirer := rfl
  have hlook : ∀ ip sq, ip ≠ 9 → (e.focus c r).ie.lookup ip sq = none := by
    intro ip sq hip
    unfold ICMPEngine.lookup
    have : (e.focus c r).ie.Pings ip = none := hinv.others ip hip
    rw [this]
  cases a with
  | proberSetup =>
    exfalso
    obtain ⟨h1, _⟩ := proberSetup_some hs
    rw [h1] at hpc
    simp at hpc
  | proberInsert now x =>
    exfalso
    obtain ⟨h1, _⟩ := proberInsert_some hs
    rw [h1] at hpc
    simp at hpc
  | proberSelect sc =>
    exfalso
    obtain ⟨h1, ev, st1, _, hcase, _⟩ := proberSelect_some hs
    rcases hpc with h2 | ⟨_, hS, hE⟩
    · rw [h1] at h2
      cases h2
    · cases sc with
      | success =>
        obtain ⟨ps, q, hrecv, _⟩ := hcase
        simp [Chan.recv, hS] at hrecv
      | expired =>
        obtain ⟨pe, q, hrecv, _⟩ := hcase
        simp [Chan.recv, hE] at hrecv
      | done => simp [Action.isStop] at hstop
      | allDone => simp [Action.isStop] at hstop
  | proberSleep ev =>
    exfalso
    obtain ⟨h1, _⟩ := proberSleep_some hs
    rw [h1] at hpc
    simp at hpc
  | proberTeardown =>
    exfalso
    obtain ⟨h1, _⟩ := proberTeardown_some hs
    rw [h1] at hpc
    simp at hpc
  | expirerTop done =>
    obtain ⟨v0, v1, hl, hk1, hk2⟩ := hinv.list
    obtain ⟨_, ⟨hd, _⟩ | ⟨_, _, hnil, _⟩ | ⟨_, _, _, _, _, hf, _⟩ |
      ⟨_, _, el, rest, hcons, _, rfl⟩⟩ := expirerTop_some hs
    · subst hd
      simp [Action.isStop] at hstop
    · have : (e.focus c r).ie.ExpiresDLL = [⟨0, v0⟩, ⟨1, v1⟩] := hl
      rw [this] at hnil
      cases hnil
    · have : (e.focus c r).ie.FakeSuccess = false := hinv.mode
      rw [this] at hf
      cases hf
    · have hl2 : (e.focus c r).ie.ExpiresDLL = [⟨0, v0⟩, ⟨1, v1⟩] := hl
      rw [hl2] at hcons
      simp only [List.cons.injEq] at hcons
      obtain ⟨rfl, _⟩ := hcons
      rw [Engine.store_expirer]
      exact hinv.with_expirer (Or.inr ⟨v0, Or.inl rfl, hk1, hk2⟩)
  | expirerSendSuccess now =>
    exfalso
    obtain ⟨_, _, _, h1, _⟩ := expirerSendSuccess_some hs
    rw [hexp] at h1
    rcases hinv.exp with h2 | ⟨v, h2 | h2, _⟩ <;> rw [h2] at h1 <;> cases h1
  | expirerWake done =>
    obtain ⟨p, h1, rfl⟩ := expirerWake_some hs
    cases done with
    | true => simp [Action.isStop] at hstop
    | false =>
      rw [hexp] at h1
      rcases hinv.exp with h2 | ⟨v, h2 | h2, hk1, hk2⟩
      · rw [h2] at h1
        cases h1
      · rw [h2] at h1
        simp only [ExpirerPC.sleeping.injEq] at h1
        subst h1
        rw [Engine.store_expirer]
        exact hinv.with_expirer (Or.inr ⟨v, Or.inr rfl, hk1, hk2⟩)
      · rw [h2] at h1
        cases h1
  | expirerRecheck =>
    obtain ⟨p, kl, h1, _, ⟨el, hfound, _⟩ | ⟨_, rfl⟩⟩ := expirerRecheck_some hs
    · exfalso
      rw [hexp] at h1
      rcases hinv.exp with h2 | ⟨v, h2 | h2, hk1, hk2⟩
      · rw [h2] at h1
        cases h1
      · rw [h2] at h1
        cases h1
      · rw [h2] at h1
        simp only [ExpirerPC.recheck.injEq] at h1
        obtain ⟨rfl, _⟩ := h1
        rw [hk1, hlook 7 _ (by decide)] at hfound
        cases hfound
    · rw [hexp] at h1
      rcases hinv.exp with h2 | ⟨v, h2 | h2, hk1, hk2⟩
      · rw [h2] at h1
        cases h1
      · rw [h2] at h1
        cases h1
      · rw [h2] at h1
        simp only [ExpirerPC.recheck.injEq] at h1
        obtain ⟨_, rfl⟩ := h1
        rw [Engine.store_expirer]
        exact hinv.with_expirer (Or.inl rfl)
  | expirerCommit =>
    exfalso
    obtain ⟨_, _, _, h1, _⟩ := expirerCommit_some hs
    rw [hexp] at h1
    rcases hinv.exp with h2 | ⟨v, h2 | h2, _⟩ <;> rw [h2] at h1 <;> cases h1
  | expirerSendExpired =>
    exfalso
    obtain ⟨_, _, _, _, h1, _⟩ := expirerSendExpired_some hs
    rw [hexp] at h1
    rcases hinv.exp with h2 | ⟨v, h2 | h2, _⟩ <;> rw [h2] at h1 <;> cases h1
  | expirerExit =>
    exfalso
    obtain ⟨h1, _⟩ := expirerExit_some hs
    rw [hexp] at h1
    rcases hinv.exp with h2 | ⟨v, h2 | h2, _⟩ <;> rw [h2] at h1 <;> cases h1
  | receiverRead ip sq t =>
    have hip : ip ≠ 9 := by simpa [Action.isReplyFrom] using hreply
    obtain ⟨_, _, _, ⟨_, rfl⟩ | ⟨el, hfound, _⟩⟩ := receiverRead_some hs
    · rw [Engine.store_focus]
      exact hinv
    · rw [hlook ip sq hip] at hfound
      cases hfound
  | receiverCommit =>
    exfalso
    obtain ⟨ip, sq, el, ps, hpc2, _⟩ := receiverCommit_some hs
    rw [hrc] at hpc2
    simp at hpc2

/-- C4: a call with drop probability 1 that is not cancelled need not end with
`Failures = N`, on an engine that has served a call cancelled with its probe in
flight. After `reuseSchedule` on a normal-mode engine, with drop
probability 1 and a second call to the destination 9, the list holds the node
left by the cancelled call, whose key the teardown has deleted, and behind it
the node of the probe (9, 0). The Expirer snapshots the head, sleeps, finds no
key at its recheck and goes back to the same head without removing it; the
probe behind it never expires. Along every schedule of the two calls, the
Expirer and the Receivers without cancel, shutdown or reply from the
destination 9, the second call stays in its blocking `select` with no failure
counted: it never returns. Besides, a reply from the destination that the
engine did not ask for ends a probe as a success: with drop probability 1 in
normal mode, one packet and a reply carrying the sequence number 0, the call
returns with `Successes = 1` and `Failures = 0`. -/
theorem C4_drop_probability_one :
    (∃ e e3, Engine.exec reuseSchedule (Engine.init 1000 0 false (reuseCalls 1 9 1)) =
        some e ∧
      (e.probers 0).pc = .returned ∧ (e.probers 1).pc = .select ∧ (e.probers 1).IP = 9 ∧
      (e.probers 1).dropProb = 1 ∧ (e.probers 1).packets = 1 ∧
      e.ie.ExpiresDLL.map Element.id = [0, 1] ∧ e.ie.lookup 7 0 = none ∧
      (e.ie.lookup 9 0).map Element.id = some 1 ∧ e.expirer = .top ∧
      Engine.exec [⟨1, 0, .expirerTop false⟩, ⟨1, 0, .expirerWake false⟩,
        ⟨1, 0, .expirerRecheck⟩] e = some e3 ∧
      e3.expirer = .top ∧ e3.ie.ExpiresDLL.map Element.id = [0, 1] ∧
      ∀ (sched : List Move) (e2 : Engine),
        (∀ m ∈ sched, m.call ≤ 1 ∧ m.action.isStop = false ∧
          m.action.isReplyFrom 9 = false) →
        Engine.exec sched e = some e2 →
          (e2.probers 1).pc = .select ∧ (e2.probers 1).st.results.Failures = 0 ∧
          (e2.probers 1).st.results.Successes = 0 ∧
          e2.ie.ExpiresDLL.map Element.id = [0, 1]) ∧
    (∃ s, exec [.proberSetup, .proberInsert 100 0, .receiverRead 7 0 150, .receiverCommit,
        .proberSelect .success, .proberSleep .wake, .proberInsert 200 0, .proberTeardown]
        (Sys.init 1000 0 false 7 1 false 1) = some s ∧
      s.prober.pc = .returned ∧ s.prober.dropProb = 1 ∧
      s.prober.st.results.Successes = 1 ∧ s.prober.st.results.Failures = 0 ∧
      s.prober.st.results.Count = 1) := by
  refine ⟨?_, ⟨_, rfl, rfl, rfl, rfl, rfl, rfl⟩⟩
  have hsome : (Engine.exec reuseSchedule
      (Engine.init 1000 0 false (reuseCalls 1 9 1))).isSome = true := rfl
  have hex : Engine.exec reuseSchedule (Engine.init 1000 0 false (reuseCalls 1 9 1)) =
      some ((Engine.exec reuseSchedule
        (Engine.init 1000 0 false (reuseCalls 1 9 1))).get hsome) :=
    (Option.some_get hsome).symm
  have hrecv : ∀ m ∈ reuseSchedule, m.receiver = 0 := by decide
  have hcalls : ∀ m ∈ reuseSchedule, m.call ≤ 1 := by decide
  have hinv : ResidualInv ((Engine.exec reuseSchedule
      (Engine.init 1000 0 false (reuseCalls 1 9 1))).get hsome) := by
    refine ⟨⟨_, _, rfl, rfl, rfl⟩, ?_, rfl, rfl, rfl, rfl, rfl, rfl, rfl, rfl, ?_, Or.inl rfl⟩
    · intro ip hip
      by_contra hne
      obtain ⟨c, hc1, hc2⟩ := (EngineInv_exec hex).owner ip hne
      by_cases h0 : c = 0
      · subst h0
        cases hc2
      · by_cases h1 : c = 1
        · subst h1
          exact hip hc1.symm
        · rw [Engine.exec_probers c reuseSchedule _ _ hex
            (fun m hm => by have := hcalls m hm; omega)] at hc2
          cases hc2
    · intro r
      by_cases h0 : r = 0
      · subst h0
        rfl
      · rw [Engine.exec_receivers r reuseSchedule _ _ hex
          (fun m hm => by rw [hrecv m hm]; exact Ne.symm h0)]
        rfl
  refine ⟨_, _, hex, rfl, rfl, rfl, rfl, rfl, rfl, rfl, rfl, rfl, rfl, rfl, rfl, ?_⟩
  intro sched e2 hok hexec
  have h2 := Engine.run_invariant ResidualInv
    (fun m => m.call ≤ 1 ∧ m.action.isStop = false ∧ m.action.isReplyFrom 9 = false)
    (fun m e e2 hm hP hs => ResidualInv_step hP hm.1 hm.2.1 hm.2.2 hs) sched _ e2 hok hinv
    hexec
  obtain ⟨v0, v1, hl, _⟩ := h2.list
  exact ⟨h2.second, h2.fails, h2.succs, by rw [hl]; rfl⟩


end Icmpengine
